import Mathlib

/-!
SignalCraft convergence engine: set diff, alert-policy reconciliation and the Terraform
provider client.

A shallow embedding of
* `diffStringSets` from `terraform-provider-signalcraft/internal/resources/team_resource.go`,
* `Reconcile`, `syncAlertPolicy`, `deleteAlertPolicy`, `containsString` and `removeString`
  from `k8s-operator/pkg/controllers/alertpolicy_controller.go`,
* `Client.DoJSON` and `HTTPError` from `terraform-provider-signalcraft/internal/client/client.go`,
* the `Create`, `Read`, `Update` and `Delete` methods of the seven resources of
  `terraform-provider-signalcraft/internal/resources`.

Go slices are lists, `map[string]struct{}` is a duplicate-free list of keys, Go `int` and
`int64` are `Int` (the code only compares, copies and prints them), and library calls
whose behaviour is decided outside the repository (the API server, the HTTP transport, the
JSON encoder and decoder, URL escaping, the clock, `uuid.NewString`, the plugin framework)
are fields of an environment record: `Env` for the operator, `Provider` for the Terraform
provider.
-/

namespace SignalCraft

/-! ## State diff engine (`team_resource.go`) -/

/-- A Go `map[string]struct{}`: the list of its keys, without repetition. -/
abbrev StringSet := List String

/-- The empty map, `make(map[string]struct{}, n)`. -/
def StringSet.empty : StringSet := []

/-- The lookup `_, exists := m[value]`. -/
def StringSet.has (m : StringSet) (value : String) : Bool :=
  m.elem value

/-- The assignment `m[value] = struct{}{}`. -/
def StringSet.set (m : StringSet) (value : String) : StringSet :=
  if m.has value then m else m ++ [value]

/-- First loop of `diffStringSets`: `currentMap[value] = struct{}{}` for each value. -/
def buildCurrentMap (current : List String) : StringSet :=
  current.foldl (fun currentMap value => currentMap.set value) StringSet.empty

/-- Second loop of `diffStringSets`: records each desired value in `desiredMap` and appends
it to `toAdd` when it is not a key of `currentMap`. The state is `(desiredMap, toAdd)`. -/
def desiredLoop (currentMap : StringSet) (desired : List String) : StringSet × List String :=
  desired.foldl
    (fun st value =>
      let desiredMap := st.1.set value
      if !currentMap.has value then (desiredMap, st.2 ++ [value]) else (desiredMap, st.2))
    (StringSet.empty, [])

/-- Third loop of `diffStringSets`: appends each current value that is not a key of
`desiredMap` to `toRemove`. -/
def removeLoop (desiredMap : StringSet) (current : List String) : List String :=
  current.foldl
    (fun toRemove value => if !desiredMap.has value then toRemove ++ [value] else toRemove)
    []

/-- The function `diffStringSets(current, desired)`, returning `(toAdd, toRemove)`. -/
def diffStringSets (current desired : List String) : List String × List String :=
  let currentMap := buildCurrentMap current
  let st := desiredLoop currentMap desired
  let toRemove := removeLoop st.1 current
  (st.2, toRemove)

/-! ## Membership deltas applied to a remote collection -/

/-- One membership call of `teamResource.Update`: `POST /api/teams/{id}/members` for a
value of `toAdd`, `DELETE /api/teams/{id}/members/{userID}` for a value of `toRemove`. -/
inductive MemberOp where
  | add (userID : String)
  | remove (userID : String)
deriving DecidableEq, Repr

/-- Modelled from the spec: the remote membership collection is a set of member
identifiers; the service that stores it is not among the Go sources. Adding a member that
is present and removing a member that is absent leave the set as it is. -/
def applyMemberOp (members : List String) : MemberOp → List String
  | MemberOp.add userID => if userID ∈ members then members else members ++ [userID]
  | MemberOp.remove userID => members.filter (fun m => m ≠ userID)

/-- Modelled from the spec: a sequence of membership calls applied from left to right. -/
def applyMemberOps (members : List String) (ops : List MemberOp) : List String :=
  ops.foldl applyMemberOp members

/-- The membership calls of `teamResource.Update` in the order the code issues them:
the additions, then the removals. -/
def memberOps (delta : List String × List String) : List MemberOp :=
  delta.1.map MemberOp.add ++ delta.2.map MemberOp.remove

/-! ## Alert-policy objects (`alertpolicy_types.go`) -/

/-- Go `float64`, as its IEEE-754 bit pattern. -/
abbrev Float64 := Nat

/-- The type `metav1.Time`, as seconds since the epoch. -/
abbrev Time := Nat

/-- The fields of `metav1.ObjectMeta` that the controller reads or writes. -/
structure ObjectMeta where
  Name : String
  Namespace : String
  UID : String
  Generation : Int
  DeletionTimestamp : Option Time
  Finalizers : List String
deriving DecidableEq, Repr

/-- The struct `AlertPolicyCondition`; `CondType` is the Go field `Type`. -/
structure AlertPolicyCondition where
  CondType : String
  Metric : String
  Operator : String
  Value : Float64
deriving DecidableEq, Repr

/-- The struct `AlertPolicySpec`. -/
structure AlertPolicySpec where
  Severity : String
  RoutingKey : String
  Conditions : List AlertPolicyCondition
deriving DecidableEq, Repr

/-- The struct `AlertPolicyStatus`. -/
structure AlertPolicyStatus where
  State : String
  Message : String
  ObservedGeneration : Int
  LastSyncedAt : Time
deriving DecidableEq, Repr

/-- The struct `SignalCraftAlertPolicy`. -/
structure SignalCraftAlertPolicy where
  ObjectMeta : ObjectMeta
  Spec : AlertPolicySpec
  Status : AlertPolicyStatus
deriving DecidableEq, Repr

/-! ## Controller helpers (`alertpolicy_controller.go`) -/

/-- The function `containsString(items, value)`: returns at the first equal item. -/
def containsString : List String → String → Bool
  | [], _ => false
  | item :: rest, value => if item = value then true else containsString rest value

/-- The function `removeString(items, value)`: the loop appends every item different from
`value` to `result`. -/
def removeString (items : List String) (value : String) : List String :=
  items.foldl (fun result item => if item ≠ value then result ++ [item] else result) []

/-- The local constant `finalizer` of `Reconcile`. -/
def finalizer : String := "signalcraft.io/finalizer"

/-- A value of Go type `any` stored in a condition map. -/
inductive AnyValue where
  | str (s : String)
  | float (f : Float64)
deriving DecidableEq, Repr

/-- The struct `signalcraftPolicyPayload`; a condition map is its list of entries. -/
structure signalcraftPolicyPayload where
  Name : String
  ExternalID : String
  Severity : String
  RoutingKey : String
  Conditions : List (List (String × AnyValue))
deriving DecidableEq, Repr

/-- An `http.Request` as the controller builds it: method, URL, headers and body bytes. -/
structure Request where
  Method : String
  URL : String
  Header : List (String × String)
  Body : Option String
deriving DecidableEq, Repr

/-- The call `request.Header.Set(key, value)`: replaces the values stored under `key`. -/
def Request.setHeader (request : Request) (key value : String) : Request :=
  { request with Header := request.Header.filter (fun kv => kv.1 ≠ key) ++ [(key, value)] }

/-- The header lookup `request.Header.Get(key)`. -/
def Request.getHeader (request : Request) (key : String) : Option String :=
  (request.Header.find? (fun kv => kv.1 = key)).map Prod.snd

/-- Error returned by `r.Get`: not-found, or any other failure with its message. -/
inductive GetError where
  | notFound (msg : String)
  | other (msg : String)
deriving DecidableEq, Repr

/-- The function `client.IgnoreNotFound(err)`. -/
def IgnoreNotFound : GetError → Option String
  | GetError.notFound _ => none
  | GetError.other msg => some msg

/-- Everything a pass of `Reconcile` obtains from outside the controller. `Do` answers a
request with a transport error or with the response status code. -/
structure Env where
  SIGNALCRAFT_API_URL : String
  SIGNALCRAFT_API_KEY : String
  now : Time
  Get : Option GetError
  Update : SignalCraftAlertPolicy → Option String
  StatusUpdate : SignalCraftAlertPolicy → Option String
  jsonMarshal : signalcraftPolicyPayload → Except String String
  PathEscape : String → String
  NewRequest : String → String → Option String
  Do : Request → Except String Int

/-- The struct `ctrl.Result`; `RequeueAfter` is a `time.Duration` in nanoseconds. -/
structure Result where
  Requeue : Bool := false
  RequeueAfter : Int := 0
deriving DecidableEq, Repr

/-- The duration `time.Minute`. -/
def Minute : Int := 60 * 1000000000

/-- An effect of a pass that leaves the process: an HTTP round trip with its answer, a
metadata `r.Update` and a `r.Status().Update` with the object sent and the error returned. -/
inductive Event where
  | http (request : Request) (response : Except String Int)
  | update (obj : SignalCraftAlertPolicy) (err : Option String)
  | statusUpdate (obj : SignalCraftAlertPolicy) (err : Option String)

/-- The payload built at the start of `syncAlertPolicy`, conditions appended in order. -/
def buildPayload (policy : SignalCraftAlertPolicy) : signalcraftPolicyPayload :=
  policy.Spec.Conditions.foldl
    (fun payload condition =>
      { payload with Conditions := payload.Conditions ++ [[
          ("type", AnyValue.str condition.CondType),
          ("metric", AnyValue.str condition.Metric),
          ("operator", AnyValue.str condition.Operator),
          ("value", AnyValue.float condition.Value)]] })
    { Name := policy.ObjectMeta.Name
      ExternalID := policy.ObjectMeta.Namespace ++ "/" ++ policy.ObjectMeta.Name
      Severity := policy.Spec.Severity
      RoutingKey := policy.Spec.RoutingKey
      Conditions := [] }

/-- The idempotency key of the upsert call, `fmt.Sprintf("%s-%d", UID, Generation)`. -/
def upsertKey (uid : String) (generation : Int) : String :=
  uid ++ "-" ++ toString generation

/-- The idempotency key of the delete call,
`fmt.Sprintf("%s-%d-delete", UID, Generation)`. -/
def deleteKey (uid : String) (generation : Int) : String :=
  uid ++ "-" ++ toString generation ++ "-delete"

/-- The error `fmt.Errorf("signalcraft API error: %d", response.StatusCode)`. -/
def apiError (statusCode : Int) : String :=
  "signalcraft API error: " ++ toString statusCode

/-- The request `syncAlertPolicy` sends once the payload is encoded as `body`. -/
def upsertRequest (baseURL apiKey : String) (policy : SignalCraftAlertPolicy)
    (body : String) : Request :=
  (({ Method := "POST", URL := baseURL ++ "/api/alert-policies/upsert", Header := [],
      Body := some body : Request }.setHeader "Authorization" ("Bearer " ++ apiKey)).setHeader
      "Content-Type" "application/json").setHeader "Idempotency-Key"
      (upsertKey policy.ObjectMeta.UID policy.ObjectMeta.Generation)

/-- The request `deleteAlertPolicy` sends. -/
def deleteRequest (env : Env) (baseURL apiKey : String)
    (policy : SignalCraftAlertPolicy) : Request :=
  let externalID := policy.ObjectMeta.Namespace ++ "/" ++ policy.ObjectMeta.Name
  ({ Method := "DELETE",
     URL := baseURL ++ "/api/alert-policies/external/" ++ env.PathEscape externalID,
     Header := [], Body := none : Request }.setHeader "Authorization"
     ("Bearer " ++ apiKey)).setHeader "Idempotency-Key"
     (deleteKey policy.ObjectMeta.UID policy.ObjectMeta.Generation)

/-- The function `syncAlertPolicy`: the returned error and the round trip made, if any. -/
def syncAlertPolicy (env : Env) (baseURL apiKey : String)
    (policy : SignalCraftAlertPolicy) : Option String × List Event :=
  match env.jsonMarshal (buildPayload policy) with
  | Except.error err => (some err, [])
  | Except.ok body =>
    match env.NewRequest "POST" (baseURL ++ "/api/alert-policies/upsert") with
    | some err => (some err, [])
    | none =>
      let request := upsertRequest baseURL apiKey policy body
      match env.Do request with
      | Except.error err => (some err, [Event.http request (Except.error err)])
      | Except.ok statusCode =>
        if statusCode < 200 ∨ statusCode ≥ 300 then
          (some (apiError statusCode), [Event.http request (Except.ok statusCode)])
        else
          (none, [Event.http request (Except.ok statusCode)])

/-- The function `deleteAlertPolicy`: the returned error and the round trip made, if any. -/
def deleteAlertPolicy (env : Env) (baseURL apiKey : String)
    (policy : SignalCraftAlertPolicy) : Option String × List Event :=
  let request := deleteRequest env baseURL apiKey policy
  match env.NewRequest "DELETE" request.URL with
  | some err => (some err, [])
  | none =>
    match env.Do request with
    | Except.error err => (some err, [Event.http request (Except.error err)])
    | Except.ok statusCode =>
      if statusCode = 404 then
        (none, [Event.http request (Except.ok statusCode)])
      else if statusCode < 200 ∨ statusCode ≥ 300 then
        (some (apiError statusCode), [Event.http request (Except.ok statusCode)])
      else
        (none, [Event.http request (Except.ok statusCode)])

/-- The four status assignments of a failing branch of `Reconcile`. -/
def withErrorStatus (env : Env) (policy : SignalCraftAlertPolicy)
    (message : String) : SignalCraftAlertPolicy :=
  { policy with Status :=
      { State := "Error", Message := message,
        ObservedGeneration := policy.ObjectMeta.Generation, LastSyncedAt := env.now } }

/-- The four status assignments of the successful branch of `Reconcile`. -/
def withSyncedStatus (env : Env) (policy : SignalCraftAlertPolicy) : SignalCraftAlertPolicy :=
  { policy with Status :=
      { State := "Synced", Message := "Synced to SignalCraft",
        ObservedGeneration := policy.ObjectMeta.Generation, LastSyncedAt := env.now } }

/-- The stored object after `r.Update(ctx, policy)` returned `err`: with the status
subresource enabled a successful update stores metadata and spec and keeps the stored
status. -/
def storeUpdate (stored policy : SignalCraftAlertPolicy) (err : Option String) :
    SignalCraftAlertPolicy :=
  match err with
  | some _ => stored
  | none => { stored with ObjectMeta := policy.ObjectMeta, Spec := policy.Spec }

/-- The stored object after `r.Status().Update(ctx, policy)` returned `err`: a successful
update stores the status only. -/
def storeStatus (stored policy : SignalCraftAlertPolicy) (err : Option String) :
    SignalCraftAlertPolicy :=
  match err with
  | some _ => stored
  | none => { stored with Status := policy.Status }

/-- The `return` statement through which a pass leaves `Reconcile`, in source order. -/
inductive Exit where
  | getFailed
  | missingConfiguration
  | deleteFailed
  | finalizerRemoved
  | nothingToDelete
  | attachFailed
  | syncFailed
  | synced
deriving DecidableEq, Repr

/-- What a pass leaves behind: the returned `(ctrl.Result, error)`, the object in memory
when `Reconcile` returns (`none` when `r.Get` failed), the object in the API server after
the pass, the effects in the order they happened, and the `return` statement taken. -/
structure Outcome where
  result : Result
  err : Option String
  policy : Option SignalCraftAlertPolicy
  stored : SignalCraftAlertPolicy
  trace : List Event
  exit : Exit

/-- The branch of `Reconcile` shared by the three failures: set the error status, write it
with the write error dropped, return `RequeueAfter: time.Minute` with a nil error. -/
def failPass (env : Env) (stored policy : SignalCraftAlertPolicy) (message : String)
    (trace : List Event) (exit : Exit) : Outcome :=
  let policy := withErrorStatus env policy message
  let werr := env.StatusUpdate policy
  { result := { RequeueAfter := Minute }, err := none, policy := some policy,
    stored := storeStatus stored policy werr,
    trace := trace ++ [Event.statusUpdate policy werr], exit := exit }

/-- The tail of `Reconcile` from the call of `syncAlertPolicy` on; `stored` is the object
in the API server and `trace` the effects so far. -/
def syncPass (env : Env) (stored policy : SignalCraftAlertPolicy)
    (trace : List Event) : Outcome :=
  let r := syncAlertPolicy env env.SIGNALCRAFT_API_URL env.SIGNALCRAFT_API_KEY policy
  match r.1 with
  | some err => failPass env stored policy err (trace ++ r.2) Exit.syncFailed
  | none =>
    let policy := withSyncedStatus env policy
    let werr := env.StatusUpdate policy
    { result := {}, err := werr, policy := some policy,
      stored := storeStatus stored policy werr,
      trace := trace ++ r.2 ++ [Event.statusUpdate policy werr], exit := Exit.synced }

/-- The object of the pass with the finalizer appended, `append(Finalizers, finalizer)`. -/
def attachFinalizer (policy : SignalCraftAlertPolicy) : SignalCraftAlertPolicy :=
  { policy with ObjectMeta :=
    { policy.ObjectMeta with Finalizers := policy.ObjectMeta.Finalizers ++ [finalizer] } }

/-- The object of the pass with the finalizer removed,
`removeString(Finalizers, finalizer)`. -/
def detachFinalizer (policy : SignalCraftAlertPolicy) : SignalCraftAlertPolicy :=
  { policy with ObjectMeta :=
    { policy.ObjectMeta with
      Finalizers := removeString policy.ObjectMeta.Finalizers finalizer } }

/-- The method `AlertPolicyReconciler.Reconcile` for the object `obj` held by the API
server under the requested name. -/
def Reconcile (env : Env) (obj : SignalCraftAlertPolicy) : Outcome :=
  match env.Get with
  | some err =>
    { result := {}, err := IgnoreNotFound err, policy := none, stored := obj, trace := [],
      exit := Exit.getFailed }
  | none =>
    let policy := obj
    let baseURL := env.SIGNALCRAFT_API_URL
    let apiKey := env.SIGNALCRAFT_API_KEY
    if baseURL = "" ∨ apiKey = "" then
      failPass env obj policy "Missing SIGNALCRAFT_API_URL or SIGNALCRAFT_API_KEY" []
        Exit.missingConfiguration
    else if policy.ObjectMeta.DeletionTimestamp ≠ none then
      if containsString policy.ObjectMeta.Finalizers finalizer then
        let r := deleteAlertPolicy env baseURL apiKey policy
        match r.1 with
        | some err => failPass env obj policy err r.2 Exit.deleteFailed
        | none =>
          let policy := detachFinalizer policy
          let uerr := env.Update policy
          { result := {}, err := uerr, policy := some policy,
            stored := storeUpdate obj policy uerr,
            trace := r.2 ++ [Event.update policy uerr], exit := Exit.finalizerRemoved }
      else
        { result := {}, err := none, policy := some policy, stored := obj, trace := [],
          exit := Exit.nothingToDelete }
    else if !containsString policy.ObjectMeta.Finalizers finalizer then
      let policy := attachFinalizer policy
      match env.Update policy with
      | some err =>
        { result := {}, err := some err, policy := some policy, stored := obj,
          trace := [Event.update policy (some err)], exit := Exit.attachFailed }
      | none =>
        syncPass env (storeUpdate obj policy none) policy [Event.update policy none]
    else
      syncPass env obj policy []

/-- The stored object after a sequence of effects: a successful metadata update stores
metadata and spec, a successful status update stores the status, nothing else writes. -/
def storedAfter (stored : SignalCraftAlertPolicy) : List Event → SignalCraftAlertPolicy
  | [] => stored
  | Event.http _ _ :: rest => storedAfter stored rest
  | Event.update obj err :: rest => storedAfter (storeUpdate stored obj err) rest
  | Event.statusUpdate obj err :: rest => storedAfter (storeStatus stored obj err) rest

/-! ## Sequences of passes -/

/-- One pass of a run: what the desired-state source did to the metadata and the spec of
the stored object since the previous pass (the status subresource is written by the
controller only), and the environment the pass runs in. -/
structure Pass where
  editMeta : ObjectMeta → ObjectMeta
  editSpec : AlertPolicySpec → AlertPolicySpec
  env : Env

/-- The stored object after the edits of a pass. -/
def Pass.edit (pass : Pass) (obj : SignalCraftAlertPolicy) : SignalCraftAlertPolicy :=
  { obj with ObjectMeta := pass.editMeta obj.ObjectMeta, Spec := pass.editSpec obj.Spec }

/-- The record of one executed pass: the stored object left by the previous pass, the
stored object the pass started from (after the edit), and the outcome of the pass. -/
structure PassRecord where
  start : SignalCraftAlertPolicy
  before : SignalCraftAlertPolicy
  outcome : Outcome

/-- Runs the passes in order: each pass edits the stored object left by the previous one
and reconciles it. -/
def runPasses : SignalCraftAlertPolicy → List Pass → List PassRecord
  | _, [] => []
  | obj, pass :: rest =>
    let before := pass.edit obj
    let outcome := Reconcile pass.env before
    { start := obj, before := before, outcome := outcome } :: runPasses outcome.stored rest

/-! ## Scenario objects -/

/-- An environment with configuration present in which the API server accepts every
write, the transport answers every request with `status`, and the JSON encoder returns
`body`; `PathEscape` is exact on Kubernetes names, where only the slash is escaped. -/
def scenarioEnv (status : Int) (body : String) : Env :=
  { SIGNALCRAFT_API_URL := "https://signalcraft.example"
    SIGNALCRAFT_API_KEY := "secret"
    now := 1700000000
    Get := none
    Update := fun _ => none
    StatusUpdate := fun _ => none
    jsonMarshal := fun _ => Except.ok body
    PathEscape := fun segment => segment.replace "/" "%2F"
    NewRequest := fun _ _ => none
    Do := fun _ => Except.ok status }

/-- Scenario A at generation 1: a new object `default/policy`, no finalizer, zero status. -/
def scenarioPolicy : SignalCraftAlertPolicy :=
  { ObjectMeta :=
      { Name := "policy", Namespace := "default", UID := "uid-1", Generation := 1,
        DeletionTimestamp := none, Finalizers := [] }
    Spec := { Severity := "critical", RoutingKey := "rk1", Conditions := [] }
    Status := { State := "", Message := "", ObservedGeneration := 0, LastSyncedAt := 0 } }

/-- The edit of scenario A: the routing key becomes `rk2` and the generation 2. -/
def scenarioEdit (env : Env) : Pass :=
  { editMeta := fun m => { m with Generation := 2 }
    editSpec := fun spec => { spec with RoutingKey := "rk2" }
    env := env }

/-- A pass with no edit since the previous one. -/
def retryPass (env : Env) : Pass :=
  { editMeta := id, editSpec := id, env := env }

/-- The encoded payload of scenario A with the given routing key. -/
def scenarioBody (routingKey : String) : String :=
  "\x7b\"name\":\"policy\",\"external_id\":\"default/policy\",\"severity\":\"critical\"," ++
  "\"routing_key\":\"" ++ routingKey ++ "\",\"conditions\":[]\x7d"

/-- The three passes of scenario A: a successful sync at generation 1, the edit to
generation 2 answered with HTTP 500, and a successful retry. -/
def scenarioPasses : List Pass :=
  [ retryPass (scenarioEnv 200 (scenarioBody "rk1")),
    scenarioEdit (scenarioEnv 500 (scenarioBody "rk2")),
    retryPass (scenarioEnv 200 (scenarioBody "rk2")) ]

/-- The stored object of scenario A when the second pass starts: generation 2, routing key
`rk2`, the finalizer attached, and the status written by the successful first pass. -/
def editedPolicy : SignalCraftAlertPolicy :=
  { ObjectMeta :=
      { Name := "policy", Namespace := "default", UID := "uid-1", Generation := 2,
        DeletionTimestamp := none, Finalizers := ["signalcraft.io/finalizer"] }
    Spec := { Severity := "critical", RoutingKey := "rk2", Conditions := [] }
    Status := { State := "Synced", Message := "Synced to SignalCraft", ObservedGeneration := 1,
                LastSyncedAt := 1700000000 } }

/-- A stored object marked for deletion that still carries the finalizer. -/
def deletingPolicy : SignalCraftAlertPolicy :=
  { scenarioPolicy with
    ObjectMeta := { scenarioPolicy.ObjectMeta with
      DeletionTimestamp := some 1700000100, Finalizers := [finalizer] } }

/-! ## Terraform provider: framework values and diagnostics -/

/-- A value of the plugin framework (`types.String`, `types.Bool`, `types.Int64`,
`types.Set`): null, unknown, or known. The zero value of these Go types is null. -/
inductive TfValue (α : Type) where
  | null
  | unknown
  | value (v : α)
deriving DecidableEq, Repr

/-- The method `IsNull()`. -/
def TfValue.IsNull {α : Type} : TfValue α → Bool
  | TfValue.null => true
  | _ => false

/-- The method `IsUnknown()`. -/
def TfValue.IsUnknown {α : Type} : TfValue α → Bool
  | TfValue.unknown => true
  | _ => false

/-- The method `ValueString()`: the empty string when null or unknown. -/
def TfValue.ValueString : TfValue String → String
  | TfValue.value v => v
  | _ => ""

/-- The method `ValueBool()`: false when null or unknown. -/
def TfValue.ValueBool : TfValue Bool → Bool
  | TfValue.value v => v
  | _ => false

/-- The method `ValueInt64()`: zero when null or unknown. -/
def TfValue.ValueInt64 : TfValue Int → Int
  | TfValue.value v => v
  | _ => 0

/-- The function `types.StringPointerValue`: null for a nil pointer. -/
def StringPointerValue : Option String → TfValue String
  | none => TfValue.null
  | some v => TfValue.value v

/-- Severity of a `diag.Diagnostic`. -/
inductive Severity where
  | error
  | warning
deriving DecidableEq, Repr

/-- A `diag.Diagnostic`: severity, summary and detail. -/
structure Diagnostic where
  severity : Severity
  summary : String
  detail : String
deriving DecidableEq, Repr

/-- The type `diag.Diagnostics`. -/
abbrev Diagnostics := List Diagnostic

/-- The method `Diagnostics.HasError()`. -/
def Diagnostics.HasError (diags : Diagnostics) : Bool :=
  diags.any (fun d => d.severity = Severity.error)

/-- The method `Diagnostics.Append(in...)`: appends each diagnostic not already there. -/
def Diagnostics.Append (diags : Diagnostics) (more : Diagnostics) : Diagnostics :=
  more.foldl (fun acc d => if acc.contains d then acc else acc ++ [d]) diags

/-- The method `Diagnostics.AddError(summary, detail)`. -/
def Diagnostics.AddError (diags : Diagnostics) (summary detail : String) : Diagnostics :=
  Diagnostics.Append diags [{ severity := Severity.error, summary := summary, detail := detail }]

/-- A Go `interface{}` value as `json.Unmarshal` produces it. -/
inductive JSONValue where
  | null
  | bool (b : Bool)
  | number (f : Float64)
  | string (s : String)
  | array (items : List JSONValue)
  | object (entries : List (String × JSONValue))

/-! ## Terraform provider: client (`client.go`) -/

/-- The struct `Client` without its `*http.Client`, whose behaviour is in `Provider`. -/
structure Client where
  BaseURL : String
  APIKey : String
deriving DecidableEq, Repr

/-- The struct `HTTPError`. -/
structure HTTPError where
  StatusCode : Int
  Body : String
deriving DecidableEq, Repr

/-- The method `(*HTTPError).Error()`. -/
def HTTPError.Error (e : HTTPError) : String :=
  "signalcraft API error: status=" ++ toString e.StatusCode ++ " body=" ++ e.Body

/-- A Go `error` returned by `DoJSON`: a `*HTTPError`, or an error of another dynamic type
(from `json.Marshal`, `http.NewRequestWithContext`, the transport, or the decoder). -/
inductive ClientError where
  | http (e : HTTPError)
  | other (msg : String)
deriving DecidableEq, Repr

/-- The method `Error()` of the returned error. -/
def ClientError.Error : ClientError → String
  | ClientError.http e => e.Error
  | ClientError.other msg => msg

/-- The test `httpErr, ok := err.(*client.HTTPError); ok && httpErr.StatusCode ==
http.StatusNotFound` of the resources. -/
def ClientError.isNotFound : ClientError → Bool
  | ClientError.http e => decide (e.StatusCode = 404)
  | ClientError.other _ => false

/-- An `http.Response` as `DoJSON` reads it: status code and body. -/
structure Response where
  StatusCode : Int
  Body : String
deriving DecidableEq, Repr

/-- The struct `teamPayload`. -/
structure teamPayload where
  Name : String
  Description : Option String

/-- The struct `teamMemberPayload`. -/
structure teamMemberPayload where
  UserID : String

/-- The struct `escalationPolicyPayload`. -/
structure escalationPolicyPayload where
  Name : String
  Description : Option String
  Rules : JSONValue

/-- The struct `routingRulePayload`. -/
structure routingRulePayload where
  Name : String
  Description : Option String
  Enabled : Option Bool
  Priority : Option Int
  Conditions : JSONValue
  Actions : JSONValue

/-- The struct `schedulePayload`. -/
structure schedulePayload where
  Name : String
  Description : Option String
  Timezone : Option String

/-- The struct `invitationPayload`. -/
structure invitationPayload where
  Email : String
  Role : String

/-- The struct `userUpdatePayload`. -/
structure userUpdatePayload where
  Role : String

/-- The struct `workspaceUpdatePayload`. -/
structure workspaceUpdatePayload where
  Name : String

/-- The `body any` argument of `DoJSON` when it is not nil. -/
inductive Payload where
  | team (v : teamPayload)
  | teamMember (v : teamMemberPayload)
  | escalationPolicy (v : escalationPolicyPayload)
  | routingRule (v : routingRulePayload)
  | schedule (v : schedulePayload)
  | invitation (v : invitationPayload)
  | userUpdate (v : userUpdatePayload)
  | workspaceUpdate (v : workspaceUpdatePayload)

/-- The struct `teamResponse`. -/
structure teamResponse where
  ID : String
  Name : String
  Description : Option String

/-- An element of `teamDetailResponse.Members`. -/
structure teamMemberRef where
  ID : String

/-- The struct `teamDetailResponse`. -/
structure teamDetailResponse where
  ID : String
  Name : String
  Description : Option String
  Members : List teamMemberRef

/-- The struct `escalationPolicyResponse`. -/
structure escalationPolicyResponse where
  ID : String
  Name : String
  Description : Option String
  Rules : JSONValue

/-- The struct `routingRuleResponse`. -/
structure routingRuleResponse where
  ID : String
  Name : String
  Description : Option String
  Enabled : Bool
  Priority : Int
  Conditions : JSONValue
  Actions : JSONValue

/-- The struct `scheduleResponse`. -/
structure scheduleResponse where
  ID : String
  Name : String
  Description : Option String
  Timezone : String

/-- The struct `invitationResponse`. -/
structure invitationResponse where
  ID : String
  Email : String
  Role : String
  Status : String

/-- The struct `userResponse`. -/
structure userResponse where
  ID : String
  Email : String
  DisplayName : Option String
  PhoneNumber : Option String
  Role : String

/-- The struct `workspaceResponse`. -/
structure workspaceResponse where
  ID : String
  Name : String

/-- Everything an operation of a resource obtains from outside the provider code: the
configured client, `http.NewRequestWithContext` (its error for a method and URL), the
transport (`Do n` answers the round trip number `n` of the operation with a transport
error or a response), `uuid.NewString` (`NewString n` is the result of call number `n`),
the JSON encoder and decoders, and the diagnostics the framework returns from
`req.Plan.Get`, `req.State.Get`, `resp.State.Set`, `set.ElementsAs` (on the elements of a
known set) and `types.SetValueFrom` (on a string slice). -/
structure Provider where
  client : Client
  NewRequest : String → String → Option String
  Do : Nat → Request → Except String Response
  NewString : Nat → String
  Marshal : Payload → Except String String
  Unmarshal : String → Except String JSONValue
  MarshalValue : JSONValue → Except String String
  decodeTeam : String → Except String teamResponse
  decodeTeamDetail : String → Except String teamDetailResponse
  decodeEscalationPolicy : String → Except String escalationPolicyResponse
  decodeRoutingRule : String → Except String routingRuleResponse
  decodeSchedule : String → Except String scheduleResponse
  decodeInvitation : String → Except String invitationResponse
  decodeInvitations : String → Except String (List invitationResponse)
  decodeUsers : String → Except String (List userResponse)
  decodeWorkspace : String → Except String workspaceResponse
  PlanGet : Diagnostics
  StateGet : Diagnostics
  StateSet : Diagnostics
  ElementsAs : List String → Diagnostics
  SetValueFrom : List String → Diagnostics

/-- One round trip of an operation: the request handed to `c.HTTP.Do`, the
`idempotencyKey` argument of the `DoJSON` call that built it, and the answer. -/
structure Exchange where
  request : Request
  idempotencyKey : String
  response : Except String Response

/-- The progress of an operation: the round trips made so far, in order, and the number
of `uuid.NewString()` calls made so far. -/
structure Session where
  exchanges : List Exchange
  uuids : Nat

/-- The session at the start of an operation. -/
def Session.start : Session := { exchanges := [], uuids := 0 }

/-- A call of `uuid.NewString()`: the string returned and the session after it. -/
def NewString (p : Provider) (s : Session) : String × Session :=
  (p.NewString s.uuids, { s with uuids := s.uuids + 1 })

/-- The `out any` argument of `DoJSON`: nil, or a pointer the decoder fills with a value
of type `γ`. -/
inductive Out : Type → Type 1 where
  | nil : Out Unit
  | into {γ : Type} (decode : String → Except String γ) : Out γ

/-- The request `DoJSON` builds: the three fixed headers, and `Idempotency-Key` when the
key is not empty. -/
def Client.newRequest (c : Client) (method url : String) (payload : Option String)
    (idempotencyKey : String) : Request :=
  let req := (({ Method := method, URL := url, Header := [], Body := payload : Request
    }.setHeader "Authorization" ("Bearer " ++ c.APIKey)).setHeader
    "Content-Type" "application/json").setHeader "Accept" "application/json"
  if idempotencyKey ≠ "" then req.setHeader "Idempotency-Key" idempotencyKey else req

/-- What a `DoJSON` call returns: the error, or the decoded value (the unit value when
`out` is nil), and the session after the call. -/
structure DoJSONResult (γ : Type) where
  result : Except ClientError γ
  session : Session

/-- The first step of `DoJSON`: `json.Marshal(body)` when `body` is not nil. -/
def encodeBody (p : Provider) : Option Payload → Except String (Option String)
  | none => Except.ok none
  | some body =>
    match p.Marshal body with
    | Except.error err => Except.error err
    | Except.ok data => Except.ok (some data)

/-- The last step of `DoJSON` on a response with a status in 200..299: nothing when `out`
is nil, else `decoder.Decode(out)`. -/
def decodeOut {γ : Type} (out : Out γ) (body : String) : Except ClientError γ :=
  match out with
  | Out.nil => Except.ok ()
  | Out.into decode =>
    match decode body with
    | Except.error err => Except.error (ClientError.other err)
    | Except.ok v => Except.ok v

/-- The method `Client.DoJSON(ctx, method, path, body, idempotencyKey, out)`. -/
def DoJSON {γ : Type} (p : Provider) (s : Session) (method path : String)
    (body : Option Payload) (idempotencyKey : String) (out : Out γ) : DoJSONResult γ :=
  let url := p.client.BaseURL ++ path
  match encodeBody p body with
  | Except.error err => { result := Except.error (ClientError.other err), session := s }
  | Except.ok payload =>
    match p.NewRequest method url with
    | some err => { result := Except.error (ClientError.other err), session := s }
    | none =>
      let req := p.client.newRequest method url payload idempotencyKey
      let answer := p.Do s.exchanges.length req
      let s := { s with exchanges := s.exchanges ++
        [{ request := req, idempotencyKey := idempotencyKey, response := answer }] }
      match answer with
      | Except.error err => { result := Except.error (ClientError.other err), session := s }
      | Except.ok res =>
        if res.StatusCode < 200 ∨ res.StatusCode ≥ 300 then
          { result := Except.error
              (ClientError.http { StatusCode := res.StatusCode, Body := res.Body }),
            session := s }
        else
          { result := decodeOut out res.Body, session := s }

/-- The answer `DoJSON` gives for a transport answer: the transport error, a `*HTTPError`
for a status outside 200..299, else the result of decoding. -/
def classify {γ : Type} (out : Out γ) : Except String Response → Except ClientError γ
  | Except.error err => Except.error (ClientError.other err)
  | Except.ok res =>
    if res.StatusCode < 200 ∨ res.StatusCode ≥ 300 then
      Except.error (ClientError.http { StatusCode := res.StatusCode, Body := res.Body })
    else decodeOut out res.Body

/-- The invariant of the sessions of the provider: every round trip was built by `DoJSON`
from the method and key recorded with it, a GET was called with the empty key, and any
other call with a string returned by one of the `uuid.NewString()` calls made so far. -/
def Session.Keyed (p : Provider) (s : Session) : Prop :=
  ∀ ex ∈ s.exchanges,
    (∃ url payload,
      ex.request = p.client.newRequest ex.request.Method url payload ex.idempotencyKey) ∧
    ((ex.request.Method = "GET" ∧ ex.idempotencyKey = "") ∨
     (ex.request.Method ≠ "GET" ∧ ∃ n, n < s.uuids ∧ ex.idempotencyKey = p.NewString n))

/-! ## Terraform provider: resource operations (`internal/resources`) -/

/-- The call an operation makes on `resp.State`: none, `Set(ctx, &v)`, or
`RemoveResource(ctx)`. -/
inductive StateCall (σ : Type) where
  | untouched
  | set (v : σ)
  | removeResource

/-- What an operation leaves in its response and outside: `resp.Diagnostics` (empty at the
start of the operation), the call made on `resp.State`, and the session. -/
structure OpResult (σ : Type) where
  diagnostics : Diagnostics
  State : StateCall σ
  session : Session

/-- The body shared, up to the path, by the `Delete` methods of the escalation policy,
routing rule, schedule, team, invitation and user resources. -/
def deleteResource (p : Provider) (path : String) : OpResult Unit :=
  let diags := Diagnostics.Append [] p.StateGet
  if Diagnostics.HasError diags then
    { diagnostics := diags, State := StateCall.untouched, session := Session.start }
  else
    let u := NewString p Session.start
    let r := DoJSON p u.2 "DELETE" path none u.1 Out.nil
    match r.result with
    | Except.error err =>
      if err.isNotFound then
        { diagnostics := diags, State := StateCall.untouched, session := r.session }
      else
        { diagnostics := Diagnostics.AddError diags "API Error" err.Error,
          State := StateCall.untouched, session := r.session }
    | Except.ok _ =>
      { diagnostics := diags, State := StateCall.untouched, session := r.session }

/-- The body shared by the `Read` methods of the escalation policy, routing rule, schedule
and workspace resources: the path, the response type and the flattening differ. The
resources whose flattening returns no diagnostics leave out the append and the check
after it, which do nothing for an empty list. -/
def readResource {ρ σ : Type} (p : Provider) (path : String)
    (decode : String → Except String ρ) (flatten : ρ → σ × Diagnostics) : OpResult σ :=
  let diags := Diagnostics.Append [] p.StateGet
  if Diagnostics.HasError diags then
    { diagnostics := diags, State := StateCall.untouched, session := Session.start }
  else
    let r := DoJSON p Session.start "GET" path none "" (Out.into decode)
    match r.result with
    | Except.error err =>
      if err.isNotFound then
        { diagnostics := diags, State := StateCall.removeResource, session := r.session }
      else
        { diagnostics := Diagnostics.AddError diags "API Error" err.Error,
          State := StateCall.untouched, session := r.session }
    | Except.ok apiResp =>
      let f := flatten apiResp
      let diags := Diagnostics.Append diags f.2
      if Diagnostics.HasError diags then
        { diagnostics := diags, State := StateCall.untouched, session := r.session }
      else
        { diagnostics := Diagnostics.Append diags p.StateSet, State := StateCall.set f.1,
          session := r.session }

/-- The body shared by the `Create` and `Update` methods of the escalation policy, routing
rule and schedule resources: `getDiags` are the diagnostics of reading the plan (and the
state, for `Update`), `build` is the payload built from the plan with its diagnostics. -/
def writeResource {ρ σ : Type} (p : Provider) (getDiags : Diagnostics)
    (method path : String) (build : Payload × Diagnostics)
    (decode : String → Except String ρ) (flatten : ρ → σ × Diagnostics) : OpResult σ :=
  if Diagnostics.HasError getDiags then
    { diagnostics := getDiags, State := StateCall.untouched, session := Session.start }
  else
    let diags := Diagnostics.Append getDiags build.2
    if Diagnostics.HasError diags then
      { diagnostics := diags, State := StateCall.untouched, session := Session.start }
    else
      let u := NewString p Session.start
      let r := DoJSON p u.2 method path (some build.1) u.1 (Out.into decode)
      match r.result with
      | Except.error err =>
        { diagnostics := Diagnostics.AddError diags "API Error" err.Error,
          State := StateCall.untouched, session := r.session }
      | Except.ok apiResp =>
        let f := flatten apiResp
        let diags := Diagnostics.Append diags f.2
        if Diagnostics.HasError diags then
          { diagnostics := diags, State := StateCall.untouched, session := r.session }
        else
          { diagnostics := Diagnostics.Append diags p.StateSet, State := StateCall.set f.1,
            session := r.session }

/-- The diagnostics after `Append(req.Plan.Get(...))`. -/
def planDiags (p : Provider) : Diagnostics :=
  Diagnostics.Append [] p.PlanGet

/-- The diagnostics after `Append(req.Plan.Get(...))` and `Append(req.State.Get(...))`. -/
def planStateDiags (p : Provider) : Diagnostics :=
  Diagnostics.Append (Diagnostics.Append [] p.PlanGet) p.StateGet

/-! ### Escalation policy -/

/-- The struct `escalationPolicyModel`. -/
structure escalationPolicyModel where
  ID : TfValue String
  Name : TfValue String
  Description : TfValue String
  RulesJSON : TfValue String

/-- The pointer set for an optional string attribute: nil when null or unknown. -/
def optionalString (v : TfValue String) : Option String :=
  if !v.IsNull && !v.IsUnknown then some v.ValueString else none

/-- The function `buildEscalationPolicyPayload`. -/
def buildEscalationPolicyPayload (p : Provider) (plan : escalationPolicyModel) :
    escalationPolicyPayload × Diagnostics :=
  match p.Unmarshal plan.RulesJSON.ValueString with
  | Except.error err =>
    ({ Name := "", Description := none, Rules := JSONValue.null },
     Diagnostics.AddError [] "Invalid rules_json" err)
  | Except.ok rules =>
    ({ Name := plan.Name.ValueString, Description := optionalString plan.Description,
       Rules := rules }, [])

/-- The zero value `escalationPolicyModel{}`. -/
def escalationPolicyModel.zero : escalationPolicyModel :=
  { ID := TfValue.null, Name := TfValue.null, Description := TfValue.null,
    RulesJSON := TfValue.null }

/-- The function `flattenEscalationPolicy`. -/
def flattenEscalationPolicy (p : Provider) (apiResp : escalationPolicyResponse) :
    escalationPolicyModel × Diagnostics :=
  match p.MarshalValue apiResp.Rules with
  | Except.error err =>
    (escalationPolicyModel.zero, Diagnostics.AddError [] "Failed to serialize rules" err)
  | Except.ok rulesJSON =>
    ({ ID := TfValue.value apiResp.ID, Name := TfValue.value apiResp.Name,
       Description := StringPointerValue apiResp.Description,
       RulesJSON := TfValue.value rulesJSON }, [])

/-- The payload of the escalation policy calls, as the `body` argument. -/
def escalationPolicyBody (p : Provider) (plan : escalationPolicyModel) : Payload × Diagnostics :=
  (Payload.escalationPolicy (buildEscalationPolicyPayload p plan).1,
   (buildEscalationPolicyPayload p plan).2)

/-- The method `escalationPolicyResource.Create`. -/
def escalationPolicyResource.Create (p : Provider) (plan : escalationPolicyModel) :
    OpResult escalationPolicyModel :=
  writeResource p (planDiags p) "POST" "/api/escalation-policies"
    (escalationPolicyBody p plan) p.decodeEscalationPolicy (flattenEscalationPolicy p)

/-- The method `escalationPolicyResource.Read`. -/
def escalationPolicyResource.Read (p : Provider) (state : escalationPolicyModel) :
    OpResult escalationPolicyModel :=
  readResource p ("/api/escalation-policies/" ++ state.ID.ValueString)
    p.decodeEscalationPolicy (flattenEscalationPolicy p)

/-- The method `escalationPolicyResource.Update`. -/
def escalationPolicyResource.Update (p : Provider) (plan state : escalationPolicyModel) :
    OpResult escalationPolicyModel :=
  writeResource p (planStateDiags p) "PUT"
    ("/api/escalation-policies/" ++ state.ID.ValueString)
    (escalationPolicyBody p plan) p.decodeEscalationPolicy (flattenEscalationPolicy p)

/-- The method `escalationPolicyResource.Delete`. -/
def escalationPolicyResource.Delete (p : Provider) (state : escalationPolicyModel) :
    OpResult Unit :=
  deleteResource p ("/api/escalation-policies/" ++ state.ID.ValueString)

/-! ### Routing rule -/

/-- The struct `routingRuleModel`. -/
structure routingRuleModel where
  ID : TfValue String
  Name : TfValue String
  Description : TfValue String
  Enabled : TfValue Bool
  Priority : TfValue Int
  ConditionsJSON : TfValue String
  ActionsJSON : TfValue String

/-- The zero value `routingRulePayload{}`. -/
def routingRulePayload.zero : routingRulePayload :=
  { Name := "", Description := none, Enabled := none, Priority := none,
    Conditions := JSONValue.null, Actions := JSONValue.null }

/-- The zero value `routingRuleModel{}`. -/
def routingRuleModel.zero : routingRuleModel :=
  { ID := TfValue.null, Name := TfValue.null, Description := TfValue.null,
    Enabled := TfValue.null, Priority := TfValue.null, ConditionsJSON := TfValue.null,
    ActionsJSON := TfValue.null }

/-- The function `buildRoutingPayload`. -/
def buildRoutingPayload (p : Provider) (plan : routingRuleModel) :
    routingRulePayload × Diagnostics :=
  match p.Unmarshal plan.ConditionsJSON.ValueString with
  | Except.error err =>
    (routingRulePayload.zero, Diagnostics.AddError [] "Invalid conditions_json" err)
  | Except.ok conditions =>
    match p.Unmarshal plan.ActionsJSON.ValueString with
    | Except.error err =>
      (routingRulePayload.zero, Diagnostics.AddError [] "Invalid actions_json" err)
    | Except.ok actions =>
      ({ Name := plan.Name.ValueString
         Description := optionalString plan.Description
         Enabled := if !plan.Enabled.IsNull && !plan.Enabled.IsUnknown
           then some plan.Enabled.ValueBool else none
         Priority := if !plan.Priority.IsNull && !plan.Priority.IsUnknown
           then some plan.Priority.ValueInt64 else none
         Conditions := conditions
         Actions := actions }, [])

/-- The function `flattenRoutingRule`. -/
def flattenRoutingRule (p : Provider) (apiResp : routingRuleResponse) :
    routingRuleModel × Diagnostics :=
  match p.MarshalValue apiResp.Conditions with
  | Except.error err =>
    (routingRuleModel.zero, Diagnostics.AddError [] "Failed to serialize conditions" err)
  | Except.ok conditionsJSON =>
    match p.MarshalValue apiResp.Actions with
    | Except.error err =>
      (routingRuleModel.zero, Diagnostics.AddError [] "Failed to serialize actions" err)
    | Except.ok actionsJSON =>
      ({ ID := TfValue.value apiResp.ID, Name := TfValue.value apiResp.Name,
         Description := StringPointerValue apiResp.Description,
         Enabled := TfValue.value apiResp.Enabled,
         Priority := TfValue.value apiResp.Priority,
         ConditionsJSON := TfValue.value conditionsJSON,
         ActionsJSON := TfValue.value actionsJSON }, [])

/-- The payload of the routing rule calls, as the `body` argument. -/
def routingRuleBody (p : Provider) (plan : routingRuleModel) : Payload × Diagnostics :=
  (Payload.routingRule (buildRoutingPayload p plan).1, (buildRoutingPayload p plan).2)

/-- The method `routingRuleResource.Create`. -/
def routingRuleResource.Create (p : Provider) (plan : routingRuleModel) :
    OpResult routingRuleModel :=
  writeResource p (planDiags p) "POST" "/api/routing-rules"
    (routingRuleBody p plan) p.decodeRoutingRule (flattenRoutingRule p)

/-- The method `routingRuleResource.Read`. -/
def routingRuleResource.Read (p : Provider) (state : routingRuleModel) :
    OpResult routingRuleModel :=
  readResource p ("/api/routing-rules/" ++ state.ID.ValueString)
    p.decodeRoutingRule (flattenRoutingRule p)

/-- The method `routingRuleResource.Update`. -/
def routingRuleResource.Update (p : Provider) (plan state : routingRuleModel) :
    OpResult routingRuleModel :=
  writeResource p (planStateDiags p) "PUT" ("/api/routing-rules/" ++ state.ID.ValueString)
    (routingRuleBody p plan) p.decodeRoutingRule (flattenRoutingRule p)

/-- The method `routingRuleResource.Delete`. -/
def routingRuleResource.Delete (p : Provider) (state : routingRuleModel) : OpResult Unit :=
  deleteResource p ("/api/routing-rules/" ++ state.ID.ValueString)

/-! ### Schedule -/

/-- The struct `scheduleModel`. -/
structure scheduleModel where
  ID : TfValue String
  Name : TfValue String
  Description : TfValue String
  Timezone : TfValue String

/-- The function `buildSchedulePayload`. -/
def buildSchedulePayload (plan : scheduleModel) : schedulePayload × Diagnostics :=
  ({ Name := plan.Name.ValueString, Description := optionalString plan.Description,
     Timezone := optionalString plan.Timezone }, [])

/-- The function `flattenSchedule`. -/
def flattenSchedule (apiResp : scheduleResponse) : scheduleModel :=
  { ID := TfValue.value apiResp.ID, Name := TfValue.value apiResp.Name,
    Description := StringPointerValue apiResp.Description,
    Timezone := TfValue.value apiResp.Timezone }

/-- The payload of the schedule calls, as the `body` argument. -/
def scheduleBody (plan : scheduleModel) : Payload × Diagnostics :=
  (Payload.schedule (buildSchedulePayload plan).1, (buildSchedulePayload plan).2)

/-- The method `scheduleResource.Create`. -/
def scheduleResource.Create (p : Provider) (plan : scheduleModel) : OpResult scheduleModel :=
  writeResource p (planDiags p) "POST" "/api/oncall/rotations"
    (scheduleBody plan) p.decodeSchedule (fun apiResp => (flattenSchedule apiResp, []))

/-- The method `scheduleResource.Read`. -/
def scheduleResource.Read (p : Provider) (state : scheduleModel) : OpResult scheduleModel :=
  readResource p ("/api/oncall/rotations/" ++ state.ID.ValueString)
    p.decodeSchedule (fun apiResp => (flattenSchedule apiResp, []))

/-- The method `scheduleResource.Update`. -/
def scheduleResource.Update (p : Provider) (plan state : scheduleModel) :
    OpResult scheduleModel :=
  writeResource p (planStateDiags p) "PUT" ("/api/oncall/rotations/" ++ state.ID.ValueString)
    (scheduleBody plan) p.decodeSchedule (fun apiResp => (flattenSchedule apiResp, []))

/-- The method `scheduleResource.Delete`. -/
def scheduleResource.Delete (p : Provider) (state : scheduleModel) : OpResult Unit :=
  deleteResource p ("/api/oncall/rotations/" ++ state.ID.ValueString)

/-! ### Team -/

/-- The struct `teamModel`; a known `types.Set` of strings is the list of its elements. -/
structure teamModel where
  ID : TfValue String
  Name : TfValue String
  Description : TfValue String
  Members : TfValue (List String)

/-- The zero value `teamModel{}`. -/
def teamModel.zero : teamModel :=
  { ID := TfValue.null, Name := TfValue.null, Description := TfValue.null,
    Members := TfValue.null }

/-- The function `buildTeamPayload`. -/
def buildTeamPayload (plan : teamModel) : teamPayload × Diagnostics :=
  ({ Name := plan.Name.ValueString, Description := optionalString plan.Description }, [])

/-- The function `expandStringSet`: nil for a null or unknown set, else its elements with
the diagnostics of `ElementsAs`. -/
def expandStringSet (p : Provider) (set : TfValue (List String)) :
    List String × Diagnostics :=
  match set with
  | TfValue.value values => (values, Diagnostics.Append [] (p.ElementsAs values))
  | _ => ([], [])

/-- The method `teamResource.readTeamState`, run from session `s`. -/
def teamResource.readTeamState (p : Provider) (s : Session) (teamID : String) :
    (teamModel × Diagnostics) × Session :=
  let r := DoJSON p s "GET" ("/api/teams/" ++ teamID) none "" (Out.into p.decodeTeamDetail)
  match r.result with
  | Except.error err =>
    ((teamModel.zero, Diagnostics.AddError [] "API Error" err.Error), r.session)
  | Except.ok apiResp =>
    let members := apiResp.Members.map (fun member => member.ID)
    let diags := Diagnostics.Append [] (p.SetValueFrom members)
    if Diagnostics.HasError diags then
      ((teamModel.zero, diags), r.session)
    else
      (({ ID := TfValue.value apiResp.ID, Name := TfValue.value apiResp.Name,
          Description := StringPointerValue apiResp.Description,
          Members := TfValue.value members }, diags), r.session)

/-- The loop of `Create` and `Update` over the members to add: one
`POST /api/teams/{id}/members` per element, stopping at the first error. -/
def addMembers (p : Provider) (teamID : String) :
    List String → Session → Option ClientError × Session
  | [], s => (none, s)
  | userID :: rest, s =>
    let u := NewString p s
    let r := DoJSON p u.2 "POST" ("/api/teams/" ++ teamID ++ "/members")
      (some (Payload.teamMember { UserID := userID })) u.1 Out.nil
    match r.result with
    | Except.error err => (some err, r.session)
    | Except.ok _ => addMembers p teamID rest r.session

/-- The loop of `Update` over the members to remove: one
`DELETE /api/teams/{id}/members/{userID}` per element, stopping at the first error. -/
def removeMembers (p : Provider) (teamID : String) :
    List String → Session → Option ClientError × Session
  | [], s => (none, s)
  | userID :: rest, s =>
    let u := NewString p s
    let r := DoJSON p u.2 "DELETE" ("/api/teams/" ++ teamID ++ "/members/" ++ userID)
      none u.1 Out.nil
    match r.result with
    | Except.error err => (some err, r.session)
    | Except.ok _ => removeMembers p teamID rest r.session

/-- The end shared by `teamResource.Create` and `teamResource.Update`: read the team back
and set the state. -/
def teamResource.finish (p : Provider) (diags : Diagnostics) (s : Session)
    (teamID : String) : OpResult teamModel :=
  let rd := teamResource.readTeamState p s teamID
  let diags := Diagnostics.Append diags rd.1.2
  if Diagnostics.HasError diags then
    { diagnostics := diags, State := StateCall.untouched, session := rd.2 }
  else
    { diagnostics := Diagnostics.Append diags p.StateSet, State := StateCall.set rd.1.1,
      session := rd.2 }

/-- The method `teamResource.Create`. -/
def teamResource.Create (p : Provider) (plan : teamModel) : OpResult teamModel :=
  let diags := planDiags p
  if Diagnostics.HasError diags then
    { diagnostics := diags, State := StateCall.untouched, session := Session.start }
  else
    let diags := Diagnostics.Append diags (buildTeamPayload plan).2
    if Diagnostics.HasError diags then
      { diagnostics := diags, State := StateCall.untouched, session := Session.start }
    else
      let u := NewString p Session.start
      let r := DoJSON p u.2 "POST" "/api/teams" (some (Payload.team (buildTeamPayload plan).1))
        u.1 (Out.into p.decodeTeam)
      match r.result with
      | Except.error err =>
        { diagnostics := Diagnostics.AddError diags "API Error" err.Error,
          State := StateCall.untouched, session := r.session }
      | Except.ok apiResp =>
        let teamID := apiResp.ID
        if !plan.Members.IsNull && !plan.Members.IsUnknown then
          let diags := Diagnostics.Append diags (expandStringSet p plan.Members).2
          if Diagnostics.HasError diags then
            { diagnostics := diags, State := StateCall.untouched, session := r.session }
          else
            let a := addMembers p teamID (expandStringSet p plan.Members).1 r.session
            match a.1 with
            | some err =>
              { diagnostics := Diagnostics.AddError diags "API Error" err.Error,
                State := StateCall.untouched, session := a.2 }
            | none => teamResource.finish p diags a.2 teamID
        else
          teamResource.finish p diags r.session teamID

/-- The method `teamResource.Read`. -/
def teamResource.Read (p : Provider) (state : teamModel) : OpResult teamModel :=
  let diags := Diagnostics.Append [] p.StateGet
  if Diagnostics.HasError diags then
    { diagnostics := diags, State := StateCall.untouched, session := Session.start }
  else
    teamResource.finish p diags Session.start state.ID.ValueString

/-- The method `teamResource.Update`. -/
def teamResource.Update (p : Provider) (plan state : teamModel) : OpResult teamModel :=
  let diags := planStateDiags p
  if Diagnostics.HasError diags then
    { diagnostics := diags, State := StateCall.untouched, session := Session.start }
  else
    let diags := Diagnostics.Append diags (buildTeamPayload plan).2
    if Diagnostics.HasError diags then
      { diagnostics := diags, State := StateCall.untouched, session := Session.start }
    else
      let teamID := state.ID.ValueString
      let u := NewString p Session.start
      let r := DoJSON p u.2 "PUT" ("/api/teams/" ++ teamID)
        (some (Payload.team (buildTeamPayload plan).1)) u.1 Out.nil
      match r.result with
      | Except.error err =>
        { diagnostics := Diagnostics.AddError diags "API Error" err.Error,
          State := StateCall.untouched, session := r.session }
      | Except.ok _ =>
        if !plan.Members.IsNull && !plan.Members.IsUnknown then
          let diags := Diagnostics.Append diags (expandStringSet p plan.Members).2
          if Diagnostics.HasError diags then
            { diagnostics := diags, State := StateCall.untouched, session := r.session }
          else
            let diags := Diagnostics.Append diags (expandStringSet p state.Members).2
            if Diagnostics.HasError diags then
              { diagnostics := diags, State := StateCall.untouched, session := r.session }
            else
              let delta := diffStringSets (expandStringSet p state.Members).1
                (expandStringSet p plan.Members).1
              let a := addMembers p teamID delta.1 r.session
              match a.1 with
              | some err =>
                { diagnostics := Diagnostics.AddError diags "API Error" err.Error,
                  State := StateCall.untouched, session := a.2 }
              | none =>
                let d := removeMembers p teamID delta.2 a.2
                match d.1 with
                | some err =>
                  { diagnostics := Diagnostics.AddError diags "API Error" err.Error,
                    State := StateCall.untouched, session := d.2 }
                | none => teamResource.finish p diags d.2 teamID
        else
          teamResource.finish p diags r.session teamID

/-- The method `teamResource.Delete`. -/
def teamResource.Delete (p : Provider) (state : teamModel) : OpResult Unit :=
  deleteResource p ("/api/teams/" ++ state.ID.ValueString)

/-! ### Invitation -/

/-- The struct `invitationModel`. -/
structure invitationModel where
  ID : TfValue String
  Email : TfValue String
  Role : TfValue String
  Status : TfValue String

/-- The state built from an `invitationResponse` in `Create` and `Read`. -/
def invitationState (apiResp : invitationResponse) : invitationModel :=
  { ID := TfValue.value apiResp.ID, Email := TfValue.value apiResp.Email,
    Role := TfValue.value apiResp.Role, Status := TfValue.value apiResp.Status }

/-- The method `invitationResource.Create`. -/
def invitationResource.Create (p : Provider) (plan : invitationModel) :
    OpResult invitationModel :=
  let diags := planDiags p
  if Diagnostics.HasError diags then
    { diagnostics := diags, State := StateCall.untouched, session := Session.start }
  else
    let u := NewString p Session.start
    let r := DoJSON p u.2 "POST" "/api/invitations"
      (some (Payload.invitation
        { Email := plan.Email.ValueString, Role := plan.Role.ValueString }))
      u.1 (Out.into p.decodeInvitation)
    match r.result with
    | Except.error err =>
      { diagnostics := Diagnostics.AddError diags "API Error" err.Error,
        State := StateCall.untouched, session := r.session }
    | Except.ok apiResp =>
      { diagnostics := Diagnostics.Append diags p.StateSet,
        State := StateCall.set (invitationState apiResp), session := r.session }

/-- The method `invitationResource.listInvitations`. -/
def invitationResource.listInvitations (p : Provider) (s : Session) :
    (List invitationResponse × Diagnostics) × Session :=
  let r := DoJSON p s "GET" "/api/invitations" none "" (Out.into p.decodeInvitations)
  match r.result with
  | Except.error err => (([], Diagnostics.AddError [] "API Error" err.Error), r.session)
  | Except.ok invites => ((invites, []), r.session)

/-- The method `invitationResource.Read`. -/
def invitationResource.Read (p : Provider) (state : invitationModel) :
    OpResult invitationModel :=
  let diags := Diagnostics.Append [] p.StateGet
  if Diagnostics.HasError diags then
    { diagnostics := diags, State := StateCall.untouched, session := Session.start }
  else
    let l := invitationResource.listInvitations p Session.start
    let diags := Diagnostics.Append diags l.1.2
    if Diagnostics.HasError diags then
      { diagnostics := diags, State := StateCall.untouched, session := l.2 }
    else
      match l.1.1.find? (fun invite => invite.ID = state.ID.ValueString) with
      | some invite =>
        { diagnostics := Diagnostics.Append diags p.StateSet,
          State := StateCall.set (invitationState invite), session := l.2 }
      | none =>
        { diagnostics := diags, State := StateCall.removeResource, session := l.2 }

/-- The method `invitationResource.Update`, which makes no call. -/
def invitationResource.Update (_p : Provider) (_plan _state : invitationModel) :
    OpResult invitationModel :=
  { diagnostics := Diagnostics.AddError [] "Unsupported"
      "Updating invitations is not supported. Recreate the invitation instead.",
    State := StateCall.untouched, session := Session.start }

/-- The method `invitationResource.Delete`. -/
def invitationResource.Delete (p : Provider) (state : invitationModel) : OpResult Unit :=
  deleteResource p ("/api/invitations/" ++ state.ID.ValueString)

/-! ### User -/

/-- The struct `userModel`. -/
structure userModel where
  ID : TfValue String
  UserID : TfValue String
  Role : TfValue String
  Email : TfValue String
  DisplayName : TfValue String
  PhoneNumber : TfValue String

/-- The zero value `userModel{}`. -/
def userModel.zero : userModel :=
  { ID := TfValue.null, UserID := TfValue.null, Role := TfValue.null, Email := TfValue.null,
    DisplayName := TfValue.null, PhoneNumber := TfValue.null }

/-- The method `userResource.readUserState`, run from session `s`. -/
def userResource.readUserState (p : Provider) (s : Session) (userID : String) :
    (userModel × Diagnostics) × Session :=
  let r := DoJSON p s "GET" "/workspaces/members" none "" (Out.into p.decodeUsers)
  match r.result with
  | Except.error err =>
    ((userModel.zero, Diagnostics.AddError [] "API Error" err.Error), r.session)
  | Except.ok users =>
    match users.find? (fun user => user.ID = userID) with
    | some user =>
      (({ ID := TfValue.value user.ID, UserID := TfValue.value user.ID,
          Role := TfValue.value user.Role, Email := TfValue.value user.Email,
          DisplayName := StringPointerValue user.DisplayName,
          PhoneNumber := StringPointerValue user.PhoneNumber }, []), r.session)
    | none =>
      ((userModel.zero,
        Diagnostics.AddError [] "User not found" "User is not a member of this workspace"),
       r.session)

/-- The end shared by the `Create`, `Read` and `Update` methods of the user resource:
read the user back and set the state. -/
def userResource.finish (p : Provider) (diags : Diagnostics) (s : Session)
    (userID : String) : OpResult userModel :=
  let rd := userResource.readUserState p s userID
  let diags := Diagnostics.Append diags rd.1.2
  if Diagnostics.HasError diags then
    { diagnostics := diags, State := StateCall.untouched, session := rd.2 }
  else
    { diagnostics := Diagnostics.Append diags p.StateSet, State := StateCall.set rd.1.1,
      session := rd.2 }

/-- The body shared by `userResource.Create` and `userResource.Update`, which read the
plan only: `PATCH /workspaces/members/{user_id}`, then the read back. -/
def userResource.write (p : Provider) (plan : userModel) : OpResult userModel :=
  let diags := planDiags p
  if Diagnostics.HasError diags then
    { diagnostics := diags, State := StateCall.untouched, session := Session.start }
  else
    let u := NewString p Session.start
    let r := DoJSON p u.2 "PATCH" ("/workspaces/members/" ++ plan.UserID.ValueString)
      (some (Payload.userUpdate { Role := plan.Role.ValueString })) u.1 Out.nil
    match r.result with
    | Except.error err =>
      { diagnostics := Diagnostics.AddError diags "API Error" err.Error,
        State := StateCall.untouched, session := r.session }
    | Except.ok _ => userResource.finish p diags r.session plan.UserID.ValueString

/-- The method `userResource.Create`. -/
def userResource.Create (p : Provider) (plan : userModel) : OpResult userModel :=
  userResource.write p plan

/-- The method `userResource.Read`. -/
def userResource.Read (p : Provider) (state : userModel) : OpResult userModel :=
  let diags := Diagnostics.Append [] p.StateGet
  if Diagnostics.HasError diags then
    { diagnostics := diags, State := StateCall.untouched, session := Session.start }
  else
    userResource.finish p diags Session.start state.UserID.ValueString

/-- The method `userResource.Update`. -/
def userResource.Update (p : Provider) (plan : userModel) : OpResult userModel :=
  userResource.write p plan

/-- The method `userResource.Delete`. -/
def userResource.Delete (p : Provider) (state : userModel) : OpResult Unit :=
  deleteResource p ("/workspaces/members/" ++ state.UserID.ValueString)

/-! ### Workspace -/

/-- The struct `workspaceModel`. -/
structure workspaceModel where
  ID : TfValue String
  Name : TfValue String

/-- The state built from a `workspaceResponse`. -/
def workspaceState (apiResp : workspaceResponse) : workspaceModel :=
  { ID := TfValue.value apiResp.ID, Name := TfValue.value apiResp.Name }

/-- The body shared by `workspaceResource.Create` and `workspaceResource.Update`:
`PUT /settings/workspace`, then `GET /settings/workspace`. -/
def workspaceResource.write (p : Provider) (plan : workspaceModel) :
    OpResult workspaceModel :=
  let diags := planDiags p
  if Diagnostics.HasError diags then
    { diagnostics := diags, State := StateCall.untouched, session := Session.start }
  else
    let u := NewString p Session.start
    let r := DoJSON p u.2 "PUT" "/settings/workspace"
      (some (Payload.workspaceUpdate { Name := plan.Name.ValueString })) u.1 Out.nil
    match r.result with
    | Except.error err =>
      { diagnostics := Diagnostics.AddError diags "API Error" err.Error,
        State := StateCall.untouched, session := r.session }
    | Except.ok _ =>
      let g := DoJSON p r.session "GET" "/settings/workspace" none ""
        (Out.into p.decodeWorkspace)
      match g.result with
      | Except.error err =>
        { diagnostics := Diagnostics.AddError diags "API Error" err.Error,
          State := StateCall.untouched, session := g.session }
      | Except.ok apiResp =>
        { diagnostics := Diagnostics.Append diags p.StateSet,
          State := StateCall.set (workspaceState apiResp), session := g.session }

/-- The method `workspaceResource.Create`. -/
def workspaceResource.Create (p : Provider) (plan : workspaceModel) :
    OpResult workspaceModel :=
  workspaceResource.write p plan

/-- The method `workspaceResource.Read`. -/
def workspaceResource.Read (p : Provider) (_state : workspaceModel) :
    OpResult workspaceModel :=
  readResource p "/settings/workspace" p.decodeWorkspace
    (fun apiResp => (workspaceState apiResp, []))

/-- The method `workspaceResource.Update`. -/
def workspaceResource.Update (p : Provider) (plan : workspaceModel) :
    OpResult workspaceModel :=
  workspaceResource.write p plan

/-- The method `workspaceResource.Delete`, which returns at once. -/
def workspaceResource.Delete (_p : Provider) (_state : workspaceModel) : OpResult Unit :=
  { diagnostics := [], State := StateCall.untouched, session := Session.start }

/-! ### All operations -/

/-- An operation of a resource of the provider, with the plan and state it decodes. -/
inductive Operation where
  | escalationPolicyCreate (plan : escalationPolicyModel)
  | escalationPolicyRead (state : escalationPolicyModel)
  | escalationPolicyUpdate (plan state : escalationPolicyModel)
  | escalationPolicyDelete (state : escalationPolicyModel)
  | routingRuleCreate (plan : routingRuleModel)
  | routingRuleRead (state : routingRuleModel)
  | routingRuleUpdate (plan state : routingRuleModel)
  | routingRuleDelete (state : routingRuleModel)
  | scheduleCreate (plan : scheduleModel)
  | scheduleRead (state : scheduleModel)
  | scheduleUpdate (plan state : scheduleModel)
  | scheduleDelete (state : scheduleModel)
  | teamCreate (plan : teamModel)
  | teamRead (state : teamModel)
  | teamUpdate (plan state : teamModel)
  | teamDelete (state : teamModel)
  | invitationCreate (plan : invitationModel)
  | invitationRead (state : invitationModel)
  | invitationUpdate (plan state : invitationModel)
  | invitationDelete (state : invitationModel)
  | userCreate (plan : userModel)
  | userRead (state : userModel)
  | userUpdate (plan : userModel)
  | userDelete (state : userModel)
  | workspaceCreate (plan : workspaceModel)
  | workspaceRead (state : workspaceModel)
  | workspaceUpdate (plan : workspaceModel)
  | workspaceDelete (state : workspaceModel)

/-- The kind of call made on `resp.State`. -/
inductive StateKind where
  | untouched
  | set
  | removeResource
deriving DecidableEq, Repr

/-- The kind of a call on `resp.State`, without the value set. -/
def StateCall.kind {σ : Type} : StateCall σ → StateKind
  | StateCall.untouched => StateKind.untouched
  | StateCall.set _ => StateKind.set
  | StateCall.removeResource => StateKind.removeResource

/-- The result of an operation without the value it set: its diagnostics, the kind of
call made on `resp.State`, and its session. -/
structure Summary where
  diagnostics : Diagnostics
  State : StateKind
  session : Session

/-- The summary of the result of an operation. -/
def OpResult.summary {σ : Type} (r : OpResult σ) : Summary :=
  { diagnostics := r.diagnostics, State := r.State.kind, session := r.session }

/-- Runs an operation. -/
def Operation.run (p : Provider) : Operation → Summary
  | Operation.escalationPolicyCreate plan => (escalationPolicyResource.Create p plan).summary
  | Operation.escalationPolicyRead state => (escalationPolicyResource.Read p state).summary
  | Operation.escalationPolicyUpdate plan state =>
    (escalationPolicyResource.Update p plan state).summary
  | Operation.escalationPolicyDelete state => (escalationPolicyResource.Delete p state).summary
  | Operation.routingRuleCreate plan => (routingRuleResource.Create p plan).summary
  | Operation.routingRuleRead state => (routingRuleResource.Read p state).summary
  | Operation.routingRuleUpdate plan state => (routingRuleResource.Update p plan state).summary
  | Operation.routingRuleDelete state => (routingRuleResource.Delete p state).summary
  | Operation.scheduleCreate plan => (scheduleResource.Create p plan).summary
  | Operation.scheduleRead state => (scheduleResource.Read p state).summary
  | Operation.scheduleUpdate plan state => (scheduleResource.Update p plan state).summary
  | Operation.scheduleDelete state => (scheduleResource.Delete p state).summary
  | Operation.teamCreate plan => (teamResource.Create p plan).summary
  | Operation.teamRead state => (teamResource.Read p state).summary
  | Operation.teamUpdate plan state => (teamResource.Update p plan state).summary
  | Operation.teamDelete state => (teamResource.Delete p state).summary
  | Operation.invitationCreate plan => (invitationResource.Create p plan).summary
  | Operation.invitationRead state => (invitationResource.Read p state).summary
  | Operation.invitationUpdate plan state => (invitationResource.Update p plan state).summary
  | Operation.invitationDelete state => (invitationResource.Delete p state).summary
  | Operation.userCreate plan => (userResource.Create p plan).summary
  | Operation.userRead state => (userResource.Read p state).summary
  | Operation.userUpdate plan => (userResource.Update p plan).summary
  | Operation.userDelete state => (userResource.Delete p state).summary
  | Operation.workspaceCreate plan => (workspaceResource.Create p plan).summary
  | Operation.workspaceRead state => (workspaceResource.Read p state).summary
  | Operation.workspaceUpdate plan => (workspaceResource.Update p plan).summary
  | Operation.workspaceDelete state => (workspaceResource.Delete p state).summary

/-! ### Example provider -/

/-- An environment for calls that neither encode a body nor decode a response (`Delete`,
and any call answered with a status outside 200..299): the client of
`https://signalcraft.example`, every request built, every round trip answered with
`status` and `body`, and the calls of `uuid.NewString()` returning the strings of `uuids`
in order. The encoder and the decoders, which those calls never reach, return an error. -/
def exampleProvider (uuids : List String) (status : Int) (body : String) : Provider :=
  { client := { BaseURL := "https://signalcraft.example", APIKey := "secret" }
    NewRequest := fun _ _ => none
    Do := fun _ _ => Except.ok { StatusCode := status, Body := body }
    NewString := fun n => uuids.getD n ""
    Marshal := fun _ => Except.error "not reached"
    Unmarshal := fun _ => Except.error "not reached"
    MarshalValue := fun _ => Except.error "not reached"
    decodeTeam := fun _ => Except.error "not reached"
    decodeTeamDetail := fun _ => Except.error "not reached"
    decodeEscalationPolicy := fun _ => Except.error "not reached"
    decodeRoutingRule := fun _ => Except.error "not reached"
    decodeSchedule := fun _ => Except.error "not reached"
    decodeInvitation := fun _ => Except.error "not reached"
    decodeInvitations := fun _ => Except.error "not reached"
    decodeUsers := fun _ => Except.error "not reached"
    decodeWorkspace := fun _ => Except.error "not reached"
    PlanGet := []
    StateGet := []
    StateSet := []
    ElementsAs := fun _ => []
    SetValueFrom := fun _ => [] }

/-- The state of an escalation policy with the remote identifier `ep-1`. -/
def examplePolicyState : escalationPolicyModel :=
  { ID := TfValue.value "ep-1", Name := TfValue.value "primary",
    Description := TfValue.null, RulesJSON := TfValue.value "[]" }

/-- Two results of `uuid.NewString()`. -/
def uuidA : String := "0b6e7c1e-3f0a-4c59-9a1e-5f2d8c7b1a01"

/-- The second of the two results of `uuid.NewString()`. -/
def uuidB : String := "9d2f4a6b-8c1e-4b7a-a3d5-6e0f1c2b3d02"

/-- The state of a team with the remote identifier `t-1` and the members `u1`, `u2`. -/
def exampleTeamState : teamModel :=
  { ID := TfValue.value "t-1", Name := TfValue.value "platform",
    Description := TfValue.null, Members := TfValue.value ["u1", "u2"] }

/-! ### Provider with an encoder and decoders -/

/-- A third and a fourth result of `uuid.NewString()`. -/
def uuidC : String := "3c5a9e2d-7b4f-4d1c-8e6a-2f9b0d1c4e03"

/-- The fourth of the results of `uuid.NewString()`. -/
def uuidD : String := "6f1b8d3c-2a5e-4f7b-9c0d-8a4e5b6c7d04"

/-! ### Model of `encoding/json` on `interface{}` values

The functions `json.Unmarshal` and `json.Marshal` are library code outside the
repository. They are modelled on the JSON texts built from `null`, `true`, `false`,
natural numbers below 2^53 written in decimal digits, strings and keys written without
escape sequences, sequences and mappings, nested to any depth and with any whitespace.
A Go `map[string]interface{}` is written as the list of its members in the order of
their keys, the order in which `json.Marshal` writes them. -/

/-- The bit pattern of the `float64` equal to the natural number `n`, for `n` below
2^53, where it is exact. -/
def natToFloat64 (n : Nat) : Float64 :=
  if n = 0 then 0
  else
    let e := (Nat.toDigits 2 n).length - 1
    (1023 + e) * 2 ^ 52 + (n - 2 ^ e) * 2 ^ (52 - e)

/-- The natural number a `float64` bit pattern is equal to, when it is one below 2^53. -/
def float64ToNat (f : Float64) : Option Nat :=
  if f = 0 then some 0
  else if 1023 ≤ f / 2 ^ 52 ∧ f / 2 ^ 52 ≤ 1075 then
    if (f % 2 ^ 52) % 2 ^ (52 - (f / 2 ^ 52 - 1023)) = 0 then
      some (2 ^ (f / 2 ^ 52 - 1023) + (f % 2 ^ 52) / 2 ^ (52 - (f / 2 ^ 52 - 1023)))
    else none
  else none

/-- A character that stands for itself inside a string, for `json.Unmarshal` and for
`json.Marshal`: no control character, not the quote, not the backslash, and none of the
characters `json.Marshal` escapes (`<`, `>`, `&`, U+2028 and U+2029). -/
def plainChar (c : Char) : Bool :=
  decide (32 ≤ c.toNat) &&
    !(c = '"' || c = '\\' || c = '<' || c = '>' || c = '&' ||
      decide (c.toNat = 0x2028) || decide (c.toNat = 0x2029))

/-- A number of the model: a `float64` equal to a natural number below 2^53. -/
def plainNumber (f : Float64) : Bool :=
  match float64ToNat f with
  | some n => decide (n < 2 ^ 53) && decide (natToFloat64 n = f)
  | none => false

mutual
/-- The values of the model. -/
def inModel : JSONValue → Bool
  | JSONValue.null => true
  | JSONValue.bool _ => true
  | JSONValue.number f => plainNumber f
  | JSONValue.string s => s.data.all plainChar
  | JSONValue.array items => inModelItems items
  | JSONValue.object entries => inModelMembers entries
termination_by structural v => v
/-- The values of the model, on the items of a sequence. -/
def inModelItems : List JSONValue → Bool
  | [] => true
  | v :: rest => inModel v && inModelItems rest
termination_by structural l => l
/-- The values of the model, on the members of a mapping. -/
def inModelMembers : List (String × JSONValue) → Bool
  | [] => true
  | (k, v) :: rest => k.data.all plainChar && inModel v && inModelMembers rest
termination_by structural l => l
end

/-- The text of a number of the model: its decimal digits. -/
def renderNumber (f : Float64) : List Char :=
  match float64ToNat f with
  | some n => (toString n).data
  | none => []

mutual
/-- The compact JSON text of a value, members written in the order of the list. -/
def renderValue : JSONValue → List Char
  | JSONValue.null => ['n', 'u', 'l', 'l']
  | JSONValue.bool b => if b then ['t', 'r', 'u', 'e'] else ['f', 'a', 'l', 's', 'e']
  | JSONValue.number f => renderNumber f
  | JSONValue.string s => '"' :: (s.data ++ ['"'])
  | JSONValue.array [] => ['[', ']']
  | JSONValue.array (v :: rest) => '[' :: (renderValue v ++ renderItems rest)
  | JSONValue.object [] => ['{', '}']
  | JSONValue.object ((k, v) :: rest) =>
    '{' :: '"' :: (k.data ++ '"' :: ':' :: (renderValue v ++ renderMembers rest))
termination_by structural v => v
/-- The text of the items after the first, each behind a comma, and the closing bracket. -/
def renderItems : List JSONValue → List Char
  | [] => [']']
  | v :: rest => ',' :: (renderValue v ++ renderItems rest)
termination_by structural l => l
/-- The text of the members after the first, each behind a comma, and the closing brace. -/
def renderMembers : List (String × JSONValue) → List Char
  | [] => ['}']
  | (k, v) :: rest => ',' :: '"' :: (k.data ++ '"' :: ':' :: (renderValue v ++ renderMembers rest))
termination_by structural l => l
end

/-- The assignment `m[k] = v` on a Go map, kept as the list of its members in the order
of their keys: a member with the key `k` is replaced. -/
def insertMember (e : String × JSONValue) :
    List (String × JSONValue) → List (String × JSONValue)
  | [] => [e]
  | x :: rest =>
    if e.1.data < x.1.data then e :: x :: rest
    else if e.1 = x.1 then e :: rest
    else x :: insertMember e rest

/-- The Go map built from the members of a JSON object read in order: the members sorted
by key, a repeated key keeping its last value. -/
def sortMembers (entries : List (String × JSONValue)) : List (String × JSONValue) :=
  entries.foldl (fun acc e => insertMember e acc) []

mutual
/-- The Go value `json.Unmarshal` stores in an `interface{}` for a JSON value: a mapping
becomes a map, which keeps no order of its keys and one value per key; it is written here
with its members in the order of their keys, the order `json.Marshal` writes them in. -/
def sortKeys : JSONValue → JSONValue
  | JSONValue.null => JSONValue.null
  | JSONValue.bool b => JSONValue.bool b
  | JSONValue.number f => JSONValue.number f
  | JSONValue.string s => JSONValue.string s
  | JSONValue.array items => JSONValue.array (sortKeysItems items)
  | JSONValue.object entries => JSONValue.object (sortMembers (sortKeysMembers entries))
termination_by structural v => v
/-- The Go values of the items of a sequence, in order. -/
def sortKeysItems : List JSONValue → List JSONValue
  | [] => []
  | v :: rest => sortKeys v :: sortKeysItems rest
termination_by structural l => l
/-- The members of a mapping with the Go values of their values, in order. -/
def sortKeysMembers : List (String × JSONValue) → List (String × JSONValue)
  | [] => []
  | (k, v) :: rest => (k, sortKeys v) :: sortKeysMembers rest
termination_by structural l => l
end

/-- Each key is strictly below the key of the next member. -/
def keysAscending : List (String × JSONValue) → Bool
  | [] => true
  | [_] => true
  | a :: b :: rest => decide (a.1.data < b.1.data) && keysAscending (b :: rest)

mutual
/-- Every mapping of the value, at any depth, has its members in the strict order of
their keys. -/
def keysInOrder : JSONValue → Bool
  | JSONValue.null => true
  | JSONValue.bool _ => true
  | JSONValue.number _ => true
  | JSONValue.string _ => true
  | JSONValue.array items => keysInOrderItems items
  | JSONValue.object entries => keysAscending entries && keysInOrderMembers entries
termination_by structural v => v
/-- The mappings in the items of a sequence have their members in the order of the keys. -/
def keysInOrderItems : List JSONValue → Bool
  | [] => true
  | v :: rest => keysInOrder v && keysInOrderItems rest
termination_by structural l => l
/-- The mappings in the values of the members have their members in the order of the
keys. -/
def keysInOrderMembers : List (String × JSONValue) → Bool
  | [] => true
  | (_, v) :: rest => keysInOrder v && keysInOrderMembers rest
termination_by structural l => l
end

/-- The keys of the members increase strictly from one member to the next. -/
def KeysSorted (entries : List (String × JSONValue)) : Prop :=
  entries.Pairwise (fun a b => a.1.data < b.1.data)

/-- Skips the insignificant whitespace of JSON. -/
def skipWs : List Char → List Char
  | [] => []
  | c :: rest => if c = ' ' ∨ c = '\t' ∨ c = '\n' ∨ c = '\r' then skipWs rest else c :: rest

/-- Reads the characters of a string up to its closing quote; a character that is not
plain, such as the backslash of an escape sequence, is outside the model. -/
def scanString : List Char → Option (List Char × List Char)
  | [] => none
  | c :: rest =>
    if c = '"' then some ([], rest)
    else if plainChar c then
      match scanString rest with
      | some (t, rest) => some (c :: t, rest)
      | none => none
    else none

/-- Reads a number of the model: decimal digits without a leading zero, of a value below
2^53. -/
def scanNumber (cs : List Char) : Option (JSONValue × List Char) :=
  let ds := cs.takeWhile Char.isDigit
  let n := ds.foldl (fun acc c => 10 * acc + (c.toNat - 48)) 0
  if ds = [] then none
  else if ds.head? = some '0' ∧ 1 < ds.length then none
  else if n < 2 ^ 53 then some (JSONValue.number (natToFloat64 n), cs.dropWhile Char.isDigit)
  else none

/-- Reads the characters `word` at the start of the text. -/
def expectWord (word cs : List Char) : Option (List Char) :=
  if word.isPrefixOf cs then some (cs.drop word.length) else none

mutual
/-- Reads one JSON value of the model at the start of the text, with `fuel` levels of
calls left: the value in the order of the text, and the rest of the text. -/
def parseValue : Nat → List Char → Option (JSONValue × List Char)
  | 0, _ => none
  | fuel + 1, cs =>
    match skipWs cs with
    | [] => none
    | c :: rest =>
      if c.isDigit then scanNumber (c :: rest)
      else if c = 'n' then
        match expectWord ['u', 'l', 'l'] rest with
        | some rest => some (JSONValue.null, rest)
        | none => none
      else if c = 't' then
        match expectWord ['r', 'u', 'e'] rest with
        | some rest => some (JSONValue.bool true, rest)
        | none => none
      else if c = 'f' then
        match expectWord ['a', 'l', 's', 'e'] rest with
        | some rest => some (JSONValue.bool false, rest)
        | none => none
      else if c = '"' then
        match scanString rest with
        | some (t, rest) => some (JSONValue.string (String.mk t), rest)
        | none => none
      else if c = '[' then
        if (skipWs rest).head? = some ']' then
          some (JSONValue.array [], (skipWs rest).tail)
        else
          match parseValue fuel rest with
          | none => none
          | some (v, rest) =>
            match parseItems fuel rest with
            | none => none
            | some (items, rest) => some (JSONValue.array (v :: items), rest)
      else if c = '{' then
        if (skipWs rest).head? = some '}' then
          some (JSONValue.object [], (skipWs rest).tail)
        else
          match parseMember fuel rest with
          | none => none
          | some (e, rest) =>
            match parseMembers fuel rest with
            | none => none
            | some (entries, rest) => some (JSONValue.object (e :: entries), rest)
      else none
/-- Reads the items after the first, each behind a comma, and the closing bracket. -/
def parseItems : Nat → List Char → Option (List JSONValue × List Char)
  | 0, _ => none
  | fuel + 1, cs =>
    match skipWs cs with
    | [] => none
    | c :: rest =>
      if c = ']' then some ([], rest)
      else if c = ',' then
        match parseValue fuel rest with
        | none => none
        | some (v, rest) =>
          match parseItems fuel rest with
          | none => none
          | some (items, rest) => some (v :: items, rest)
      else none
/-- Reads one member: a key, a colon and a value. -/
def parseMember : Nat → List Char → Option ((String × JSONValue) × List Char)
  | 0, _ => none
  | fuel + 1, cs =>
    match skipWs cs with
    | [] => none
    | c :: rest =>
      if c = '"' then
        match scanString rest with
        | none => none
        | some (k, rest) =>
          match skipWs rest with
          | [] => none
          | c :: rest =>
            if c = ':' then
              match parseValue fuel rest with
              | none => none
              | some (v, rest) => some ((String.mk k, v), rest)
            else none
      else none
/-- Reads the members after the first, each behind a comma, and the closing brace. -/
def parseMembers : Nat → List Char → Option (List (String × JSONValue) × List Char)
  | 0, _ => none
  | fuel + 1, cs =>
    match skipWs cs with
    | [] => none
    | c :: rest =>
      if c = '}' then some ([], rest)
      else if c = ',' then
        match parseMember fuel rest with
        | none => none
        | some (e, rest) =>
          match parseMembers fuel rest with
          | none => none
          | some (entries, rest) => some (e :: entries, rest)
      else none
end

/-- Modelled from the spec: the structured value a JSON text denotes, a mapping being the
sequence of its members in the order of the text. Texts that are not JSON, and JSON texts
outside the model (an escape sequence or a character `json.Marshal` escapes in a string,
a fraction, an exponent, a negative number or a number from 2^53 on), are reported as an
error. -/
def parseDocument (text : String) : Except String JSONValue :=
  match parseValue (text.length + 1) text.data with
  | some (d, rest) =>
    if skipWs rest = [] then Except.ok d
    else Except.error "json: invalid text, or text outside the model"
  | none => Except.error "json: invalid text, or text outside the model"

/-- The function `json.Unmarshal` of the Go standard library into an `interface{}`, on
the texts of the model: the Go value of the value the text denotes. -/
def jsonUnmarshal (text : String) : Except String JSONValue :=
  match parseDocument text with
  | Except.ok d => Except.ok (sortKeys d)
  | Except.error err => Except.error err

/-- The function `json.Marshal` of the Go standard library on an `interface{}` value of
the model: compact text, the keys of every map in sorted order. -/
def jsonMarshal (v : JSONValue) : Except String String :=
  if inModel v then Except.ok (String.mk (renderValue (sortKeys v)))
  else Except.error "json: value outside the model"

/-- The encoding of a Go string that holds no character the encoder escapes. -/
def quoteString (s : String) : String :=
  "\"" ++ s ++ "\""

/-- The encoding of a `*string` field tagged `omitempty` that is not the first field of
its struct: nothing for a nil pointer. -/
def omitemptyField (name : String) : Option String → String
  | none => ""
  | some v => ",\"" ++ name ++ "\":" ++ quoteString v

/-- The encoder `json.Marshal` on the payload structs, following their field tags. -/
def marshalPayload : Payload → Except String String
  | Payload.team v =>
    Except.ok ("\x7b\"name\":" ++ quoteString v.Name ++
      omitemptyField "description" v.Description ++ "\x7d")
  | Payload.teamMember v => Except.ok ("\x7b\"userId\":" ++ quoteString v.UserID ++ "\x7d")
  | Payload.escalationPolicy v =>
    match jsonMarshal v.Rules with
    | Except.error err => Except.error err
    | Except.ok rules =>
      Except.ok ("\x7b\"name\":" ++ quoteString v.Name ++
        omitemptyField "description" v.Description ++ ",\"rules\":" ++ rules ++ "\x7d")
  | Payload.routingRule v =>
    match jsonMarshal v.Conditions, jsonMarshal v.Actions with
    | Except.ok conditions, Except.ok actions =>
      Except.ok ("\x7b\"name\":" ++ quoteString v.Name ++
        omitemptyField "description" v.Description ++
        (match v.Enabled with
          | none => ""
          | some b => ",\"enabled\":" ++ (if b then "true" else "false")) ++
        (match v.Priority with
          | none => ""
          | some n => ",\"priority\":" ++ toString n) ++
        ",\"conditions\":" ++ conditions ++ ",\"actions\":" ++ actions ++ "\x7d")
    | Except.error err, _ => Except.error err
    | _, Except.error err => Except.error err
  | Payload.schedule v =>
    Except.ok ("\x7b\"name\":" ++ quoteString v.Name ++
      omitemptyField "description" v.Description ++
      omitemptyField "timezone" v.Timezone ++ "\x7d")
  | Payload.invitation v =>
    Except.ok ("\x7b\"email\":" ++ quoteString v.Email ++ ",\"role\":" ++
      quoteString v.Role ++ "\x7d")
  | Payload.userUpdate v => Except.ok ("\x7b\"role\":" ++ quoteString v.Role ++ "\x7d")
  | Payload.workspaceUpdate v => Except.ok ("\x7b\"name\":" ++ quoteString v.Name ++ "\x7d")

/-- A decoder given by the texts it accepts and the values it reads from them; any other
text is rejected with the error of a truncated document. -/
def decodeTable {ρ : Type} (table : List (String × ρ)) (text : String) : Except String ρ :=
  match table.lookup text with
  | some v => Except.ok v
  | none => Except.error "unexpected end of JSON input"

/-- A JSON object with the member `b` before the member `a`. -/
def unsortedRules : String :=
  "\x7b\"b\":\"x\",\"a\":\"y\"\x7d"

/-- The JSON object of `unsortedRules` with its members in the order of their keys. -/
def sortedRules : String :=
  "\x7b\"a\":\"y\",\"b\":\"x\"\x7d"

/-- A truncated JSON document. -/
def truncatedRules : String :=
  "\x7b\"b\":"

/-- The decoder `json.Unmarshal` into an `interface{}` on the texts the examples use:
the texts and the values `jsonUnmarshal` reads from them. -/
def exampleValues : List (String × JSONValue) :=
  [("[]", JSONValue.array []),
   ("\x7b\x7d", JSONValue.object []),
   (unsortedRules,
     JSONValue.object [("a", JSONValue.string "y"), ("b", JSONValue.string "x")]),
   (sortedRules,
     JSONValue.object [("a", JSONValue.string "y"), ("b", JSONValue.string "x")])]

/-- The body of the answer to `POST /api/teams` and its reading. -/
def teamCreatedBody : String :=
  "\x7b\"id\":\"t-1\",\"name\":\"platform\",\"description\":null\x7d"

/-- The body of the answer to `GET /api/teams/t-1` for a team with the given members. -/
def teamDetailBody (members : List String) : String :=
  "\x7b\"id\":\"t-1\",\"name\":\"platform\",\"description\":null,\"members\":[" ++
    ",".intercalate (members.map (fun m => "\x7b\"id\":" ++ quoteString m ++ "\x7d")) ++
    "]\x7d"

/-- The reading of `teamDetailBody members`. -/
def teamDetail (members : List String) : teamDetailResponse :=
  { ID := "t-1", Name := "platform", Description := none,
    Members := members.map (fun m => { ID := m }) }

/-- The body of the answer to a call on an escalation policy whose rules are `rules`. -/
def policyBody (rules : String) : String :=
  "\x7b\"id\":\"ep-1\",\"name\":\"primary\",\"description\":null,\"rules\":" ++ rules ++ "\x7d"

/-- An environment for calls that encode and decode: the client of
`https://signalcraft.example`, every request built, round trip number `n` answered with
element `n` of `answers` (a refused connection past the end), the calls of
`uuid.NewString()` returning the strings of `uuids` in order, the encoder of the payload
structs, and decoders that read the example bodies. -/
def apiProvider (uuids : List String) (answers : List (Except String Response)) : Provider :=
  { client := { BaseURL := "https://signalcraft.example", APIKey := "secret" }
    NewRequest := fun _ _ => none
    Do := fun n _ => answers.getD n (Except.error "connection refused")
    NewString := fun n => uuids.getD n ""
    Marshal := marshalPayload
    Unmarshal := decodeTable exampleValues
    MarshalValue := jsonMarshal
    decodeTeam := decodeTable
      [(teamCreatedBody, { ID := "t-1", Name := "platform", Description := none })]
    decodeTeamDetail := decodeTable
      [(teamDetailBody ["u1", "u2"], teamDetail ["u1", "u2"]),
       (teamDetailBody ["u2", "u3"], teamDetail ["u2", "u3"]),
       (teamDetailBody ["u1"], teamDetail ["u1"])]
    decodeEscalationPolicy := decodeTable
      [(policyBody sortedRules,
        { ID := "ep-1", Name := "primary", Description := none,
          Rules := JSONValue.object [("a", JSONValue.string "y"), ("b", JSONValue.string "x")] })]
    decodeRoutingRule := decodeTable []
    decodeSchedule := decodeTable []
    decodeInvitation := decodeTable []
    decodeInvitations := decodeTable []
    decodeUsers := decodeTable []
    decodeWorkspace := decodeTable []
    PlanGet := []
    StateGet := []
    StateSet := []
    ElementsAs := fun _ => []
    SetValueFrom := fun _ => [] }

/-- An answer with a status and a body. -/
def answer (status : Int) (body : String) : Except String Response :=
  Except.ok { StatusCode := status, Body := body }

/-- The error diagnostic `AddError(summary, detail)` adds. -/
def errorDiagnostic (summary detail : String) : Diagnostic :=
  { severity := Severity.error, summary := summary, detail := detail }

/-- An operation stopped by the error diagnostic `d` before any remote call: it made no
round trip and no call on the state, its diagnostics hold an error, and they hold `d`
unless reading the plan (and the state) had already failed with `getDiags`. -/
def OpResult.blockedBy {σ : Type} (r : OpResult σ) (getDiags : Diagnostics)
    (d : Diagnostic) : Prop :=
  r.session.exchanges = [] ∧ r.State.kind = StateKind.untouched ∧
    Diagnostics.HasError r.diagnostics = true ∧
    (Diagnostics.HasError getDiags = false → d ∈ r.diagnostics)

/-- A plan of an escalation policy with the given `rules_json`. -/
def examplePolicyPlan (rules : String) : escalationPolicyModel :=
  { ID := TfValue.unknown, Name := TfValue.value "primary", Description := TfValue.null,
    RulesJSON := TfValue.value rules }

/-- A plan of a routing rule with the given `conditions_json` and `actions_json`. -/
def exampleRoutingPlan (conditions actions : String) : routingRuleModel :=
  { ID := TfValue.unknown, Name := TfValue.value "page-db", Description := TfValue.null,
    Enabled := TfValue.value true, Priority := TfValue.value 10,
    ConditionsJSON := TfValue.value conditions, ActionsJSON := TfValue.value actions }

/-! ### Remote calls of a pass -/

/-- The request of an effect that is a round trip to SignalCraft. -/
def Event.remoteCall : Event → Option Request
  | Event.http request _ => some request
  | _ => none

/-- The requests of the round trips to SignalCraft in a trace, in order. -/
def remoteCalls (trace : List Event) : List Request :=
  trace.filterMap Event.remoteCall

/-- A stored object marked for deletion that carries only the finalizer of another
controller. -/
def foreignFinalizerPolicy : SignalCraftAlertPolicy :=
  { scenarioPolicy with
    ObjectMeta := { scenarioPolicy.ObjectMeta with
      DeletionTimestamp := some 1700000100, Finalizers := ["other.io/finalizer"] } }

/-! ### Re-running a pass -/

/-- A second pass at the time `t` on the object the first pass left in the API server,
with the configuration and the answers of the first pass. -/
def secondPass (env : Env) (t : Time) (obj : SignalCraftAlertPolicy) : Outcome :=
  Reconcile { env with now := t } (Reconcile env obj).stored

/-! ### Round trip of the structured payloads -/

/-- An environment whose `json.Unmarshal` and `json.Marshal` on `interface{}` values are
the model of `encoding/json`. -/
def jsonProvider : Provider :=
  { apiProvider [] [] with Unmarshal := jsonUnmarshal, MarshalValue := jsonMarshal }

/-- A JSON text with whitespace, a repeated key, and mappings at two depths whose keys
are not in order. -/
def nestedRules : String :=
  " \x7b\"b\": [0], \"a\": \x7b\"d\": \"x\", \"c\": [10, true, null, \x7b\x7d]\x7d, \"b\": [7, false]\x7d"

/-- The value `nestedRules` denotes, the members of each mapping in the order of the text. -/
def nestedValue : JSONValue :=
  JSONValue.object
    [("b", JSONValue.array [JSONValue.number (natToFloat64 0)]),
     ("a", JSONValue.object
       [("d", JSONValue.string "x"),
        ("c", JSONValue.array [JSONValue.number (natToFloat64 10), JSONValue.bool true,
          JSONValue.null, JSONValue.object []])]),
     ("b", JSONValue.array [JSONValue.number (natToFloat64 7), JSONValue.bool false])]

/-- The text written for the Go value of `nestedValue`. -/
def nestedRulesSorted : String :=
  "\x7b\"a\":\x7b\"c\":[10,true,null,\x7b\x7d],\"d\":\"x\"\x7d,\"b\":[7,false]\x7d"

/-- The response of the remote API that echoes the rules of a payload. -/
def echoPolicy (payload : escalationPolicyPayload) : escalationPolicyResponse :=
  { ID := "ep-1", Name := payload.Name, Description := payload.Description,
    Rules := payload.Rules }

/-- The response of the remote API that echoes the conditions and actions of a payload. -/
def echoRoutingRule (payload : routingRulePayload) : routingRuleResponse :=
  { ID := "rr-1", Name := payload.Name, Description := payload.Description,
    Enabled := payload.Enabled.getD true, Priority := payload.Priority.getD 0,
    Conditions := payload.Conditions, Actions := payload.Actions }

/-! ### Calls of the team operations -/

/-- The body `DoJSON` sends for its `body` argument: none for nil, else the text the
encoder returned. -/
def sentBody (p : Provider) : Option Payload → Option String
  | none => none
  | some body => (p.Marshal body).toOption

/-- What identifies the call of a round trip: the method, the URL and the body of the
request. -/
def Exchange.call (ex : Exchange) : String × String × Option String :=
  (ex.request.Method, ex.request.URL, ex.request.Body)

/-- The calls of the round trips of a session, in order. -/
def Session.calls (s : Session) : List (String × String × Option String) :=
  s.exchanges.map Exchange.call

/-- The call `POST /api/teams/{id}/members` that adds the member `userID`. -/
def addMemberCall (p : Provider) (teamID userID : String) : String × String × Option String :=
  ("POST", p.client.BaseURL ++ ("/api/teams/" ++ teamID ++ "/members"),
   sentBody p (some (Payload.teamMember { UserID := userID })))

/-- The call `DELETE /api/teams/{id}/members/{userId}` that removes the member `userID`. -/
def removeMemberCall (p : Provider) (teamID userID : String) :
    String × String × Option String :=
  ("DELETE", p.client.BaseURL ++ ("/api/teams/" ++ teamID ++ "/members/" ++ userID), none)

/-- One add call per element of `delta.1` in order, then one remove call per element of
`delta.2` in order. -/
def memberCalls (p : Provider) (teamID : String) (delta : List String × List String) :
    List (String × String × Option String) :=
  delta.1.map (addMemberCall p teamID) ++ delta.2.map (removeMemberCall p teamID)

/-- The call `PUT /api/teams/{id}` of `Update` for a plan. -/
def putTeamCall (p : Provider) (teamID : String) (plan : teamModel) :
    String × String × Option String :=
  ("PUT", p.client.BaseURL ++ ("/api/teams/" ++ teamID),
   sentBody p (some (Payload.team (buildTeamPayload plan).1)))

/-- The call `POST /api/teams` of `Create` for a plan. -/
def postTeamCall (p : Provider) (plan : teamModel) : String × String × Option String :=
  ("POST", p.client.BaseURL ++ "/api/teams",
   sentBody p (some (Payload.team (buildTeamPayload plan).1)))

/-- The call `GET /api/teams/{id}` of `readTeamState`. -/
def getTeamCall (p : Provider) (teamID : String) : String × String × Option String :=
  ("GET", p.client.BaseURL ++ ("/api/teams/" ++ teamID), none)

/-- A plan of the team `platform` with the given members. -/
def exampleTeamPlan (members : List String) : teamModel :=
  { ID := TfValue.value "t-1", Name := TfValue.value "platform",
    Description := TfValue.null, Members := TfValue.value members }

/-! ### Failing passes, by the environment -/

/-- The environment makes the remote delete of `obj` fail: the request cannot be built,
or the transport returns an error, or the answer has a status outside 200..299 other than
404. -/
def deleteFails (env : Env) (obj : SignalCraftAlertPolicy) : Prop :=
  env.NewRequest "DELETE"
      (deleteRequest env env.SIGNALCRAFT_API_URL env.SIGNALCRAFT_API_KEY obj).URL ≠ none ∨
  (∃ err, env.Do (deleteRequest env env.SIGNALCRAFT_API_URL env.SIGNALCRAFT_API_KEY obj)
      = Except.error err) ∨
  (∃ s, env.Do (deleteRequest env env.SIGNALCRAFT_API_URL env.SIGNALCRAFT_API_KEY obj)
      = Except.ok s ∧ (s < 200 ∨ s ≥ 300) ∧ s ≠ 404)

/-- The environment makes the upsert of `policy` fail: the payload cannot be encoded, or
the request cannot be built, or the transport returns an error, or the answer has a
status outside 200..299. -/
def upsertFails (env : Env) (policy : SignalCraftAlertPolicy) : Prop :=
  (∃ err, env.jsonMarshal (buildPayload policy) = Except.error err) ∨
  (∃ body, env.jsonMarshal (buildPayload policy) = Except.ok body ∧
    (env.NewRequest "POST" (env.SIGNALCRAFT_API_URL ++ "/api/alert-policies/upsert") ≠ none ∨
     (∃ err, env.Do (upsertRequest env.SIGNALCRAFT_API_URL env.SIGNALCRAFT_API_KEY policy body)
        = Except.error err) ∨
     (∃ s, env.Do (upsertRequest env.SIGNALCRAFT_API_URL env.SIGNALCRAFT_API_KEY policy body)
        = Except.ok s ∧ (s < 200 ∨ s ≥ 300))))

/-- The three failures of a pass on an object the API server returns, stated by the
environment and the object: the configuration is missing; or the object has a deletion
timestamp and the finalizer, and the remote delete fails; or the object has no deletion
timestamp, the finalizer is present or its attachment is stored, and the upsert fails. -/
def PassFails (env : Env) (obj : SignalCraftAlertPolicy) : Prop :=
  env.Get = none ∧
  ((env.SIGNALCRAFT_API_URL = "" ∨ env.SIGNALCRAFT_API_KEY = "") ∨
   (¬ (env.SIGNALCRAFT_API_URL = "" ∨ env.SIGNALCRAFT_API_KEY = "") ∧
    obj.ObjectMeta.DeletionTimestamp ≠ none ∧ finalizer ∈ obj.ObjectMeta.Finalizers ∧
    deleteFails env obj) ∨
   (¬ (env.SIGNALCRAFT_API_URL = "" ∨ env.SIGNALCRAFT_API_KEY = "") ∧
    obj.ObjectMeta.DeletionTimestamp = none ∧ finalizer ∈ obj.ObjectMeta.Finalizers ∧
    upsertFails env obj) ∨
   (¬ (env.SIGNALCRAFT_API_URL = "" ∨ env.SIGNALCRAFT_API_KEY = "") ∧
    obj.ObjectMeta.DeletionTimestamp = none ∧ finalizer ∉ obj.ObjectMeta.Finalizers ∧
    env.Update (attachFinalizer obj) = none ∧ upsertFails env (attachFinalizer obj)))

/-- An environment like `scenarioEnv` whose transport fails with `err`. -/
def unreachableEnv (err : String) (body : String) : Env :=
  { scenarioEnv 200 body with Do := fun _ => Except.error err }

/-! ### Draws of `uuid.NewString()` and the calls they are made for -/

/-- The idempotency keys of the round trips of a session that are not GET requests, in
the order the calls were made. -/
def Session.mutatingKeys (s : Session) : List String :=
  (s.exchanges.filter (fun ex => decide (ex.request.Method ≠ "GET"))).map
    (fun ex => ex.idempotencyKey)

/-- Every `uuid.NewString()` call made so far was made for one mutating round trip: call
number `i` of `uuid.NewString()` returned the key of mutating round trip number `i`. -/
def Session.Drawn (p : Provider) (s : Session) : Prop :=
  s.mutatingKeys = (List.range s.uuids).map p.NewString

/-- The same, except that the last `uuid.NewString()` call may have been made for a call
of `DoJSON` that failed before its round trip. -/
def Session.DrawnUpTo (p : Provider) (s : Session) : Prop :=
  ∃ k, k ≤ s.uuids ∧ s.uuids ≤ k + 1 ∧ s.mutatingKeys = (List.range k).map p.NewString

/-- The request of the call `POST /api/teams` of `Create`, the first round trip of the
operation, with the first string `uuid.NewString()` returns as key. -/
def postTeamRequest (p : Provider) (plan : teamModel) : Request :=
  p.client.newRequest "POST" (p.client.BaseURL ++ "/api/teams")
    (sentBody p (some (Payload.team (buildTeamPayload plan).1))) (p.NewString 0)

/-- A plan of a new team `platform` with the given members: the identifier is not known
before the team is created. -/
def newTeamPlan (members : List String) : teamModel :=
  { ID := TfValue.unknown, Name := TfValue.value "platform",
    Description := TfValue.null, Members := TfValue.value members }

/-! ## Lemmas on the diff loops -/

theorem StringSet.has_iff (m : StringSet) (v : String) : m.has v = true ↔ v ∈ m := by
  simp [StringSet.has]

theorem StringSet.mem_set (m : StringSet) (v x : String) :
    x ∈ m.set v ↔ x ∈ m ∨ x = v := by
  unfold StringSet.set
  by_cases h : m.has v = true
  · have hv : v ∈ m := (StringSet.has_iff m v).1 h
    simp only [h, if_true]
    constructor
    · intro hx; exact Or.inl hx
    · rintro (hx | rfl)
      · exact hx
      · exact hv
  · simp [h]

theorem foldl_set_mem (l : List String) (m : StringSet) (x : String) :
    x ∈ l.foldl (fun acc value => StringSet.set acc value) m ↔ x ∈ m ∨ x ∈ l := by
  induction l generalizing m with
  | nil => simp
  | cons a t ih =>
    simp only [List.foldl_cons, ih, StringSet.mem_set, List.mem_cons]
    tauto

theorem mem_buildCurrentMap (current : List String) (x : String) :
    x ∈ buildCurrentMap current ↔ x ∈ current := by
  simp [buildCurrentMap, foldl_set_mem, StringSet.empty]

theorem desiredLoop_fold (currentMap : StringSet) (desired : List String)
    (st : StringSet × List String) :
    desired.foldl
      (fun st value =>
        let desiredMap := StringSet.set st.1 value
        if !currentMap.has value then (desiredMap, st.2 ++ [value]) else (desiredMap, st.2))
      st
    = (desired.foldl (fun acc value => StringSet.set acc value) st.1,
       st.2 ++ desired.filter (fun value => !currentMap.has value)) := by
  induction desired generalizing st with
  | nil => simp
  | cons a t ih =>
    rw [List.foldl_cons, ih]
    by_cases h : currentMap.has a = true
    · simp [h, List.filter_cons]
    · simp [h, List.filter_cons]

theorem desiredLoop_eq (currentMap : StringSet) (desired : List String) :
    desiredLoop currentMap desired
    = (desired.foldl (fun acc value => StringSet.set acc value) StringSet.empty,
       desired.filter (fun value => !currentMap.has value)) := by
  unfold desiredLoop
  rw [desiredLoop_fold]
  simp

theorem removeLoop_fold (desiredMap : StringSet) (current acc : List String) :
    current.foldl
      (fun toRemove value => if !desiredMap.has value then toRemove ++ [value] else toRemove)
      acc
    = acc ++ current.filter (fun value => !desiredMap.has value) := by
  induction current generalizing acc with
  | nil => simp
  | cons a t ih =>
    rw [List.foldl_cons, ih]
    by_cases h : desiredMap.has a = true
    · simp [h, List.filter_cons]
    · simp [h, List.filter_cons]

theorem removeLoop_eq (desiredMap : StringSet) (current : List String) :
    removeLoop desiredMap current = current.filter (fun value => !desiredMap.has value) := by
  unfold removeLoop
  rw [removeLoop_fold]
  simp

theorem mem_toAdd (current desired : List String) (x : String) :
    x ∈ (diffStringSets current desired).1 ↔ x ∈ desired ∧ x ∉ current := by
  simp only [diffStringSets, desiredLoop_eq, List.mem_filter, Bool.not_eq_true']
  rw [← Bool.not_eq_true, StringSet.has_iff, mem_buildCurrentMap]

theorem mem_toRemove (current desired : List String) (x : String) :
    x ∈ (diffStringSets current desired).2 ↔ x ∈ current ∧ x ∉ desired := by
  simp only [diffStringSets, desiredLoop_eq, removeLoop_eq, List.mem_filter, Bool.not_eq_true']
  rw [← Bool.not_eq_true, StringSet.has_iff, foldl_set_mem]
  simp [StringSet.empty]

theorem diff_eq_nil_of (current desired : List String)
    (h : ∀ x, x ∈ current ↔ x ∈ desired) : diffStringSets current desired = ([], []) := by
  have h1 : (diffStringSets current desired).1 = [] := by
    apply List.eq_nil_iff_forall_not_mem.2
    intro x hx
    have := (mem_toAdd current desired x).1 hx
    exact this.2 ((h x).2 this.1)
  have h2 : (diffStringSets current desired).2 = [] := by
    apply List.eq_nil_iff_forall_not_mem.2
    intro x hx
    have := (mem_toRemove current desired x).1 hx
    exact this.2 ((h x).1 this.1)
  exact Prod.ext h1 h2

/-! ## Lemmas on membership calls -/

theorem mem_applyMemberOps (ops : List MemberOp) (members : List String) (x : String)
    (hdisj : ∀ y, MemberOp.add y ∈ ops → MemberOp.remove y ∉ ops) :
    x ∈ applyMemberOps members ops ↔
      (x ∈ members ∧ MemberOp.remove x ∉ ops) ∨ MemberOp.add x ∈ ops := by
  induction ops generalizing members with
  | nil => simp [applyMemberOps]
  | cons op t ih =>
    have hdisj_t : ∀ y, MemberOp.add y ∈ t → MemberOp.remove y ∉ t := by
      intro y hy hr
      exact hdisj y (List.mem_cons_of_mem _ hy) (List.mem_cons_of_mem _ hr)
    have hstep : applyMemberOps members (op :: t) = applyMemberOps (applyMemberOp members op) t :=
      rfl
    rw [hstep, ih (applyMemberOp members op) hdisj_t]
    cases op with
    | add a =>
      have ha : MemberOp.remove a ∉ t := by
        intro hr
        exact hdisj a (List.mem_cons_self _ _) (List.mem_cons_of_mem _ hr)
      have hmem : x ∈ applyMemberOp members (MemberOp.add a) ↔ x ∈ members ∨ x = a := by
        unfold applyMemberOp
        by_cases h : a ∈ members
        · simp only [h, if_true]
          constructor
          · intro hx; exact Or.inl hx
          · rintro (hx | rfl)
            · exact hx
            · exact h
        · simp [h]
      rw [hmem]
      simp only [List.mem_cons, MemberOp.add.injEq, reduceCtorEq, false_or]
      constructor
      · rintro (⟨hx | rfl, hr⟩ | hadd)
        · exact Or.inl ⟨hx, hr⟩
        · exact Or.inr (Or.inl rfl)
        · exact Or.inr (Or.inr hadd)
      · rintro (⟨hx, hr⟩ | rfl | hadd)
        · exact Or.inl ⟨Or.inl hx, hr⟩
        · exact Or.inl ⟨Or.inr rfl, ha⟩
        · exact Or.inr hadd
    | remove r =>
      have hmem : x ∈ applyMemberOp members (MemberOp.remove r) ↔ x ∈ members ∧ x ≠ r := by
        simp [applyMemberOp]
      rw [hmem]
      simp only [List.mem_cons, MemberOp.remove.injEq, reduceCtorEq, false_or, not_or]
      tauto

theorem add_mem_memberOps (delta : List String × List String) (x : String) :
    MemberOp.add x ∈ memberOps delta ↔ x ∈ delta.1 := by
  simp [memberOps]

theorem remove_mem_memberOps (delta : List String × List String) (x : String) :
    MemberOp.remove x ∈ memberOps delta ↔ x ∈ delta.2 := by
  simp [memberOps]

/-! ## Lemmas on the controller helpers -/

theorem containsString_iff (items : List String) (value : String) :
    containsString items value = true ↔ value ∈ items := by
  induction items with
  | nil => simp [containsString]
  | cons item rest ih =>
    unfold containsString
    by_cases h : item = value
    · simp [h]
    · simp only [h, if_false, ih, List.mem_cons]
      constructor
      · intro hv; exact Or.inr hv
      · rintro (hv | hv)
        · exact absurd hv.symm h
        · exact hv

theorem removeString_fold (items acc : List String) (value : String) :
    items.foldl (fun result item => if item ≠ value then result ++ [item] else result) acc
    = acc ++ items.filter (fun item => decide (item ≠ value)) := by
  induction items generalizing acc with
  | nil => simp
  | cons a t ih =>
    rw [List.foldl_cons, ih]
    by_cases h : a = value
    · simp [h, List.filter_cons]
    · simp [h, List.filter_cons]

theorem removeString_eq_filter (items : List String) (value : String) :
    removeString items value = items.filter (fun item => decide (item ≠ value)) := by
  unfold removeString
  rw [removeString_fold]
  simp

theorem mem_removeString (items : List String) (value x : String) :
    x ∈ removeString items value ↔ x ∈ items ∧ x ≠ value := by
  simp [removeString_eq_filter]

/-! ## Lemmas on the remote calls -/

/-- The round trips of `deleteAlertPolicy` are DELETE requests, and it returns no error
only after one of them was answered with 404 or a status in 200..299. -/
theorem deleteAlertPolicy_spec (env : Env) (baseURL apiKey : String)
    (policy : SignalCraftAlertPolicy) :
    ((deleteAlertPolicy env baseURL apiKey policy).1 = none →
      ∃ s : Int, (s = 404 ∨ (200 ≤ s ∧ s < 300)) ∧
        (deleteAlertPolicy env baseURL apiKey policy).2
          = [Event.http (deleteRequest env baseURL apiKey policy) (Except.ok s)]) ∧
    (∀ ev ∈ (deleteAlertPolicy env baseURL apiKey policy).2,
      ∃ resp, ev = Event.http (deleteRequest env baseURL apiKey policy) resp) := by
  unfold deleteAlertPolicy
  simp only
  cases hnew : env.NewRequest "DELETE" (deleteRequest env baseURL apiKey policy).URL with
  | some e => simp
  | none =>
    cases hdo : env.Do (deleteRequest env baseURL apiKey policy) with
    | error e => simp
    | ok s =>
      by_cases h404 : s = 404
      · simp [h404]
      · by_cases hbad : s < 200 ∨ s ≥ 300
        · simp [h404, hbad]
        · have hok : 200 ≤ s ∧ s < 300 := by omega
          simp [h404, hbad, hok]

/-- When the answer to the delete request is a transport error or a status outside
200..299 other than 404, `deleteAlertPolicy` returns an error. -/
theorem deleteAlertPolicy_fails (env : Env) (baseURL apiKey : String)
    (policy : SignalCraftAlertPolicy)
    (hfail : ∀ s, env.Do (deleteRequest env baseURL apiKey policy) = Except.ok s →
      (s < 200 ∨ s ≥ 300) ∧ s ≠ 404) :
    ∃ err, (deleteAlertPolicy env baseURL apiKey policy).1 = some err := by
  unfold deleteAlertPolicy
  simp only
  cases hnew : env.NewRequest "DELETE" (deleteRequest env baseURL apiKey policy).URL with
  | some e => exact ⟨e, rfl⟩
  | none =>
    cases hdo : env.Do (deleteRequest env baseURL apiKey policy) with
    | error e => exact ⟨e, rfl⟩
    | ok s =>
      have h := hfail s hdo
      simp [h.1, h.2]

/-! ## Lemmas on the stored object -/

theorem storeStatus_meta (stored policy : SignalCraftAlertPolicy) (err : Option String) :
    (storeStatus stored policy err).ObjectMeta = stored.ObjectMeta := by
  cases err <;> rfl

theorem storeStatus_spec (stored policy : SignalCraftAlertPolicy) (err : Option String) :
    (storeStatus stored policy err).Spec = stored.Spec := by
  cases err <;> rfl

theorem storeStatus_status (stored policy : SignalCraftAlertPolicy) (err : Option String) :
    (storeStatus stored policy err).Status
      = if err = none then policy.Status else stored.Status := by
  cases err <;> rfl

theorem storeUpdate_status (stored policy : SignalCraftAlertPolicy) (err : Option String) :
    (storeUpdate stored policy err).Status = stored.Status := by
  cases err <;> rfl

theorem storeUpdate_meta (stored policy : SignalCraftAlertPolicy) (err : Option String) :
    (storeUpdate stored policy err).ObjectMeta
      = if err = none then policy.ObjectMeta else stored.ObjectMeta := by
  cases err <;> rfl

theorem failPass_policy (env : Env) (stored policy : SignalCraftAlertPolicy)
    (message : String) (trace : List Event) (exit : Exit) :
    (failPass env stored policy message trace exit).policy
      = some (withErrorStatus env policy message) := rfl

theorem failPass_stored (env : Env) (stored policy : SignalCraftAlertPolicy)
    (message : String) (trace : List Event) (exit : Exit) :
    (failPass env stored policy message trace exit).stored
      = storeStatus stored (withErrorStatus env policy message)
          (env.StatusUpdate (withErrorStatus env policy message)) := rfl

theorem failPass_trace (env : Env) (stored policy : SignalCraftAlertPolicy)
    (message : String) (trace : List Event) (exit : Exit) :
    (failPass env stored policy message trace exit).trace
      = trace ++ [Event.statusUpdate (withErrorStatus env policy message)
          (env.StatusUpdate (withErrorStatus env policy message))] := rfl

theorem failPass_result (env : Env) (stored policy : SignalCraftAlertPolicy)
    (message : String) (trace : List Event) (exit : Exit) :
    (failPass env stored policy message trace exit).result = { RequeueAfter := Minute } := rfl

theorem failPass_err (env : Env) (stored policy : SignalCraftAlertPolicy)
    (message : String) (trace : List Event) (exit : Exit) :
    (failPass env stored policy message trace exit).err = none := rfl

/-! ## Lemmas on the passes -/

/-- When the delete request is sent and answered with 404 or a status in 200..299,
`deleteAlertPolicy` returns no error after that single round trip. -/
theorem deleteAlertPolicy_ok (env : Env) (baseURL apiKey : String)
    (policy : SignalCraftAlertPolicy) (s : Int)
    (hnew : env.NewRequest "DELETE" (deleteRequest env baseURL apiKey policy).URL = none)
    (hs : s = 404 ∨ (200 ≤ s ∧ s < 300))
    (hdo : env.Do (deleteRequest env baseURL apiKey policy) = Except.ok s) :
    deleteAlertPolicy env baseURL apiKey policy
      = (none, [Event.http (deleteRequest env baseURL apiKey policy) (Except.ok s)]) := by
  unfold deleteAlertPolicy
  simp only [hnew, hdo]
  by_cases h404 : s = 404
  · simp [h404]
  · have hbad : ¬ (s < 200 ∨ s ≥ 300) := by omega
    simp [h404, hbad]

/-- Every round trip of `syncAlertPolicy` is the upsert request for some encoded body. -/
theorem syncAlertPolicy_events (env : Env) (baseURL apiKey : String)
    (policy : SignalCraftAlertPolicy) :
    ∀ ev ∈ (syncAlertPolicy env baseURL apiKey policy).2,
      ∃ body resp, ev = Event.http (upsertRequest baseURL apiKey policy body) resp := by
  unfold syncAlertPolicy
  cases hm : env.jsonMarshal (buildPayload policy) with
  | error e => simp
  | ok body =>
    cases hnew : env.NewRequest "POST" (baseURL ++ "/api/alert-policies/upsert") with
    | some e => simp
    | none =>
      intro ev hev
      simp only at hev
      cases hdo : env.Do (upsertRequest baseURL apiKey policy body) with
      | error e =>
        rw [hdo] at hev
        exact ⟨body, _, List.mem_singleton.1 hev⟩
      | ok st =>
        rw [hdo] at hev
        by_cases hbad : st < 200 ∨ st ≥ 300
        · simp only [hbad, if_true] at hev
          exact ⟨body, _, List.mem_singleton.1 hev⟩
        · simp only [hbad, if_false] at hev
          exact ⟨body, _, List.mem_singleton.1 hev⟩

theorem upsertRequest_method (baseURL apiKey : String) (policy : SignalCraftAlertPolicy)
    (body : String) : (upsertRequest baseURL apiKey policy body).Method = "POST" := rfl

theorem deleteRequest_method (env : Env) (baseURL apiKey : String)
    (policy : SignalCraftAlertPolicy) :
    (deleteRequest env baseURL apiKey policy).Method = "DELETE" := rfl

theorem syncPass_stored_meta (env : Env) (stored policy : SignalCraftAlertPolicy)
    (trace : List Event) :
    (syncPass env stored policy trace).stored.ObjectMeta = stored.ObjectMeta := by
  unfold syncPass
  simp only
  split
  · rw [failPass_stored, storeStatus_meta]
  · simp only [storeStatus_meta]

theorem syncPass_policy_meta (env : Env) (stored policy : SignalCraftAlertPolicy)
    (trace : List Event) :
    ∃ p, (syncPass env stored policy trace).policy = some p ∧
      p.ObjectMeta = policy.ObjectMeta := by
  unfold syncPass
  simp only
  split
  · exact ⟨_, rfl, rfl⟩
  · exact ⟨_, rfl, rfl⟩

/-- The trace of the tail of a pass: what came before, the round trips of
`syncAlertPolicy`, and one status write. -/
theorem syncPass_trace (env : Env) (stored policy : SignalCraftAlertPolicy)
    (trace : List Event) :
    ∃ o e, (syncPass env stored policy trace).trace
      = trace ++ (syncAlertPolicy env env.SIGNALCRAFT_API_URL env.SIGNALCRAFT_API_KEY policy).2
          ++ [Event.statusUpdate o e] := by
  unfold syncPass
  simp only
  split
  · exact ⟨_, _, by rw [failPass_trace]⟩
  · exact ⟨_, _, rfl⟩

/-- A pass on an object that carries the finalizer either keeps the finalizer list, in
memory and in the API server, or ran on an object with a deletion timestamp and had its
delete request answered with 404 or a status in 200..299. -/
theorem Reconcile_keeps_or_deleted (env : Env) (obj : SignalCraftAlertPolicy)
    (hbefore : finalizer ∈ obj.ObjectMeta.Finalizers) :
    ((Reconcile env obj).stored.ObjectMeta = obj.ObjectMeta ∧
      ∀ p, (Reconcile env obj).policy = some p → p.ObjectMeta = obj.ObjectMeta) ∨
    (obj.ObjectMeta.DeletionTimestamp ≠ none ∧
      ∃ s : Int, (s = 404 ∨ (200 ≤ s ∧ s < 300)) ∧
        Event.http (deleteRequest env env.SIGNALCRAFT_API_URL env.SIGNALCRAFT_API_KEY obj)
          (Except.ok s) ∈ (Reconcile env obj).trace) := by
  have hc : containsString obj.ObjectMeta.Finalizers finalizer = true :=
    (containsString_iff _ _).2 hbefore
  unfold Reconcile
  cases hget : env.Get with
  | some e =>
    left
    exact ⟨rfl, fun p hp => by cases hp⟩
  | none =>
    simp only
    by_cases hcfg : env.SIGNALCRAFT_API_URL = "" ∨ env.SIGNALCRAFT_API_KEY = ""
    · left
      rw [if_pos hcfg]
      refine ⟨by rw [failPass_stored, storeStatus_meta], ?_⟩
      intro p hp
      rw [failPass_policy] at hp
      cases hp
      rfl
    · rw [if_neg hcfg]
      by_cases hdel : obj.ObjectMeta.DeletionTimestamp ≠ none
      · rw [if_pos hdel, if_pos hc]
        cases hd : (deleteAlertPolicy env env.SIGNALCRAFT_API_URL env.SIGNALCRAFT_API_KEY
            obj).1 with
        | some e =>
          left
          simp only
          refine ⟨by rw [failPass_stored, storeStatus_meta], ?_⟩
          intro p hp
          rw [failPass_policy] at hp
          cases hp
          rfl
        | none =>
          right
          obtain ⟨s, hs, hev⟩ := (deleteAlertPolicy_spec env env.SIGNALCRAFT_API_URL
            env.SIGNALCRAFT_API_KEY obj).1 hd
          refine ⟨hdel, s, hs, ?_⟩
          simp only [hev]
          exact List.mem_cons_self _ _
      · left
        rw [if_neg hdel]
        simp only [hc, Bool.not_true, Bool.false_eq_true, if_false]
        refine ⟨syncPass_stored_meta env obj obj [], ?_⟩
        intro p hp
        obtain ⟨q, hq, hmeta⟩ := syncPass_policy_meta env obj obj []
        rw [hq] at hp
        cases hp
        exact hmeta

/-- The round trips of `syncAlertPolicy`: none, or the upsert request of some body. -/
theorem syncAlertPolicy_events_cases (env : Env) (baseURL apiKey : String)
    (policy : SignalCraftAlertPolicy) :
    (syncAlertPolicy env baseURL apiKey policy).2 = [] ∨
    ∃ body resp, (syncAlertPolicy env baseURL apiKey policy).2
      = [Event.http (upsertRequest baseURL apiKey policy body) resp] := by
  unfold syncAlertPolicy
  cases hm : env.jsonMarshal (buildPayload policy) with
  | error e => exact Or.inl rfl
  | ok body =>
    cases hnew : env.NewRequest "POST" (baseURL ++ "/api/alert-policies/upsert") with
    | some e => exact Or.inl rfl
    | none =>
      right
      simp only
      cases hdo : env.Do (upsertRequest baseURL apiKey policy body) with
      | error e => exact ⟨body, _, rfl⟩
      | ok st =>
        by_cases hbad : st < 200 ∨ st ≥ 300
        · simp only [hbad, if_true]
          exact ⟨body, _, rfl⟩
        · simp only [hbad, if_false]
          exact ⟨body, _, rfl⟩

/-- The round trips of `deleteAlertPolicy`: none, or the delete request. -/
theorem deleteAlertPolicy_events_cases (env : Env) (baseURL apiKey : String)
    (policy : SignalCraftAlertPolicy) :
    (deleteAlertPolicy env baseURL apiKey policy).2 = [] ∨
    ∃ resp, (deleteAlertPolicy env baseURL apiKey policy).2
      = [Event.http (deleteRequest env baseURL apiKey policy) resp] := by
  unfold deleteAlertPolicy
  simp only
  cases hnew : env.NewRequest "DELETE" (deleteRequest env baseURL apiKey policy).URL with
  | some e => exact Or.inl rfl
  | none =>
    right
    cases hdo : env.Do (deleteRequest env baseURL apiKey policy) with
    | error e => exact ⟨_, rfl⟩
    | ok st =>
      by_cases h404 : st = 404
      · simp only [h404, if_true]
        exact ⟨_, rfl⟩
      · by_cases hbad : st < 200 ∨ st ≥ 300
        · simp only [h404, hbad, if_true, if_false]
          exact ⟨_, rfl⟩
        · simp only [h404, hbad, if_false]
          exact ⟨_, rfl⟩

/-- The shape of the trace of a pass: no round trip at all; or, on an object with a
deletion timestamp, the delete request first and then writes only; or, on an object
without one, the upsert request directly before the status write, preceded by nothing
when the finalizer was present and by the successful metadata update that attached it
when it was absent. -/
theorem Reconcile_trace_shape (env : Env) (obj : SignalCraftAlertPolicy) :
    (∀ request response, Event.http request response ∉ (Reconcile env obj).trace) ∨
    (obj.ObjectMeta.DeletionTimestamp ≠ none ∧
      ∃ response o e, (Reconcile env obj).trace
        = [Event.http (deleteRequest env env.SIGNALCRAFT_API_URL env.SIGNALCRAFT_API_KEY obj)
            response, o] ∧
        (o = Event.update (detachFinalizer obj) e ∨ ∃ q, o = Event.statusUpdate q e)) ∨
    (obj.ObjectMeta.DeletionTimestamp = none ∧ finalizer ∈ obj.ObjectMeta.Finalizers ∧
      ∃ body response o e, (Reconcile env obj).trace
        = [Event.http (upsertRequest env.SIGNALCRAFT_API_URL env.SIGNALCRAFT_API_KEY obj body)
            response, Event.statusUpdate o e]) ∨
    (obj.ObjectMeta.DeletionTimestamp = none ∧ finalizer ∉ obj.ObjectMeta.Finalizers ∧
      env.Update (attachFinalizer obj) = none ∧
      ∃ body response o e, (Reconcile env obj).trace
        = [Event.update (attachFinalizer obj) none,
           Event.http (upsertRequest env.SIGNALCRAFT_API_URL env.SIGNALCRAFT_API_KEY
            (attachFinalizer obj) body) response,
           Event.statusUpdate o e]) := by
  unfold Reconcile
  cases hget : env.Get with
  | some err =>
    left
    intro request response hmem
    cases hmem
  | none =>
    simp only
    by_cases hcfg : env.SIGNALCRAFT_API_URL = "" ∨ env.SIGNALCRAFT_API_KEY = ""
    · left
      rw [if_pos hcfg]
      intro request response hmem
      simp [failPass_trace] at hmem
    · rw [if_neg hcfg]
      by_cases hdel : obj.ObjectMeta.DeletionTimestamp ≠ none
      · rw [if_pos hdel]
        by_cases hc : containsString obj.ObjectMeta.Finalizers finalizer = true
        · rw [if_pos hc]
          rcases deleteAlertPolicy_events_cases env env.SIGNALCRAFT_API_URL
            env.SIGNALCRAFT_API_KEY obj with hnone | ⟨response, hone⟩
          · left
            intro request response hmem
            split at hmem
            · simp [failPass_trace, hnone] at hmem
            · simp [hnone] at hmem
          · right
            left
            refine ⟨hdel, response, ?_⟩
            split
            · exact ⟨_, _, by rw [failPass_trace, hone]; rfl, Or.inr ⟨_, rfl⟩⟩
            · exact ⟨_, _, by simp only [hone]; rfl, Or.inl rfl⟩
        · left
          rw [if_neg hc]
          intro request response hmem
          cases hmem
      · rw [if_neg hdel]
        have hdel0 : obj.ObjectMeta.DeletionTimestamp = none := not_not.1 hdel
        by_cases hc : containsString obj.ObjectMeta.Finalizers finalizer = true
        · have hfin : finalizer ∈ obj.ObjectMeta.Finalizers := (containsString_iff _ _).1 hc
          simp only [hc, Bool.not_true, Bool.false_eq_true, if_false]
          obtain ⟨o, e, htrace⟩ := syncPass_trace env obj obj []
          rcases syncAlertPolicy_events_cases env env.SIGNALCRAFT_API_URL
            env.SIGNALCRAFT_API_KEY obj with hnone | ⟨body, response, hone⟩
          · left
            intro request response hmem
            rw [htrace, hnone] at hmem
            simp at hmem
          · right
            right
            left
            refine ⟨hdel0, hfin, body, response, o, e, ?_⟩
            rw [htrace, hone]
            rfl
        · have hfin : finalizer ∉ obj.ObjectMeta.Finalizers :=
            fun hmem => hc ((containsString_iff _ _).2 hmem)
          have hcf : containsString obj.ObjectMeta.Finalizers finalizer = false := by
            simpa using hc
          simp only [hcf, Bool.not_false, if_true]
          cases hu : env.Update (attachFinalizer obj) with
          | some err =>
            left
            intro request response hmem
            simp at hmem
          | none =>
            simp only
            obtain ⟨o, e, htrace⟩ := syncPass_trace env
              (storeUpdate obj (attachFinalizer obj) none) (attachFinalizer obj)
              [Event.update (attachFinalizer obj) none]
            rcases syncAlertPolicy_events_cases env env.SIGNALCRAFT_API_URL
              env.SIGNALCRAFT_API_KEY (attachFinalizer obj) with hnone | ⟨body, response, hone⟩
            · left
              intro request response hmem
              rw [htrace, hnone] at hmem
              simp at hmem
            · right
              right
              right
              refine ⟨hdel0, hfin, trivial, body, response, o, e, ?_⟩
              rw [htrace, hone]
              rfl

theorem storedAfter_append (stored : SignalCraftAlertPolicy) (l1 l2 : List Event) :
    storedAfter stored (l1 ++ l2) = storedAfter (storedAfter stored l1) l2 := by
  induction l1 generalizing stored with
  | nil => rfl
  | cons ev rest ih =>
    cases ev with
    | http request response => exact ih stored
    | update o e => exact ih (storeUpdate stored o e)
    | statusUpdate o e => exact ih (storeStatus stored o e)

theorem storedAfter_events_of_http (stored : SignalCraftAlertPolicy) (l : List Event)
    (h : ∀ ev ∈ l, ∃ request response, ev = Event.http request response) :
    storedAfter stored l = stored := by
  induction l with
  | nil => rfl
  | cons ev rest ih =>
    obtain ⟨request, response, hev⟩ := h ev (List.mem_cons_self _ _)
    subst hev
    exact ih (fun ev hmem => h ev (List.mem_cons_of_mem _ hmem))

theorem failPass_storedAfter (env : Env) (stored start policy : SignalCraftAlertPolicy)
    (message : String) (trace : List Event) (exit : Exit)
    (h : storedAfter start trace = stored) :
    (failPass env stored policy message trace exit).stored
      = storedAfter start (failPass env stored policy message trace exit).trace := by
  rw [failPass_stored, failPass_trace, storedAfter_append, h]
  rfl

theorem syncPass_storedAfter (env : Env) (stored start policy : SignalCraftAlertPolicy)
    (trace : List Event) (h : storedAfter start trace = stored) :
    (syncPass env stored policy trace).stored
      = storedAfter start (syncPass env stored policy trace).trace := by
  have hsync : storedAfter stored
      (syncAlertPolicy env env.SIGNALCRAFT_API_URL env.SIGNALCRAFT_API_KEY policy).2 = stored := by
    apply storedAfter_events_of_http
    intro ev hev
    obtain ⟨body, resp, h⟩ := syncAlertPolicy_events env _ _ policy ev hev
    exact ⟨_, _, h⟩
  unfold syncPass
  simp only
  split
  · apply failPass_storedAfter
    rw [storedAfter_append, h, hsync]
  · simp only [storedAfter_append, h, hsync]
    rfl

/-- The stored object a pass leaves is the stored object it started from with the writes
of its trace replayed on it. -/
theorem Reconcile_stored_eq (env : Env) (obj : SignalCraftAlertPolicy) :
    (Reconcile env obj).stored = storedAfter obj (Reconcile env obj).trace := by
  unfold Reconcile
  cases hget : env.Get with
  | some err => rfl
  | none =>
    simp only
    split
    · exact failPass_storedAfter env obj obj obj _ [] _ rfl
    · split
      · split
        · have hdelete : storedAfter obj
              (deleteAlertPolicy env env.SIGNALCRAFT_API_URL env.SIGNALCRAFT_API_KEY obj).2
              = obj := by
            apply storedAfter_events_of_http
            intro ev hev
            obtain ⟨resp, h⟩ := (deleteAlertPolicy_spec env _ _ obj).2 ev hev
            exact ⟨_, _, h⟩
          split
          · exact failPass_storedAfter env obj obj obj _ _ _ hdelete
          · simp only [storedAfter_append, hdelete]
            rfl
        · rfl
      · split
        · split
          · rename_i err hu
            simp only [storedAfter, storeUpdate]
          · exact syncPass_storedAfter env _ obj _ _ rfl
        · exact syncPass_storedAfter env obj obj obj [] rfl

/-- The two ways the tail of a pass ends: `syncAlertPolicy` returned an error and the
failing branch ran, or it returned none and the synced status was written. -/
theorem syncPass_cases (env : Env) (stored policy : SignalCraftAlertPolicy)
    (trace : List Event) :
    (∃ err, syncPass env stored policy trace
      = failPass env stored policy err
          (trace ++ (syncAlertPolicy env env.SIGNALCRAFT_API_URL env.SIGNALCRAFT_API_KEY
            policy).2) Exit.syncFailed) ∨
    ((syncPass env stored policy trace).exit = Exit.synced ∧
     (syncPass env stored policy trace).policy = some (withSyncedStatus env policy) ∧
     (syncPass env stored policy trace).stored
       = storeStatus stored (withSyncedStatus env policy)
          (env.StatusUpdate (withSyncedStatus env policy))) := by
  unfold syncPass
  simp only
  split
  · exact Or.inl ⟨_, rfl⟩
  · exact Or.inr ⟨rfl, rfl, rfl⟩

/-- A pass that leaves through one of the three failing branches ran `failPass` on an
object with the generation and status of the stored one. -/
theorem Reconcile_failure (env : Env) (obj : SignalCraftAlertPolicy)
    (hfail : (Reconcile env obj).exit = Exit.missingConfiguration ∨
      (Reconcile env obj).exit = Exit.deleteFailed ∨
      (Reconcile env obj).exit = Exit.syncFailed) :
    ∃ stored policy message trace exit,
      Reconcile env obj = failPass env stored policy message trace exit ∧
      policy.ObjectMeta.Generation = obj.ObjectMeta.Generation ∧
      stored.Status = obj.Status := by
  unfold Reconcile at hfail ⊢
  cases hget : env.Get with
  | some err =>
    rw [hget] at hfail
    simp at hfail
  | none =>
    rw [hget] at hfail
    simp only at hfail ⊢
    split at hfail
    · rename_i hcfg
      rw [if_pos hcfg]
      exact ⟨_, _, _, _, _, rfl, rfl, rfl⟩
    · rename_i hcfg
      rw [if_neg hcfg]
      split at hfail
      · rename_i hdel
        rw [if_pos hdel]
        split at hfail
        · rename_i hc
          rw [if_pos hc]
          split at hfail
          · exact ⟨_, _, _, _, _, rfl, rfl, rfl⟩
          · simp at hfail
        · simp at hfail
      · rename_i hdel
        rw [if_neg hdel]
        split at hfail
        · rename_i hc
          rw [if_pos hc]
          split at hfail
          · simp at hfail
          · rcases syncPass_cases env (storeUpdate obj (attachFinalizer obj) none)
              (attachFinalizer obj) [Event.update (attachFinalizer obj) none] with
              ⟨err, hsync⟩ | ⟨hexit, _, _⟩
            · exact ⟨_, _, _, _, _, hsync, rfl, rfl⟩
            · rw [hexit] at hfail
              simp at hfail
        · rename_i hc
          rw [if_neg hc]
          rcases syncPass_cases env obj obj [] with ⟨err, hsync⟩ | ⟨hexit, _, _⟩
          · exact ⟨_, _, _, _, _, hsync, rfl, rfl⟩
          · rw [hexit] at hfail
            simp at hfail

/-- A pass never changes the generation of the stored object, and the observed generation
it leaves, stored or in memory, is the previous one or the generation of the object. -/
theorem Reconcile_observedGeneration (env : Env) (obj : SignalCraftAlertPolicy) :
    (Reconcile env obj).stored.ObjectMeta.Generation = obj.ObjectMeta.Generation ∧
    ((Reconcile env obj).stored.Status.ObservedGeneration = obj.Status.ObservedGeneration ∨
     (Reconcile env obj).stored.Status.ObservedGeneration = obj.ObjectMeta.Generation) ∧
    (∀ p, (Reconcile env obj).policy = some p →
      p.Status.ObservedGeneration = obj.Status.ObservedGeneration ∨
      p.Status.ObservedGeneration = obj.ObjectMeta.Generation) := by
  have hfailPass : ∀ (stored policy : SignalCraftAlertPolicy) (message : String)
      (trace : List Event) (exit : Exit),
      policy.ObjectMeta.Generation = obj.ObjectMeta.Generation →
      stored.ObjectMeta.Generation = obj.ObjectMeta.Generation →
      stored.Status = obj.Status →
      (failPass env stored policy message trace exit).stored.ObjectMeta.Generation
        = obj.ObjectMeta.Generation ∧
      ((failPass env stored policy message trace exit).stored.Status.ObservedGeneration
          = obj.Status.ObservedGeneration ∨
       (failPass env stored policy message trace exit).stored.Status.ObservedGeneration
          = obj.ObjectMeta.Generation) ∧
      (∀ p, (failPass env stored policy message trace exit).policy = some p →
        p.Status.ObservedGeneration = obj.Status.ObservedGeneration ∨
        p.Status.ObservedGeneration = obj.ObjectMeta.Generation) := by
    intro stored policy message trace exit hgen hsgen hstatus
    refine ⟨by rw [failPass_stored, storeStatus_meta, hsgen], ?_, ?_⟩
    · rw [failPass_stored, storeStatus_status]
      split
      · exact Or.inr hgen
      · rw [hstatus]
        exact Or.inl rfl
    · intro p hp
      rw [failPass_policy] at hp
      cases hp
      exact Or.inr hgen
  have hsyncPass : ∀ (stored policy : SignalCraftAlertPolicy) (trace : List Event),
      policy.ObjectMeta.Generation = obj.ObjectMeta.Generation →
      stored.ObjectMeta.Generation = obj.ObjectMeta.Generation →
      stored.Status = obj.Status →
      (syncPass env stored policy trace).stored.ObjectMeta.Generation
        = obj.ObjectMeta.Generation ∧
      ((syncPass env stored policy trace).stored.Status.ObservedGeneration
          = obj.Status.ObservedGeneration ∨
       (syncPass env stored policy trace).stored.Status.ObservedGeneration
          = obj.ObjectMeta.Generation) ∧
      (∀ p, (syncPass env stored policy trace).policy = some p →
        p.Status.ObservedGeneration = obj.Status.ObservedGeneration ∨
        p.Status.ObservedGeneration = obj.ObjectMeta.Generation) := by
    intro stored policy trace hgen hsgen hstatus
    rcases syncPass_cases env stored policy trace with ⟨err, hsync⟩ | ⟨_, hpol, hstored⟩
    · rw [hsync]
      exact hfailPass stored policy err _ _ hgen hsgen hstatus
    · refine ⟨by rw [syncPass_stored_meta, hsgen], ?_, ?_⟩
      · rw [hstored, storeStatus_status]
        split
        · exact Or.inr hgen
        · rw [hstatus]
          exact Or.inl rfl
      · intro p hp
        rw [hpol] at hp
        cases hp
        exact Or.inr hgen
  unfold Reconcile
  cases hget : env.Get with
  | some err => exact ⟨rfl, Or.inl rfl, fun p hp => by cases hp⟩
  | none =>
    simp only
    split
    · exact hfailPass obj obj _ _ _ rfl rfl rfl
    · split
      · split
        · split
          · exact hfailPass obj obj _ _ _ rfl rfl rfl
          · refine ⟨?_, ?_, ?_⟩
            · simp only [storeUpdate_meta]
              split <;> rfl
            · rw [storeUpdate_status]
              exact Or.inl rfl
            · intro p hp
              cases hp
              exact Or.inl rfl
        · exact ⟨rfl, Or.inl rfl, fun p hp => by cases hp; exact Or.inl rfl⟩
      · split
        · split
          · exact ⟨rfl, Or.inl rfl, fun p hp => by cases hp; exact Or.inl rfl⟩
          · exact hsyncPass _ _ _ rfl rfl rfl
        · exact hsyncPass obj obj [] rfl rfl rfl

/-! ## Claims on the diff engine -/

/-- C1: for all string lists `current` and `desired`, a value is in `toAdd` exactly when it
is in `desired` and not in `current`, and a value is in `toRemove` exactly when it is in
`current` and not in `desired`. -/
theorem diffStringSets_contract (current desired : List String) (x : String) :
    (x ∈ (diffStringSets current desired).1 ↔ x ∈ desired ∧ x ∉ current) ∧
    (x ∈ (diffStringSets current desired).2 ↔ x ∈ current ∧ x ∉ desired) :=
  ⟨mem_toAdd current desired x, mem_toRemove current desired x⟩

/-- C2: after the delta `(A, R) = diffStringSets(C, D)` is applied to `C` (every element of
`R` removed, the elements of `A` appended), diffing against `D` again returns two empty
lists; for `C = [u1, u2]`, `D = [u2, u3]` the delta is `A = [u3]`, `R = [u1]` and the
converged membership re-diffs to `([], [])`. -/
theorem diffStringSets_fixed_point :
    (∀ C D : List String,
      diffStringSets
        (C.filter (fun c => decide (c ∉ (diffStringSets C D).2)) ++ (diffStringSets C D).1) D
        = ([], [])) ∧
    diffStringSets ["u1", "u2"] ["u2", "u3"] = (["u3"], ["u1"]) ∧
    diffStringSets (["u1", "u2"].filter (fun c => decide (c ∉ ["u1"])) ++ ["u3"]) ["u2", "u3"]
      = ([], []) := by
  refine ⟨?_, by decide, by decide⟩
  intro C D
  apply diff_eq_nil_of
  intro x
  simp only [List.mem_append, List.mem_filter, decide_eq_true_eq, mem_toAdd, mem_toRemove]
  tauto

/-- C3: the calls "add a" for each `a` of `toAdd` and "remove r" for each `r` of `toRemove`,
applied to the members of `C` in any order (any permutation of the combined call list),
leave a membership set whose members are exactly the members of `D`. -/
theorem delta_order_independent (C D : List String) (ops : List MemberOp)
    (hperm : ops.Perm (memberOps (diffStringSets C D))) (x : String) :
    x ∈ applyMemberOps C ops ↔ x ∈ D := by
  have hadd : ∀ y, MemberOp.add y ∈ ops ↔ y ∈ D ∧ y ∉ C := by
    intro y
    rw [hperm.mem_iff, add_mem_memberOps, mem_toAdd]
  have hrem : ∀ y, MemberOp.remove y ∈ ops ↔ y ∈ C ∧ y ∉ D := by
    intro y
    rw [hperm.mem_iff, remove_mem_memberOps, mem_toRemove]
  have hdisj : ∀ y, MemberOp.add y ∈ ops → MemberOp.remove y ∉ ops := by
    intro y ha hr
    exact ((hadd y).1 ha).2 ((hrem y).1 hr).1
  rw [mem_applyMemberOps ops C x hdisj, hadd, hrem]
  tauto

/-- Witness of C3: with `C = [u1, u2]` and `D = [u2, u3]`, issuing the removal of `u1`
before the addition of `u3` ends with the members of `D`. -/
theorem delta_order_independent_witness :
    [MemberOp.remove "u1", MemberOp.add "u3"].Perm
        (memberOps (diffStringSets ["u1", "u2"] ["u2", "u3"])) ∧
    ("u3" ∈ applyMemberOps ["u1", "u2"] [MemberOp.remove "u1", MemberOp.add "u3"] ↔
      "u3" ∈ ["u2", "u3"]) :=
  ⟨by decide,
   delta_order_independent ["u1", "u2"] ["u2", "u3"]
     [MemberOp.remove "u1", MemberOp.add "u3"] (by decide) "u3"⟩

/-- C4: when part of the delta has been applied (a sublist `A'` of `toAdd` added, a sublist
`R'` of `toRemove` removed), diffing the resulting membership against `D` returns exactly
the rest: the members of `toAdd` not in `A'` and the members of `toRemove` not in `R'`. -/
theorem diffStringSets_remaining_delta (C D A' R' C' : List String)
    (hA : A'.Sublist (diffStringSets C D).1) (hR : R'.Sublist (diffStringSets C D).2)
    (hC : ∀ x, x ∈ C' ↔ (x ∈ C ∨ x ∈ A') ∧ x ∉ R') (x : String) :
    (x ∈ (diffStringSets C' D).1 ↔ x ∈ (diffStringSets C D).1 ∧ x ∉ A') ∧
    (x ∈ (diffStringSets C' D).2 ↔ x ∈ (diffStringSets C D).2 ∧ x ∉ R') := by
  have hA' : x ∈ A' → x ∈ D ∧ x ∉ C := fun h => (mem_toAdd C D x).1 (hA.subset h)
  have hR' : x ∈ R' → x ∈ C ∧ x ∉ D := fun h => (mem_toRemove C D x).1 (hR.subset h)
  simp only [mem_toAdd, mem_toRemove, hC]
  tauto

/-- Witness of C4: `C = [u1, u2]`, `D = [u3, u4]`, one of two additions and one of two
removals done, so the remote membership is `[u2, u3]`. -/
theorem diffStringSets_remaining_delta_witness :
    ["u3"].Sublist (diffStringSets ["u1", "u2"] ["u3", "u4"]).1 ∧
    ["u1"].Sublist (diffStringSets ["u1", "u2"] ["u3", "u4"]).2 ∧
    (∀ x, x ∈ ["u2", "u3"] ↔ (x ∈ ["u1", "u2"] ∨ x ∈ ["u3"]) ∧ x ∉ ["u1"]) ∧
    (("u4" ∈ (diffStringSets ["u2", "u3"] ["u3", "u4"]).1 ↔
        "u4" ∈ (diffStringSets ["u1", "u2"] ["u3", "u4"]).1 ∧ "u4" ∉ ["u3"]) ∧
     ("u4" ∈ (diffStringSets ["u2", "u3"] ["u3", "u4"]).2 ↔
        "u4" ∈ (diffStringSets ["u1", "u2"] ["u3", "u4"]).2 ∧ "u4" ∉ ["u1"])) := by
  have hC : ∀ x, x ∈ ["u2", "u3"] ↔ (x ∈ ["u1", "u2"] ∨ x ∈ ["u3"]) ∧ x ∉ ["u1"] := by
    intro x
    simp only [List.mem_cons, List.mem_singleton, List.not_mem_nil, or_false]
    constructor
    · rintro (rfl | rfl) <;> decide
    · rintro ⟨(rfl | rfl) | rfl, h⟩
      · exact absurd rfl h
      · exact Or.inl rfl
      · exact Or.inr rfl
  exact ⟨by decide, by decide, hC,
    diffStringSets_remaining_delta ["u1", "u2"] ["u3", "u4"] ["u3"] ["u1"] ["u2", "u3"]
      (by decide) (by decide) hC "u4"⟩

/-! ## Claims on the alert-policy reconciler -/

/-- C5: for an alert policy with a deletion timestamp and the finalizer present, when the
remote delete fails (transport error, or a status outside 200..299 other than 404), the
pass leaves the finalizer list unchanged in memory and in the API server, with the
finalizer still in it, issues no metadata update, sets the status state to "Error"
(stored when the status write succeeds) and returns a requeue after one minute. -/
theorem finalizer_kept_on_failed_delete (env : Env) (obj : SignalCraftAlertPolicy)
    (hget : env.Get = none)
    (hurl : env.SIGNALCRAFT_API_URL ≠ "") (hkey : env.SIGNALCRAFT_API_KEY ≠ "")
    (hdel : obj.ObjectMeta.DeletionTimestamp ≠ none)
    (hfin : finalizer ∈ obj.ObjectMeta.Finalizers)
    (hfail : ∀ s,
      env.Do (deleteRequest env env.SIGNALCRAFT_API_URL env.SIGNALCRAFT_API_KEY obj)
        = Except.ok s → (s < 200 ∨ s ≥ 300) ∧ s ≠ 404) :
    (∃ policy, (Reconcile env obj).policy = some policy ∧
      policy.ObjectMeta.Finalizers = obj.ObjectMeta.Finalizers ∧
      policy.Status.State = "Error" ∧
      Event.statusUpdate policy (env.StatusUpdate policy) ∈ (Reconcile env obj).trace ∧
      (env.StatusUpdate policy = none → (Reconcile env obj).stored.Status.State = "Error")) ∧
    (Reconcile env obj).stored.ObjectMeta.Finalizers = obj.ObjectMeta.Finalizers ∧
    finalizer ∈ (Reconcile env obj).stored.ObjectMeta.Finalizers ∧
    (∀ o e, Event.update o e ∉ (Reconcile env obj).trace) ∧
    (Reconcile env obj).result.RequeueAfter = Minute ∧
    0 < (Reconcile env obj).result.RequeueAfter ∧
    (Reconcile env obj).err = none := by
  obtain ⟨err, herr⟩ :=
    deleteAlertPolicy_fails env env.SIGNALCRAFT_API_URL env.SIGNALCRAFT_API_KEY obj hfail
  have hev := (deleteAlertPolicy_spec env env.SIGNALCRAFT_API_URL env.SIGNALCRAFT_API_KEY obj).2
  have hc : containsString obj.ObjectMeta.Finalizers finalizer = true :=
    (containsString_iff _ _).2 hfin
  have hR : Reconcile env obj = failPass env obj obj err
      (deleteAlertPolicy env env.SIGNALCRAFT_API_URL env.SIGNALCRAFT_API_KEY obj).2
      Exit.deleteFailed := by
    unfold Reconcile
    simp [hget, hurl, hkey, hdel, hc, herr]
  rw [hR]
  refine ⟨⟨withErrorStatus env obj err, rfl, rfl, rfl, ?_, ?_⟩, ?_, ?_, ?_, rfl, ?_, rfl⟩
  · simp [failPass_trace]
  · intro hw
    rw [failPass_stored, storeStatus_status, hw]
    rfl
  · rw [failPass_stored, storeStatus_meta]
  · rw [failPass_stored, storeStatus_meta]
    exact hfin
  · intro o e hmem
    simp only [failPass_trace, List.mem_append, List.mem_singleton, reduceCtorEq,
      or_false] at hmem
    obtain ⟨resp, hresp⟩ := hev _ hmem
    cases hresp
  · rw [failPass_result]
    decide

/-- Witness of C5: the object marked for deletion, delete answered with HTTP 500. -/
theorem finalizer_kept_on_failed_delete_witness :
    finalizer ∈ (Reconcile (scenarioEnv 500 "") deletingPolicy).stored.ObjectMeta.Finalizers ∧
    (Reconcile (scenarioEnv 500 "") deletingPolicy).result.RequeueAfter = Minute := by
  have h := finalizer_kept_on_failed_delete (scenarioEnv 500 "") deletingPolicy rfl
    (by decide) (by decide) (by decide) (by decide)
    (by
      intro s hs
      have h500 : s = 500 := by
        simp only [scenarioEnv, Except.ok.injEq] at hs
        exact hs.symm
      subst h500
      decide)
  exact ⟨h.2.2.1, h.2.2.2.2.1⟩

/-- C6: for an alert policy with a deletion timestamp and the finalizer present, with
configuration available, a delete answered with HTTP 404 is treated exactly as one
answered with a status in 200..299: `deleteAlertPolicy` returns no error, the pass removes
the finalizer, leaves the status as it was (no status write, no "Error"), returns no
requeue, and returns the error of the metadata update, which is nil when the update
succeeds and the finalizer is then gone from the stored object. -/
theorem delete_404_is_success (env : Env) (obj : SignalCraftAlertPolicy) (s : Int)
    (hget : env.Get = none)
    (hurl : env.SIGNALCRAFT_API_URL ≠ "") (hkey : env.SIGNALCRAFT_API_KEY ≠ "")
    (hdel : obj.ObjectMeta.DeletionTimestamp ≠ none)
    (hfin : finalizer ∈ obj.ObjectMeta.Finalizers)
    (hnew : env.NewRequest "DELETE"
      (deleteRequest env env.SIGNALCRAFT_API_URL env.SIGNALCRAFT_API_KEY obj).URL = none)
    (hs : s = 404 ∨ (200 ≤ s ∧ s < 300))
    (hdo : env.Do (deleteRequest env env.SIGNALCRAFT_API_URL env.SIGNALCRAFT_API_KEY obj)
      = Except.ok s) :
    (deleteAlertPolicy env env.SIGNALCRAFT_API_URL env.SIGNALCRAFT_API_KEY obj).1 = none ∧
    (Reconcile env obj).policy = some (detachFinalizer obj) ∧
    finalizer ∉ (detachFinalizer obj).ObjectMeta.Finalizers ∧
    (detachFinalizer obj).Status = obj.Status ∧
    (Reconcile env obj).stored.Status = obj.Status ∧
    (Reconcile env obj).trace
      = [Event.http (deleteRequest env env.SIGNALCRAFT_API_URL env.SIGNALCRAFT_API_KEY obj)
            (Except.ok s),
         Event.update (detachFinalizer obj) (env.Update (detachFinalizer obj))] ∧
    (Reconcile env obj).result = {} ∧
    (Reconcile env obj).err = env.Update (detachFinalizer obj) ∧
    (env.Update (detachFinalizer obj) = none →
      (Reconcile env obj).err = none ∧
      (Reconcile env obj).stored.ObjectMeta.Finalizers
        = removeString obj.ObjectMeta.Finalizers finalizer ∧
      finalizer ∉ (Reconcile env obj).stored.ObjectMeta.Finalizers) := by
  have hdelete := deleteAlertPolicy_ok env env.SIGNALCRAFT_API_URL env.SIGNALCRAFT_API_KEY
    obj s hnew hs hdo
  have hc : containsString obj.ObjectMeta.Finalizers finalizer = true :=
    (containsString_iff _ _).2 hfin
  have hgone : finalizer ∉ removeString obj.ObjectMeta.Finalizers finalizer := by
    intro hmem
    exact ((mem_removeString _ _ _).1 hmem).2 rfl
  have hR : Reconcile env obj =
      { result := {}, err := env.Update (detachFinalizer obj),
        policy := some (detachFinalizer obj),
        stored := storeUpdate obj (detachFinalizer obj) (env.Update (detachFinalizer obj)),
        trace :=
          [Event.http (deleteRequest env env.SIGNALCRAFT_API_URL env.SIGNALCRAFT_API_KEY obj)
              (Except.ok s),
           Event.update (detachFinalizer obj) (env.Update (detachFinalizer obj))],
        exit := Exit.finalizerRemoved } := by
    unfold Reconcile
    simp [hget, hurl, hkey, hdel, hc, hdelete]
  rw [hR]
  refine ⟨by rw [hdelete], rfl, hgone, rfl, ?_, rfl, rfl, rfl, ?_⟩
  · simp only [storeUpdate_status]
  · intro hu
    simp only [hu, storeUpdate_meta, if_true]
    exact ⟨trivial, rfl, hgone⟩

/-- Witness of C6: the object marked for deletion, delete answered with HTTP 404. -/
theorem delete_404_is_success_witness :
    (Reconcile (scenarioEnv 404 "") deletingPolicy).err = none ∧
    finalizer ∉ (Reconcile (scenarioEnv 404 "") deletingPolicy).stored.ObjectMeta.Finalizers ∧
    (Reconcile (scenarioEnv 404 "") deletingPolicy).stored.Status = deletingPolicy.Status := by
  have h := delete_404_is_success (scenarioEnv 404 "") deletingPolicy 404 rfl
    (by decide) (by decide) (by decide) (by decide) rfl (Or.inl rfl) rfl
  exact ⟨(h.2.2.2.2.2.2.2.2 rfl).1, (h.2.2.2.2.2.2.2.2 rfl).2.2, h.2.2.2.2.1⟩

/-- C7: in every pass, if the finalizer is in the finalizer list of the object before the
pass and absent after it (from the stored object, or from the object in memory), then the
object had a deletion timestamp and the remote DELETE call was issued in that pass and
answered with 404 or a status in 200..299. -/
theorem finalizer_removed_only_after_delete (env : Env) (obj : SignalCraftAlertPolicy)
    (hbefore : finalizer ∈ obj.ObjectMeta.Finalizers)
    (hafter : finalizer ∉ (Reconcile env obj).stored.ObjectMeta.Finalizers ∨
      ∃ p, (Reconcile env obj).policy = some p ∧ finalizer ∉ p.ObjectMeta.Finalizers) :
    obj.ObjectMeta.DeletionTimestamp ≠ none ∧
    ∃ (request : Request) (s : Int),
      request = deleteRequest env env.SIGNALCRAFT_API_URL env.SIGNALCRAFT_API_KEY obj ∧
      request.Method = "DELETE" ∧
      (s = 404 ∨ (200 ≤ s ∧ s < 300)) ∧
      Event.http request (Except.ok s) ∈ (Reconcile env obj).trace := by
  rcases Reconcile_keeps_or_deleted env obj hbefore with ⟨hstored, hpolicy⟩ | ⟨hdel, s, hs, hev⟩
  · exfalso
    rcases hafter with h | ⟨p, hp, h⟩
    · rw [hstored] at h
      exact h hbefore
    · rw [hpolicy p hp] at h
      exact h hbefore
  · exact ⟨hdel, _, s, rfl, rfl, hs, hev⟩

/-- Witness of C7: the object marked for deletion loses the finalizer in a pass whose
delete is answered with HTTP 204. -/
theorem finalizer_removed_only_after_delete_witness :
    finalizer ∈ deletingPolicy.ObjectMeta.Finalizers ∧
    finalizer ∉ (Reconcile (scenarioEnv 204 "") deletingPolicy).stored.ObjectMeta.Finalizers ∧
    deletingPolicy.ObjectMeta.DeletionTimestamp ≠ none :=
  ⟨by decide, by decide,
   (finalizer_removed_only_after_delete (scenarioEnv 204 "") deletingPolicy (by decide)
     (Or.inl (by decide))).1⟩

/-- C8: in every pass that issues the upsert call (a POST request), the finalizer list of
the stored object contains the finalizer when the call is made: either it was there at the
start and nothing precedes the call, or it was absent and the only effect before the call
is the successful metadata update of the object carrying the finalizer. When that update
fails, the pass issues no remote call and returns the error of the update. -/
theorem finalizer_attached_before_upsert (env : Env) (obj : SignalCraftAlertPolicy) :
    (∀ pre request response post,
      (Reconcile env obj).trace = pre ++ Event.http request response :: post →
      request.Method = "POST" →
      request.URL = env.SIGNALCRAFT_API_URL ++ "/api/alert-policies/upsert" ∧
      finalizer ∈ (storedAfter obj pre).ObjectMeta.Finalizers ∧
      ((finalizer ∈ obj.ObjectMeta.Finalizers ∧ pre = []) ∨
       (finalizer ∉ obj.ObjectMeta.Finalizers ∧
        pre = [Event.update (attachFinalizer obj) none] ∧
        env.Update (attachFinalizer obj) = none ∧
        finalizer ∈ (attachFinalizer obj).ObjectMeta.Finalizers))) ∧
    (∀ err, env.Get = none →
      env.SIGNALCRAFT_API_URL ≠ "" → env.SIGNALCRAFT_API_KEY ≠ "" →
      obj.ObjectMeta.DeletionTimestamp = none →
      finalizer ∉ obj.ObjectMeta.Finalizers →
      env.Update (attachFinalizer obj) = some err →
      (∀ request response, Event.http request response ∉ (Reconcile env obj).trace) ∧
      (Reconcile env obj).err = some err ∧
      (Reconcile env obj).stored = obj) := by
  have hattached : finalizer ∈ (attachFinalizer obj).ObjectMeta.Finalizers := by
    simp [attachFinalizer]
  constructor
  · intro pre request response post htrace hpost
    rcases Reconcile_trace_shape env obj with hno | ⟨_, resp, o, e, hshape, ho⟩ |
      ⟨_, hfin, body, resp, o, e, hshape⟩ | ⟨_, hfin, hupd, body, resp, o, e, hshape⟩
    · exfalso
      apply hno request response
      rw [htrace]
      simp
    · exfalso
      rw [hshape] at htrace
      match pre, htrace with
      | [], h =>
        simp only [List.nil_append, List.cons.injEq, Event.http.injEq] at h
        rw [← h.1.1] at hpost
        have hmethod : ("DELETE" : String) = "POST" := hpost
        exact absurd hmethod (by decide)
      | [_], h =>
        simp only [List.cons_append, List.nil_append, List.cons.injEq] at h
        rcases ho with ho | ⟨q, ho⟩ <;> rw [ho] at h <;> cases h.2.1
      | _ :: _ :: _, h => simp at h
    · rw [hshape] at htrace
      match pre, htrace with
      | [], h =>
        simp only [List.nil_append, List.cons.injEq, Event.http.injEq] at h
        refine ⟨by rw [← h.1.1]; rfl, hfin, Or.inl ⟨hfin, rfl⟩⟩
      | [_], h => simp at h
      | _ :: _ :: _, h => simp at h
    · rw [hshape] at htrace
      match pre, htrace with
      | [], h => simp at h
      | [ev], h =>
        simp only [List.cons_append, List.nil_append, List.cons.injEq, Event.http.injEq] at h
        refine ⟨by rw [← h.2.1.1]; rfl, ?_, Or.inr ⟨hfin, by rw [h.1], hupd, hattached⟩⟩
        rw [← h.1]
        exact hattached
      | [_, _], h => simp at h
      | _ :: _ :: _ :: _, h => simp at h
  · intro err hget hurl hkey hdel hfin hupd
    have hc : containsString obj.ObjectMeta.Finalizers finalizer = false := by
      cases hcs : containsString obj.ObjectMeta.Finalizers finalizer with
      | false => rfl
      | true => exact absurd ((containsString_iff _ _).1 hcs) hfin
    have hR : Reconcile env obj =
        { result := {}, err := some err, policy := some (attachFinalizer obj), stored := obj,
          trace := [Event.update (attachFinalizer obj) (some err)],
          exit := Exit.attachFailed } := by
      unfold Reconcile
      simp only [hget, hurl, hkey, hdel, hc, or_self, if_false, ne_eq, not_true_eq_false,
        Bool.not_false, if_true]
      rw [hupd]
    rw [hR]
    refine ⟨?_, rfl, rfl⟩
    intro request response hmem
    simp at hmem

/-- Witness of C8: the first pass of scenario A attaches the finalizer, then upserts; with
the metadata update rejected, the same pass issues no round trip. -/
theorem finalizer_attached_before_upsert_witness :
    finalizer ∈ (storedAfter scenarioPolicy
      [Event.update (attachFinalizer scenarioPolicy) none]).ObjectMeta.Finalizers ∧
    (Reconcile { scenarioEnv 200 (scenarioBody "rk1") with Update := fun _ => some "conflict" }
      scenarioPolicy).err = some "conflict" := by
  have h1 := (finalizer_attached_before_upsert (scenarioEnv 200 (scenarioBody "rk1"))
    scenarioPolicy).1 [Event.update (attachFinalizer scenarioPolicy) none]
    (upsertRequest "https://signalcraft.example" "secret" (attachFinalizer scenarioPolicy)
      (scenarioBody "rk1"))
    (Except.ok 200)
    [Event.statusUpdate
      (withSyncedStatus (scenarioEnv 200 (scenarioBody "rk1")) (attachFinalizer scenarioPolicy))
      none]
    rfl rfl
  have h2 := (finalizer_attached_before_upsert
    { scenarioEnv 200 (scenarioBody "rk1") with Update := fun _ => some "conflict" }
    scenarioPolicy).2 "conflict" rfl (by decide) (by decide) rfl (by decide) rfl
  exact ⟨h1.2.1, h2.2.1⟩

/-! ## Lemmas on failing passes -/

theorem deleteAlertPolicy_of_deleteFails (env : Env) (obj : SignalCraftAlertPolicy)
    (h : deleteFails env obj) :
    ∃ err, (deleteAlertPolicy env env.SIGNALCRAFT_API_URL env.SIGNALCRAFT_API_KEY obj).1
      = some err := by
  unfold deleteAlertPolicy
  simp only
  cases hnew : env.NewRequest "DELETE"
      (deleteRequest env env.SIGNALCRAFT_API_URL env.SIGNALCRAFT_API_KEY obj).URL with
  | some e => exact ⟨e, rfl⟩
  | none =>
    rcases h with h | ⟨err, h⟩ | ⟨s, h, hbad, h404⟩
    · exact absurd hnew h
    · simp only [h]
      exact ⟨err, rfl⟩
    · simp only [h, h404, if_false, hbad, if_true]
      exact ⟨_, rfl⟩

theorem syncAlertPolicy_of_upsertFails (env : Env) (policy : SignalCraftAlertPolicy)
    (h : upsertFails env policy) :
    ∃ err, (syncAlertPolicy env env.SIGNALCRAFT_API_URL env.SIGNALCRAFT_API_KEY policy).1
      = some err := by
  unfold syncAlertPolicy
  rcases h with ⟨err, h⟩ | ⟨body, hbody, h⟩
  · simp only [h]
    exact ⟨err, rfl⟩
  · simp only [hbody]
    cases hnew : env.NewRequest "POST"
        (env.SIGNALCRAFT_API_URL ++ "/api/alert-policies/upsert") with
    | some e => exact ⟨e, rfl⟩
    | none =>
      rcases h with h | ⟨err, h⟩ | ⟨s, h, hbad⟩
      · exact absurd hnew h
      · simp only [h]
        exact ⟨err, rfl⟩
      · simp only [h, hbad, if_true]
        exact ⟨_, rfl⟩

/-- A pass that fails by the environment runs the failing branch on an object with the
generation and the stored status of the object it started from. -/
theorem Reconcile_of_PassFails (env : Env) (obj : SignalCraftAlertPolicy)
    (h : PassFails env obj) :
    ∃ stored policy message trace exit,
      Reconcile env obj = failPass env stored policy message trace exit ∧
      policy.ObjectMeta.Generation = obj.ObjectMeta.Generation ∧
      stored.Status = obj.Status := by
  obtain ⟨hget, h⟩ := h
  unfold Reconcile
  simp only [hget]
  rcases h with hcfg | ⟨hcfg, hdel, hfin, hfail⟩ | ⟨hcfg, hdel, hfin, hfail⟩ |
    ⟨hcfg, hdel, hfin, hupd, hfail⟩
  · rw [if_pos hcfg]
    exact ⟨_, _, _, _, _, rfl, rfl, rfl⟩
  · have hc : containsString obj.ObjectMeta.Finalizers finalizer = true :=
      (containsString_iff _ _).2 hfin
    obtain ⟨err, herr⟩ := deleteAlertPolicy_of_deleteFails env obj hfail
    rw [if_neg hcfg, if_pos hdel, if_pos hc]
    simp only [herr]
    exact ⟨_, _, _, _, _, rfl, rfl, rfl⟩
  · have hc : containsString obj.ObjectMeta.Finalizers finalizer = true :=
      (containsString_iff _ _).2 hfin
    have hnd : ¬ (obj.ObjectMeta.DeletionTimestamp ≠ none) := fun h => h hdel
    obtain ⟨err, herr⟩ := syncAlertPolicy_of_upsertFails env obj hfail
    rw [if_neg hcfg, if_neg hnd]
    simp only [hc, Bool.not_true, Bool.false_eq_true, if_false]
    have hsp : syncPass env obj obj []
        = failPass env obj obj err
            ([] ++ (syncAlertPolicy env env.SIGNALCRAFT_API_URL env.SIGNALCRAFT_API_KEY
              obj).2) Exit.syncFailed := by
      unfold syncPass
      simp only [herr]
    exact ⟨_, _, _, _, _, hsp, rfl, rfl⟩
  · have hc : containsString obj.ObjectMeta.Finalizers finalizer = false := by
      cases hcs : containsString obj.ObjectMeta.Finalizers finalizer with
      | false => rfl
      | true => exact absurd ((containsString_iff _ _).1 hcs) hfin
    have hnd : ¬ (obj.ObjectMeta.DeletionTimestamp ≠ none) := fun h => h hdel
    obtain ⟨err, herr⟩ := syncAlertPolicy_of_upsertFails env (attachFinalizer obj) hfail
    rw [if_neg hcfg, if_neg hnd]
    simp only [hc, Bool.not_false, if_true, hupd]
    have hsp : syncPass env (storeUpdate obj (attachFinalizer obj) none)
        (attachFinalizer obj) [Event.update (attachFinalizer obj) none]
        = failPass env (storeUpdate obj (attachFinalizer obj) none) (attachFinalizer obj) err
            ([Event.update (attachFinalizer obj) none] ++
              (syncAlertPolicy env env.SIGNALCRAFT_API_URL env.SIGNALCRAFT_API_KEY
                (attachFinalizer obj)).2) Exit.syncFailed := by
      unfold syncPass
      simp only [herr]
    exact ⟨_, _, _, _, _, hsp, rfl, rfl⟩

/-- Counterexample to C9 as stated: in scenario A the second pass starts from the stored
object `editedPolicy` with observed generation 1, its upsert is answered with HTTP 500, it
leaves through the failing branch, and the observed generation it leaves is 2, not 1. -/
theorem failed_upsert_overwrites_observedGeneration :
    (scenarioEdit (scenarioEnv 500 (scenarioBody "rk2"))).edit
        (Reconcile (scenarioEnv 200 (scenarioBody "rk1")) scenarioPolicy).stored
      = editedPolicy ∧
    editedPolicy.Status.ObservedGeneration = 1 ∧
    (Reconcile (scenarioEnv 500 (scenarioBody "rk2")) editedPolicy).exit = Exit.syncFailed ∧
    (Reconcile (scenarioEnv 500 (scenarioBody "rk2")) editedPolicy).result.RequeueAfter
      = Minute ∧
    (Reconcile (scenarioEnv 500 (scenarioBody "rk2")) editedPolicy).stored.Status.State
      = "Error" ∧
    (Reconcile (scenarioEnv 500 (scenarioBody "rk2"))
      editedPolicy).stored.Status.ObservedGeneration = 2 ∧
    (Reconcile (scenarioEnv 500 (scenarioBody "rk2"))
      editedPolicy).stored.Status.ObservedGeneration
      ≠ editedPolicy.Status.ObservedGeneration := by
  refine ⟨by decide, by decide, by decide, by decide, by decide, by decide, by decide⟩

/-- C9, amended: every pass that ends in failure, stated by the environment (the
configuration is missing; or the remote delete of an object with deletion timestamp and
finalizer fails; or the upsert of an object without deletion timestamp fails, whether by
the encoder, the request builder, the transport or a status outside 200..299), sets the
status state to "Error" and the observed generation to the generation of the object,
issues the status write carrying them, and the stored status is the new one when that
write succeeds and the previous one when it fails. -/
theorem failed_pass_records_current_generation (env : Env) (obj : SignalCraftAlertPolicy)
    (hfail : PassFails env obj) :
    ∃ policy, (Reconcile env obj).policy = some policy ∧
      policy.Status.State = "Error" ∧
      policy.Status.ObservedGeneration = obj.ObjectMeta.Generation ∧
      Event.statusUpdate policy (env.StatusUpdate policy) ∈ (Reconcile env obj).trace ∧
      (Reconcile env obj).stored.Status
        = (if env.StatusUpdate policy = none then policy.Status else obj.Status) ∧
      (Reconcile env obj).result.RequeueAfter = Minute := by
  obtain ⟨stored, policy, message, trace, exit, hR, hgen, hstatus⟩ :=
    Reconcile_of_PassFails env obj hfail
  rw [hR]
  refine ⟨withErrorStatus env policy message, rfl, rfl, hgen, ?_, ?_, rfl⟩
  · rw [failPass_trace]
    simp
  · rw [failPass_stored, storeStatus_status, hstatus]

/-- Witness of C9, amended: scenario A. The first pass syncs generation 1; the second, at
generation 2 with the upsert answered HTTP 500, leaves state "Error", observed generation
2 and a message containing "500"; the retry leaves state "Synced", observed generation 2. -/
theorem failed_pass_records_current_generation_witness :
    (runPasses scenarioPolicy scenarioPasses).map
        (fun r => (r.outcome.stored.Status.State, r.outcome.stored.Status.ObservedGeneration))
      = [("Synced", 1), ("Error", 2), ("Synced", 2)] ∧
    (∃ pre post,
      (Reconcile (scenarioEnv 500 (scenarioBody "rk2")) editedPolicy).stored.Status.Message
        = pre ++ "500" ++ post) ∧
    (∃ policy,
      (Reconcile (scenarioEnv 500 (scenarioBody "rk2")) editedPolicy).policy = some policy ∧
      policy.Status.State = "Error" ∧ policy.Status.ObservedGeneration = 2) := by
  have hfail : PassFails (scenarioEnv 500 (scenarioBody "rk2")) editedPolicy :=
    ⟨rfl, Or.inr (Or.inr (Or.inl ⟨by decide, rfl, by decide,
      Or.inr ⟨scenarioBody "rk2", rfl, Or.inr (Or.inr ⟨500, rfl, by decide⟩)⟩⟩))⟩
  obtain ⟨policy, hp, hstate, hgen, _⟩ :=
    failed_pass_records_current_generation (scenarioEnv 500 (scenarioBody "rk2")) editedPolicy
      hfail
  exact ⟨by decide, ⟨"signalcraft API error: ", "", by decide⟩, policy, hp, hstate, hgen⟩

/-- C10: along every sequence of passes on one alert policy in which the generation of
the object never decreases between passes and the observed generation starts at most at
the generation, the observed generation after each pass, stored and in memory, is at
least its value before that pass. -/
theorem observedGeneration_monotone (obj : SignalCraftAlertPolicy) (passes : List Pass)
    (hinit : obj.Status.ObservedGeneration ≤ obj.ObjectMeta.Generation)
    (hedit : ∀ r ∈ runPasses obj passes,
      r.start.ObjectMeta.Generation ≤ r.before.ObjectMeta.Generation) :
    ∀ r ∈ runPasses obj passes,
      r.before.Status.ObservedGeneration ≤ r.outcome.stored.Status.ObservedGeneration ∧
      (∀ p, r.outcome.policy = some p →
        r.before.Status.ObservedGeneration ≤ p.Status.ObservedGeneration) := by
  induction passes generalizing obj with
  | nil =>
    intro r hr
    cases hr
  | cons pass rest ih =>
    have hhead := hedit _ (List.mem_cons_self _ _)
    simp only at hhead
    have hstatus : (pass.edit obj).Status = obj.Status := rfl
    have hbefore : (pass.edit obj).Status.ObservedGeneration
        ≤ (pass.edit obj).ObjectMeta.Generation := by
      rw [hstatus]
      exact le_trans hinit hhead
    obtain ⟨hgen, hstored, hpolicy⟩ := Reconcile_observedGeneration pass.env (pass.edit obj)
    have hstep : (pass.edit obj).Status.ObservedGeneration
        ≤ (Reconcile pass.env (pass.edit obj)).stored.Status.ObservedGeneration := by
      rcases hstored with h | h
      · rw [h]
      · rw [h]
        exact hbefore
    have hnext : (Reconcile pass.env (pass.edit obj)).stored.Status.ObservedGeneration
        ≤ (Reconcile pass.env (pass.edit obj)).stored.ObjectMeta.Generation := by
      rw [hgen]
      rcases hstored with h | h
      · rw [h]
        exact hbefore
      · rw [h]
    intro r hr
    simp only [runPasses, List.mem_cons] at hr
    rcases hr with rfl | hr
    · refine ⟨hstep, ?_⟩
      intro p hp
      rcases hpolicy p hp with h | h
      · simp only
        rw [h]
      · simp only
        rw [h]
        exact hbefore
    · exact ih (Reconcile pass.env (pass.edit obj)).stored hnext
        (fun r hr => hedit r (List.mem_cons_of_mem _ hr)) r hr

/-- Witness of C10: the three passes of scenario A, whose generations are 1, 2 and 2;
the observed generation goes from 0 to 1, from 1 to 2, and stays at 2. -/
theorem observedGeneration_monotone_witness :
    scenarioPolicy.Status.ObservedGeneration ≤ scenarioPolicy.ObjectMeta.Generation ∧
    (runPasses scenarioPolicy scenarioPasses).map
        (fun r => (r.start.ObjectMeta.Generation, r.before.ObjectMeta.Generation))
      = [(1, 1), (1, 2), (2, 2)] ∧
    (runPasses scenarioPolicy scenarioPasses).map
        (fun r => (r.before.Status.ObservedGeneration,
          r.outcome.stored.Status.ObservedGeneration))
      = [(0, 1), (1, 2), (2, 2)] ∧
    (∀ r ∈ runPasses scenarioPolicy scenarioPasses,
      r.before.Status.ObservedGeneration ≤ r.outcome.stored.Status.ObservedGeneration ∧
      (∀ p, r.outcome.policy = some p →
        r.before.Status.ObservedGeneration ≤ p.Status.ObservedGeneration)) := by
  refine ⟨by decide, by decide, by decide, ?_⟩
  apply observedGeneration_monotone scenarioPolicy scenarioPasses (by decide)
  intro r hr
  simp only [runPasses, scenarioPasses, List.mem_cons, List.mem_singleton,
    List.not_mem_nil, or_false] at hr
  rcases hr with rfl | rfl | rfl
  · decide
  · decide
  · decide

/-! ## Lemmas on the upsert path -/

/-- The three outcomes of `syncAlertPolicy`: an error before any round trip, a transport
error on the upsert request, or a status code, which is an error exactly when it is
outside 200..299. -/
theorem syncAlertPolicy_cases (env : Env) (baseURL apiKey : String)
    (policy : SignalCraftAlertPolicy) :
    (∃ err, syncAlertPolicy env baseURL apiKey policy = (some err, [])) ∨
    (∃ body err, syncAlertPolicy env baseURL apiKey policy
      = (some err, [Event.http (upsertRequest baseURL apiKey policy body) (Except.error err)])) ∨
    (∃ body s, syncAlertPolicy env baseURL apiKey policy
      = (if s < 200 ∨ s ≥ 300 then some (apiError s) else none,
         [Event.http (upsertRequest baseURL apiKey policy body) (Except.ok s)])) := by
  unfold syncAlertPolicy
  cases hm : env.jsonMarshal (buildPayload policy) with
  | error e => exact Or.inl ⟨e, rfl⟩
  | ok body =>
    cases hnew : env.NewRequest "POST" (baseURL ++ "/api/alert-policies/upsert") with
    | some e => exact Or.inl ⟨e, rfl⟩
    | none =>
      right
      simp only
      cases hdo : env.Do (upsertRequest baseURL apiKey policy body) with
      | error e => exact Or.inl ⟨body, e, rfl⟩
      | ok st =>
        right
        refine ⟨body, st, ?_⟩
        by_cases hbad : st < 200 ∨ st ≥ 300
        · simp only [hbad, if_true]
        · simp only [hbad, if_false]

/-- The tail of a pass when `syncAlertPolicy` returns no error. -/
theorem syncPass_of_ok (env : Env) (stored policy : SignalCraftAlertPolicy)
    (trace : List Event)
    (hok : (syncAlertPolicy env env.SIGNALCRAFT_API_URL env.SIGNALCRAFT_API_KEY policy).1
      = none) :
    syncPass env stored policy trace =
      { result := {}, err := env.StatusUpdate (withSyncedStatus env policy),
        policy := some (withSyncedStatus env policy),
        stored := storeStatus stored (withSyncedStatus env policy)
          (env.StatusUpdate (withSyncedStatus env policy)),
        trace := trace
          ++ (syncAlertPolicy env env.SIGNALCRAFT_API_URL env.SIGNALCRAFT_API_KEY policy).2
          ++ [Event.statusUpdate (withSyncedStatus env policy)
                (env.StatusUpdate (withSyncedStatus env policy))],
        exit := Exit.synced } := by
  unfold syncPass
  simp only [hok]

/-- The tail of a pass when `syncAlertPolicy` returns an error. -/
theorem syncPass_of_error (env : Env) (stored policy : SignalCraftAlertPolicy)
    (trace : List Event) (err : String)
    (herr : (syncAlertPolicy env env.SIGNALCRAFT_API_URL env.SIGNALCRAFT_API_KEY policy).1
      = some err) :
    syncPass env stored policy trace =
      failPass env stored policy err
        (trace
          ++ (syncAlertPolicy env env.SIGNALCRAFT_API_URL env.SIGNALCRAFT_API_KEY policy).2)
        Exit.syncFailed := by
  unfold syncPass
  simp only [herr]

theorem deleteFails_of_deleteAlertPolicy (env : Env) (obj : SignalCraftAlertPolicy)
    (err : String)
    (h : (deleteAlertPolicy env env.SIGNALCRAFT_API_URL env.SIGNALCRAFT_API_KEY obj).1
      = some err) : deleteFails env obj := by
  unfold deleteAlertPolicy at h
  unfold deleteFails
  simp only at h
  cases hnew : env.NewRequest "DELETE"
      (deleteRequest env env.SIGNALCRAFT_API_URL env.SIGNALCRAFT_API_KEY obj).URL with
  | some e =>
    left
    exact fun h => by cases h
  | none =>
    right
    rw [hnew] at h
    cases hdo : env.Do
        (deleteRequest env env.SIGNALCRAFT_API_URL env.SIGNALCRAFT_API_KEY obj) with
    | error e => exact Or.inl ⟨e, rfl⟩
    | ok s =>
      right
      rw [hdo] at h
      simp only at h
      by_cases h404 : s = 404
      · rw [if_pos h404] at h
        cases h
      · rw [if_neg h404] at h
        by_cases hbad : s < 200 ∨ s ≥ 300
        · exact ⟨s, rfl, hbad, h404⟩
        · rw [if_neg hbad] at h
          cases h

theorem upsertFails_of_syncAlertPolicy (env : Env) (policy : SignalCraftAlertPolicy)
    (err : String)
    (h : (syncAlertPolicy env env.SIGNALCRAFT_API_URL env.SIGNALCRAFT_API_KEY policy).1
      = some err) : upsertFails env policy := by
  unfold syncAlertPolicy at h
  unfold upsertFails
  cases hm : env.jsonMarshal (buildPayload policy) with
  | error e => exact Or.inl ⟨e, rfl⟩
  | ok body =>
    right
    refine ⟨body, rfl, ?_⟩
    rw [hm] at h
    simp only at h
    cases hnew : env.NewRequest "POST"
        (env.SIGNALCRAFT_API_URL ++ "/api/alert-policies/upsert") with
    | some e =>
      left
      exact fun h => by cases h
    | none =>
      right
      rw [hnew] at h
      simp only at h
      cases hdo : env.Do
          (upsertRequest env.SIGNALCRAFT_API_URL env.SIGNALCRAFT_API_KEY policy body) with
      | error e => exact Or.inl ⟨e, rfl⟩
      | ok s =>
        right
        rw [hdo] at h
        simp only at h
        by_cases hbad : s < 200 ∨ s ≥ 300
        · exact ⟨s, rfl, hbad⟩
        · rw [if_neg hbad] at h
          cases h

theorem failPass_requeue (env : Env) (stored policy : SignalCraftAlertPolicy)
    (message : String) (trace : List Event) (exit : Exit) :
    (failPass env stored policy message trace exit).result.RequeueAfter = Minute := rfl

/-- The failures stated by the environment are all the failures: a pass asks for the
one-minute requeue exactly when it fails by the environment. -/
theorem requeue_iff_PassFails (env : Env) (obj : SignalCraftAlertPolicy) :
    (Reconcile env obj).result.RequeueAfter = Minute ↔ PassFails env obj := by
  constructor
  · intro h
    have hne : (0 : Int) ≠ Minute := by decide
    unfold Reconcile at h
    cases hget : env.Get with
    | some e =>
      rw [hget] at h
      exact absurd h hne
    | none =>
      rw [hget] at h
      simp only at h
      refine ⟨hget, ?_⟩
      by_cases hcfg : env.SIGNALCRAFT_API_URL = "" ∨ env.SIGNALCRAFT_API_KEY = ""
      · exact Or.inl hcfg
      · right
        rw [if_neg hcfg] at h
        by_cases hdel : obj.ObjectMeta.DeletionTimestamp ≠ none
        · left
          rw [if_pos hdel] at h
          by_cases hc : containsString obj.ObjectMeta.Finalizers finalizer = true
          · rw [if_pos hc] at h
            cases hd : (deleteAlertPolicy env env.SIGNALCRAFT_API_URL
                env.SIGNALCRAFT_API_KEY obj).1 with
            | some err =>
              exact ⟨hcfg, hdel, (containsString_iff _ _).1 hc,
                deleteFails_of_deleteAlertPolicy env obj err hd⟩
            | none =>
              rw [hd] at h
              exact absurd h hne
          · rw [if_neg hc] at h
            exact absurd h hne
        · right
          rw [if_neg hdel] at h
          have hdel0 : obj.ObjectMeta.DeletionTimestamp = none := by
            cases hts : obj.ObjectMeta.DeletionTimestamp with
            | none => rfl
            | some t => exact absurd (by rw [hts]; exact fun h => by cases h) hdel
          by_cases hc : containsString obj.ObjectMeta.Finalizers finalizer = true
          · left
            simp only [hc, Bool.not_true, Bool.false_eq_true, if_false] at h
            refine ⟨hcfg, hdel0, (containsString_iff _ _).1 hc, ?_⟩
            cases hs : (syncAlertPolicy env env.SIGNALCRAFT_API_URL env.SIGNALCRAFT_API_KEY
                obj).1 with
            | some err => exact upsertFails_of_syncAlertPolicy env obj err hs
            | none =>
              rw [syncPass_of_ok env obj obj [] hs] at h
              exact absurd h hne
          · right
            have hcf : containsString obj.ObjectMeta.Finalizers finalizer = false := by
              simpa using hc
            simp only [hcf, Bool.not_false, if_true] at h
            have hnotin : finalizer ∉ obj.ObjectMeta.Finalizers :=
              fun hin => hc ((containsString_iff _ _).2 hin)
            cases hu : env.Update (attachFinalizer obj) with
            | some err =>
              rw [hu] at h
              exact absurd h hne
            | none =>
              rw [hu] at h
              simp only at h
              refine ⟨hcfg, hdel0, hnotin, rfl, ?_⟩
              cases hs : (syncAlertPolicy env env.SIGNALCRAFT_API_URL
                  env.SIGNALCRAFT_API_KEY (attachFinalizer obj)).1 with
              | some err => exact upsertFails_of_syncAlertPolicy env _ err hs
              | none =>
                rw [syncPass_of_ok env _ _ _ hs] at h
                exact absurd h hne
  · intro h
    obtain ⟨stored, policy, message, trace, exit, hR, _, _⟩ := Reconcile_of_PassFails env obj h
    rw [hR]
    rfl

/-- A pass on an object without deletion timestamp that makes a round trip runs the tail
of the pass on the object itself, or on the object with the finalizer attached, from a
trace without round trips, with the stored status still the one of the object. -/
theorem Reconcile_upsert_path (env : Env) (obj : SignalCraftAlertPolicy)
    (hdel : obj.ObjectMeta.DeletionTimestamp = none)
    (hcall : ∃ request response, Event.http request response ∈ (Reconcile env obj).trace) :
    ∃ stored policy pre,
      Reconcile env obj = syncPass env stored policy pre ∧
      (policy = obj ∨ policy = attachFinalizer obj) ∧
      stored.Status = obj.Status ∧
      (∀ request response, Event.http request response ∉ pre) := by
  obtain ⟨request, response, hmem⟩ := hcall
  unfold Reconcile at hmem ⊢
  cases hget : env.Get with
  | some err =>
    rw [hget] at hmem
    cases hmem
  | none =>
    rw [hget] at hmem
    simp only at hmem ⊢
    by_cases hcfg : env.SIGNALCRAFT_API_URL = "" ∨ env.SIGNALCRAFT_API_KEY = ""
    · rw [if_pos hcfg] at hmem
      simp [failPass_trace] at hmem
    · rw [if_neg hcfg] at hmem ⊢
      have hnd : ¬ (obj.ObjectMeta.DeletionTimestamp ≠ none) := fun h => h hdel
      rw [if_neg hnd] at hmem ⊢
      by_cases hc : containsString obj.ObjectMeta.Finalizers finalizer = true
      · simp only [hc, Bool.not_true, Bool.false_eq_true, if_false]
        exact ⟨obj, obj, [], rfl, Or.inl rfl, rfl, fun _ _ h => by cases h⟩
      · have hcf : containsString obj.ObjectMeta.Finalizers finalizer = false := by
          simpa using hc
        simp only [hcf, Bool.not_false, if_true] at hmem ⊢
        cases hu : env.Update (attachFinalizer obj) with
        | some err =>
          rw [hu] at hmem
          simp at hmem
        | none =>
          simp only
          refine ⟨_, _, _, rfl, Or.inr rfl, rfl, ?_⟩
          intro request response h
          simp at h

/-- C11: for an alert policy without deletion timestamp, when the upsert call of the pass
is answered with a status in 200..299 (so configuration is available), the pass sets
the status to State "Synced", Message "Synced to SignalCraft", ObservedGeneration the
generation of the object and LastSyncedAt the current time, issues the status write,
returns no requeue, and returns the error of that write: nil when it succeeds, and the
stored status is then the new one. -/
theorem synced_status_on_successful_upsert (env : Env) (obj : SignalCraftAlertPolicy)
    (request : Request) (s : Int)
    (hdel : obj.ObjectMeta.DeletionTimestamp = none)
    (hcall : Event.http request (Except.ok s) ∈ (Reconcile env obj).trace)
    (hs : 200 ≤ s ∧ s < 300) :
    ∃ policy, (Reconcile env obj).policy = some policy ∧
      policy.Status = { State := "Synced", Message := "Synced to SignalCraft",
                        ObservedGeneration := obj.ObjectMeta.Generation,
                        LastSyncedAt := env.now } ∧
      Event.statusUpdate policy (env.StatusUpdate policy) ∈ (Reconcile env obj).trace ∧
      (Reconcile env obj).result = { Requeue := false, RequeueAfter := 0 } ∧
      (Reconcile env obj).err = env.StatusUpdate policy ∧
      (env.StatusUpdate policy = none →
        (Reconcile env obj).err = none ∧ (Reconcile env obj).stored.Status = policy.Status) := by
  obtain ⟨stored, policy, pre, hR, hpol, hstatus, hpre⟩ :=
    Reconcile_upsert_path env obj hdel ⟨_, _, hcall⟩
  have hgen : policy.ObjectMeta.Generation = obj.ObjectMeta.Generation := by
    rcases hpol with h | h
    · rw [h]
    · rw [h]
      rfl
  rw [hR] at hcall
  have hok : (syncAlertPolicy env env.SIGNALCRAFT_API_URL env.SIGNALCRAFT_API_KEY policy).1
      = none := by
    obtain ⟨o, e, htrace⟩ := syncPass_trace env stored policy pre
    rw [htrace] at hcall
    simp only [List.mem_append, List.mem_singleton, reduceCtorEq, or_false] at hcall
    rcases hcall with hcall | hcall
    · exact absurd hcall (hpre _ _)
    · rcases syncAlertPolicy_cases env env.SIGNALCRAFT_API_URL env.SIGNALCRAFT_API_KEY
        policy with ⟨err, h⟩ | ⟨body, err, h⟩ | ⟨body, st, h⟩
      · rw [h] at hcall
        cases hcall
      · rw [h] at hcall
        simp at hcall
      · rw [h] at hcall ⊢
        simp only [List.mem_singleton, Event.http.injEq, Except.ok.injEq] at hcall
        have hst : ¬ (st < 200 ∨ st ≥ 300) := by
          rw [← hcall.2]
          omega
        simp only [hst, if_false]
  rw [hR, syncPass_of_ok env stored policy pre hok]
  refine ⟨withSyncedStatus env policy, rfl, ?_, ?_, rfl, rfl, ?_⟩
  · simp only [withSyncedStatus, hgen]
  · simp
  · intro hw
    refine ⟨hw, ?_⟩
    simp only [storeStatus_status, hw, if_true]

/-- Witness of C11: the first pass of scenario A, answered with HTTP 200. -/
theorem synced_status_on_successful_upsert_witness :
    ∃ policy,
      (Reconcile (scenarioEnv 200 (scenarioBody "rk1")) scenarioPolicy).policy = some policy ∧
      policy.Status = { State := "Synced", Message := "Synced to SignalCraft",
                        ObservedGeneration := 1, LastSyncedAt := 1700000000 } ∧
      (Reconcile (scenarioEnv 200 (scenarioBody "rk1")) scenarioPolicy).err = none := by
  obtain ⟨policy, hp, hstatus, _, _, _, hstored⟩ :=
    synced_status_on_successful_upsert (scenarioEnv 200 (scenarioBody "rk1")) scenarioPolicy
      (upsertRequest "https://signalcraft.example" "secret" (attachFinalizer scenarioPolicy)
        (scenarioBody "rk1"))
      200 rfl (List.mem_cons_of_mem _ (List.mem_cons_self _ _)) (by decide)
  exact ⟨policy, hp, hstatus, (hstored rfl).1⟩

/-- C12: for every alert policy the API server returns, whatever its deletion timestamp
and finalizers, when the API base URL or the API key is empty the pass makes no HTTP
round trip and no metadata update, leaves the finalizer list unchanged in memory and in
the API server, sets State "Error" with the message "Missing SIGNALCRAFT_API_URL or
SIGNALCRAFT_API_KEY", issues the status write, and returns a one-minute requeue with a
nil error whatever that write returns. -/
theorem missing_configuration_pass (env : Env) (obj : SignalCraftAlertPolicy)
    (hget : env.Get = none)
    (hcfg : env.SIGNALCRAFT_API_URL = "" ∨ env.SIGNALCRAFT_API_KEY = "") :
    (∀ request response, Event.http request response ∉ (Reconcile env obj).trace) ∧
    (∀ o e, Event.update o e ∉ (Reconcile env obj).trace) ∧
    (Reconcile env obj).stored.ObjectMeta.Finalizers = obj.ObjectMeta.Finalizers ∧
    (∃ policy, (Reconcile env obj).policy = some policy ∧
      policy.ObjectMeta.Finalizers = obj.ObjectMeta.Finalizers ∧
      policy.Status.State = "Error" ∧
      policy.Status.Message = "Missing SIGNALCRAFT_API_URL or SIGNALCRAFT_API_KEY" ∧
      (Reconcile env obj).trace = [Event.statusUpdate policy (env.StatusUpdate policy)]) ∧
    (Reconcile env obj).result = { Requeue := false, RequeueAfter := Minute } ∧
    Minute = 60000000000 ∧
    (Reconcile env obj).err = none := by
  have hR : Reconcile env obj = failPass env obj obj
      "Missing SIGNALCRAFT_API_URL or SIGNALCRAFT_API_KEY" [] Exit.missingConfiguration := by
    unfold Reconcile
    simp only [hget]
    rw [if_pos hcfg]
  rw [hR]
  refine ⟨?_, ?_, ?_, ⟨_, rfl, rfl, rfl, rfl, rfl⟩, rfl, by decide, rfl⟩
  · intro request response h
    simp [failPass_trace] at h
  · intro o e h
    simp [failPass_trace] at h
  · rw [failPass_stored, storeStatus_meta]

/-- Witness of C12: the object marked for deletion, no API key, the status write
rejected. -/
theorem missing_configuration_pass_witness :
    (Reconcile { scenarioEnv 200 "" with
        SIGNALCRAFT_API_KEY := "", StatusUpdate := fun _ => some "conflict" }
      deletingPolicy).result = { Requeue := false, RequeueAfter := Minute } ∧
    (Reconcile { scenarioEnv 200 "" with
        SIGNALCRAFT_API_KEY := "", StatusUpdate := fun _ => some "conflict" }
      deletingPolicy).err = none :=
  have h := missing_configuration_pass
    { scenarioEnv 200 "" with
        SIGNALCRAFT_API_KEY := "", StatusUpdate := fun _ => some "conflict" }
    deletingPolicy rfl (Or.inr rfl)
  ⟨h.2.2.2.2.1, h.2.2.2.2.2.2⟩

/-- Every record of a run is the outcome of `Reconcile` on its starting object in the
environment of one of the passes. -/
theorem runPasses_record (obj : SignalCraftAlertPolicy) (passes : List Pass) :
    ∀ r ∈ runPasses obj passes, ∃ pass ∈ passes, r.outcome = Reconcile pass.env r.before := by
  induction passes generalizing obj with
  | nil =>
    intro r hr
    cases hr
  | cons pass rest ih =>
    intro r hr
    simp only [runPasses, List.mem_cons] at hr
    rcases hr with rfl | hr
    · exact ⟨pass, List.mem_cons_self _ _, rfl⟩
    · obtain ⟨q, hq, hout⟩ := ih _ r hr
      exact ⟨q, List.mem_cons_of_mem _ hq, hout⟩

/-- The record at position `i` of a run is the outcome of `Reconcile` in the environment
of pass `i` on the object that pass started from. -/
theorem runPasses_getElem (passes : List Pass) :
    ∀ (obj : SignalCraftAlertPolicy) (i : Nat) (pass : Pass) (r : PassRecord),
      passes[i]? = some pass → (runPasses obj passes)[i]? = some r →
      r.outcome = Reconcile pass.env r.before := by
  induction passes with
  | nil =>
    intro obj i pass r hpass _
    cases hpass
  | cons first rest ih =>
    intro obj i pass r hpass hr
    cases i with
    | zero =>
      simp only [runPasses, List.getElem?_cons_zero, Option.some.injEq] at hpass hr
      subst hpass
      subst hr
      rfl
    | succ i =>
      simp only [runPasses, List.getElem?_cons_succ] at hpass hr
      exact ih _ i pass r hpass hr

/-- C13: every pass of every run that ends in a failure, stated by the environment of
the pass and the object it starts from (missing configuration; failed delete; failed
upsert, whether by the encoder, the request builder, the transport or a status outside
200..299), returns the same result, a requeue after exactly one minute (60000000000
nanoseconds), and a nil error, whatever the failure, the status code, the object and the
passes that ran before it. -/
theorem failure_requeue_is_fixed (obj : SignalCraftAlertPolicy) (passes : List Pass)
    (i : Nat) (pass : Pass) (r : PassRecord)
    (hpass : passes[i]? = some pass) (hr : (runPasses obj passes)[i]? = some r)
    (hfail : PassFails pass.env r.before) :
    r.outcome.result = { Requeue := false, RequeueAfter := 60000000000 } ∧
    r.outcome.err = none := by
  rw [runPasses_getElem passes obj i pass r hpass hr]
  obtain ⟨stored, policy, message, trace, exit, hR, _, _⟩ :=
    Reconcile_of_PassFails pass.env r.before hfail
  rw [hR]
  exact ⟨rfl, rfl⟩

/-- Witness of C13: three failing passes in a row on the object of scenario A at
generation 2, the upsert answered HTTP 500, then the API key missing, then the transport
failing without an answer; the third returns the fixed result. -/
theorem failure_requeue_is_fixed_witness :
    (runPasses editedPolicy
      [retryPass (scenarioEnv 500 (scenarioBody "rk2")),
       retryPass { scenarioEnv 200 (scenarioBody "rk2") with SIGNALCRAFT_API_KEY := "" },
       retryPass (unreachableEnv "dial tcp: i/o timeout" (scenarioBody "rk2"))]).map
      (fun r => (r.outcome.result, r.outcome.err, r.outcome.stored.Status.Message))
      = [({ Requeue := false, RequeueAfter := 60000000000 }, none,
            "signalcraft API error: 500"),
         ({ Requeue := false, RequeueAfter := 60000000000 }, none,
            "Missing SIGNALCRAFT_API_URL or SIGNALCRAFT_API_KEY"),
         ({ Requeue := false, RequeueAfter := 60000000000 }, none,
            "dial tcp: i/o timeout")] ∧
    (Reconcile (unreachableEnv "dial tcp: i/o timeout" (scenarioBody "rk2"))
      (Reconcile { scenarioEnv 200 (scenarioBody "rk2") with SIGNALCRAFT_API_KEY := "" }
        (Reconcile (scenarioEnv 500 (scenarioBody "rk2")) editedPolicy).stored).stored).result
      = { Requeue := false, RequeueAfter := 60000000000 } := by
  have hfail : PassFails (unreachableEnv "dial tcp: i/o timeout" (scenarioBody "rk2"))
      (Reconcile { scenarioEnv 200 (scenarioBody "rk2") with SIGNALCRAFT_API_KEY := "" }
        (Reconcile (scenarioEnv 500 (scenarioBody "rk2")) editedPolicy).stored).stored :=
    ⟨rfl, Or.inr (Or.inr (Or.inl ⟨by decide, by decide, by decide,
      Or.inr ⟨scenarioBody "rk2", rfl, Or.inr (Or.inl ⟨"dial tcp: i/o timeout", rfl⟩)⟩⟩))⟩
  have h := failure_requeue_is_fixed editedPolicy
    [retryPass (scenarioEnv 500 (scenarioBody "rk2")),
     retryPass { scenarioEnv 200 (scenarioBody "rk2") with SIGNALCRAFT_API_KEY := "" },
     retryPass (unreachableEnv "dial tcp: i/o timeout" (scenarioBody "rk2"))]
    2 (retryPass (unreachableEnv "dial tcp: i/o timeout" (scenarioBody "rk2")))
    { start := (Reconcile { scenarioEnv 200 (scenarioBody "rk2") with
          SIGNALCRAFT_API_KEY := "" }
        (Reconcile (scenarioEnv 500 (scenarioBody "rk2")) editedPolicy).stored).stored,
      before := (Reconcile { scenarioEnv 200 (scenarioBody "rk2") with
          SIGNALCRAFT_API_KEY := "" }
        (Reconcile (scenarioEnv 500 (scenarioBody "rk2")) editedPolicy).stored).stored,
      outcome := Reconcile (unreachableEnv "dial tcp: i/o timeout" (scenarioBody "rk2"))
        (Reconcile { scenarioEnv 200 (scenarioBody "rk2") with SIGNALCRAFT_API_KEY := "" }
          (Reconcile (scenarioEnv 500 (scenarioBody "rk2")) editedPolicy).stored).stored }
    rfl rfl hfail
  exact ⟨by decide, h.1⟩

/-! ## Lemmas on idempotency keys -/

theorem upsertRequest_key (baseURL apiKey : String) (policy : SignalCraftAlertPolicy)
    (body : String) :
    (upsertRequest baseURL apiKey policy body).getHeader "Idempotency-Key"
      = some (upsertKey policy.ObjectMeta.UID policy.ObjectMeta.Generation) := by
  simp [upsertRequest, Request.setHeader, Request.getHeader, List.find?_append,
    List.filter_cons, List.find?_cons]

theorem deleteRequest_key (env : Env) (baseURL apiKey : String)
    (policy : SignalCraftAlertPolicy) :
    (deleteRequest env baseURL apiKey policy).getHeader "Idempotency-Key"
      = some (deleteKey policy.ObjectMeta.UID policy.ObjectMeta.Generation) := by
  simp [deleteRequest, Request.setHeader, Request.getHeader, List.find?_append,
    List.filter_cons, List.find?_cons]

/-- C14: the idempotency key of every request `syncAlertPolicy` sends is
`upsertKey UID Generation` and that of every request `deleteAlertPolicy` sends is
`deleteKey UID Generation`; so two alert policies with the same UID and generation get
the same upsert key and the same delete key, whatever the rest of the objects, the
configuration and the environment, and so do two invocations on the same object. -/
theorem idempotency_key_of_uid_generation (env1 env2 : Env)
    (baseURL1 apiKey1 baseURL2 apiKey2 : String) (p q : SignalCraftAlertPolicy)
    (huid : p.ObjectMeta.UID = q.ObjectMeta.UID)
    (hgen : p.ObjectMeta.Generation = q.ObjectMeta.Generation) :
    (∀ r1 a1 r2 a2,
      Event.http r1 a1 ∈ (syncAlertPolicy env1 baseURL1 apiKey1 p).2 →
      Event.http r2 a2 ∈ (syncAlertPolicy env2 baseURL2 apiKey2 q).2 →
      r1.getHeader "Idempotency-Key"
        = some (upsertKey p.ObjectMeta.UID p.ObjectMeta.Generation) ∧
      r1.getHeader "Idempotency-Key" = r2.getHeader "Idempotency-Key") ∧
    (∀ r1 a1 r2 a2,
      Event.http r1 a1 ∈ (deleteAlertPolicy env1 baseURL1 apiKey1 p).2 →
      Event.http r2 a2 ∈ (deleteAlertPolicy env2 baseURL2 apiKey2 q).2 →
      r1.getHeader "Idempotency-Key"
        = some (deleteKey p.ObjectMeta.UID p.ObjectMeta.Generation) ∧
      r1.getHeader "Idempotency-Key" = r2.getHeader "Idempotency-Key") := by
  constructor
  · intro r1 a1 r2 a2 h1 h2
    obtain ⟨body1, resp1, e1⟩ := syncAlertPolicy_events env1 baseURL1 apiKey1 p _ h1
    obtain ⟨body2, resp2, e2⟩ := syncAlertPolicy_events env2 baseURL2 apiKey2 q _ h2
    cases e1
    cases e2
    rw [upsertRequest_key, upsertRequest_key, huid, hgen]
    exact ⟨rfl, rfl⟩
  · intro r1 a1 r2 a2 h1 h2
    obtain ⟨resp1, e1⟩ := (deleteAlertPolicy_spec env1 baseURL1 apiKey1 p).2 _ h1
    obtain ⟨resp2, e2⟩ := (deleteAlertPolicy_spec env2 baseURL2 apiKey2 q).2 _ h2
    cases e1
    cases e2
    rw [deleteRequest_key, deleteRequest_key, huid, hgen]
    exact ⟨rfl, rfl⟩

/-- Witness of C14: scenario A's object at generation 2 and the object marked for
deletion relabelled to generation 2 share the UID `uid-1`; upsert answered 200 in one
environment and 500 in another, with different configuration. -/
theorem idempotency_key_of_uid_generation_witness :
    (upsertRequest "https://signalcraft.example" "secret" editedPolicy
        (scenarioBody "rk2")).getHeader "Idempotency-Key"
      = (upsertRequest "https://other.example" "other"
          { deletingPolicy with ObjectMeta := { deletingPolicy.ObjectMeta with Generation := 2 } }
          (scenarioBody "rk1")).getHeader "Idempotency-Key" :=
  ((idempotency_key_of_uid_generation (scenarioEnv 200 (scenarioBody "rk2"))
      (scenarioEnv 500 (scenarioBody "rk1")) "https://signalcraft.example" "secret"
      "https://other.example" "other" editedPolicy
      { deletingPolicy with ObjectMeta := { deletingPolicy.ObjectMeta with Generation := 2 } }
      rfl rfl).1 _ (Except.ok 200) _ (Except.ok 500)
      (List.mem_cons_self _ _) (List.mem_cons_self _ _)).2

/-! ## Lemmas on the decimal rendering of integers -/

theorem digitChar_isDigit : ∀ d, d < 10 → (Nat.digitChar d).isDigit = true := by decide

theorem toDigitsCore_isDigit (fuel : Nat) : ∀ (n : Nat) (ds : List Char),
    (∀ c ∈ ds, c.isDigit = true) → ∀ c ∈ Nat.toDigitsCore 10 fuel n ds, c.isDigit = true := by
  induction fuel with
  | zero =>
    intro n ds hds c hc
    exact hds c hc
  | succ fuel ih =>
    intro n ds hds c hc
    have hd : (Nat.digitChar (n % 10)).isDigit = true :=
      digitChar_isDigit _ (Nat.mod_lt _ (by decide))
    have hds' : ∀ c ∈ Nat.digitChar (n % 10) :: ds, c.isDigit = true := by
      intro c hc
      rcases List.mem_cons.1 hc with rfl | h
      · exact hd
      · exact hds c h
    unfold Nat.toDigitsCore at hc
    simp only at hc
    split at hc
    · exact hds' c hc
    · exact ih _ _ hds' c hc

theorem toDigitsCore_ne_nil (fuel : Nat) : ∀ (n : Nat) (ds : List Char),
    (0 < fuel ∨ ds ≠ []) → Nat.toDigitsCore 10 fuel n ds ≠ [] := by
  induction fuel with
  | zero =>
    intro n ds h
    rcases h with h | h
    · exact absurd h (by decide)
    · exact h
  | succ fuel ih =>
    intro n ds _
    unfold Nat.toDigitsCore
    simp only
    split
    · exact List.cons_ne_nil _ _
    · exact ih _ _ (Or.inr (List.cons_ne_nil _ _))

theorem natRepr_data (n : Nat) :
    ∃ l c, (toString n).data = l ++ [c] ∧ c.isDigit = true := by
  have hne : Nat.toDigits 10 n ≠ [] := toDigitsCore_ne_nil _ _ _ (Or.inl (Nat.succ_pos n))
  have hdig : ∀ c ∈ Nat.toDigits 10 n, c.isDigit = true :=
    toDigitsCore_isDigit _ _ _ (fun c hc => by cases hc)
  have hdata : (toString n).data = Nat.toDigits 10 n := rfl
  rw [hdata]
  refine ⟨(Nat.toDigits 10 n).dropLast, (Nat.toDigits 10 n).getLast hne, ?_, ?_⟩
  · exact (List.dropLast_append_getLast hne).symm
  · exact hdig _ (List.getLast_mem hne)

theorem intToString_data (g : Int) :
    ∃ l c, (toString g).data = l ++ [c] ∧ c.isDigit = true := by
  cases g with
  | ofNat m => exact natRepr_data m
  | negSucc m =>
    obtain ⟨l, c, hl, hc⟩ := natRepr_data (Nat.succ m)
    refine ⟨'-' :: l, c, ?_, hc⟩
    have hdata : (toString (Int.negSucc m)).data = '-' :: (toString (Nat.succ m)).data := rfl
    rw [hdata, hl]
    rfl

theorem upsertKey_data (u : String) (g : Int) :
    ∃ l c, (upsertKey u g).data = l ++ [c] ∧ c.isDigit = true := by
  obtain ⟨l, c, hl, hc⟩ := intToString_data g
  refine ⟨u.data ++ '-' :: l, c, ?_, hc⟩
  simp only [upsertKey, String.data_append, hl, List.append_assoc]
  rfl

/-- C16: the delete key of `(u, g)` is the upsert key of `(u, g)` followed by "-delete",
and no upsert key equals any delete key: an upsert key ends in a decimal digit, a delete
key in the letter `e`. -/
theorem delete_key_is_suffixed_upsert_key :
    (∀ (u : String) (g : Int), deleteKey u g = upsertKey u g ++ "-delete") ∧
    (∀ (u1 u2 : String) (g1 g2 : Int), upsertKey u1 g1 ≠ deleteKey u2 g2) := by
  constructor
  · intro u g
    rfl
  · intro u1 u2 g1 g2 heq
    obtain ⟨l, c, hl, hc⟩ := upsertKey_data u1 g1
    have hdata := congrArg String.data heq
    rw [hl] at hdata
    have hlast := congrArg List.getLast? hdata
    have hright : (deleteKey u2 g2).data
        = (u2 ++ "-" ++ toString g2).data ++ ['-', 'd', 'e', 'l', 'e', 't'] ++ ['e'] := by
      simp only [deleteKey, String.data_append, List.append_assoc]
      rfl
    rw [hright, List.getLast?_append, List.getLast?_append] at hlast
    have hce : c = 'e' := by simpa using hlast
    rw [hce] at hc
    exact absurd hc (by decide)

/-! ## Lemmas on `DoJSON` -/

theorem Client.newRequest_method (c : Client) (method url : String) (payload : Option String)
    (key : String) : (c.newRequest method url payload key).Method = method := by
  unfold Client.newRequest
  simp only
  split <;> rfl

theorem Client.newRequest_authorization (c : Client) (method url : String)
    (payload : Option String) (key : String) :
    (c.newRequest method url payload key).getHeader "Authorization"
      = some ("Bearer " ++ c.APIKey) := by
  unfold Client.newRequest
  simp only
  split <;>
    simp [Request.setHeader, Request.getHeader, List.find?_append, List.filter_cons,
      List.find?_cons]

theorem Client.newRequest_contentType (c : Client) (method url : String)
    (payload : Option String) (key : String) :
    (c.newRequest method url payload key).getHeader "Content-Type"
      = some "application/json" := by
  unfold Client.newRequest
  simp only
  split <;>
    simp [Request.setHeader, Request.getHeader, List.find?_append, List.filter_cons,
      List.find?_cons]

theorem Client.newRequest_key (c : Client) (method url : String)
    (payload : Option String) (key : String) :
    (c.newRequest method url payload key).getHeader "Idempotency-Key"
      = if key = "" then none else some key := by
  unfold Client.newRequest
  simp only
  by_cases h : key = ""
  · simp [h, Request.setHeader, Request.getHeader, List.find?_append, List.filter_cons,
      List.find?_cons]
  · simp [h, Request.setHeader, Request.getHeader, List.find?_append, List.filter_cons,
      List.find?_cons]

/-- The two ways a `DoJSON` call goes: it fails before any round trip with an error that
is not a `*HTTPError`, or it makes exactly one round trip, with the request built from
its arguments, and answers according to the answer of the transport. -/
theorem DoJSON_cases {γ : Type} (p : Provider) (s : Session) (method path : String)
    (body : Option Payload) (key : String) (out : Out γ) :
    (∃ msg, DoJSON p s method path body key out
      = { result := Except.error (ClientError.other msg), session := s }) ∨
    (∃ payload,
      DoJSON p s method path body key out
        = { result := classify out
              (p.Do s.exchanges.length
                (p.client.newRequest method (p.client.BaseURL ++ path) payload key)),
            session := { s with exchanges := s.exchanges ++
              [{ request := p.client.newRequest method (p.client.BaseURL ++ path) payload key,
                 idempotencyKey := key,
                 response := p.Do s.exchanges.length
                   (p.client.newRequest method (p.client.BaseURL ++ path) payload key) }] } }) := by
  unfold DoJSON
  simp only
  cases henc : encodeBody p body with
  | error err => exact Or.inl ⟨err, rfl⟩
  | ok payload =>
    cases hnew : p.NewRequest method (p.client.BaseURL ++ path) with
    | some err => exact Or.inl ⟨err, rfl⟩
    | none =>
      right
      refine ⟨payload, ?_⟩
      simp only
      cases hdo : p.Do s.exchanges.length
          (p.client.newRequest method (p.client.BaseURL ++ path) payload key) with
      | error err => rfl
      | ok res =>
        simp only [classify]
        split <;> rfl

/-- The exchanges after a `DoJSON` call: those before it, and at most one more, built
from the arguments of the call. -/
theorem DoJSON_exchanges {γ : Type} (p : Provider) (s : Session) (method path : String)
    (body : Option Payload) (key : String) (out : Out γ) :
    (DoJSON p s method path body key out).session.uuids = s.uuids ∧
    ((DoJSON p s method path body key out).session.exchanges = s.exchanges ∨
     ∃ payload, (DoJSON p s method path body key out).session.exchanges
       = s.exchanges ++
          [{ request := p.client.newRequest method (p.client.BaseURL ++ path) payload key,
             idempotencyKey := key,
             response := p.Do s.exchanges.length
               (p.client.newRequest method (p.client.BaseURL ++ path) payload key) }]) := by
  rcases DoJSON_cases p s method path body key out with ⟨msg, h⟩ | ⟨payload, h⟩
  · rw [h]
    exact ⟨rfl, Or.inl rfl⟩
  · rw [h]
    exact ⟨rfl, Or.inr ⟨payload, rfl⟩⟩

/-- When a `DoJSON` call makes the round trip `ex`, its result is the classification of
the answer of that round trip. -/
theorem DoJSON_result_of_exchange {γ : Type} (p : Provider) (s : Session)
    (method path : String) (body : Option Payload) (key : String) (out : Out γ)
    (ex : Exchange)
    (hsent : (DoJSON p s method path body key out).session.exchanges = s.exchanges ++ [ex]) :
    (DoJSON p s method path body key out).result = classify out ex.response ∧
    ex.idempotencyKey = key ∧
    ∃ payload, ex.request = p.client.newRequest method (p.client.BaseURL ++ path) payload key := by
  rcases DoJSON_cases p s method path body key out with ⟨msg, h⟩ | ⟨payload, h⟩
  · rw [h] at hsent
    simp at hsent
  · rw [h] at hsent ⊢
    simp only [List.append_cancel_left_eq, List.cons.injEq, and_true] at hsent
    subst hsent
    exact ⟨rfl, rfl, payload, rfl⟩

/-! ## Claims on the provider client -/

/-- C17: for every round trip a `DoJSON` call makes: when the transport returns a
response with status `st` and body `b`, the call returns a `*HTTPError` exactly when
`st < 200` or `st >= 300`, that error has `StatusCode = st` and `Body = b`, and the
not-found test of the resources holds of the returned error exactly when `st = 404`;
when the transport fails, the call returns the transport error, which is not a
`*HTTPError`; and when `out` is nil and `st` is in 200..299, the call returns no error. -/
theorem DoJSON_classifies_responses (p : Provider) (s : Session) (method path : String)
    (body : Option Payload) (key : String) :
    (∀ (γ : Type) (out : Out γ) (ex : Exchange),
      (DoJSON p s method path body key out).session.exchanges = s.exchanges ++ [ex] →
      (∀ st b, ex.response = Except.ok { StatusCode := st, Body := b } →
        ((DoJSON p s method path body key out).result
            = Except.error (ClientError.http { StatusCode := st, Body := b })
          ↔ (st < 200 ∨ st ≥ 300)) ∧
        (∀ e, (DoJSON p s method path body key out).result
            = Except.error (ClientError.http e) →
          e.StatusCode = st ∧ e.Body = b ∧ (st < 200 ∨ st ≥ 300)) ∧
        (∀ err, (DoJSON p s method path body key out).result = Except.error err →
          (err.isNotFound = true ↔ st = 404))) ∧
      (∀ msg, ex.response = Except.error msg →
        (DoJSON p s method path body key out).result
          = Except.error (ClientError.other msg))) ∧
    (∀ (ex : Exchange) (st : Int) (b : String),
      (DoJSON p s method path body key Out.nil).session.exchanges = s.exchanges ++ [ex] →
      ex.response = Except.ok { StatusCode := st, Body := b } →
      200 ≤ st ∧ st < 300 →
      (DoJSON p s method path body key Out.nil).result = Except.ok ()) := by
  constructor
  · intro γ out ex hsent
    obtain ⟨hres, _, _⟩ := DoJSON_result_of_exchange p s method path body key out ex hsent
    rw [hres]
    constructor
    · intro st b hresp
      rw [hresp]
      by_cases hbad : st < 200 ∨ st ≥ 300
      · simp only [classify, hbad, if_true, true_iff]
        refine ⟨trivial, ?_, ?_⟩
        · intro e he
          cases he
          exact ⟨rfl, rfl, trivial⟩
        · intro err herr
          cases herr
          simp [ClientError.isNotFound]
      · simp only [classify, hbad, if_false, iff_false]
        have hdec : ∀ e : ClientError, decodeOut out b = Except.error e →
            ∃ msg, e = ClientError.other msg := by
          intro e he
          cases out with
          | nil => cases he
          | into decode =>
            simp only [decodeOut] at he
            split at he
            · cases he
              exact ⟨_, rfl⟩
            · cases he
        refine ⟨?_, ?_, ?_⟩
        · intro h
          obtain ⟨msg, hm⟩ := hdec _ h
          cases hm
        · intro e h
          obtain ⟨msg, hm⟩ := hdec _ h
          cases hm
        · intro err h
          obtain ⟨msg, hm⟩ := hdec _ h
          subst hm
          simp only [ClientError.isNotFound, Bool.false_eq_true, false_iff]
          intro h404
          apply hbad
          right
          omega
    · intro msg hresp
      rw [hresp]
      rfl
  · intro ex st b hsent hresp hok
    obtain ⟨hres, _, _⟩ := DoJSON_result_of_exchange p s method path body key Out.nil ex hsent
    have hbad : ¬ (st < 200 ∨ st ≥ 300) := by omega
    rw [hres, hresp]
    simp only [classify, hbad, if_false]
    rfl

/-! ## Lemmas on the sessions of the operations -/

theorem Session.Keyed_start (p : Provider) : Session.Keyed p Session.start := by
  intro ex hex
  cases hex

theorem Session.Keyed_get {γ : Type} (p : Provider) (s : Session) (path : String)
    (body : Option Payload) (out : Out γ) (h : Session.Keyed p s) :
    Session.Keyed p (DoJSON p s "GET" path body "" out).session := by
  obtain ⟨huuids, hex⟩ := DoJSON_exchanges p s "GET" path body "" out
  intro ex hmem
  rcases hex with hsame | ⟨payload, hnew⟩
  · rw [hsame] at hmem
    rw [huuids]
    exact h ex hmem
  · rw [hnew] at hmem
    rw [huuids]
    rcases List.mem_append.1 hmem with hold | hlast
    · exact h ex hold
    · have hex : ex = _ := List.mem_singleton.1 hlast
      subst hex
      refine ⟨⟨p.client.BaseURL ++ path, payload, ?_⟩,
        Or.inl ⟨Client.newRequest_method _ _ _ _ _, rfl⟩⟩
      simp only [Client.newRequest_method]

theorem Session.Keyed_mutating {γ : Type} (p : Provider) (s : Session) (method path : String)
    (body : Option Payload) (out : Out γ) (h : Session.Keyed p s) (hm : method ≠ "GET") :
    Session.Keyed p
      (DoJSON p (NewString p s).2 method path body (NewString p s).1 out).session := by
  obtain ⟨huuids, hex⟩ :=
    DoJSON_exchanges p (NewString p s).2 method path body (NewString p s).1 out
  have hold : ∀ ex ∈ s.exchanges,
      (∃ url payload,
        ex.request = p.client.newRequest ex.request.Method url payload ex.idempotencyKey) ∧
      ((ex.request.Method = "GET" ∧ ex.idempotencyKey = "") ∨
       (ex.request.Method ≠ "GET" ∧
        ∃ n, n < s.uuids + 1 ∧ ex.idempotencyKey = p.NewString n)) := by
    intro ex hmem
    obtain ⟨hreq, hkey⟩ := h ex hmem
    refine ⟨hreq, ?_⟩
    rcases hkey with hget | ⟨hne, n, hn, hk⟩
    · exact Or.inl hget
    · exact Or.inr ⟨hne, n, Nat.lt_succ_of_lt hn, hk⟩
  intro ex hmem
  rw [huuids]
  rcases hex with hsame | ⟨payload, hnew⟩
  · rw [hsame] at hmem
    exact hold ex hmem
  · rw [hnew] at hmem
    rcases List.mem_append.1 hmem with hmem | hlast
    · exact hold ex hmem
    · have hex : ex = _ := List.mem_singleton.1 hlast
      subst hex
      refine ⟨⟨p.client.BaseURL ++ path, payload, ?_⟩,
        Or.inr ⟨?_, s.uuids, Nat.lt_succ_self _, rfl⟩⟩
      · simp only [Client.newRequest_method]
      · simp only [Client.newRequest_method]
        exact hm

theorem addMembers_keyed (p : Provider) (teamID : String) (members : List String) :
    ∀ s, Session.Keyed p s → Session.Keyed p (addMembers p teamID members s).2 := by
  induction members with
  | nil =>
    intro s h
    exact h
  | cons userID rest ih =>
    intro s h
    have hstep := Session.Keyed_mutating p s "POST" ("/api/teams/" ++ teamID ++ "/members")
      (some (Payload.teamMember { UserID := userID })) Out.nil h (by decide)
    unfold addMembers
    simp only
    split
    · exact hstep
    · exact ih _ hstep

theorem removeMembers_keyed (p : Provider) (teamID : String) (members : List String) :
    ∀ s, Session.Keyed p s → Session.Keyed p (removeMembers p teamID members s).2 := by
  induction members with
  | nil =>
    intro s h
    exact h
  | cons userID rest ih =>
    intro s h
    have hstep := Session.Keyed_mutating p s "DELETE"
      ("/api/teams/" ++ teamID ++ "/members/" ++ userID) none Out.nil h (by decide)
    unfold removeMembers
    simp only
    split
    · exact hstep
    · exact ih _ hstep

theorem deleteResource_keyed (p : Provider) (path : String) :
    Session.Keyed p (deleteResource p path).session := by
  have h0 := Session.Keyed_start p
  have h1 := Session.Keyed_mutating p Session.start "DELETE" path none Out.nil h0 (by decide)
  unfold deleteResource
  simp only
  split
  · exact h0
  · split
    · split
      · exact h1
      · exact h1
    · exact h1

theorem readResource_keyed {ρ σ : Type} (p : Provider) (path : String)
    (decode : String → Except String ρ) (flatten : ρ → σ × Diagnostics) :
    Session.Keyed p (readResource p path decode flatten).session := by
  have h0 := Session.Keyed_start p
  have h1 := Session.Keyed_get p Session.start path none (Out.into decode) h0
  unfold readResource
  simp only
  split
  · exact h0
  · split
    · split
      · exact h1
      · exact h1
    · split
      · exact h1
      · exact h1

theorem writeResource_keyed {ρ σ : Type} (p : Provider) (getDiags : Diagnostics)
    (method path : String) (build : Payload × Diagnostics)
    (decode : String → Except String ρ) (flatten : ρ → σ × Diagnostics)
    (hm : method ≠ "GET") :
    Session.Keyed p (writeResource p getDiags method path build decode flatten).session := by
  have h0 := Session.Keyed_start p
  have h1 := Session.Keyed_mutating p Session.start method path (some build.1)
    (Out.into decode) h0 hm
  unfold writeResource
  simp only
  split
  · exact h0
  · split
    · exact h0
    · split
      · exact h1
      · split
        · exact h1
        · exact h1

theorem readTeamState_session (p : Provider) (s : Session) (teamID : String) :
    (teamResource.readTeamState p s teamID).2
      = (DoJSON p s "GET" ("/api/teams/" ++ teamID) none ""
          (Out.into p.decodeTeamDetail)).session := by
  unfold teamResource.readTeamState
  simp only
  split
  · rfl
  · split <;> rfl

theorem teamFinish_session (p : Provider) (diags : Diagnostics) (s : Session)
    (teamID : String) :
    (teamResource.finish p diags s teamID).session
      = (DoJSON p s "GET" ("/api/teams/" ++ teamID) none ""
          (Out.into p.decodeTeamDetail)).session := by
  unfold teamResource.finish
  simp only
  split <;> exact readTeamState_session p s teamID

theorem teamFinish_keyed (p : Provider) (diags : Diagnostics) (s : Session)
    (teamID : String) (h : Session.Keyed p s) :
    Session.Keyed p (teamResource.finish p diags s teamID).session := by
  rw [teamFinish_session]
  exact Session.Keyed_get p s _ none _ h

theorem teamCreate_keyed (p : Provider) (plan : teamModel) :
    Session.Keyed p (teamResource.Create p plan).session := by
  have h0 := Session.Keyed_start p
  have h1 := Session.Keyed_mutating p Session.start "POST" "/api/teams"
    (some (Payload.team (buildTeamPayload plan).1)) (Out.into p.decodeTeam) h0 (by decide)
  unfold teamResource.Create
  simp only
  split
  · exact h0
  · split
    · exact h0
    · split
      · exact h1
      · split
        · split
          · exact h1
          · split
            · exact addMembers_keyed p _ _ _ h1
            · exact teamFinish_keyed p _ _ _ (addMembers_keyed p _ _ _ h1)
        · exact teamFinish_keyed p _ _ _ h1

theorem teamRead_keyed (p : Provider) (state : teamModel) :
    Session.Keyed p (teamResource.Read p state).session := by
  have h0 := Session.Keyed_start p
  unfold teamResource.Read
  simp only
  split
  · exact h0
  · exact teamFinish_keyed p _ _ _ h0

theorem teamUpdate_keyed (p : Provider) (plan state : teamModel) :
    Session.Keyed p (teamResource.Update p plan state).session := by
  have h0 := Session.Keyed_start p
  have h1 := Session.Keyed_mutating p Session.start "PUT" ("/api/teams/" ++ state.ID.ValueString)
    (some (Payload.team (buildTeamPayload plan).1)) Out.nil h0 (by decide)
  unfold teamResource.Update
  simp only
  split
  · exact h0
  · split
    · exact h0
    · split
      · exact h1
      · split
        · split
          · exact h1
          · split
            · exact h1
            · split
              · exact addMembers_keyed p _ _ _ h1
              · split
                · exact removeMembers_keyed p _ _ _ (addMembers_keyed p _ _ _ h1)
                · exact teamFinish_keyed p _ _ _
                    (removeMembers_keyed p _ _ _ (addMembers_keyed p _ _ _ h1))
        · exact teamFinish_keyed p _ _ _ h1

theorem invitationCreate_keyed (p : Provider) (plan : invitationModel) :
    Session.Keyed p (invitationResource.Create p plan).session := by
  have h0 := Session.Keyed_start p
  have h1 := Session.Keyed_mutating p Session.start "POST" "/api/invitations"
    (some (Payload.invitation
      { Email := plan.Email.ValueString, Role := plan.Role.ValueString }))
    (Out.into p.decodeInvitation) h0 (by decide)
  unfold invitationResource.Create
  simp only
  split
  · exact h0
  · split
    · exact h1
    · exact h1

theorem listInvitations_session (p : Provider) (s : Session) :
    (invitationResource.listInvitations p s).2
      = (DoJSON p s "GET" "/api/invitations" none "" (Out.into p.decodeInvitations)).session := by
  unfold invitationResource.listInvitations
  simp only
  split <;> rfl

theorem invitationRead_keyed (p : Provider) (state : invitationModel) :
    Session.Keyed p (invitationResource.Read p state).session := by
  have h0 := Session.Keyed_start p
  have h1 : Session.Keyed p (invitationResource.listInvitations p Session.start).2 := by
    rw [listInvitations_session]
    exact Session.Keyed_get p _ _ none _ h0
  unfold invitationResource.Read
  simp only
  split
  · exact h0
  · split
    · exact h1
    · split
      · exact h1
      · exact h1

theorem userFinish_session (p : Provider) (diags : Diagnostics) (s : Session)
    (userID : String) :
    (userResource.finish p diags s userID).session
      = (DoJSON p s "GET" "/workspaces/members" none "" (Out.into p.decodeUsers)).session := by
  have hread : (userResource.readUserState p s userID).2
      = (DoJSON p s "GET" "/workspaces/members" none "" (Out.into p.decodeUsers)).session := by
    unfold userResource.readUserState
    simp only
    split
    · rfl
    · split <;> rfl
  unfold userResource.finish
  simp only
  split <;> exact hread

theorem userFinish_keyed (p : Provider) (diags : Diagnostics) (s : Session)
    (userID : String) (h : Session.Keyed p s) :
    Session.Keyed p (userResource.finish p diags s userID).session := by
  rw [userFinish_session]
  exact Session.Keyed_get p s _ none _ h

theorem userWrite_keyed (p : Provider) (plan : userModel) :
    Session.Keyed p (userResource.write p plan).session := by
  have h0 := Session.Keyed_start p
  have h1 := Session.Keyed_mutating p Session.start "PATCH"
    ("/workspaces/members/" ++ plan.UserID.ValueString)
    (some (Payload.userUpdate { Role := plan.Role.ValueString })) Out.nil h0 (by decide)
  unfold userResource.write
  simp only
  split
  · exact h0
  · split
    · exact h1
    · exact userFinish_keyed p _ _ _ h1

theorem userRead_keyed (p : Provider) (state : userModel) :
    Session.Keyed p (userResource.Read p state).session := by
  have h0 := Session.Keyed_start p
  unfold userResource.Read
  simp only
  split
  · exact h0
  · exact userFinish_keyed p _ _ _ h0

theorem workspaceWrite_keyed (p : Provider) (plan : workspaceModel) :
    Session.Keyed p (workspaceResource.write p plan).session := by
  have h0 := Session.Keyed_start p
  have h1 := Session.Keyed_mutating p Session.start "PUT" "/settings/workspace"
    (some (Payload.workspaceUpdate { Name := plan.Name.ValueString })) Out.nil h0 (by decide)
  unfold workspaceResource.write
  simp only
  split
  · exact h0
  · split
    · exact h1
    · have h2 := Session.Keyed_get p
        (DoJSON p (NewString p Session.start).2 "PUT" "/settings/workspace"
          (some (Payload.workspaceUpdate { Name := plan.Name.ValueString }))
          (NewString p Session.start).1 Out.nil).session
        "/settings/workspace" none (Out.into p.decodeWorkspace) h1
      split
      · exact h2
      · exact h2

/-- Every operation of every resource ends with a session that satisfies the invariant. -/
theorem Operation.run_keyed (p : Provider) (op : Operation) :
    Session.Keyed p (op.run p).session := by
  cases op with
  | escalationPolicyCreate plan => exact writeResource_keyed p _ _ _ _ _ _ (by decide)
  | escalationPolicyRead state => exact readResource_keyed p _ _ _
  | escalationPolicyUpdate plan state => exact writeResource_keyed p _ _ _ _ _ _ (by decide)
  | escalationPolicyDelete state => exact deleteResource_keyed p _
  | routingRuleCreate plan => exact writeResource_keyed p _ _ _ _ _ _ (by decide)
  | routingRuleRead state => exact readResource_keyed p _ _ _
  | routingRuleUpdate plan state => exact writeResource_keyed p _ _ _ _ _ _ (by decide)
  | routingRuleDelete state => exact deleteResource_keyed p _
  | scheduleCreate plan => exact writeResource_keyed p _ _ _ _ _ _ (by decide)
  | scheduleRead state => exact readResource_keyed p _ _ _
  | scheduleUpdate plan state => exact writeResource_keyed p _ _ _ _ _ _ (by decide)
  | scheduleDelete state => exact deleteResource_keyed p _
  | teamCreate plan => exact teamCreate_keyed p plan
  | teamRead state => exact teamRead_keyed p state
  | teamUpdate plan state => exact teamUpdate_keyed p plan state
  | teamDelete state => exact deleteResource_keyed p _
  | invitationCreate plan => exact invitationCreate_keyed p plan
  | invitationRead state => exact invitationRead_keyed p state
  | invitationUpdate plan state => exact Session.Keyed_start p
  | invitationDelete state => exact deleteResource_keyed p _
  | userCreate plan => exact userWrite_keyed p plan
  | userRead state => exact userRead_keyed p state
  | userUpdate plan => exact userWrite_keyed p plan
  | userDelete state => exact deleteResource_keyed p _
  | workspaceCreate plan => exact workspaceWrite_keyed p plan
  | workspaceRead state => exact readResource_keyed p _ _ _
  | workspaceUpdate plan => exact workspaceWrite_keyed p plan
  | workspaceDelete state => exact Session.Keyed_start p

/-! ## Lemmas on the draws of `uuid.NewString()` -/

theorem Session.Drawn_start (p : Provider) : Session.Drawn p Session.start := rfl

theorem Session.Drawn.upTo {p : Provider} {s : Session} (h : Session.Drawn p s) :
    Session.DrawnUpTo p s :=
  ⟨s.uuids, Nat.le_refl _, Nat.le_succ _, h⟩

/-- A GET call draws no string and adds no mutating round trip. -/
theorem Session.Drawn_get {γ : Type} (p : Provider) (s : Session) (path : String)
    (body : Option Payload) (out : Out γ) (h : Session.Drawn p s) :
    Session.Drawn p (DoJSON p s "GET" path body "" out).session := by
  obtain ⟨huuids, hex⟩ := DoJSON_exchanges p s "GET" path body "" out
  unfold Session.Drawn Session.mutatingKeys at h ⊢
  rw [huuids]
  rcases hex with hsame | ⟨payload, hnew⟩
  · rw [hsame]
    exact h
  · rw [hnew, List.filter_append, List.map_append, h]
    simp [Client.newRequest_method]

/-- A mutating call with the string just drawn as key: the draw is the key of the round
trip it makes, and it is left without a round trip only when the call fails. -/
theorem Session.Drawn_mutating {γ : Type} (p : Provider) (s : Session) (method path : String)
    (body : Option Payload) (out : Out γ) (h : Session.Drawn p s) (hm : method ≠ "GET") :
    Session.DrawnUpTo p
      (DoJSON p (NewString p s).2 method path body (NewString p s).1 out).session ∧
    (∀ v, (DoJSON p (NewString p s).2 method path body (NewString p s).1 out).result
        = Except.ok v →
      Session.Drawn p
        (DoJSON p (NewString p s).2 method path body (NewString p s).1 out).session) := by
  unfold Session.Drawn Session.mutatingKeys at h
  rcases DoJSON_cases p (NewString p s).2 method path body (NewString p s).1 out with
    ⟨msg, hd⟩ | ⟨payload, hd⟩
  · rw [hd]
    refine ⟨⟨s.uuids, Nat.le_succ _, Nat.le_refl _, h⟩, ?_⟩
    intro v hv
    cases hv
  · have hdrawn : Session.Drawn p
        (DoJSON p (NewString p s).2 method path body (NewString p s).1 out).session := by
      rw [hd]
      unfold Session.Drawn Session.mutatingKeys
      show (List.filter _ (s.exchanges ++ _)).map _ = (List.range (s.uuids + 1)).map _
      rw [List.filter_append, List.map_append, h, List.range_succ, List.map_append]
      simp [Client.newRequest_method, hm, NewString]
    exact ⟨hdrawn.upTo, fun _ _ => hdrawn⟩

theorem addMembers_drawn (p : Provider) (teamID : String) (members : List String) :
    ∀ s, Session.Drawn p s →
      Session.DrawnUpTo p (addMembers p teamID members s).2 ∧
      ((addMembers p teamID members s).1 = none →
        Session.Drawn p (addMembers p teamID members s).2) := by
  induction members with
  | nil =>
    intro s h
    exact ⟨h.upTo, fun _ => h⟩
  | cons userID rest ih =>
    intro s h
    have hstep := Session.Drawn_mutating p s "POST" ("/api/teams/" ++ teamID ++ "/members")
      (some (Payload.teamMember { UserID := userID })) Out.nil h (by decide)
    unfold addMembers
    simp only
    split
    · refine ⟨hstep.1, ?_⟩
      intro hnone
      cases hnone
    · rename_i v hv
      exact ih _ (hstep.2 v hv)

theorem removeMembers_drawn (p : Provider) (teamID : String) (members : List String) :
    ∀ s, Session.Drawn p s →
      Session.DrawnUpTo p (removeMembers p teamID members s).2 ∧
      ((removeMembers p teamID members s).1 = none →
        Session.Drawn p (removeMembers p teamID members s).2) := by
  induction members with
  | nil =>
    intro s h
    exact ⟨h.upTo, fun _ => h⟩
  | cons userID rest ih =>
    intro s h
    have hstep := Session.Drawn_mutating p s "DELETE"
      ("/api/teams/" ++ teamID ++ "/members/" ++ userID) none Out.nil h (by decide)
    unfold removeMembers
    simp only
    split
    · refine ⟨hstep.1, ?_⟩
      intro hnone
      cases hnone
    · rename_i v hv
      exact ih _ (hstep.2 v hv)

theorem deleteResource_drawn (p : Provider) (path : String) :
    Session.DrawnUpTo p (deleteResource p path).session := by
  have h0 := Session.Drawn_start p
  have h1 := (Session.Drawn_mutating p Session.start "DELETE" path none Out.nil h0
    (by decide)).1
  unfold deleteResource
  simp only
  split
  · exact h0.upTo
  · split
    · split
      · exact h1
      · exact h1
    · exact h1

theorem readResource_drawn {ρ σ : Type} (p : Provider) (path : String)
    (decode : String → Except String ρ) (flatten : ρ → σ × Diagnostics) :
    Session.DrawnUpTo p (readResource p path decode flatten).session := by
  have h0 := Session.Drawn_start p
  have h1 := (Session.Drawn_get p Session.start path none (Out.into decode) h0).upTo
  unfold readResource
  simp only
  split
  · exact h0.upTo
  · split
    · split
      · exact h1
      · exact h1
    · split
      · exact h1
      · exact h1

theorem writeResource_drawn {ρ σ : Type} (p : Provider) (getDiags : Diagnostics)
    (method path : String) (build : Payload × Diagnostics)
    (decode : String → Except String ρ) (flatten : ρ → σ × Diagnostics)
    (hm : method ≠ "GET") :
    Session.DrawnUpTo p
      (writeResource p getDiags method path build decode flatten).session := by
  have h0 := Session.Drawn_start p
  have h1 := (Session.Drawn_mutating p Session.start method path (some build.1)
    (Out.into decode) h0 hm).1
  unfold writeResource
  simp only
  split
  · exact h0.upTo
  · split
    · exact h0.upTo
    · split
      · exact h1
      · split
        · exact h1
        · exact h1

theorem teamFinish_drawn (p : Provider) (diags : Diagnostics) (s : Session)
    (teamID : String) (h : Session.Drawn p s) :
    Session.Drawn p (teamResource.finish p diags s teamID).session := by
  rw [teamFinish_session]
  exact Session.Drawn_get p s _ none _ h

theorem teamCreate_drawn (p : Provider) (plan : teamModel) :
    Session.DrawnUpTo p (teamResource.Create p plan).session := by
  have h0 := Session.Drawn_start p
  have h1 := Session.Drawn_mutating p Session.start "POST" "/api/teams"
    (some (Payload.team (buildTeamPayload plan).1)) (Out.into p.decodeTeam) h0 (by decide)
  unfold teamResource.Create
  simp only
  split
  · exact h0.upTo
  · split
    · exact h0.upTo
    · split
      · exact h1.1
      · rename_i v hv
        have h2 := h1.2 v hv
        split
        · split
          · exact h1.1
          · split
            · exact (addMembers_drawn p _ _ _ h2).1
            · rename_i hadd
              exact (teamFinish_drawn p _ _ _ ((addMembers_drawn p _ _ _ h2).2 hadd)).upTo
        · exact (teamFinish_drawn p _ _ _ h2).upTo

theorem teamRead_drawn (p : Provider) (state : teamModel) :
    Session.DrawnUpTo p (teamResource.Read p state).session := by
  have h0 := Session.Drawn_start p
  unfold teamResource.Read
  simp only
  split
  · exact h0.upTo
  · exact (teamFinish_drawn p _ _ _ h0).upTo

theorem teamUpdate_drawn (p : Provider) (plan state : teamModel) :
    Session.DrawnUpTo p (teamResource.Update p plan state).session := by
  have h0 := Session.Drawn_start p
  have h1 := Session.Drawn_mutating p Session.start "PUT"
    ("/api/teams/" ++ state.ID.ValueString)
    (some (Payload.team (buildTeamPayload plan).1)) Out.nil h0 (by decide)
  unfold teamResource.Update
  simp only
  split
  · exact h0.upTo
  · split
    · exact h0.upTo
    · split
      · exact h1.1
      · rename_i v hv
        have h2 := h1.2 v hv
        split
        · split
          · exact h1.1
          · split
            · exact h1.1
            · split
              · exact (addMembers_drawn p _ _ _ h2).1
              · rename_i hadd
                have h3 := (addMembers_drawn p _ _ _ h2).2 hadd
                split
                · exact (removeMembers_drawn p _ _ _ h3).1
                · rename_i hrem
                  exact (teamFinish_drawn p _ _ _
                    ((removeMembers_drawn p _ _ _ h3).2 hrem)).upTo
        · exact (teamFinish_drawn p _ _ _ h2).upTo

theorem invitationCreate_drawn (p : Provider) (plan : invitationModel) :
    Session.DrawnUpTo p (invitationResource.Create p plan).session := by
  have h0 := Session.Drawn_start p
  have h1 := (Session.Drawn_mutating p Session.start "POST" "/api/invitations"
    (some (Payload.invitation
      { Email := plan.Email.ValueString, Role := plan.Role.ValueString }))
    (Out.into p.decodeInvitation) h0 (by decide)).1
  unfold invitationResource.Create
  simp only
  split
  · exact h0.upTo
  · split
    · exact h1
    · exact h1

theorem invitationRead_drawn (p : Provider) (state : invitationModel) :
    Session.DrawnUpTo p (invitationResource.Read p state).session := by
  have h0 := Session.Drawn_start p
  have h1 : Session.DrawnUpTo p (invitationResource.listInvitations p Session.start).2 := by
    rw [listInvitations_session]
    exact (Session.Drawn_get p _ _ none _ h0).upTo
  unfold invitationResource.Read
  simp only
  split
  · exact h0.upTo
  · split
    · exact h1
    · split
      · exact h1
      · exact h1

theorem userFinish_drawn (p : Provider) (diags : Diagnostics) (s : Session)
    (userID : String) (h : Session.Drawn p s) :
    Session.Drawn p (userResource.finish p diags s userID).session := by
  rw [userFinish_session]
  exact Session.Drawn_get p s _ none _ h

theorem userWrite_drawn (p : Provider) (plan : userModel) :
    Session.DrawnUpTo p (userResource.write p plan).session := by
  have h0 := Session.Drawn_start p
  have h1 := Session.Drawn_mutating p Session.start "PATCH"
    ("/workspaces/members/" ++ plan.UserID.ValueString)
    (some (Payload.userUpdate { Role := plan.Role.ValueString })) Out.nil h0 (by decide)
  unfold userResource.write
  simp only
  split
  · exact h0.upTo
  · split
    · exact h1.1
    · rename_i v hv
      exact (userFinish_drawn p _ _ _ (h1.2 v hv)).upTo

theorem userRead_drawn (p : Provider) (state : userModel) :
    Session.DrawnUpTo p (userResource.Read p state).session := by
  have h0 := Session.Drawn_start p
  unfold userResource.Read
  simp only
  split
  · exact h0.upTo
  · exact (userFinish_drawn p _ _ _ h0).upTo

theorem workspaceWrite_drawn (p : Provider) (plan : workspaceModel) :
    Session.DrawnUpTo p (workspaceResource.write p plan).session := by
  have h0 := Session.Drawn_start p
  have h1 := Session.Drawn_mutating p Session.start "PUT" "/settings/workspace"
    (some (Payload.workspaceUpdate { Name := plan.Name.ValueString })) Out.nil h0 (by decide)
  unfold workspaceResource.write
  simp only
  split
  · exact h0.upTo
  · split
    · exact h1.1
    · rename_i v hv
      have h2 := (Session.Drawn_get p
        (DoJSON p (NewString p Session.start).2 "PUT" "/settings/workspace"
          (some (Payload.workspaceUpdate { Name := plan.Name.ValueString }))
          (NewString p Session.start).1 Out.nil).session
        "/settings/workspace" none (Out.into p.decodeWorkspace) (h1.2 v hv)).upTo
      split
      · exact h2
      · exact h2

/-- In every operation of every resource, call number `i` of `uuid.NewString()` returned
the key of mutating round trip number `i`, and at most the last call was left without a
round trip. -/
theorem Operation.run_drawn (p : Provider) (op : Operation) :
    Session.DrawnUpTo p (op.run p).session := by
  cases op with
  | escalationPolicyCreate plan => exact writeResource_drawn p _ _ _ _ _ _ (by decide)
  | escalationPolicyRead state => exact readResource_drawn p _ _ _
  | escalationPolicyUpdate plan state => exact writeResource_drawn p _ _ _ _ _ _ (by decide)
  | escalationPolicyDelete state => exact deleteResource_drawn p _
  | routingRuleCreate plan => exact writeResource_drawn p _ _ _ _ _ _ (by decide)
  | routingRuleRead state => exact readResource_drawn p _ _ _
  | routingRuleUpdate plan state => exact writeResource_drawn p _ _ _ _ _ _ (by decide)
  | routingRuleDelete state => exact deleteResource_drawn p _
  | scheduleCreate plan => exact writeResource_drawn p _ _ _ _ _ _ (by decide)
  | scheduleRead state => exact readResource_drawn p _ _ _
  | scheduleUpdate plan state => exact writeResource_drawn p _ _ _ _ _ _ (by decide)
  | scheduleDelete state => exact deleteResource_drawn p _
  | teamCreate plan => exact teamCreate_drawn p plan
  | teamRead state => exact teamRead_drawn p state
  | teamUpdate plan state => exact teamUpdate_drawn p plan state
  | teamDelete state => exact deleteResource_drawn p _
  | invitationCreate plan => exact invitationCreate_drawn p plan
  | invitationRead state => exact invitationRead_drawn p state
  | invitationUpdate plan state => exact (Session.Drawn_start p).upTo
  | invitationDelete state => exact deleteResource_drawn p _
  | userCreate plan => exact userWrite_drawn p plan
  | userRead state => exact userRead_drawn p state
  | userUpdate plan => exact userWrite_drawn p plan
  | userDelete state => exact deleteResource_drawn p _
  | workspaceCreate plan => exact workspaceWrite_drawn p plan
  | workspaceRead state => exact readResource_drawn p _ _ _
  | workspaceUpdate plan => exact workspaceWrite_drawn p plan
  | workspaceDelete state => exact (Session.Drawn_start p).upTo

/-! ## Claims on idempotency keys and headers of the provider -/

/-- Counterexample to C15 as stated: two executions of the `Delete` of the same escalation
policy state, in environments that differ only in what `uuid.NewString()` returns, send
one DELETE request each, to the same URL, with different `Idempotency-Key` values. -/
theorem terraform_retry_sends_new_key :
    (escalationPolicyResource.Delete (exampleProvider [uuidA] 500 "")
        examplePolicyState).session.exchanges.map
      (fun ex => (ex.request.Method, ex.request.URL, ex.request.getHeader "Idempotency-Key"))
      = [("DELETE", "https://signalcraft.example/api/escalation-policies/ep-1", some uuidA)] ∧
    (escalationPolicyResource.Delete (exampleProvider [uuidB] 500 "")
        examplePolicyState).session.exchanges.map
      (fun ex => (ex.request.Method, ex.request.URL, ex.request.getHeader "Idempotency-Key"))
      = [("DELETE", "https://signalcraft.example/api/escalation-policies/ep-1", some uuidB)] ∧
    some uuidA ≠ some uuidB := by
  refine ⟨by decide, by decide, by decide⟩

/-- Two functions that agree on the list of their first `k` values agree below `k`. -/
theorem map_range_inj (f g : Nat → String) (k : Nat)
    (h : (List.range k).map f = (List.range k).map g) : ∀ i, i < k → f i = g i := by
  intro i hi
  have hmem : i ∈ List.range k := List.mem_range.2 hi
  exact List.map_inj_left.1 h i hmem

/-- C15, amended: in every operation of every resource, mutating round trip number `i`
(create, update, delete, team member add and remove, counted from 0 in the order they
are made) was called with, as its idempotency key, the string that call number `i` of
`uuid.NewString()` returned, so each mutating call has a draw of its own, and at most
the last draw, made for a call that failed before its round trip, is left unsent; the
request carries the key as `Idempotency-Key` header when it is not empty; and a second
execution of the operation sends the same keys only if its `uuid.NewString()` calls
return the same strings, whatever the plan and the state. -/
theorem mutating_calls_carry_fresh_uuid (p : Provider) (op : Operation) :
    (∃ k, k ≤ (op.run p).session.uuids ∧ (op.run p).session.uuids ≤ k + 1 ∧
      (op.run p).session.mutatingKeys = (List.range k).map p.NewString) ∧
    (∀ ex ∈ (op.run p).session.exchanges, ex.request.Method ≠ "GET" →
      ex.request.getHeader "Idempotency-Key"
        = if ex.idempotencyKey = "" then none else some ex.idempotencyKey) ∧
    (∀ q : Provider,
      (op.run q).session.mutatingKeys = (op.run p).session.mutatingKeys →
      ∀ i, i < (op.run p).session.mutatingKeys.length → q.NewString i = p.NewString i) := by
  obtain ⟨k, hk1, hk2, hkeys⟩ := Operation.run_drawn p op
  refine ⟨⟨k, hk1, hk2, hkeys⟩, ?_, ?_⟩
  · intro ex hex _
    obtain ⟨⟨url, payload, hreq⟩, _⟩ := Operation.run_keyed p op ex hex
    rw [hreq, Client.newRequest_key]
  · intro q hsame i hi
    obtain ⟨k2, _, _, hkeys2⟩ := Operation.run_drawn q op
    have hlen : k2 = k := by
      have h := congrArg List.length hsame
      rw [hkeys, hkeys2] at h
      simpa using h
    rw [hkeys, hkeys2, hlen] at hsame
    rw [hkeys] at hi
    exact map_range_inj q.NewString p.NewString k hsame i (by simpa using hi)

/-- Witness of C15, amended: the `Update` of the team `t-1` that adds `u3` and removes
`u1` makes three mutating calls, which carry the three strings `uuid.NewString()`
returned, in order, and the GET that follows carries none. -/
theorem mutating_calls_carry_fresh_uuid_witness :
    ((Operation.teamUpdate (exampleTeamPlan ["u2", "u3"]) exampleTeamState).run
      (apiProvider [uuidA, uuidB, uuidC]
        [answer 200 "", answer 201 "", answer 204 "",
         answer 200 (teamDetailBody ["u2", "u3"])])).session.exchanges.map
      (fun ex => (ex.request.Method, ex.request.getHeader "Idempotency-Key"))
      = [("PUT", some uuidA), ("POST", some uuidB), ("DELETE", some uuidC),
         ("GET", none)] ∧
    ((Operation.teamUpdate (exampleTeamPlan ["u2", "u3"]) exampleTeamState).run
      (apiProvider [uuidA, uuidB, uuidC]
        [answer 200 "", answer 201 "", answer 204 "",
         answer 200 (teamDetailBody ["u2", "u3"])])).session.mutatingKeys
      = [uuidA, uuidB, uuidC] ∧
    ∃ k, ((Operation.teamUpdate (exampleTeamPlan ["u2", "u3"]) exampleTeamState).run
      (apiProvider [uuidA, uuidB, uuidC]
        [answer 200 "", answer 201 "", answer 204 "",
         answer 200 (teamDetailBody ["u2", "u3"])])).session.mutatingKeys
      = (List.range k).map (apiProvider [uuidA, uuidB, uuidC]
        [answer 200 "", answer 201 "", answer 204 "",
         answer 200 (teamDetailBody ["u2", "u3"])]).NewString ∧
      ((apiProvider [uuidA, uuidB, uuidC] []).client.newRequest "PUT"
        "https://signalcraft.example/api/teams/t-1" (some "\x7b\"name\":\"platform\"\x7d")
        uuidA).getHeader "Idempotency-Key" = some uuidA := by
  have h := mutating_calls_carry_fresh_uuid
    (apiProvider [uuidA, uuidB, uuidC]
      [answer 200 "", answer 201 "", answer 204 "",
       answer 200 (teamDetailBody ["u2", "u3"])])
    (Operation.teamUpdate (exampleTeamPlan ["u2", "u3"]) exampleTeamState)
  obtain ⟨k, _, _, hk⟩ := h.1
  have hput := h.2.1
    { request := (apiProvider [uuidA, uuidB, uuidC] []).client.newRequest "PUT"
        "https://signalcraft.example/api/teams/t-1" (some "\x7b\"name\":\"platform\"\x7d")
        uuidA,
      idempotencyKey := uuidA,
      response := answer 200 "" }
    (List.mem_cons_self _ _) (by decide)
  exact ⟨by decide, by decide, k, hk, hput⟩

/-- C18: every request a `DoJSON` call sends has `Authorization` equal to "Bearer "
followed by the API key of the client and `Content-Type` equal to "application/json",
and has an `Idempotency-Key` header exactly when the `idempotencyKey` argument is not
empty, which is then its value; every request of every operation of the resources has
the first two, and every GET among them was called with the empty key and has no
`Idempotency-Key` header. -/
theorem doJSON_request_headers (p : Provider) :
    (∀ (γ : Type) (s : Session) (method path : String) (body : Option Payload)
        (key : String) (out : Out γ) (ex : Exchange),
      (DoJSON p s method path body key out).session.exchanges = s.exchanges ++ [ex] →
      ex.request.getHeader "Authorization" = some ("Bearer " ++ p.client.APIKey) ∧
      ex.request.getHeader "Content-Type" = some "application/json" ∧
      ((ex.request.getHeader "Idempotency-Key").isSome = true ↔ key ≠ "") ∧
      (key ≠ "" → ex.request.getHeader "Idempotency-Key" = some key)) ∧
    (∀ (op : Operation) (ex : Exchange), ex ∈ (op.run p).session.exchanges →
      ex.request.getHeader "Authorization" = some ("Bearer " ++ p.client.APIKey) ∧
      ex.request.getHeader "Content-Type" = some "application/json" ∧
      (ex.request.Method = "GET" →
        ex.idempotencyKey = "" ∧ ex.request.getHeader "Idempotency-Key" = none)) := by
  constructor
  · intro γ s method path body key out ex hsent
    obtain ⟨_, _, payload, hreq⟩ :=
      DoJSON_result_of_exchange p s method path body key out ex hsent
    rw [hreq, Client.newRequest_authorization, Client.newRequest_contentType,
      Client.newRequest_key]
    refine ⟨rfl, rfl, ?_, ?_⟩
    · by_cases hk : key = "" <;> simp [hk]
    · intro hk
      simp [hk]
  · intro op ex hex
    obtain ⟨⟨url, payload, hreq⟩, hkey⟩ := Operation.run_keyed p op ex hex
    refine ⟨?_, ?_, ?_⟩
    · rw [hreq, Client.newRequest_authorization]
    · rw [hreq, Client.newRequest_contentType]
    · intro hget
      rcases hkey with ⟨_, hk⟩ | ⟨hne, _⟩
      · refine ⟨hk, ?_⟩
        rw [hreq, Client.newRequest_key, hk]
        rfl
      · exact absurd hget hne

/-- Witness of C18: the GET of the `Read` of the escalation policy `ep-1`, answered 404,
has the two fixed headers and no `Idempotency-Key`. -/
theorem doJSON_request_headers_witness :
    ((Operation.escalationPolicyRead examplePolicyState).run
        (exampleProvider [] 404 "")).session.exchanges.map
      (fun ex => (ex.request.Method, ex.request.getHeader "Authorization",
        ex.request.getHeader "Idempotency-Key"))
      = [("GET", some "Bearer secret", none)] ∧
    ((exampleProvider [] 404 "").client.newRequest "GET"
        "https://signalcraft.example/api/escalation-policies/ep-1" none "").getHeader
      "Content-Type" = some "application/json" :=
  ⟨by decide,
   ((doJSON_request_headers (exampleProvider [] 404 "")).2
      (Operation.escalationPolicyRead examplePolicyState)
      { request := (exampleProvider [] 404 "").client.newRequest "GET"
          "https://signalcraft.example/api/escalation-policies/ep-1" none "",
        idempotencyKey := "",
        response := Except.ok { StatusCode := 404, Body := "" } }
      (List.mem_cons_self _ _)).2.1⟩

/-- Witness of C17: a DELETE answered 404 with the body "gone" returns the `*HTTPError`
with that status and body, for which the not-found test holds. -/
theorem DoJSON_classifies_responses_witness :
    (DoJSON (exampleProvider [] 404 "gone") Session.start "DELETE" "/api/teams/t-1" none uuidA
        Out.nil).result
      = Except.error (ClientError.http { StatusCode := 404, Body := "gone" }) :=
  (((DoJSON_classifies_responses (exampleProvider [] 404 "gone") Session.start "DELETE"
      "/api/teams/t-1" none uuidA).1 Unit Out.nil
      { request := (exampleProvider [] 404 "gone").client.newRequest "DELETE"
          "https://signalcraft.example/api/teams/t-1" none uuidA,
        idempotencyKey := uuidA,
        response := Except.ok { StatusCode := 404, Body := "gone" } }
      rfl).1 404 "gone" rfl).1.2 (by decide)

/-! ## Lemmas on diagnostics -/

theorem Diagnostics.AddError_eq (diags : Diagnostics) (summary detail : String) :
    Diagnostics.AddError diags summary detail
      = if diags.contains { severity := Severity.error, summary := summary, detail := detail }
        then diags
        else diags ++ [{ severity := Severity.error, summary := summary, detail := detail }] :=
  rfl

theorem Diagnostics.mem_AddError (diags : Diagnostics) (summary detail : String) :
    ({ severity := Severity.error, summary := summary, detail := detail } : Diagnostic)
      ∈ Diagnostics.AddError diags summary detail := by
  rw [Diagnostics.AddError_eq]
  split
  · rename_i h
    exact List.mem_of_elem_eq_true h
  · simp

theorem Diagnostics.HasError_of_mem (diags : Diagnostics) (d : Diagnostic)
    (hd : d ∈ diags) (hsev : d.severity = Severity.error) :
    Diagnostics.HasError diags = true := by
  unfold Diagnostics.HasError
  rw [List.any_eq_true]
  exact ⟨d, hd, by simp [hsev]⟩

theorem Diagnostics.HasError_AddError (diags : Diagnostics) (summary detail : String) :
    Diagnostics.HasError (Diagnostics.AddError diags summary detail) = true :=
  Diagnostics.HasError_of_mem _ _ (Diagnostics.mem_AddError diags summary detail) rfl

/-! ## Lemmas on the shared `Delete` and `Read` bodies -/

/-- The three ways the shared `Delete` body goes: the state could not be read and no call
is made; the call fails before any round trip and an "API Error" is recorded; or exactly
one round trip, a DELETE, is made and the diagnostics follow its classification. -/
theorem deleteResource_cases (p : Provider) (path : String) :
    (Diagnostics.HasError (Diagnostics.Append [] p.StateGet) = true ∧
      (deleteResource p path).session.exchanges = [] ∧
      (deleteResource p path).diagnostics = Diagnostics.Append [] p.StateGet) ∨
    (∃ msg, (deleteResource p path).session.exchanges = [] ∧
      (deleteResource p path).diagnostics
        = Diagnostics.AddError (Diagnostics.Append [] p.StateGet) "API Error" msg) ∨
    (Diagnostics.HasError (Diagnostics.Append [] p.StateGet) = false ∧
      ∃ ex, (deleteResource p path).session.exchanges = [ex] ∧
        ex.request.Method = "DELETE" ∧
        (deleteResource p path).diagnostics
          = match classify Out.nil ex.response with
            | Except.error err =>
              if err.isNotFound then Diagnostics.Append [] p.StateGet
              else Diagnostics.AddError (Diagnostics.Append [] p.StateGet) "API Error" err.Error
            | Except.ok _ => Diagnostics.Append [] p.StateGet) := by
  unfold deleteResource
  simp only
  by_cases hget : Diagnostics.HasError (Diagnostics.Append [] p.StateGet) = true
  · left
    rw [if_pos hget]
    exact ⟨hget, rfl, rfl⟩
  · right
    rw [if_neg hget]
    rcases DoJSON_cases p (NewString p Session.start).2 "DELETE" path none
      (NewString p Session.start).1 Out.nil with ⟨msg, h⟩ | ⟨payload, h⟩
    · left
      rw [h]
      exact ⟨msg, rfl, rfl⟩
    · right
      have hget0 : Diagnostics.HasError (Diagnostics.Append [] p.StateGet) = false := by
        simpa using hget
      rw [h]
      simp only
      generalize hc : classify Out.nil (p.Do _ _) = c
      cases c with
      | error err =>
        simp only
        by_cases hnf : err.isNotFound = true
        · rw [if_pos hnf]
          refine ⟨hget0, _, rfl, Client.newRequest_method _ _ _ _ _, ?_⟩
          simp only [hc, hnf, if_true]
        · rw [if_neg hnf]
          refine ⟨hget0, _, rfl, Client.newRequest_method _ _ _ _ _, ?_⟩
          simp only [hc, hnf]
          rfl
      | ok v =>
        refine ⟨hget0, _, rfl, Client.newRequest_method _ _ _ _ _, ?_⟩
        simp only [hc]

/-- The contract of the shared `Delete` body. -/
theorem deleteResource_contract (p : Provider) (path : String) :
    (Diagnostics.HasError (deleteResource p path).diagnostics = false ↔
      ∃ ex ∈ (deleteResource p path).session.exchanges,
        ex.request.Method = "DELETE" ∧
        ∃ st b, ex.response = Except.ok { StatusCode := st, Body := b } ∧
          ((200 ≤ st ∧ st < 300) ∨ st = 404)) ∧
    (∀ ex ∈ (deleteResource p path).session.exchanges,
      ((∃ msg, ex.response = Except.error msg) ∨
       (∃ st b, ex.response = Except.ok { StatusCode := st, Body := b } ∧
          (st < 200 ∨ st ≥ 300) ∧ st ≠ 404)) →
      ∃ d ∈ (deleteResource p path).diagnostics,
        d.severity = Severity.error ∧ d.summary = "API Error") := by
  rcases deleteResource_cases p path with ⟨hget, hex, hd⟩ | ⟨msg, hex, hd⟩ |
    ⟨hget, ex, hex, hmethod, hd⟩
  · rw [hex, hd, hget]
    simp
  · rw [hex, hd, Diagnostics.HasError_AddError]
    simp
  · cases hresp : ex.response with
    | error msg =>
      have hdiag : (deleteResource p path).diagnostics
          = Diagnostics.AddError (Diagnostics.Append [] p.StateGet) "API Error" msg := by
        rw [hd, hresp]
        rfl
      rw [hex, hdiag, Diagnostics.HasError_AddError]
      constructor
      · constructor
        · intro h
          cases h
        · rintro ⟨e, he, _, st, b, hr, _⟩
          rw [List.mem_singleton.1 he, hresp] at hr
          cases hr
      · intro e _ _
        exact ⟨_, Diagnostics.mem_AddError _ _ _, rfl, rfl⟩
    | ok res =>
      obtain ⟨st, b⟩ := res
      by_cases hbad : st < 200 ∨ st ≥ 300
      · by_cases h404 : st = 404
        · have hdiag : (deleteResource p path).diagnostics
              = Diagnostics.Append [] p.StateGet := by
            rw [hd, hresp]
            simp [classify, hbad, ClientError.isNotFound, h404]
          rw [hex, hdiag, hget]
          constructor
          · refine ⟨fun _ => ⟨ex, List.mem_singleton.2 rfl, hmethod, st, b, hresp, Or.inr h404⟩,
              fun _ => rfl⟩
          · intro e he hfail
            rw [List.mem_singleton.1 he, hresp] at hfail
            rcases hfail with ⟨msg, hm⟩ | ⟨st', b', hr, _, hne⟩
            · cases hm
            · cases hr
              exact absurd h404 hne
        · have hdiag : (deleteResource p path).diagnostics
              = Diagnostics.AddError (Diagnostics.Append [] p.StateGet) "API Error"
                  (ClientError.http { StatusCode := st, Body := b }).Error := by
            rw [hd, hresp]
            simp [classify, hbad, ClientError.isNotFound, h404]
          rw [hex, hdiag, Diagnostics.HasError_AddError]
          constructor
          · constructor
            · intro h
              cases h
            · rintro ⟨e, he, _, st', b', hr, hok⟩
              rw [List.mem_singleton.1 he, hresp] at hr
              cases hr
              rcases hok with hok | hok
              · omega
              · exact absurd hok h404
          · intro e _ _
            exact ⟨_, Diagnostics.mem_AddError _ _ _, rfl, rfl⟩
      · have hdiag : (deleteResource p path).diagnostics
            = Diagnostics.Append [] p.StateGet := by
          rw [hd, hresp]
          simp [classify, hbad, decodeOut]
        rw [hex, hdiag, hget]
        constructor
        · refine ⟨fun _ => ⟨ex, List.mem_singleton.2 rfl, hmethod, st, b, hresp,
            Or.inl (by omega)⟩, fun _ => rfl⟩
        · intro e he hfail
          rw [List.mem_singleton.1 he, hresp] at hfail
          rcases hfail with ⟨msg, hm⟩ | ⟨st', b', hr, hb, _⟩
          · cases hm
          · cases hr
            exact absurd hb hbad

/-- The ways the shared `Read` body goes: no round trip at all, or exactly one, a GET;
on an error of the call the state is removed without a diagnostic when the not-found
test holds of the error, and an "API Error" is recorded otherwise. -/
theorem readResource_cases {ρ σ : Type} (p : Provider) (path : String)
    (decode : String → Except String ρ) (flatten : ρ → σ × Diagnostics) :
    (readResource p path decode flatten).session.exchanges = [] ∨
    (Diagnostics.HasError (Diagnostics.Append [] p.StateGet) = false ∧
      ∃ ex, (readResource p path decode flatten).session.exchanges = [ex] ∧
        ex.request.Method = "GET" ∧
        ∀ err, classify (Out.into decode) ex.response = Except.error err →
          (readResource p path decode flatten).diagnostics
            = (if err.isNotFound then Diagnostics.Append [] p.StateGet
               else Diagnostics.AddError (Diagnostics.Append [] p.StateGet) "API Error"
                 err.Error) ∧
          (readResource p path decode flatten).State.kind
            = (if err.isNotFound then StateKind.removeResource else StateKind.untouched)) := by
  unfold readResource
  simp only
  by_cases hget : Diagnostics.HasError (Diagnostics.Append [] p.StateGet) = true
  · left
    rw [if_pos hget]
    rfl
  · rw [if_neg hget]
    have hget0 : Diagnostics.HasError (Diagnostics.Append [] p.StateGet) = false := by
      simpa using hget
    rcases DoJSON_cases p Session.start "GET" path none "" (Out.into decode) with
      ⟨msg, h⟩ | ⟨payload, h⟩
    · left
      rw [h]
      simp only
      split <;> rfl
    · right
      rw [h]
      simp only
      generalize hc : classify (Out.into decode) (p.Do _ _) = c
      cases c with
      | error err =>
        simp only
        by_cases hnf : err.isNotFound = true
        · rw [if_pos hnf]
          refine ⟨hget0, _, rfl, Client.newRequest_method _ _ _ _ _, ?_⟩
          intro err' herr
          simp only [hc, Except.error.injEq] at herr
          subst herr
          simp only [hnf, if_true]
          exact ⟨trivial, rfl⟩
        · rw [if_neg hnf]
          refine ⟨hget0, _, rfl, Client.newRequest_method _ _ _ _ _, ?_⟩
          intro err' herr
          simp only [hc, Except.error.injEq] at herr
          subst herr
          simp only [hnf]
          exact ⟨rfl, rfl⟩
      | ok v =>
        simp only
        split
        · refine ⟨hget0, _, rfl, Client.newRequest_method _ _ _ _ _, ?_⟩
          intro err' herr
          simp only [hc, reduceCtorEq] at herr
        · refine ⟨hget0, _, rfl, Client.newRequest_method _ _ _ _ _, ?_⟩
          intro err' herr
          simp only [hc, reduceCtorEq] at herr

/-- The contract of the shared `Read` body. -/
theorem readResource_contract {ρ σ : Type} (p : Provider) (path : String)
    (decode : String → Except String ρ) (flatten : ρ → σ × Diagnostics) :
    ∀ ex ∈ (readResource p path decode flatten).session.exchanges,
      ex.request.Method = "GET" ∧
      (∀ b, ex.response = Except.ok { StatusCode := 404, Body := b } →
        (readResource p path decode flatten).State.kind = StateKind.removeResource ∧
        Diagnostics.HasError (readResource p path decode flatten).diagnostics = false) ∧
      (∀ st b, ex.response = Except.ok { StatusCode := st, Body := b } →
        (st < 200 ∨ st ≥ 300) → st ≠ 404 →
        (∃ d ∈ (readResource p path decode flatten).diagnostics,
          d.severity = Severity.error ∧ d.summary = "API Error") ∧
        (readResource p path decode flatten).State.kind = StateKind.untouched) := by
  rcases readResource_cases p path decode flatten with hnone | ⟨hget, ex, hex, hmethod, herr⟩
  · rw [hnone]
    intro ex hmem
    cases hmem
  · rw [hex]
    intro e he
    rw [List.mem_singleton.1 he]
    refine ⟨hmethod, ?_, ?_⟩
    · intro b hresp
      obtain ⟨hd, hs⟩ := herr (ClientError.http { StatusCode := 404, Body := b })
        (by rw [hresp]; simp [classify])
      rw [hd, hs]
      simp only [ClientError.isNotFound, decide_True, if_true]
      exact ⟨trivial, hget⟩
    · intro st b hresp hbad h404
      obtain ⟨hd, hs⟩ := herr (ClientError.http { StatusCode := st, Body := b })
        (by rw [hresp]; simp [classify, hbad])
      have hnf : (ClientError.http { StatusCode := st, Body := b }).isNotFound = false := by
        simp [ClientError.isNotFound, h404]
      rw [hd, hs, hnf]
      simp only [Bool.false_eq_true, if_false]
      exact ⟨⟨_, Diagnostics.mem_AddError _ _ _, rfl, rfl⟩, trivial⟩

/-! ## Claims on `Delete` and `Read` of the resources -/

/-- C19: for the `Delete` of an escalation policy, routing rule, schedule, team,
invitation or user: no error diagnostic is recorded exactly when the DELETE round trip
was made and answered with a status in 200..299 or with 404; a round trip answered with
any other status, or with a transport failure, records an "API Error" diagnostic. -/
theorem delete_succeeds_iff_2xx_or_404 (p : Provider) (op : Operation)
    (hop : (∃ state, op = Operation.escalationPolicyDelete state) ∨
      (∃ state, op = Operation.routingRuleDelete state) ∨
      (∃ state, op = Operation.scheduleDelete state) ∨
      (∃ state, op = Operation.teamDelete state) ∨
      (∃ state, op = Operation.invitationDelete state) ∨
      (∃ state, op = Operation.userDelete state)) :
    (Diagnostics.HasError (op.run p).diagnostics = false ↔
      ∃ ex ∈ (op.run p).session.exchanges,
        ex.request.Method = "DELETE" ∧
        ∃ st b, ex.response = Except.ok { StatusCode := st, Body := b } ∧
          ((200 ≤ st ∧ st < 300) ∨ st = 404)) ∧
    (∀ ex ∈ (op.run p).session.exchanges,
      ((∃ msg, ex.response = Except.error msg) ∨
       (∃ st b, ex.response = Except.ok { StatusCode := st, Body := b } ∧
          (st < 200 ∨ st ≥ 300) ∧ st ≠ 404)) →
      ∃ d ∈ (op.run p).diagnostics,
        d.severity = Severity.error ∧ d.summary = "API Error") := by
  rcases hop with ⟨state, rfl⟩ | ⟨state, rfl⟩ | ⟨state, rfl⟩ | ⟨state, rfl⟩ | ⟨state, rfl⟩ |
    ⟨state, rfl⟩
  · exact deleteResource_contract p _
  · exact deleteResource_contract p _
  · exact deleteResource_contract p _
  · exact deleteResource_contract p _
  · exact deleteResource_contract p _
  · exact deleteResource_contract p _

/-- Witness of C19: the `Delete` of the escalation policy `ep-1` answered 404 records no
error; answered 500 it records an "API Error". -/
theorem delete_succeeds_iff_2xx_or_404_witness :
    Diagnostics.HasError ((Operation.escalationPolicyDelete examplePolicyState).run
      (exampleProvider [uuidA] 404 "")).diagnostics = false ∧
    ((Operation.escalationPolicyDelete examplePolicyState).run
      (exampleProvider [uuidA] 500 "down")).diagnostics
      = [{ severity := Severity.error, summary := "API Error",
           detail := "signalcraft API error: status=500 body=down" }] :=
  ⟨(delete_succeeds_iff_2xx_or_404 (exampleProvider [uuidA] 404 "")
      (Operation.escalationPolicyDelete examplePolicyState) (Or.inl ⟨_, rfl⟩)).1.2
      ⟨{ request := (exampleProvider [uuidA] 404 "").client.newRequest "DELETE"
            "https://signalcraft.example/api/escalation-policies/ep-1" none uuidA,
          idempotencyKey := uuidA,
          response := Except.ok { StatusCode := 404, Body := "" } },
        List.mem_cons_self _ _, rfl, 404, "", rfl, Or.inr rfl⟩,
   by decide⟩

/-- C20: for the `Read` of an escalation policy, routing rule, schedule or workspace: the
round trip it makes is a GET; when it is answered with HTTP 404 the resource is removed
from the state and no error diagnostic is recorded; when it is answered with any other
status outside 200..299 an "API Error" diagnostic is recorded and the state is not
touched. -/
theorem read_404_removes_resource (p : Provider) (op : Operation) (ex : Exchange)
    (hop : (∃ state, op = Operation.escalationPolicyRead state) ∨
      (∃ state, op = Operation.routingRuleRead state) ∨
      (∃ state, op = Operation.scheduleRead state) ∨
      (∃ state, op = Operation.workspaceRead state))
    (hex : ex ∈ (op.run p).session.exchanges) :
    ex.request.Method = "GET" ∧
    (∀ b, ex.response = Except.ok { StatusCode := 404, Body := b } →
      (op.run p).State = StateKind.removeResource ∧
      Diagnostics.HasError (op.run p).diagnostics = false) ∧
    (∀ st b, ex.response = Except.ok { StatusCode := st, Body := b } →
      (st < 200 ∨ st ≥ 300) → st ≠ 404 →
      (∃ d ∈ (op.run p).diagnostics,
        d.severity = Severity.error ∧ d.summary = "API Error") ∧
      (op.run p).State = StateKind.untouched) := by
  rcases hop with ⟨state, rfl⟩ | ⟨state, rfl⟩ | ⟨state, rfl⟩ | ⟨state, rfl⟩
  · exact readResource_contract p _ _ _ ex hex
  · exact readResource_contract p _ _ _ ex hex
  · exact readResource_contract p _ _ _ ex hex
  · exact readResource_contract p _ _ _ ex hex

/-- Witness of C20: the `Read` of the escalation policy `ep-1` answered 404 removes the
resource and records nothing; answered 503 it records an "API Error" and leaves the
state. -/
theorem read_404_removes_resource_witness :
    ((Operation.escalationPolicyRead examplePolicyState).run
      (exampleProvider [] 404 "")).State = StateKind.removeResource ∧
    ((Operation.escalationPolicyRead examplePolicyState).run
      (exampleProvider [] 404 "")).diagnostics = [] ∧
    ((Operation.escalationPolicyRead examplePolicyState).run
      (exampleProvider [] 503 "")).State = StateKind.untouched :=
  have h404 := (read_404_removes_resource (exampleProvider [] 404 "")
    (Operation.escalationPolicyRead examplePolicyState)
    { request := (exampleProvider [] 404 "").client.newRequest "GET"
        "https://signalcraft.example/api/escalation-policies/ep-1" none "",
      idempotencyKey := "",
      response := Except.ok { StatusCode := 404, Body := "" } }
    (Or.inl ⟨_, rfl⟩) (List.mem_cons_self _ _)).2.1 "" rfl
  have h503 := (read_404_removes_resource (exampleProvider [] 503 "")
    (Operation.escalationPolicyRead examplePolicyState)
    { request := (exampleProvider [] 503 "").client.newRequest "GET"
        "https://signalcraft.example/api/escalation-policies/ep-1" none "",
      idempotencyKey := "",
      response := Except.ok { StatusCode := 503, Body := "" } }
    (Or.inl ⟨_, rfl⟩) (List.mem_cons_self _ _)).2.2 503 "" rfl (by decide) (by decide)
  ⟨h404.1, by decide, h503.2⟩

/-! ## Claims on the team resource -/

/-- C21, the code at the failing input: the `Read` of the team `t-1` whose GET is answered
with HTTP 404 makes that one GET, records the "API Error" diagnostic of the 404 and makes
no call on the state, so the resource is not removed, while the `Read` of an escalation
policy answered 404 removes the resource; and no `Read` of a team, in any environment,
calls `RemoveResource`. -/
theorem team_read_404_records_error :
    ((Operation.teamRead exampleTeamState).run (exampleProvider [] 404 "")).session.exchanges.map
      (fun ex => (ex.request.Method, ex.request.URL))
      = [("GET", "https://signalcraft.example/api/teams/t-1")] ∧
    ((Operation.teamRead exampleTeamState).run (exampleProvider [] 404 "")).State
      = StateKind.untouched ∧
    ((Operation.teamRead exampleTeamState).run (exampleProvider [] 404 "")).diagnostics
      = [{ severity := Severity.error, summary := "API Error",
           detail := "signalcraft API error: status=404 body=" }] ∧
    ((Operation.escalationPolicyRead examplePolicyState).run
      (exampleProvider [] 404 "")).State = StateKind.removeResource ∧
    (∀ (p : Provider) (state : teamModel),
      (teamResource.Read p state).State.kind ≠ StateKind.removeResource) := by
  refine ⟨by decide, by decide, by decide, by decide, ?_⟩
  intro p state
  unfold teamResource.Read teamResource.finish
  simp only
  split
  · intro h
    cases h
  · split
    · intro h
      cases h
    · intro h
      cases h

/-! ## More claims on the alert-policy reconciler -/

/-- The error `syncAlertPolicy` returned in a pass whose tail made a round trip answered
with the status `s`: `apiError s` when `s` is outside 200..299, none otherwise. -/
theorem syncAlertPolicy_result_of_call (env : Env) (stored policy : SignalCraftAlertPolicy)
    (pre : List Event) (request : Request) (s : Int)
    (hpre : ∀ request response, Event.http request response ∉ pre)
    (hcall : Event.http request (Except.ok s) ∈ (syncPass env stored policy pre).trace) :
    (syncAlertPolicy env env.SIGNALCRAFT_API_URL env.SIGNALCRAFT_API_KEY policy).1
      = if s < 200 ∨ s ≥ 300 then some (apiError s) else none := by
  obtain ⟨o, e, htrace⟩ := syncPass_trace env stored policy pre
  rw [htrace] at hcall
  simp only [List.mem_append, List.mem_singleton, reduceCtorEq, or_false] at hcall
  rcases hcall with hcall | hcall
  · exact absurd hcall (hpre _ _)
  · rcases syncAlertPolicy_cases env env.SIGNALCRAFT_API_URL env.SIGNALCRAFT_API_KEY
      policy with ⟨err, h⟩ | ⟨body, err, h⟩ | ⟨body, st, h⟩
    · rw [h] at hcall
      cases hcall
    · rw [h] at hcall
      simp at hcall
    · rw [h] at hcall ⊢
      simp only [List.mem_singleton, Event.http.injEq, Except.ok.injEq] at hcall
      rw [hcall.2]

/-- C24: in a pass on an object without deletion timestamp whose upsert call is answered
with the status `s`: when `s` is outside 200..299 (404 included) the pass sets State
"Error" and Message "signalcraft API error: " followed by `s` in decimal, issues the
status write and returns a requeue after one minute with a nil error; when `s` is in
200..299 the pass sets State "Synced", not "Error". -/
theorem upsert_status_code_in_message (env : Env) (obj : SignalCraftAlertPolicy)
    (request : Request) (s : Int)
    (hdel : obj.ObjectMeta.DeletionTimestamp = none)
    (hcall : Event.http request (Except.ok s) ∈ (Reconcile env obj).trace) :
    ∃ policy, (Reconcile env obj).policy = some policy ∧
      Event.statusUpdate policy (env.StatusUpdate policy) ∈ (Reconcile env obj).trace ∧
      ((s < 200 ∨ s ≥ 300) →
        policy.Status.State = "Error" ∧
        policy.Status.Message = "signalcraft API error: " ++ toString s ∧
        (Reconcile env obj).result = { Requeue := false, RequeueAfter := Minute } ∧
        (Reconcile env obj).err = none) ∧
      ((200 ≤ s ∧ s < 300) →
        policy.Status.State = "Synced" ∧ policy.Status.State ≠ "Error") := by
  obtain ⟨stored, policy, pre, hR, _, _, hpre⟩ :=
    Reconcile_upsert_path env obj hdel ⟨_, _, hcall⟩
  rw [hR] at hcall ⊢
  have hres := syncAlertPolicy_result_of_call env stored policy pre request s hpre hcall
  by_cases hbad : s < 200 ∨ s ≥ 300
  · rw [if_pos hbad] at hres
    rw [syncPass_of_error env stored policy pre (apiError s) hres]
    refine ⟨withErrorStatus env policy (apiError s), rfl, ?_, ?_, ?_⟩
    · rw [failPass_trace]
      simp
    · intro _
      exact ⟨rfl, rfl, rfl, rfl⟩
    · intro hok
      omega
  · rw [if_neg hbad] at hres
    rw [syncPass_of_ok env stored policy pre hres]
    refine ⟨withSyncedStatus env policy, rfl, ?_, ?_, ?_⟩
    · simp
    · intro h
      exact absurd h hbad
    · intro _
      have hstate : (withSyncedStatus env policy).Status.State = "Synced" := rfl
      refine ⟨hstate, ?_⟩
      rw [hstate]
      decide

/-- Witness of C24: the second pass of scenario A, answered HTTP 500, and the same pass
answered HTTP 404. -/
theorem upsert_status_code_in_message_witness :
    (∃ policy,
      (Reconcile (scenarioEnv 500 (scenarioBody "rk2")) editedPolicy).policy = some policy ∧
      policy.Status.State = "Error" ∧
      policy.Status.Message = "signalcraft API error: 500") ∧
    (Reconcile (scenarioEnv 404 (scenarioBody "rk2")) editedPolicy).stored.Status.Message
      = "signalcraft API error: 404" := by
  obtain ⟨policy, hp, _, hbad, _⟩ :=
    upsert_status_code_in_message (scenarioEnv 500 (scenarioBody "rk2")) editedPolicy
      (upsertRequest "https://signalcraft.example" "secret" editedPolicy (scenarioBody "rk2"))
      500 rfl (List.mem_cons_self _ _)
  have h := hbad (Or.inr (by decide))
  exact ⟨⟨policy, hp, h.1, by rw [h.2.1]; decide⟩, by decide⟩

/-! ## More lemmas on diagnostics -/

theorem Diagnostics.mem_Append (diags more : Diagnostics) (d : Diagnostic) :
    d ∈ Diagnostics.Append diags more ↔ d ∈ diags ∨ d ∈ more := by
  unfold Diagnostics.Append
  induction more generalizing diags with
  | nil => simp
  | cons x rest ih =>
    rw [List.foldl_cons, ih]
    by_cases hx : diags.contains x = true
    · rw [if_pos hx]
      have hmem : x ∈ diags := List.mem_of_elem_eq_true hx
      constructor
      · rintro (h | h)
        · exact Or.inl h
        · exact Or.inr (List.mem_cons_of_mem _ h)
      · rintro (h | h)
        · exact Or.inl h
        · rcases List.mem_cons.1 h with h | h
          · exact Or.inl (h ▸ hmem)
          · exact Or.inr h
    · rw [if_neg hx]
      simp only [List.mem_append, List.mem_singleton, List.mem_cons]
      tauto

theorem Diagnostics.HasError_Append (diags more : Diagnostics) :
    Diagnostics.HasError (Diagnostics.Append diags more) = true ↔
      Diagnostics.HasError diags = true ∨ Diagnostics.HasError more = true := by
  unfold Diagnostics.HasError
  simp only [List.any_eq_true, Diagnostics.mem_Append]
  constructor
  · rintro ⟨d, hd | hd, hsev⟩
    · exact Or.inl ⟨d, hd, hsev⟩
    · exact Or.inr ⟨d, hd, hsev⟩
  · rintro (⟨d, hd, hsev⟩ | ⟨d, hd, hsev⟩)
    · exact ⟨d, Or.inl hd, hsev⟩
    · exact ⟨d, Or.inr hd, hsev⟩

theorem Diagnostics.AddError_nil (summary detail : String) :
    Diagnostics.AddError [] summary detail = [errorDiagnostic summary detail] :=
  rfl

/-! ## Lemmas on the shared `Create` and `Update` body -/

/-- A `Create` or `Update` whose payload was built with the error diagnostic `d` makes no
round trip and no call on the state, and records `d` when the plan was read. -/
theorem writeResource_blocked {ρ σ : Type} (p : Provider) (getDiags : Diagnostics)
    (method path : String) (build : Payload × Diagnostics)
    (decode : String → Except String ρ) (flatten : ρ → σ × Diagnostics)
    (d : Diagnostic) (hd : d ∈ build.2) (hsev : d.severity = Severity.error) :
    (writeResource p getDiags method path build decode flatten).blockedBy getDiags d := by
  unfold OpResult.blockedBy writeResource
  by_cases hget : Diagnostics.HasError getDiags = true
  · rw [if_pos hget]
    refine ⟨rfl, rfl, hget, ?_⟩
    intro h
    rw [h] at hget
    cases hget
  · rw [if_neg hget]
    have hmem : d ∈ Diagnostics.Append getDiags build.2 :=
      (Diagnostics.mem_Append _ _ _).2 (Or.inr hd)
    have herr : Diagnostics.HasError (Diagnostics.Append getDiags build.2) = true :=
      Diagnostics.HasError_of_mem _ d hmem hsev
    simp only
    rw [if_pos herr]
    exact ⟨rfl, rfl, herr, fun _ => hmem⟩

/-! ## Claims on the structured payloads -/

/-- C25: when `json.Unmarshal` rejects `rules_json` with the error `err`,
`buildEscalationPolicyPayload` returns the error diagnostic "Invalid rules_json" with
detail `err`, and `Create` and `Update` of the escalation policy make no round trip and no
call on the state and record that diagnostic (when the plan could be read; else the
error of reading it). The same holds for the routing rule with "Invalid conditions_json"
when `conditions_json` is rejected, and with "Invalid actions_json" when
`conditions_json` is accepted and `actions_json` is rejected. -/
theorem invalid_json_blocks_write (p : Provider) (err : String) :
    (∀ plan state : escalationPolicyModel,
      p.Unmarshal plan.RulesJSON.ValueString = Except.error err →
      (buildEscalationPolicyPayload p plan).2 = [errorDiagnostic "Invalid rules_json" err] ∧
      (escalationPolicyResource.Create p plan).blockedBy (planDiags p)
        (errorDiagnostic "Invalid rules_json" err) ∧
      (escalationPolicyResource.Update p plan state).blockedBy (planStateDiags p)
        (errorDiagnostic "Invalid rules_json" err)) ∧
    (∀ plan state : routingRuleModel,
      p.Unmarshal plan.ConditionsJSON.ValueString = Except.error err →
      (buildRoutingPayload p plan).2 = [errorDiagnostic "Invalid conditions_json" err] ∧
      (routingRuleResource.Create p plan).blockedBy (planDiags p)
        (errorDiagnostic "Invalid conditions_json" err) ∧
      (routingRuleResource.Update p plan state).blockedBy (planStateDiags p)
        (errorDiagnostic "Invalid conditions_json" err)) ∧
    (∀ (plan state : routingRuleModel) (conditions : JSONValue),
      p.Unmarshal plan.ConditionsJSON.ValueString = Except.ok conditions →
      p.Unmarshal plan.ActionsJSON.ValueString = Except.error err →
      (buildRoutingPayload p plan).2 = [errorDiagnostic "Invalid actions_json" err] ∧
      (routingRuleResource.Create p plan).blockedBy (planDiags p)
        (errorDiagnostic "Invalid actions_json" err) ∧
      (routingRuleResource.Update p plan state).blockedBy (planStateDiags p)
        (errorDiagnostic "Invalid actions_json" err)) := by
  refine ⟨?_, ?_, ?_⟩
  · intro plan state h
    have hb : (buildEscalationPolicyPayload p plan).2
        = [errorDiagnostic "Invalid rules_json" err] := by
      unfold buildEscalationPolicyPayload
      rw [h]
      rfl
    have hm : errorDiagnostic "Invalid rules_json" err ∈ (escalationPolicyBody p plan).2 := by
      unfold escalationPolicyBody
      rw [hb]
      exact List.mem_singleton.2 rfl
    exact ⟨hb, writeResource_blocked p _ _ _ _ _ _ _ hm rfl,
      writeResource_blocked p _ _ _ _ _ _ _ hm rfl⟩
  · intro plan state h
    have hb : (buildRoutingPayload p plan).2
        = [errorDiagnostic "Invalid conditions_json" err] := by
      unfold buildRoutingPayload
      rw [h]
      rfl
    have hm : errorDiagnostic "Invalid conditions_json" err ∈ (routingRuleBody p plan).2 := by
      unfold routingRuleBody
      rw [hb]
      exact List.mem_singleton.2 rfl
    exact ⟨hb, writeResource_blocked p _ _ _ _ _ _ _ hm rfl,
      writeResource_blocked p _ _ _ _ _ _ _ hm rfl⟩
  · intro plan state conditions hc h
    have hb : (buildRoutingPayload p plan).2
        = [errorDiagnostic "Invalid actions_json" err] := by
      unfold buildRoutingPayload
      rw [hc]
      simp only
      rw [h]
      rfl
    have hm : errorDiagnostic "Invalid actions_json" err ∈ (routingRuleBody p plan).2 := by
      unfold routingRuleBody
      rw [hb]
      exact List.mem_singleton.2 rfl
    exact ⟨hb, writeResource_blocked p _ _ _ _ _ _ _ hm rfl,
      writeResource_blocked p _ _ _ _ _ _ _ hm rfl⟩

/-- Witness of C25: a truncated `rules_json`, a truncated `conditions_json`, and a
truncated `actions_json` next to a valid `conditions_json`, in an environment that would
answer every call with HTTP 200. -/
theorem invalid_json_blocks_write_witness :
    (escalationPolicyResource.Create (apiProvider [uuidA] [answer 200 ""])
      (examplePolicyPlan truncatedRules)).diagnostics
      = [errorDiagnostic "Invalid rules_json" "unexpected end of JSON input"] ∧
    (escalationPolicyResource.Update (apiProvider [uuidA] [answer 200 ""])
      (examplePolicyPlan truncatedRules) examplePolicyState).session.exchanges = [] ∧
    (routingRuleResource.Create (apiProvider [uuidA] [answer 200 ""])
      (exampleRoutingPlan truncatedRules "[]")).diagnostics
      = [errorDiagnostic "Invalid conditions_json" "unexpected end of JSON input"] ∧
    (routingRuleResource.Create (apiProvider [uuidA] [answer 200 ""])
      (exampleRoutingPlan "[]" truncatedRules)).diagnostics
      = [errorDiagnostic "Invalid actions_json" "unexpected end of JSON input"] ∧
    (routingRuleResource.Create (apiProvider [uuidA] [answer 200 ""])
      (exampleRoutingPlan "[]" truncatedRules)).session.exchanges = [] := by
  have h := invalid_json_blocks_write (apiProvider [uuidA] [answer 200 ""])
    "unexpected end of JSON input"
  have h1 := h.1 (examplePolicyPlan truncatedRules) examplePolicyState rfl
  have h3 := h.2.2 (exampleRoutingPlan "[]" truncatedRules)
    (exampleRoutingPlan "[]" truncatedRules) (JSONValue.array []) rfl rfl
  refine ⟨by decide, h1.2.2.1, by decide, by decide, h3.2.1.1⟩

/-! ## Lemmas on the finalizer list of a pass -/

/-- The metadata a pass leaves, in the API server and in memory, is the metadata of the
object, or that with the finalizer appended, or that with the finalizer removed. -/
theorem Reconcile_meta_cases (env : Env) (obj : SignalCraftAlertPolicy) :
    ((Reconcile env obj).stored.ObjectMeta = obj.ObjectMeta ∨
      (Reconcile env obj).stored.ObjectMeta = (attachFinalizer obj).ObjectMeta ∨
      (Reconcile env obj).stored.ObjectMeta = (detachFinalizer obj).ObjectMeta) ∧
    (∀ p, (Reconcile env obj).policy = some p →
      p.ObjectMeta = obj.ObjectMeta ∨ p.ObjectMeta = (attachFinalizer obj).ObjectMeta ∨
      p.ObjectMeta = (detachFinalizer obj).ObjectMeta) := by
  unfold Reconcile
  cases hget : env.Get with
  | some e => exact ⟨Or.inl rfl, fun p hp => by cases hp⟩
  | none =>
    simp only
    by_cases hcfg : env.SIGNALCRAFT_API_URL = "" ∨ env.SIGNALCRAFT_API_KEY = ""
    · rw [if_pos hcfg]
      refine ⟨Or.inl (by rw [failPass_stored, storeStatus_meta]), ?_⟩
      intro p hp
      rw [failPass_policy] at hp
      cases hp
      exact Or.inl rfl
    · rw [if_neg hcfg]
      by_cases hdel : obj.ObjectMeta.DeletionTimestamp ≠ none
      · rw [if_pos hdel]
        by_cases hc : containsString obj.ObjectMeta.Finalizers finalizer = true
        · rw [if_pos hc]
          cases hd : (deleteAlertPolicy env env.SIGNALCRAFT_API_URL env.SIGNALCRAFT_API_KEY
              obj).1 with
          | some e =>
            simp only
            refine ⟨Or.inl (by rw [failPass_stored, storeStatus_meta]), ?_⟩
            intro p hp
            rw [failPass_policy] at hp
            cases hp
            exact Or.inl rfl
          | none =>
            simp only
            refine ⟨?_, ?_⟩
            · cases hu : env.Update (detachFinalizer obj) with
              | some e => exact Or.inl rfl
              | none => exact Or.inr (Or.inr rfl)
            · intro p hp
              cases hp
              exact Or.inr (Or.inr rfl)
        · rw [if_neg hc]
          exact ⟨Or.inl rfl, fun p hp => by cases hp; exact Or.inl rfl⟩
      · rw [if_neg hdel]
        by_cases hc : containsString obj.ObjectMeta.Finalizers finalizer = true
        · simp only [hc, Bool.not_true, Bool.false_eq_true, if_false]
          refine ⟨Or.inl (syncPass_stored_meta env obj obj []), ?_⟩
          intro p hp
          obtain ⟨q, hq, hmeta⟩ := syncPass_policy_meta env obj obj []
          rw [hq] at hp
          cases hp
          exact Or.inl hmeta
        · have hcf : containsString obj.ObjectMeta.Finalizers finalizer = false := by
            simpa using hc
          simp only [hcf, Bool.not_false, if_true]
          cases hu : env.Update (attachFinalizer obj) with
          | some e =>
            exact ⟨Or.inl rfl, fun p hp => by cases hp; exact Or.inr (Or.inl rfl)⟩
          | none =>
            simp only
            refine ⟨Or.inr (Or.inl ?_), ?_⟩
            · rw [syncPass_stored_meta]
              rfl
            · intro p hp
              obtain ⟨q, hq, hmeta⟩ := syncPass_policy_meta env
                (storeUpdate obj (attachFinalizer obj) none) (attachFinalizer obj)
                [Event.update (attachFinalizer obj) none]
              rw [hq] at hp
              cases hp
              exact Or.inr (Or.inl hmeta)

/-- The finalizers other than the one of the controller are the same list in each of the
three metadata a pass can leave. -/
theorem other_finalizers_eq (obj : SignalCraftAlertPolicy) (m : ObjectMeta)
    (hm : m = obj.ObjectMeta ∨ m = (attachFinalizer obj).ObjectMeta ∨
      m = (detachFinalizer obj).ObjectMeta) :
    m.Finalizers.filter (fun item => decide (item ≠ finalizer))
      = obj.ObjectMeta.Finalizers.filter (fun item => decide (item ≠ finalizer)) := by
  rcases hm with h | h | h
  · rw [h]
  · rw [h]
    simp [attachFinalizer]
  · rw [h]
    simp [detachFinalizer, removeString_eq_filter]

/-! ## Claims on the helpers of the reconciler -/

/-- C28: `removeString(items, v)` is `items` with every occurrence of `v` filtered out:
`containsString` of the result and `v` is false, every `w` other than `v` occurs in the
result as often as in `items`, and the result is a sublist of `items` (relative order
kept). In every pass of `Reconcile` the finalizers other than "signalcraft.io/finalizer"
are the same list, in the same order, before and after the pass, in the API server and in
memory. -/
theorem removeString_keeps_other_items (items : List String) (v : String) :
    removeString items v = items.filter (fun item => decide (item ≠ v)) ∧
    containsString (removeString items v) v = false ∧
    (∀ w, w ≠ v → (removeString items v).count w = items.count w) ∧
    (removeString items v).Sublist items ∧
    (∀ (env : Env) (obj : SignalCraftAlertPolicy),
      (Reconcile env obj).stored.ObjectMeta.Finalizers.filter
          (fun item => decide (item ≠ finalizer))
        = obj.ObjectMeta.Finalizers.filter (fun item => decide (item ≠ finalizer)) ∧
      ∀ p, (Reconcile env obj).policy = some p →
        p.ObjectMeta.Finalizers.filter (fun item => decide (item ≠ finalizer))
          = obj.ObjectMeta.Finalizers.filter (fun item => decide (item ≠ finalizer))) := by
  refine ⟨removeString_eq_filter items v, ?_, ?_, ?_, ?_⟩
  · cases h : containsString (removeString items v) v with
    | false => rfl
    | true =>
      have hmem := (containsString_iff _ _).1 h
      exact absurd rfl ((mem_removeString items v v).1 hmem).2
  · intro w hw
    rw [removeString_eq_filter, List.count_filter]
    simpa using hw
  · rw [removeString_eq_filter]
    exact List.filter_sublist _
  · intro env obj
    obtain ⟨hs, hp⟩ := Reconcile_meta_cases env obj
    exact ⟨other_finalizers_eq obj _ hs, fun p h => other_finalizers_eq obj _ (hp p h)⟩

/-- Witness of C28: a finalizer list with the finalizer of the controller twice and two
finalizers of other controllers, and the pass that removes the finalizer from it. -/
theorem removeString_keeps_other_items_witness :
    removeString ["a.io/keep", "signalcraft.io/finalizer", "b.io/keep",
        "signalcraft.io/finalizer"] "signalcraft.io/finalizer" = ["a.io/keep", "b.io/keep"] ∧
    (removeString ["a.io/keep", "signalcraft.io/finalizer", "b.io/keep",
        "signalcraft.io/finalizer"] "signalcraft.io/finalizer").count "a.io/keep" = 1 ∧
    (Reconcile (scenarioEnv 204 "")
      { deletingPolicy with ObjectMeta := { deletingPolicy.ObjectMeta with
          Finalizers := ["a.io/keep", "signalcraft.io/finalizer", "b.io/keep"] }
      }).stored.ObjectMeta.Finalizers = ["a.io/keep", "b.io/keep"] := by
  have h := removeString_keeps_other_items
    ["a.io/keep", "signalcraft.io/finalizer", "b.io/keep", "signalcraft.io/finalizer"]
    "signalcraft.io/finalizer"
  refine ⟨by rw [h.1]; decide, ?_, by decide⟩
  rw [h.2.2.1 "a.io/keep" (by decide)]
  decide

/-! ## Claims on the remote calls of a pass -/

theorem remoteCalls_eq_nil (trace : List Event)
    (h : ∀ request response, Event.http request response ∉ trace) :
    remoteCalls trace = [] := by
  unfold remoteCalls
  rw [List.filterMap_eq_nil_iff]
  intro ev hev
  cases ev with
  | http request response => exact absurd hev (h request response)
  | update o e => rfl
  | statusUpdate o e => rfl

/-- C30, the code at the failing input: with the API key missing, the pass on an object
with a deletion timestamp that does not carry the finalizer of the controller makes no
remote call and keeps the finalizers, and it writes the status: State becomes "Error"
in the API server. -/
theorem missing_configuration_changes_status_of_deleted :
    foreignFinalizerPolicy.ObjectMeta.DeletionTimestamp ≠ none ∧
    containsString foreignFinalizerPolicy.ObjectMeta.Finalizers finalizer = false ∧
    remoteCalls (Reconcile { scenarioEnv 200 "" with SIGNALCRAFT_API_KEY := "" }
      foreignFinalizerPolicy).trace = [] ∧
    (Reconcile { scenarioEnv 200 "" with SIGNALCRAFT_API_KEY := "" }
      foreignFinalizerPolicy).stored.ObjectMeta.Finalizers = ["other.io/finalizer"] ∧
    foreignFinalizerPolicy.Status.State = "" ∧
    (Reconcile { scenarioEnv 200 "" with SIGNALCRAFT_API_KEY := "" }
      foreignFinalizerPolicy).stored.Status.State = "Error" ∧
    (Reconcile { scenarioEnv 200 "" with SIGNALCRAFT_API_KEY := "" }
      foreignFinalizerPolicy).stored.Status.Message
      = "Missing SIGNALCRAFT_API_URL or SIGNALCRAFT_API_KEY" := by
  refine ⟨by decide, by decide, by decide, by decide, by decide, by decide, by decide⟩

/-- C30 as amended: every pass makes at most one remote call; on an object with a deletion
timestamp the call, if any, is the DELETE request of the object, never the upsert; on an
object without one it is the POST upsert request, never the delete; a pass on an object
with a deletion timestamp and without the finalizer makes no remote call and no metadata
write and leaves the finalizers, and with configuration available it has no effect at
all: the trace is empty and the object is unchanged in the API server and in memory. -/
theorem remote_call_matches_deletion_intent (env : Env) (obj : SignalCraftAlertPolicy) :
    (remoteCalls (Reconcile env obj).trace).length ≤ 1 ∧
    (obj.ObjectMeta.DeletionTimestamp ≠ none →
      ∀ request ∈ remoteCalls (Reconcile env obj).trace,
        request = deleteRequest env env.SIGNALCRAFT_API_URL env.SIGNALCRAFT_API_KEY obj ∧
        request.Method = "DELETE" ∧ request.Method ≠ "POST") ∧
    (obj.ObjectMeta.DeletionTimestamp = none →
      ∀ request ∈ remoteCalls (Reconcile env obj).trace,
        (∃ body,
          request = upsertRequest env.SIGNALCRAFT_API_URL env.SIGNALCRAFT_API_KEY obj body ∨
          request = upsertRequest env.SIGNALCRAFT_API_URL env.SIGNALCRAFT_API_KEY
            (attachFinalizer obj) body) ∧
        request.Method = "POST" ∧ request.Method ≠ "DELETE") ∧
    (obj.ObjectMeta.DeletionTimestamp ≠ none →
      containsString obj.ObjectMeta.Finalizers finalizer = false →
      remoteCalls (Reconcile env obj).trace = [] ∧
      (∀ o e, Event.update o e ∉ (Reconcile env obj).trace) ∧
      (Reconcile env obj).stored.ObjectMeta = obj.ObjectMeta ∧
      (¬ (env.SIGNALCRAFT_API_URL = "" ∨ env.SIGNALCRAFT_API_KEY = "") →
        (Reconcile env obj).trace = [] ∧ (Reconcile env obj).stored = obj ∧
        ∀ p, (Reconcile env obj).policy = some p → p = obj)) := by
  refine ⟨?_, ?_, ?_, ?_⟩
  · rcases Reconcile_trace_shape env obj with h | ⟨_, response, o, e, ht, ho⟩ |
      ⟨_, _, body, response, o, e, ht⟩ | ⟨_, _, _, body, response, o, e, ht⟩
    · rw [remoteCalls_eq_nil _ h]
      exact Nat.zero_le _
    · rw [ht]
      rcases ho with ho | ⟨q, ho⟩
      · rw [ho]
        exact Nat.le_refl _
      · rw [ho]
        exact Nat.le_refl _
    · rw [ht]
      exact Nat.le_refl _
    · rw [ht]
      exact Nat.le_refl _
  · intro hdel request hreq
    rcases Reconcile_trace_shape env obj with h | ⟨_, response, o, e, ht, ho⟩ |
      ⟨hnd, _⟩ | ⟨hnd, _⟩
    · rw [remoteCalls_eq_nil _ h] at hreq
      cases hreq
    · rw [ht] at hreq
      have hr : request
          = deleteRequest env env.SIGNALCRAFT_API_URL env.SIGNALCRAFT_API_KEY obj := by
        rcases ho with ho | ⟨q, ho⟩
        · rw [ho] at hreq
          exact List.mem_singleton.1 hreq
        · rw [ho] at hreq
          exact List.mem_singleton.1 hreq
      rw [hr]
      exact ⟨rfl, rfl, by rw [deleteRequest_method]; decide⟩
    · exact absurd hnd hdel
    · exact absurd hnd hdel
  · intro hnd request hreq
    rcases Reconcile_trace_shape env obj with h | ⟨hdel, _⟩ |
      ⟨_, _, body, response, o, e, ht⟩ | ⟨_, _, _, body, response, o, e, ht⟩
    · rw [remoteCalls_eq_nil _ h] at hreq
      cases hreq
    · exact absurd hnd hdel
    · rw [ht] at hreq
      have hr := List.mem_singleton.1 hreq
      rw [hr]
      exact ⟨⟨body, Or.inl rfl⟩, rfl, by rw [upsertRequest_method]; decide⟩
    · rw [ht] at hreq
      have hr := List.mem_singleton.1 hreq
      rw [hr]
      exact ⟨⟨body, Or.inr rfl⟩, rfl, by rw [upsertRequest_method]; decide⟩
  · intro hdel hc
    unfold Reconcile
    cases hget : env.Get with
    | some err =>
      simp only
      refine ⟨rfl, ?_, trivial, fun _ => ⟨trivial, trivial, ?_⟩⟩
      · intro o e h
        cases h
      · intro p hp
        cases hp
    | none =>
      simp only
      by_cases hcfg : env.SIGNALCRAFT_API_URL = "" ∨ env.SIGNALCRAFT_API_KEY = ""
      · rw [if_pos hcfg]
        refine ⟨?_, ?_, ?_, fun h => absurd hcfg h⟩
        · rw [failPass_trace]
          rfl
        · intro o e h
          simp [failPass_trace] at h
        · rw [failPass_stored, storeStatus_meta]
      · rw [if_neg hcfg, if_pos hdel]
        simp only [hc, Bool.false_eq_true, if_false]
        refine ⟨rfl, ?_, trivial, fun _ => ⟨trivial, trivial, ?_⟩⟩
        · intro o e h
          cases h
        · intro p hp
          cases hp
          rfl

/-- Witness of C30 as amended: the pass on the object marked for deletion that carries
only the finalizer of another controller, with configuration available. -/
theorem remote_call_matches_deletion_intent_witness :
    (Reconcile (scenarioEnv 200 "") foreignFinalizerPolicy).trace = [] ∧
    (Reconcile (scenarioEnv 200 "") foreignFinalizerPolicy).stored = foreignFinalizerPolicy ∧
    (∀ request ∈ remoteCalls (Reconcile (scenarioEnv 204 "") deletingPolicy).trace,
      request.Method = "DELETE") ∧
    remoteCalls (Reconcile (scenarioEnv 204 "") deletingPolicy).trace
      = [deleteRequest (scenarioEnv 204 "") "https://signalcraft.example" "secret"
          deletingPolicy] := by
  have h := (remote_call_matches_deletion_intent (scenarioEnv 200 "")
    foreignFinalizerPolicy).2.2.2 (by decide) (by decide)
  have h2 := (remote_call_matches_deletion_intent (scenarioEnv 204 "") deletingPolicy).2.1
    (by decide)
  have h3 := h.2.2.2 (by decide)
  exact ⟨h3.1, h3.2.1, fun request hr => (h2 request hr).2.1, rfl⟩

/-! ## Lemmas on re-running a pass -/

/-- The call `syncAlertPolicy` reads the name, namespace, UID, generation and spec of the
object and the encoder, request builder and transport of the environment, nothing else. -/
theorem syncAlertPolicy_congr (env env2 : Env) (baseURL apiKey : String)
    (p q : SignalCraftAlertPolicy)
    (hm : env2.jsonMarshal = env.jsonMarshal) (hn : env2.NewRequest = env.NewRequest)
    (hd : env2.Do = env.Do)
    (hname : q.ObjectMeta.Name = p.ObjectMeta.Name)
    (hns : q.ObjectMeta.Namespace = p.ObjectMeta.Namespace)
    (huid : q.ObjectMeta.UID = p.ObjectMeta.UID)
    (hgen : q.ObjectMeta.Generation = p.ObjectMeta.Generation)
    (hspec : q.Spec = p.Spec) :
    syncAlertPolicy env2 baseURL apiKey q = syncAlertPolicy env baseURL apiKey p := by
  have hb : buildPayload q = buildPayload p := by
    unfold buildPayload
    rw [hname, hns, hspec]
  have hr : ∀ body, upsertRequest baseURL apiKey q body
      = upsertRequest baseURL apiKey p body := by
    intro body
    unfold upsertRequest
    rw [huid, hgen]
  unfold syncAlertPolicy
  rw [hm, hn, hd, hb]
  simp only [hr]

theorem syncPass_stored_spec (env : Env) (stored policy : SignalCraftAlertPolicy)
    (trace : List Event) :
    (syncPass env stored policy trace).stored.Spec = stored.Spec := by
  unfold syncPass
  simp only
  split
  · rw [failPass_stored, storeStatus_spec]
  · simp only [storeStatus_spec]

/-- The status the tail of a pass leaves in memory, by the error `syncAlertPolicy`
returned. -/
theorem syncPass_status (env : Env) (stored policy : SignalCraftAlertPolicy)
    (trace : List Event) :
    ∃ p, (syncPass env stored policy trace).policy = some p ∧
      p.ObjectMeta = policy.ObjectMeta ∧
      p.Status.State
        = (match (syncAlertPolicy env env.SIGNALCRAFT_API_URL env.SIGNALCRAFT_API_KEY
            policy).1 with
          | some _ => "Error"
          | none => "Synced") ∧
      p.Status.Message
        = (match (syncAlertPolicy env env.SIGNALCRAFT_API_URL env.SIGNALCRAFT_API_KEY
            policy).1 with
          | some err => err
          | none => "Synced to SignalCraft") ∧
      p.Status.ObservedGeneration = policy.ObjectMeta.Generation := by
  cases h : (syncAlertPolicy env env.SIGNALCRAFT_API_URL env.SIGNALCRAFT_API_KEY policy).1 with
  | some err =>
    rw [syncPass_of_error env stored policy trace err h]
    exact ⟨_, rfl, rfl, rfl, rfl, rfl⟩
  | none =>
    rw [syncPass_of_ok env stored policy trace h]
    exact ⟨_, rfl, rfl, rfl, rfl, rfl⟩

/-- A pass on an object that carries the finalizer and no deletion timestamp, with the
object read and configuration available, is the tail of the pass on the object itself. -/
theorem Reconcile_of_finalizer (env : Env) (obj : SignalCraftAlertPolicy)
    (hget : env.Get = none)
    (hcfg : ¬ (env.SIGNALCRAFT_API_URL = "" ∨ env.SIGNALCRAFT_API_KEY = ""))
    (hdel : obj.ObjectMeta.DeletionTimestamp = none)
    (hfin : finalizer ∈ obj.ObjectMeta.Finalizers) :
    Reconcile env obj = syncPass env obj obj [] := by
  have hc : containsString obj.ObjectMeta.Finalizers finalizer = true :=
    (containsString_iff _ _).2 hfin
  have hnd : ¬ (obj.ObjectMeta.DeletionTimestamp ≠ none) := fun h => h hdel
  unfold Reconcile
  simp only [hget]
  rw [if_neg hcfg, if_neg hnd]
  simp only [hc, Bool.not_true, Bool.false_eq_true, if_false]

theorem syncPass_no_update (env : Env) (stored policy : SignalCraftAlertPolicy) :
    ∀ o e, Event.update o e ∉ (syncPass env stored policy []).trace := by
  intro o e h
  obtain ⟨q, w, ht⟩ := syncPass_trace env stored policy []
  rw [ht] at h
  simp only [List.nil_append, List.mem_append, List.mem_singleton, reduceCtorEq,
    or_false] at h
  rcases syncAlertPolicy_events_cases env env.SIGNALCRAFT_API_URL env.SIGNALCRAFT_API_KEY
    policy with h0 | ⟨body, response, h1⟩
  · rw [h0] at h
    cases h
  · rw [h1] at h
    simp at h

/-- A pass that fails to attach the finalizer. -/
theorem Reconcile_attach_failed (env : Env) (obj : SignalCraftAlertPolicy) (err : String)
    (hget : env.Get = none)
    (hcfg : ¬ (env.SIGNALCRAFT_API_URL = "" ∨ env.SIGNALCRAFT_API_KEY = ""))
    (hdel : obj.ObjectMeta.DeletionTimestamp = none)
    (hcf : containsString obj.ObjectMeta.Finalizers finalizer = false)
    (hu : env.Update (attachFinalizer obj) = some err) :
    Reconcile env obj =
      { result := {}, err := some err, policy := some (attachFinalizer obj),
        stored := obj, trace := [Event.update (attachFinalizer obj) (some err)],
        exit := Exit.attachFailed } := by
  have hnd : ¬ (obj.ObjectMeta.DeletionTimestamp ≠ none) := fun h => h hdel
  unfold Reconcile
  simp only [hget]
  rw [if_neg hcfg, if_neg hnd]
  simp only [hcf, Bool.not_false, if_true, hu]

/-! ## Claims on re-running a pass -/

/-- C27: for an alert policy without deletion timestamp that the API server returns, with
configuration available, a second pass on the object the first pass left in the API
server (same generation, same answers of the API server and of SignalCraft, at any
time) leaves the finalizer list of the stored object unchanged, makes no metadata write
when the first pass left the finalizer attached, and sets in memory the same State,
Message and ObservedGeneration (and the same finalizers) as the first pass. -/
theorem second_pass_repeats_first (env : Env) (t : Time) (obj : SignalCraftAlertPolicy)
    (hget : env.Get = none)
    (hcfg : ¬ (env.SIGNALCRAFT_API_URL = "" ∨ env.SIGNALCRAFT_API_KEY = ""))
    (hdel : obj.ObjectMeta.DeletionTimestamp = none) :
    (Reconcile env obj).stored.ObjectMeta.Generation = obj.ObjectMeta.Generation ∧
    (secondPass env t obj).stored.ObjectMeta.Finalizers
      = (Reconcile env obj).stored.ObjectMeta.Finalizers ∧
    (finalizer ∈ (Reconcile env obj).stored.ObjectMeta.Finalizers →
      ∀ o e, Event.update o e ∉ (secondPass env t obj).trace) ∧
    ∃ p1 p2, (Reconcile env obj).policy = some p1 ∧ (secondPass env t obj).policy = some p2 ∧
      p2.Status.State = p1.Status.State ∧ p2.Status.Message = p1.Status.Message ∧
      p2.Status.ObservedGeneration = p1.Status.ObservedGeneration ∧
      p2.ObjectMeta.Finalizers = p1.ObjectMeta.Finalizers := by
  have hnd : ¬ (obj.ObjectMeta.DeletionTimestamp ≠ none) := fun h => h hdel
  have hcfg2 : ¬ (({ env with now := t } : Env).SIGNALCRAFT_API_URL = "" ∨
      ({ env with now := t } : Env).SIGNALCRAFT_API_KEY = "") := hcfg
  have hget2 : ({ env with now := t } : Env).Get = none := hget
  -- the second pass on a stored object that carries the finalizer
  have key : ∀ (stored policy : SignalCraftAlertPolicy) (pre : List Event),
      Reconcile env obj = syncPass env stored policy pre →
      stored.ObjectMeta = policy.ObjectMeta → stored.Spec = policy.Spec →
      policy.ObjectMeta.Generation = obj.ObjectMeta.Generation →
      policy.ObjectMeta.DeletionTimestamp = none →
      finalizer ∈ policy.ObjectMeta.Finalizers →
      (Reconcile env obj).stored.ObjectMeta.Generation = obj.ObjectMeta.Generation ∧
      (secondPass env t obj).stored.ObjectMeta.Finalizers
        = (Reconcile env obj).stored.ObjectMeta.Finalizers ∧
      (finalizer ∈ (Reconcile env obj).stored.ObjectMeta.Finalizers →
        ∀ o e, Event.update o e ∉ (secondPass env t obj).trace) ∧
      ∃ p1 p2, (Reconcile env obj).policy = some p1 ∧
        (secondPass env t obj).policy = some p2 ∧
        p2.Status.State = p1.Status.State ∧ p2.Status.Message = p1.Status.Message ∧
        p2.Status.ObservedGeneration = p1.Status.ObservedGeneration ∧
        p2.ObjectMeta.Finalizers = p1.ObjectMeta.Finalizers := by
    intro stored policy pre hR hmeta hspec hgen hdelp hfin
    have hsm : (Reconcile env obj).stored.ObjectMeta = policy.ObjectMeta := by
      rw [hR, syncPass_stored_meta, hmeta]
    have hss : (Reconcile env obj).stored.Spec = policy.Spec := by
      rw [hR, syncPass_stored_spec, hspec]
    have h2 : secondPass env t obj
        = syncPass { env with now := t } (Reconcile env obj).stored
            (Reconcile env obj).stored [] := by
      unfold secondPass
      refine Reconcile_of_finalizer _ _ hget2 hcfg2 ?_ ?_
      · rw [hsm]
        exact hdelp
      · rw [hsm]
        exact hfin
    have hsync : syncAlertPolicy { env with now := t }
        ({ env with now := t } : Env).SIGNALCRAFT_API_URL
        ({ env with now := t } : Env).SIGNALCRAFT_API_KEY (Reconcile env obj).stored
        = syncAlertPolicy env env.SIGNALCRAFT_API_URL env.SIGNALCRAFT_API_KEY policy :=
      syncAlertPolicy_congr env { env with now := t } env.SIGNALCRAFT_API_URL
        env.SIGNALCRAFT_API_KEY policy (Reconcile env obj).stored rfl rfl rfl
        (by rw [hsm]) (by rw [hsm]) (by rw [hsm]) (by rw [hsm]) hss
    obtain ⟨p1, hp1, hm1, hs1, hmsg1, hg1⟩ := syncPass_status env stored policy pre
    obtain ⟨p2, hp2, hm2, hs2, hmsg2, hg2⟩ := syncPass_status { env with now := t }
      (Reconcile env obj).stored (Reconcile env obj).stored []
    refine ⟨by rw [hsm, hgen], ?_, ?_, p1, p2, by rw [hR, hp1], by rw [h2, hp2], ?_, ?_, ?_, ?_⟩
    · rw [h2, syncPass_stored_meta]
    · intro _
      rw [h2]
      exact syncPass_no_update _ _ _
    · rw [hs2, hs1, hsync]
    · rw [hmsg2, hmsg1, hsync]
    · rw [hg2, hg1, hsm]
    · rw [hm2, hm1, hsm]
  by_cases hc : containsString obj.ObjectMeta.Finalizers finalizer = true
  · have hfin := (containsString_iff _ _).1 hc
    exact key obj obj [] (Reconcile_of_finalizer env obj hget hcfg hdel hfin) rfl rfl rfl
      hdel hfin
  · have hcf : containsString obj.ObjectMeta.Finalizers finalizer = false := by
      simpa using hc
    cases hu : env.Update (attachFinalizer obj) with
    | some err =>
      have hR := Reconcile_attach_failed env obj err hget hcfg hdel hcf hu
      have hu2 : ({ env with now := t } : Env).Update (attachFinalizer obj) = some err := hu
      have h2 : secondPass env t obj =
          { result := {}, err := some err, policy := some (attachFinalizer obj),
            stored := obj, trace := [Event.update (attachFinalizer obj) (some err)],
            exit := Exit.attachFailed } := by
        unfold secondPass
        rw [hR]
        exact Reconcile_attach_failed _ obj err hget2 hcfg2 hdel hcf hu2
      rw [h2, hR]
      refine ⟨rfl, rfl, ?_, _, _, rfl, rfl, rfl, rfl, rfl, rfl⟩
      intro hfin
      exact absurd ((containsString_iff _ _).2 hfin) hc
    | none =>
      have hR : Reconcile env obj
          = syncPass env (storeUpdate obj (attachFinalizer obj) none) (attachFinalizer obj)
              [Event.update (attachFinalizer obj) none] := by
        unfold Reconcile
        simp only [hget]
        rw [if_neg hcfg, if_neg hnd]
        simp only [hcf, Bool.not_false, if_true, hu]
      refine key _ _ _ hR rfl rfl rfl hdel ?_
      show finalizer ∈ obj.ObjectMeta.Finalizers ++ [finalizer]
      simp

/-- Witness of C27: the first pass of scenario A attaches the finalizer and syncs; the
second pass, later and with the same answers, leaves the one finalizer and sets the same
status. -/
theorem second_pass_repeats_first_witness :
    (Reconcile (scenarioEnv 200 (scenarioBody "rk1")) scenarioPolicy).stored.ObjectMeta.Finalizers
      = ["signalcraft.io/finalizer"] ∧
    (secondPass (scenarioEnv 200 (scenarioBody "rk1")) 1700000060
      scenarioPolicy).stored.ObjectMeta.Finalizers = ["signalcraft.io/finalizer"] ∧
    (secondPass (scenarioEnv 200 (scenarioBody "rk1")) 1700000060
      scenarioPolicy).stored.Status.State = "Synced" := by
  have h := second_pass_repeats_first (scenarioEnv 200 (scenarioBody "rk1")) 1700000060
    scenarioPolicy rfl (by decide) rfl
  refine ⟨by decide, ?_, by decide⟩
  rw [h.2.1]
  decide

/-! ## Lemmas on the injectivity of the upsert key -/


theorem digitChar_value : ∀ d, d < 10 → (Nat.digitChar d).toNat - 48 = d := by decide

/-- The digits `Nat.toDigitsCore` puts in front of `ds` read back, most significant
first, as the number rendered, when the fuel exceeds it. -/
theorem toDigitsCore_value (fuel : Nat) : ∀ (n : Nat) (ds : List Char), n < fuel →
    ∃ pre, Nat.toDigitsCore 10 fuel n ds = pre ++ ds ∧
      pre.foldl (fun acc c => 10 * acc + (c.toNat - 48)) 0 = n := by
  induction fuel with
  | zero =>
    intro n ds h
    exact absurd h (Nat.not_lt_zero _)
  | succ fuel ih =>
    intro n ds h
    have hd : (Nat.digitChar (n % 10)).toNat - 48 = n % 10 :=
      digitChar_value _ (Nat.mod_lt _ (by decide))
    unfold Nat.toDigitsCore
    simp only
    split
    · rename_i h0
      refine ⟨[Nat.digitChar (n % 10)], rfl, ?_⟩
      simp only [List.foldl_cons, List.foldl_nil, hd]
      omega
    · rename_i h0
      obtain ⟨pre, hpre, hval⟩ := ih (n / 10) (Nat.digitChar (n % 10) :: ds) (by omega)
      refine ⟨pre ++ [Nat.digitChar (n % 10)], ?_, ?_⟩
      · rw [hpre]
        simp
      · rw [List.foldl_append, hval]
        simp only [List.foldl_cons, List.foldl_nil, hd]
        omega

theorem natToString_value (n : Nat) :
    (toString n).data.foldl (fun acc c => 10 * acc + (c.toNat - 48)) 0 = n := by
  have hdata : (toString n).data = Nat.toDigits 10 n := rfl
  obtain ⟨pre, hpre, hval⟩ := toDigitsCore_value (n + 1) n [] (Nat.lt_succ_self n)
  rw [hdata]
  unfold Nat.toDigits
  rw [hpre, List.append_nil, hval]

theorem natToString_isDigit (n : Nat) : ∀ c ∈ (toString n).data, c.isDigit = true :=
  toDigitsCore_isDigit _ _ _ (fun c hc => by cases hc)

/-- Two lists that agree after a separator absent from the parts behind it agree on both
sides of it. -/
theorem split_at_last_separator (sep : Char) :
    ∀ (l1 l2 d1 d2 : List Char), sep ∉ d1 → sep ∉ d2 →
      l1 ++ sep :: d1 = l2 ++ sep :: d2 → l1 = l2 ∧ d1 = d2 := by
  intro l1 l2 d1 d2 h1 h2 h
  rcases List.append_eq_append_iff.1 h with ⟨a, hl, hd⟩ | ⟨a, hl, hd⟩
  · cases a with
    | nil =>
      simp only [List.nil_append, List.cons.injEq, true_and] at hd
      exact ⟨by simpa using hl.symm, hd⟩
    | cons c a =>
      simp only [List.cons_append, List.cons.injEq] at hd
      exact absurd (by rw [hd.2]; simp) h1
  · cases a with
    | nil =>
      simp only [List.nil_append, List.cons.injEq, true_and] at hd
      exact ⟨by simpa using hl, hd.symm⟩
    | cons c a =>
      simp only [List.cons_append, List.cons.injEq] at hd
      exact absurd (by rw [hd.2]; simp) h2

/-- The upsert keys of two natural generations agree only for the same UID and
generation. -/
theorem upsertKey_injective_aux (u1 u2 : String) (n1 n2 : Nat)
    (h : upsertKey u1 (Int.ofNat n1) = upsertKey u2 (Int.ofNat n2)) : u1 = u2 ∧ n1 = n2 := by
  have hdash : ∀ n : Nat, '-' ∉ (toString n).data := by
    intro n hmem
    have := natToString_isDigit n _ hmem
    exact absurd this (by decide)
  have hk : ∀ (u : String) (n : Nat),
      (upsertKey u (Int.ofNat n)).data = u.data ++ '-' :: (toString n).data := by
    intro u n
    simp only [upsertKey, String.data_append, List.append_assoc]
    rfl
  have hdata := congrArg String.data h
  rw [hk, hk] at hdata
  obtain ⟨hu, hd⟩ := split_at_last_separator '-' _ _ _ _ (hdash n1) (hdash n2) hdata
  refine ⟨String.ext hu, ?_⟩
  rw [← natToString_value n1, ← natToString_value n2, hd]

/-! ## Claims on the injectivity of the upsert key -/

/-- C29: the upsert idempotency key "UID-Generation" is injective on non-negative
generations: for all UIDs `u1`, `u2`, which may contain '-', and all generations
`g1, g2 >= 0`, equal upsert keys imply `u1 = u2` and `g1 = g2`; so two upsert requests
of objects with non-negative generations that carry the same Idempotency-Key header are
requests of the same UID and generation. -/
theorem upsertKey_injective (u1 u2 : String) (g1 g2 : Int) (h1 : 0 ≤ g1) (h2 : 0 ≤ g2) :
    (upsertKey u1 g1 = upsertKey u2 g2 → u1 = u2 ∧ g1 = g2) ∧
    (∀ (baseURL1 apiKey1 baseURL2 apiKey2 body1 body2 : String)
      (p q : SignalCraftAlertPolicy),
      p.ObjectMeta.UID = u1 → p.ObjectMeta.Generation = g1 →
      q.ObjectMeta.UID = u2 → q.ObjectMeta.Generation = g2 →
      (upsertRequest baseURL1 apiKey1 p body1).getHeader "Idempotency-Key"
        = (upsertRequest baseURL2 apiKey2 q body2).getHeader "Idempotency-Key" →
      u1 = u2 ∧ g1 = g2) := by
  have main : upsertKey u1 g1 = upsertKey u2 g2 → u1 = u2 ∧ g1 = g2 := by
    intro h
    cases g1 with
    | negSucc m => exact absurd h1 (by simp)
    | ofNat n1 =>
      cases g2 with
      | negSucc m => exact absurd h2 (by simp)
      | ofNat n2 =>
        obtain ⟨hu, hn⟩ := upsertKey_injective_aux u1 u2 n1 n2 h
        exact ⟨hu, by rw [hn]⟩
  refine ⟨main, ?_⟩
  intro baseURL1 apiKey1 baseURL2 apiKey2 body1 body2 p q hp1 hp2 hq1 hq2 hkey
  rw [upsertRequest_key, upsertRequest_key, hp1, hp2, hq1, hq2] at hkey
  exact main (Option.some.inj hkey)

/-- Witness of C29: the key of UID `uid-1` at generation 2 is that of no other pair, such
as UID `uid` at generation 12 or UID `uid-1-2` at generation 2. -/
theorem upsertKey_injective_witness :
    upsertKey "uid-1" 2 = "uid-1-2" ∧
    upsertKey "uid-1" 2 ≠ upsertKey "uid" 12 ∧
    upsertKey "uid-1" 2 ≠ upsertKey "uid-1-2" 2 := by
  refine ⟨by decide, ?_, ?_⟩
  · intro h
    exact absurd ((upsertKey_injective "uid-1" "uid" 2 12 (by decide) (by decide)).1 h).1
      (by decide)
  · intro h
    exact absurd ((upsertKey_injective "uid-1" "uid-1-2" 2 2 (by decide) (by decide)).1 h).1
      (by decide)

/-! ## Lemmas on the model of `encoding/json` -/

theorem skipWs_cons (c : Char) (rest : List Char)
    (h : ¬ (c = ' ' ∨ c = '\t' ∨ c = '\n' ∨ c = '\r')) : skipWs (c :: rest) = c :: rest := by
  simp only [skipWs, h, if_false]

theorem plainChar_ne_quote (c : Char) (h : plainChar c = true) : c ≠ '"' := by
  intro hc
  rw [hc] at h
  exact absurd h (by decide)

theorem scanString_append (t rest : List Char) (h : t.all plainChar = true) :
    scanString (t ++ '"' :: rest) = some (t, rest) := by
  induction t with
  | nil => simp [scanString]
  | cons c t ih =>
    rw [List.all_cons, Bool.and_eq_true] at h
    have hih : scanString (t.append ('"' :: rest)) = some (t, rest) := ih h.2
    simp only [List.cons_append, scanString, plainChar_ne_quote c h.1, if_false, h.1, if_true,
      hih]

theorem takeWhile_append_digits (ds rest : List Char)
    (hds : ∀ c ∈ ds, c.isDigit = true)
    (hrest : ∀ c tl, rest = c :: tl → c.isDigit = false) :
    (ds ++ rest).takeWhile Char.isDigit = ds ∧ (ds ++ rest).dropWhile Char.isDigit = rest := by
  induction ds with
  | nil =>
    cases rest with
    | nil => exact ⟨rfl, rfl⟩
    | cons c tl =>
      have h := hrest c tl rfl
      simp [List.takeWhile, List.dropWhile, h]
  | cons d ds ih =>
    have hd := hds d (List.mem_cons_self _ _)
    obtain ⟨h1, h2⟩ := ih (fun c hc => hds c (List.mem_cons_of_mem _ hc))
    simp [List.takeWhile, List.dropWhile, hd, h1, h2]

theorem digitChar_ne_zero : ∀ d, d < 10 → d ≠ 0 → Nat.digitChar d ≠ '0' := by decide

/-- The decimal digits of a number other than zero do not start with the digit zero. -/
theorem toDigitsCore_head (fuel : Nat) : ∀ (n : Nat) (ds : List Char), n ≠ 0 → n < fuel →
    ∃ c tl, Nat.toDigitsCore 10 fuel n ds = c :: tl ∧ c ≠ '0' := by
  induction fuel with
  | zero =>
    intro n ds _ h
    exact absurd h (Nat.not_lt_zero _)
  | succ fuel ih =>
    intro n ds hn h
    unfold Nat.toDigitsCore
    simp only
    split
    · rename_i h0
      refine ⟨_, _, rfl, digitChar_ne_zero _ (Nat.mod_lt _ (by decide)) ?_⟩
      omega
    · rename_i h0
      exact ih (n / 10) _ h0 (by omega)

theorem natToString_head (n : Nat) :
    ¬ ((toString n).data.head? = some '0' ∧ 1 < (toString n).data.length) := by
  have hdata : (toString n).data = Nat.toDigits 10 n := rfl
  rw [hdata]
  by_cases hn : n = 0
  · rw [hn]
    decide
  · obtain ⟨c, tl, h, hc⟩ := toDigitsCore_head (n + 1) n [] hn (Nat.lt_succ_self n)
    unfold Nat.toDigits
    rw [h]
    rintro ⟨h0, _⟩
    simp only [List.head?_cons, Option.some.injEq] at h0
    exact hc h0

theorem natToString_ne_nil (n : Nat) : (toString n).data ≠ [] :=
  toDigitsCore_ne_nil _ _ _ (Or.inl (Nat.succ_pos n))

/-- A number of the model is the `float64` of a natural number below 2^53, and its text
is the decimal rendering of that number. -/
theorem plainNumber_spec (f : Float64) (h : plainNumber f = true) :
    ∃ n, n < 2 ^ 53 ∧ natToFloat64 n = f ∧ renderNumber f = (toString n).data := by
  unfold plainNumber at h
  unfold renderNumber
  cases hn : float64ToNat f with
  | none =>
    rw [hn] at h
    cases h
  | some n =>
    rw [hn] at h
    simp only [Bool.and_eq_true, decide_eq_true_eq] at h
    exact ⟨n, h.1, h.2, rfl⟩

/-- Reading the text of a number of the model gives the number back. -/
theorem scanNumber_render (f : Float64) (rest : List Char) (h : plainNumber f = true)
    (hrest : ∀ c tl, rest = c :: tl → c.isDigit = false) :
    scanNumber (renderNumber f ++ rest) = some (JSONValue.number f, rest) := by
  obtain ⟨n, hlt, hf, hr⟩ := plainNumber_spec f h
  obtain ⟨htake, hdrop⟩ := takeWhile_append_digits (toString n).data rest
    (natToString_isDigit n) hrest
  unfold scanNumber
  simp only
  rw [hr, htake, hdrop, natToString_value, if_neg (natToString_ne_nil n),
    if_neg (natToString_head n), if_pos hlt, hf]

theorem renderNumber_head (f : Float64) (h : plainNumber f = true) :
    ∃ c tl, renderNumber f = c :: tl ∧ c.isDigit = true := by
  obtain ⟨n, _, _, hr⟩ := plainNumber_spec f h
  rw [hr]
  cases hd : (toString n).data with
  | nil => exact absurd hd (natToString_ne_nil n)
  | cons c tl =>
    refine ⟨c, tl, rfl, natToString_isDigit n c ?_⟩
    rw [hd]
    exact List.mem_cons_self _ _

/-! ### Lemmas on the members of a map -/

theorem mem_insertMember (e x : String × JSONValue) (acc : List (String × JSONValue))
    (h : x ∈ insertMember e acc) : x = e ∨ x ∈ acc := by
  induction acc with
  | nil =>
    simp only [insertMember, List.mem_singleton] at h
    exact Or.inl h
  | cons y rest ih =>
    unfold insertMember at h
    split at h
    · rcases List.mem_cons.1 h with h | h
      · exact Or.inl h
      · exact Or.inr h
    · split at h
      · rcases List.mem_cons.1 h with h | h
        · exact Or.inl h
        · exact Or.inr (List.mem_cons_of_mem _ h)
      · rcases List.mem_cons.1 h with h | h
        · exact Or.inr (h ▸ List.mem_cons_self _ _)
        · rcases ih h with h | h
          · exact Or.inl h
          · exact Or.inr (List.mem_cons_of_mem _ h)

theorem mem_foldl_insertMember (entries : List (String × JSONValue)) :
    ∀ (acc : List (String × JSONValue)) (x : String × JSONValue),
      x ∈ entries.foldl (fun acc e => insertMember e acc) acc → x ∈ acc ∨ x ∈ entries := by
  induction entries with
  | nil =>
    intro acc x h
    exact Or.inl h
  | cons e rest ih =>
    intro acc x h
    rw [List.foldl_cons] at h
    rcases ih _ x h with h | h
    · rcases mem_insertMember e x acc h with h | h
      · exact Or.inr (h ▸ List.mem_cons_self _ _)
      · exact Or.inl h
    · exact Or.inr (List.mem_cons_of_mem _ h)

/-- Every member of the map was a member of the object read. -/
theorem mem_sortMembers (entries : List (String × JSONValue)) (x : String × JSONValue)
    (h : x ∈ sortMembers entries) : x ∈ entries := by
  rcases mem_foldl_insertMember entries [] x h with h | h
  · cases h
  · exact h

theorem insertMember_sorted (e : String × JSONValue) (acc : List (String × JSONValue))
    (h : KeysSorted acc) : KeysSorted (insertMember e acc) := by
  unfold KeysSorted at h ⊢
  induction acc with
  | nil => simp [insertMember]
  | cons y rest ih =>
    rw [List.pairwise_cons] at h
    unfold insertMember
    split
    · rename_i hlt
      rw [List.pairwise_cons]
      refine ⟨?_, List.pairwise_cons.2 h⟩
      intro a ha
      rcases List.mem_cons.1 ha with ha | ha
      · rw [ha]
        exact hlt
      · exact lt_trans hlt (h.1 a ha)
    · rename_i hnlt
      split
      · rename_i heq
        rw [List.pairwise_cons]
        refine ⟨?_, h.2⟩
        intro a ha
        rw [heq]
        exact h.1 a ha
      · rename_i hne
        rw [List.pairwise_cons]
        refine ⟨?_, ih h.2⟩
        intro a ha
        rcases mem_insertMember e a rest ha with ha | ha
        · rw [ha]
          have hdata : e.1.data ≠ y.1.data := fun hd => hne (String.ext hd)
          exact lt_of_le_of_ne (not_lt.1 hnlt) (Ne.symm hdata)
        · exact h.1 a ha

/-- The members of the map are in the strict order of their keys, so no key is repeated. -/
theorem sortMembers_sorted (entries : List (String × JSONValue)) :
    KeysSorted (sortMembers entries) := by
  unfold sortMembers
  have h : ∀ acc, KeysSorted acc →
      KeysSorted (entries.foldl (fun acc e => insertMember e acc) acc) := by
    induction entries with
    | nil =>
      intro acc hacc
      exact hacc
    | cons e rest ih =>
      intro acc hacc
      exact ih _ (insertMember_sorted e acc hacc)
  exact h [] List.Pairwise.nil

theorem insertMember_append (e : String × JSONValue) (acc : List (String × JSONValue))
    (h : ∀ x ∈ acc, x.1.data < e.1.data) : insertMember e acc = acc ++ [e] := by
  induction acc with
  | nil => rfl
  | cons y rest ih =>
    have hy := h y (List.mem_cons_self _ _)
    have hnlt : ¬ e.1.data < y.1.data := lt_asymm hy
    have hne : ¬ e.1 = y.1 := by
      intro heq
      rw [heq] at hy
      exact lt_irrefl _ hy
    unfold insertMember
    rw [if_neg hnlt, if_neg hne, ih (fun x hx => h x (List.mem_cons_of_mem _ hx))]
    rfl

/-- Members already in the strict order of their keys are the map as they are. -/
theorem sortMembers_of_sorted (entries : List (String × JSONValue))
    (h : KeysSorted entries) : sortMembers entries = entries := by
  unfold sortMembers
  have hgen : ∀ (l acc : List (String × JSONValue)), KeysSorted (acc ++ l) →
      l.foldl (fun acc e => insertMember e acc) acc = acc ++ l := by
    intro l
    induction l with
    | nil =>
      intro acc _
      simp
    | cons e rest ih =>
      intro acc hsorted
      rw [List.foldl_cons]
      have hlt : ∀ x ∈ acc, x.1.data < e.1.data := by
        intro x hx
        unfold KeysSorted at hsorted
        rw [List.pairwise_append] at hsorted
        exact hsorted.2.2 x hx e (List.mem_cons_self _ _)
      rw [insertMember_append e acc hlt, ih]
      · simp
      · rw [List.append_assoc]
        exact hsorted
  have := hgen entries [] (by simpa using h)
  simpa using this

/-! ### Reading back the text of a value -/

theorem isDigit_not_ws (c : Char) (h : c.isDigit = true) :
    ¬ (c = ' ' ∨ c = '\t' ∨ c = '\n' ∨ c = '\r') := by
  rintro (hc | hc | hc | hc) <;> (rw [hc] at h; exact absurd h (by decide))

/-- The text of a value of the model starts with a digit or with one of the characters
that open a word, a string, a sequence or a mapping. -/
theorem renderValue_head (v : JSONValue) (h : inModel v = true) :
    ∃ c tl, renderValue v = c :: tl ∧
      (c.isDigit = true ∨ c = 'n' ∨ c = 't' ∨ c = 'f' ∨ c = '"' ∨ c = '[' ∨ c = '{') := by
  cases v with
  | null => exact ⟨_, _, by rw [renderValue], Or.inr (Or.inl rfl)⟩
  | bool b =>
    cases b
    · exact ⟨'f', _, by rw [renderValue]; rfl, Or.inr (Or.inr (Or.inr (Or.inl rfl)))⟩
    · exact ⟨'t', _, by rw [renderValue]; rfl, Or.inr (Or.inr (Or.inl rfl))⟩
  | number f =>
    simp only [inModel] at h
    obtain ⟨c, tl, hr, hc⟩ := renderNumber_head f h
    exact ⟨c, tl, by rw [renderValue, hr], Or.inl hc⟩
  | string s =>
    exact ⟨_, _, by rw [renderValue], Or.inr (Or.inr (Or.inr (Or.inr (Or.inl rfl))))⟩
  | array items =>
    cases items with
    | nil =>
      exact ⟨_, _, by rw [renderValue],
        Or.inr (Or.inr (Or.inr (Or.inr (Or.inr (Or.inl rfl)))))⟩
    | cons v rest =>
      exact ⟨_, _, by rw [renderValue],
        Or.inr (Or.inr (Or.inr (Or.inr (Or.inr (Or.inl rfl)))))⟩
  | object entries =>
    cases entries with
    | nil =>
      exact ⟨_, _, by rw [renderValue],
        Or.inr (Or.inr (Or.inr (Or.inr (Or.inr (Or.inr rfl)))))⟩
    | cons e rest =>
      obtain ⟨k, v⟩ := e
      exact ⟨_, _, by rw [renderValue],
        Or.inr (Or.inr (Or.inr (Or.inr (Or.inr (Or.inr rfl)))))⟩

/-- No whitespace is skipped in front of the text of a value of the model, and that text
does not start with a closing bracket or brace. -/
theorem skipWs_renderValue (v : JSONValue) (rest : List Char) (h : inModel v = true) :
    skipWs (renderValue v ++ rest) = renderValue v ++ rest ∧
    (renderValue v ++ rest).head? ≠ some ']' ∧ (renderValue v ++ rest).head? ≠ some '}' := by
  obtain ⟨c, tl, hr, hc⟩ := renderValue_head v h
  rw [hr, List.cons_append]
  have hws : ¬ (c = ' ' ∨ c = '\t' ∨ c = '\n' ∨ c = '\r') := by
    rcases hc with hc | hc | hc | hc | hc | hc | hc
    · exact isDigit_not_ws c hc
    all_goals (rw [hc]; decide)
  refine ⟨skipWs_cons c _ hws, ?_, ?_⟩
  · rw [List.head?_cons]
    intro heq
    have hc2 : c = ']' := Option.some.inj heq
    rw [hc2] at hc
    exact absurd hc (by decide)
  · rw [List.head?_cons]
    intro heq
    have hc2 : c = '}' := Option.some.inj heq
    rw [hc2] at hc
    exact absurd hc (by decide)


theorem parseValue_null (fuel : Nat) (rest : List Char) :
    parseValue (fuel + 1) (renderValue JSONValue.null ++ rest) = some (JSONValue.null, rest) := by
  rw [renderValue]
  simp [parseValue, skipWs, expectWord, List.isPrefixOf]

theorem parseValue_bool (b : Bool) (fuel : Nat) (rest : List Char) :
    parseValue (fuel + 1) (renderValue (JSONValue.bool b) ++ rest)
      = some (JSONValue.bool b, rest) := by
  rw [renderValue]
  cases b <;> simp [parseValue, skipWs, expectWord, List.isPrefixOf]

theorem parseValue_number (f : Float64) (fuel : Nat) (rest : List Char)
    (h : plainNumber f = true) (hrest : ∀ c tl, rest = c :: tl → c.isDigit = false) :
    parseValue (fuel + 1) (renderValue (JSONValue.number f) ++ rest)
      = some (JSONValue.number f, rest) := by
  rw [renderValue]
  obtain ⟨c, tl, hr, hc⟩ := renderNumber_head f h
  have hscan := scanNumber_render f rest h hrest
  rw [hr] at hscan ⊢
  rw [List.cons_append] at hscan ⊢
  rw [parseValue, skipWs_cons c _ (isDigit_not_ws c hc)]
  simp only [hc, if_true]
  exact hscan

theorem parseValue_string (s : String) (fuel : Nat) (rest : List Char)
    (h : s.data.all plainChar = true) :
    parseValue (fuel + 1) (renderValue (JSONValue.string s) ++ rest)
      = some (JSONValue.string s, rest) := by
  rw [renderValue]
  have hscan := scanString_append s.data rest h
  rw [List.cons_append, List.append_assoc, List.singleton_append, parseValue,
    skipWs_cons _ _ (by decide)]
  simp [hscan]


theorem renderItems_head (items : List JSONValue) (rest : List Char) :
    ∀ c tl, renderItems items ++ rest = c :: tl → c.isDigit = false := by
  intro c tl h
  cases items with
  | nil =>
    rw [renderItems, List.singleton_append] at h
    injection h with hc _
    rw [← hc]
    decide
  | cons v items =>
    rw [renderItems, List.cons_append] at h
    injection h with hc _
    rw [← hc]
    decide

theorem renderMembers_head (entries : List (String × JSONValue)) (rest : List Char) :
    ∀ c tl, renderMembers entries ++ rest = c :: tl → c.isDigit = false := by
  intro c tl h
  cases entries with
  | nil =>
    rw [renderMembers, List.singleton_append] at h
    injection h with hc _
    rw [← hc]
    decide
  | cons e entries =>
    obtain ⟨k, v⟩ := e
    rw [renderMembers, List.cons_append] at h
    injection h with hc _
    rw [← hc]
    decide

/-- Reading a member whose value is read back gives the member back. -/
theorem parseMember_of_value (k : String) (v : JSONValue) (fuel : Nat) (tail : List Char)
    (hk : k.data.all plainChar = true)
    (hv : parseValue fuel (renderValue v ++ tail) = some (v, tail)) :
    parseMember (fuel + 1) ('"' :: (k.data ++ '"' :: ':' :: (renderValue v ++ tail)))
      = some ((k, v), tail) := by
  have hscan := scanString_append k.data (':' :: (renderValue v ++ tail)) hk
  rw [parseMember, skipWs_cons _ _ (by decide)]
  simp [hscan, skipWs, hv]

mutual
/-- Reading the text of a value of the model gives the value back, with fuel above the
length of the text. -/
theorem parseValue_render : ∀ (v : JSONValue) (fuel : Nat) (rest : List Char),
    inModel v = true → (renderValue v).length < fuel →
    (∀ c tl, rest = c :: tl → c.isDigit = false) →
    parseValue fuel (renderValue v ++ rest) = some (v, rest)
  | JSONValue.null, fuel, rest, _, hfuel, _ => by
    cases fuel with
    | zero => exact absurd hfuel (Nat.not_lt_zero _)
    | succ fuel => exact parseValue_null fuel rest
  | JSONValue.bool b, fuel, rest, _, hfuel, _ => by
    cases fuel with
    | zero => exact absurd hfuel (Nat.not_lt_zero _)
    | succ fuel => exact parseValue_bool b fuel rest
  | JSONValue.number f, fuel, rest, h, hfuel, hrest => by
    cases fuel with
    | zero => exact absurd hfuel (Nat.not_lt_zero _)
    | succ fuel =>
      rw [inModel] at h
      exact parseValue_number f fuel rest h hrest
  | JSONValue.string s, fuel, rest, h, hfuel, _ => by
    cases fuel with
    | zero => exact absurd hfuel (Nat.not_lt_zero _)
    | succ fuel =>
      rw [inModel] at h
      exact parseValue_string s fuel rest h
  | JSONValue.array [], fuel, rest, _, hfuel, _ => by
    cases fuel with
    | zero => exact absurd hfuel (Nat.not_lt_zero _)
    | succ fuel =>
      rw [renderValue]
      simp [parseValue, skipWs]
  | JSONValue.array (x :: items), fuel, rest, h, hfuel, _ => by
    cases fuel with
    | zero => exact absurd hfuel (Nat.not_lt_zero _)
    | succ fuel =>
      rw [inModel, inModelItems, Bool.and_eq_true] at h
      rw [renderValue, List.length_cons, List.length_append] at hfuel
      have hx := parseValue_render x fuel (renderItems items ++ rest) h.1 (by omega)
        (renderItems_head items rest)
      have hi := parseItems_render items fuel rest h.2 (by omega)
      obtain ⟨hws, hne, _⟩ := skipWs_renderValue x (renderItems items ++ rest) h.1
      rw [renderValue, List.cons_append, List.append_assoc, parseValue,
        skipWs_cons _ _ (by decide)]
      simp [hws, hne, hx, hi, -List.head?_append]
  | JSONValue.object [], fuel, rest, _, hfuel, _ => by
    cases fuel with
    | zero => exact absurd hfuel (Nat.not_lt_zero _)
    | succ fuel =>
      rw [renderValue]
      simp [parseValue, skipWs]
  | JSONValue.object ((k, v) :: entries), fuel, rest, h, hfuel, _ => by
    cases fuel with
    | zero => exact absurd hfuel (Nat.not_lt_zero _)
    | succ fuel =>
      rw [inModel, inModelMembers, Bool.and_eq_true, Bool.and_eq_true] at h
      rw [renderValue] at hfuel
      simp only [List.length_cons, List.length_append] at hfuel
      cases fuel with
      | zero => omega
      | succ fuel =>
        have hv := parseValue_render v fuel (renderMembers entries ++ rest) h.1.2 (by omega)
          (renderMembers_head entries rest)
        have hm := parseMember_of_value k v fuel (renderMembers entries ++ rest) h.1.1 hv
        have hms := parseMembers_render entries (fuel + 1) rest h.2 (by omega)
        rw [renderValue]
        simp only [List.cons_append, List.append_assoc]
        rw [parseValue, skipWs_cons _ _ (by decide)]
        simp [skipWs, hm, hms]
termination_by structural v => v
/-- Reading the text of the items after the first gives the items back. -/
theorem parseItems_render : ∀ (items : List JSONValue) (fuel : Nat) (rest : List Char),
    inModelItems items = true → (renderItems items).length < fuel →
    parseItems fuel (renderItems items ++ rest) = some (items, rest)
  | [], fuel, rest, _, hfuel => by
    cases fuel with
    | zero => exact absurd hfuel (Nat.not_lt_zero _)
    | succ fuel =>
      rw [renderItems]
      simp [parseItems, skipWs]
  | x :: items, fuel, rest, h, hfuel => by
    cases fuel with
    | zero => exact absurd hfuel (Nat.not_lt_zero _)
    | succ fuel =>
      rw [inModelItems, Bool.and_eq_true] at h
      rw [renderItems, List.length_cons, List.length_append] at hfuel
      have hx := parseValue_render x fuel (renderItems items ++ rest) h.1 (by omega)
        (renderItems_head items rest)
      have hi := parseItems_render items fuel rest h.2 (by omega)
      rw [renderItems, List.cons_append, List.append_assoc, parseItems,
        skipWs_cons _ _ (by decide)]
      simp [hx, hi]
termination_by structural items => items
/-- Reading the text of the members after the first gives the members back. -/
theorem parseMembers_render : ∀ (entries : List (String × JSONValue)) (fuel : Nat)
    (rest : List Char),
    inModelMembers entries = true → (renderMembers entries).length < fuel →
    parseMembers fuel (renderMembers entries ++ rest) = some (entries, rest)
  | [], fuel, rest, _, hfuel => by
    cases fuel with
    | zero => exact absurd hfuel (Nat.not_lt_zero _)
    | succ fuel =>
      rw [renderMembers]
      simp [parseMembers, skipWs]
  | (k, v) :: entries, fuel, rest, h, hfuel => by
    cases fuel with
    | zero => exact absurd hfuel (Nat.not_lt_zero _)
    | succ fuel =>
      rw [inModelMembers, Bool.and_eq_true, Bool.and_eq_true] at h
      rw [renderMembers] at hfuel
      simp only [List.length_cons, List.length_append] at hfuel
      cases fuel with
      | zero => omega
      | succ fuel =>
        have hv := parseValue_render v fuel (renderMembers entries ++ rest) h.1.2 (by omega)
          (renderMembers_head entries rest)
        have hm := parseMember_of_value k v fuel (renderMembers entries ++ rest) h.1.1 hv
        have hms := parseMembers_render entries (fuel + 1) rest h.2 (by omega)
        rw [renderMembers]
        simp only [List.cons_append, List.append_assoc]
        rw [parseMembers, skipWs_cons _ _ (by decide)]
        simp [hm, hms]
termination_by structural entries => entries
end

/-! ### The Go value of a JSON value -/

theorem sortKeysItems_eq_map (items : List JSONValue) :
    sortKeysItems items = items.map sortKeys := by
  induction items with
  | nil => rw [sortKeysItems]; rfl
  | cons v rest ih => rw [sortKeysItems, ih]; rfl

theorem sortKeysMembers_eq_map (entries : List (String × JSONValue)) :
    sortKeysMembers entries = entries.map (fun e => (e.1, sortKeys e.2)) := by
  induction entries with
  | nil => rw [sortKeysMembers]; rfl
  | cons e rest ih =>
    obtain ⟨k, v⟩ := e
    rw [sortKeysMembers, ih]
    rfl

theorem inModelMembers_iff (entries : List (String × JSONValue)) :
    inModelMembers entries = true ↔
      ∀ e ∈ entries, e.1.data.all plainChar = true ∧ inModel e.2 = true := by
  induction entries with
  | nil =>
    rw [inModelMembers]
    exact ⟨fun _ e he => absurd he (List.not_mem_nil e), fun _ => rfl⟩
  | cons x rest ih =>
    obtain ⟨k, v⟩ := x
    rw [inModelMembers, Bool.and_eq_true, Bool.and_eq_true, ih]
    constructor
    · intro h e he
      rcases List.mem_cons.1 he with he | he
      · rw [he]
        exact h.1
      · exact h.2 e he
    · intro h
      exact ⟨h (k, v) (List.mem_cons_self _ _), fun e he => h e (List.mem_cons_of_mem _ he)⟩

theorem keysInOrderMembers_iff (entries : List (String × JSONValue)) :
    keysInOrderMembers entries = true ↔ ∀ e ∈ entries, keysInOrder e.2 = true := by
  induction entries with
  | nil =>
    rw [keysInOrderMembers]
    exact ⟨fun _ e he => absurd he (List.not_mem_nil e), fun _ => rfl⟩
  | cons x rest ih =>
    obtain ⟨k, v⟩ := x
    rw [keysInOrderMembers, Bool.and_eq_true, ih]
    constructor
    · intro h e he
      rcases List.mem_cons.1 he with he | he
      · rw [he]
        exact h.1
      · exact h.2 e he
    · intro h
      exact ⟨h (k, v) (List.mem_cons_self _ _), fun e he => h e (List.mem_cons_of_mem _ he)⟩

theorem inModelMembers_sortMembers (entries : List (String × JSONValue))
    (h : inModelMembers entries = true) : inModelMembers (sortMembers entries) = true := by
  rw [inModelMembers_iff] at h ⊢
  exact fun e he => h e (mem_sortMembers entries e he)

theorem keysInOrderMembers_sortMembers (entries : List (String × JSONValue))
    (h : keysInOrderMembers entries = true) :
    keysInOrderMembers (sortMembers entries) = true := by
  rw [keysInOrderMembers_iff] at h ⊢
  exact fun e he => h e (mem_sortMembers entries e he)

theorem keysAscending_iff (entries : List (String × JSONValue)) :
    keysAscending entries = true ↔ KeysSorted entries := by
  unfold KeysSorted
  induction entries with
  | nil => exact ⟨fun _ => List.Pairwise.nil, fun _ => rfl⟩
  | cons a rest ih =>
    cases rest with
    | nil =>
      rw [keysAscending]
      exact ⟨fun _ => List.pairwise_singleton _ _, fun _ => rfl⟩
    | cons b rest =>
      rw [keysAscending, Bool.and_eq_true, decide_eq_true_eq, ih]
      constructor
      · intro h
        refine List.pairwise_cons.2 ⟨?_, h.2⟩
        intro x hx
        rcases List.mem_cons.1 hx with hx | hx
        · rw [hx]
          exact h.1
        · exact lt_trans h.1 ((List.pairwise_cons.1 h.2).1 x hx)
      · intro h
        have h2 := List.pairwise_cons.1 h
        exact ⟨h2.1 b (List.mem_cons_self _ _), h2.2⟩

mutual
/-- The Go value of a JSON value of the model is a value of the model. -/
theorem inModel_sortKeys : ∀ (v : JSONValue), inModel v = true → inModel (sortKeys v) = true
  | JSONValue.null, h => h
  | JSONValue.bool _, h => h
  | JSONValue.number _, h => h
  | JSONValue.string _, h => h
  | JSONValue.array items, h => by
    rw [inModel] at h
    rw [sortKeys, inModel]
    exact inModelItems_sortKeysItems items h
  | JSONValue.object entries, h => by
    rw [inModel] at h
    rw [sortKeys, inModel]
    exact inModelMembers_sortMembers _ (inModelMembers_sortKeysMembers entries h)
termination_by structural v => v
theorem inModelItems_sortKeysItems : ∀ (items : List JSONValue),
    inModelItems items = true → inModelItems (sortKeysItems items) = true
  | [], h => h
  | v :: rest, h => by
    rw [inModelItems, Bool.and_eq_true] at h
    rw [sortKeysItems, inModelItems, Bool.and_eq_true]
    exact ⟨inModel_sortKeys v h.1, inModelItems_sortKeysItems rest h.2⟩
termination_by structural items => items
theorem inModelMembers_sortKeysMembers : ∀ (entries : List (String × JSONValue)),
    inModelMembers entries = true → inModelMembers (sortKeysMembers entries) = true
  | [], h => h
  | (k, v) :: rest, h => by
    rw [inModelMembers, Bool.and_eq_true, Bool.and_eq_true] at h
    rw [sortKeysMembers, inModelMembers, Bool.and_eq_true, Bool.and_eq_true]
    exact ⟨⟨h.1.1, inModel_sortKeys v h.1.2⟩, inModelMembers_sortKeysMembers rest h.2⟩
termination_by structural entries => entries
end

mutual
/-- Every mapping of a Go value has its members in the strict order of their keys. -/
theorem keysInOrder_sortKeys : ∀ (v : JSONValue), keysInOrder (sortKeys v) = true
  | JSONValue.null => rfl
  | JSONValue.bool _ => rfl
  | JSONValue.number _ => rfl
  | JSONValue.string _ => rfl
  | JSONValue.array items => by
    rw [sortKeys, keysInOrder]
    exact keysInOrderItems_sortKeysItems items
  | JSONValue.object entries => by
    rw [sortKeys, keysInOrder, Bool.and_eq_true]
    exact ⟨(keysAscending_iff _).2 (sortMembers_sorted _),
      keysInOrderMembers_sortMembers _ (keysInOrderMembers_sortKeysMembers entries)⟩
termination_by structural v => v
theorem keysInOrderItems_sortKeysItems : ∀ (items : List JSONValue),
    keysInOrderItems (sortKeysItems items) = true
  | [] => rfl
  | v :: rest => by
    rw [sortKeysItems, keysInOrderItems, Bool.and_eq_true]
    exact ⟨keysInOrder_sortKeys v, keysInOrderItems_sortKeysItems rest⟩
termination_by structural items => items
theorem keysInOrderMembers_sortKeysMembers : ∀ (entries : List (String × JSONValue)),
    keysInOrderMembers (sortKeysMembers entries) = true
  | [] => rfl
  | (k, v) :: rest => by
    rw [sortKeysMembers, keysInOrderMembers, Bool.and_eq_true]
    exact ⟨keysInOrder_sortKeys v, keysInOrderMembers_sortKeysMembers rest⟩
termination_by structural entries => entries
end

mutual
/-- A value whose mappings have their members in the strict order of their keys is its
own Go value. -/
theorem sortKeys_of_keysInOrder : ∀ (v : JSONValue), keysInOrder v = true → sortKeys v = v
  | JSONValue.null, _ => rfl
  | JSONValue.bool _, _ => rfl
  | JSONValue.number _, _ => rfl
  | JSONValue.string _, _ => rfl
  | JSONValue.array items, h => by
    rw [keysInOrder] at h
    rw [sortKeys, sortKeysItems_of_keysInOrder items h]
  | JSONValue.object entries, h => by
    rw [keysInOrder, Bool.and_eq_true] at h
    rw [sortKeys, sortKeysMembers_of_keysInOrder entries h.2,
      sortMembers_of_sorted entries ((keysAscending_iff _).1 h.1)]
termination_by structural v => v
theorem sortKeysItems_of_keysInOrder : ∀ (items : List JSONValue),
    keysInOrderItems items = true → sortKeysItems items = items
  | [], _ => rfl
  | v :: rest, h => by
    rw [keysInOrderItems, Bool.and_eq_true] at h
    rw [sortKeysItems, sortKeys_of_keysInOrder v h.1, sortKeysItems_of_keysInOrder rest h.2]
termination_by structural items => items
theorem sortKeysMembers_of_keysInOrder : ∀ (entries : List (String × JSONValue)),
    keysInOrderMembers entries = true → sortKeysMembers entries = entries
  | [], _ => rfl
  | (k, v) :: rest, h => by
    rw [keysInOrderMembers, Bool.and_eq_true] at h
    rw [sortKeysMembers, sortKeys_of_keysInOrder v h.1,
      sortKeysMembers_of_keysInOrder rest h.2]
termination_by structural entries => entries
end

/-- Taking the Go value twice is taking it once. -/
theorem sortKeys_idem (v : JSONValue) : sortKeys (sortKeys v) = sortKeys v :=
  sortKeys_of_keysInOrder _ (keysInOrder_sortKeys v)

/-- The Go value is the value itself exactly when every mapping of the value has its
members in the strict order of their keys. -/
theorem sortKeys_eq_self_iff (v : JSONValue) : sortKeys v = v ↔ keysInOrder v = true := by
  constructor
  · intro h
    rw [← h]
    exact keysInOrder_sortKeys v
  · exact sortKeys_of_keysInOrder v

/-! ### The value a map holds for a key -/

theorem lookup_cons_eq (k xk : String) (xv : JSONValue) (rest : List (String × JSONValue)) :
    List.lookup k ((xk, xv) :: rest) = if k = xk then some xv else List.lookup k rest := by
  rw [List.lookup_cons]
  by_cases h : k = xk
  · have hb : (k == xk) = true := beq_iff_eq.2 h
    rw [hb, if_pos h]
  · have hb : (k == xk) = false := beq_eq_false_iff_ne.2 h
    rw [hb, if_neg h]

theorem lookup_insertMember (e : String × JSONValue) (k : String)
    (acc : List (String × JSONValue)) :
    (insertMember e acc).lookup k = if k = e.1 then some e.2 else acc.lookup k := by
  obtain ⟨ek, ev⟩ := e
  induction acc with
  | nil =>
    rw [insertMember, lookup_cons_eq]
  | cons x rest ih =>
    obtain ⟨xk, xv⟩ := x
    unfold insertMember
    simp only
    split
    · rw [lookup_cons_eq]
    · split
      · rename_i heq
        rw [lookup_cons_eq, lookup_cons_eq]
        by_cases hk : k = ek
        · rw [if_pos hk, if_pos hk]
        · have hk2 : ¬ k = xk := heq ▸ hk
          rw [if_neg hk, if_neg hk, if_neg hk2]
      · rename_i hne
        rw [lookup_cons_eq, lookup_cons_eq, ih]
        by_cases hk : k = ek
        · have hk2 : ¬ k = xk := fun h => hne (hk.symm.trans h)
          rw [if_neg hk2]
          exact (if_pos hk).trans (if_pos hk).symm
        · exact (congrArg (fun t => if k = xk then some xv else t) (if_neg hk)).trans
            (if_neg hk).symm

/-- The map holds for each key the value of the last member of that key. -/
theorem lookup_sortMembers (entries : List (String × JSONValue)) (k : String) :
    (sortMembers entries).lookup k = entries.reverse.lookup k := by
  unfold sortMembers
  have h : ∀ (l acc : List (String × JSONValue)),
      (l.foldl (fun acc e => insertMember e acc) acc).lookup k
        = (l.reverse.lookup k).or (acc.lookup k) := by
    intro l
    induction l with
    | nil =>
      intro acc
      simp
    | cons e rest ih =>
      intro acc
      rw [List.foldl_cons, ih, lookup_insertMember, List.reverse_cons, List.lookup_append]
      obtain ⟨ek, ev⟩ := e
      rw [lookup_cons_eq]
      by_cases hk : k = ek
      · cases hl : List.lookup k rest.reverse <;> simp [hk]
      · cases hl : List.lookup k rest.reverse <;> simp [hk]
  have h2 := h entries []
  simpa using h2

theorem lookup_map_value (f : JSONValue → JSONValue) (entries : List (String × JSONValue))
    (k : String) :
    (entries.map (fun e => (e.1, f e.2))).lookup k = (entries.lookup k).map f := by
  induction entries with
  | nil => rfl
  | cons x rest ih =>
    obtain ⟨xk, xv⟩ := x
    rw [List.map_cons, List.lookup_cons, List.lookup_cons, ih]
    cases k == xk <;> rfl

/-- The Go value of a mapping: its members are in the strict order of their keys, and for
each key it holds the Go value of the value of the last member of that key. -/
theorem sortKeys_object (entries : List (String × JSONValue)) :
    ∃ sorted, sortKeys (JSONValue.object entries) = JSONValue.object sorted ∧
      KeysSorted sorted ∧
      ∀ k, sorted.lookup k = (entries.reverse.lookup k).map sortKeys := by
  refine ⟨sortMembers (sortKeysMembers entries), by rw [sortKeys], sortMembers_sorted _, ?_⟩
  intro k
  rw [lookup_sortMembers, sortKeysMembers_eq_map, ← List.map_reverse, lookup_map_value]

/-- The Go value of a sequence: the Go values of its items, in order. -/
theorem sortKeys_array (items : List JSONValue) :
    sortKeys (JSONValue.array items) = JSONValue.array (items.map sortKeys) := by
  rw [sortKeys, sortKeysItems_eq_map]

/-! ### The values the reader returns -/

theorem toDigitsCore_two_length (fuel : Nat) : ∀ (n : Nat) (ds : List Char), n ≠ 0 → n < fuel →
    ∃ k : Nat, (Nat.toDigitsCore 2 fuel n ds).length = ds.length + k + 1 ∧ 2 ^ k ≤ n ∧
      n < 2 ^ (k + 1) := by
  induction fuel with
  | zero =>
    intro n ds _ h
    exact absurd h (Nat.not_lt_zero _)
  | succ fuel ih =>
    intro n ds hn h
    unfold Nat.toDigitsCore
    simp only
    split
    · rename_i h0
      refine ⟨0, by simp, ?_, ?_⟩
      · simp only [pow_zero]
        omega
      · simp only [zero_add, pow_one]
        omega
    · rename_i h0
      obtain ⟨k, hlen, hlo, hhi⟩ := ih (n / 2) (Nat.digitChar (n % 2) :: ds) h0 (by omega)
      refine ⟨k + 1, ?_, ?_, ?_⟩
      · rw [hlen, List.length_cons]
        omega
      · rw [pow_succ]
        omega
      · rw [pow_succ] at hhi ⊢
        omega

/-- The `float64` of a natural number other than zero below 2^53: the exponent `e` with
2^e at most the number, and the rest of the number as fraction. -/
theorem natToFloat64_spec (n : Nat) (hn : n ≠ 0) (h : n < 2 ^ 53) :
    ∃ e : Nat, e ≤ 52 ∧ 2 ^ e ≤ n ∧ n < 2 ^ (e + 1) ∧
      natToFloat64 n = (1023 + e) * 2 ^ 52 + (n - 2 ^ e) * 2 ^ (52 - e) := by
  obtain ⟨k, hlen, hlo, hhi⟩ := toDigitsCore_two_length (n + 1) n [] hn (Nat.lt_succ_self n)
  have hk : k ≤ 52 := by
    by_contra hgt
    have h53 : 53 ≤ k := by omega
    have hpow : 2 ^ 53 ≤ 2 ^ k := Nat.pow_le_pow_right (by decide) h53
    omega
  refine ⟨k, hk, hlo, hhi, ?_⟩
  unfold natToFloat64
  rw [if_neg hn]
  have he : (Nat.toDigits 2 n).length - 1 = k := by
    unfold Nat.toDigits
    rw [hlen]
    simp
  simp only [he]

/-- The natural number of the `float64` of a natural number below 2^53 is that number. -/
theorem float64ToNat_natToFloat64 (n : Nat) (h : n < 2 ^ 53) :
    float64ToNat (natToFloat64 n) = some n := by
  by_cases hn : n = 0
  · rw [hn]
    rfl
  · obtain ⟨e, he, hlo, hhi, hf⟩ := natToFloat64_spec n hn h
    have hP : 0 < 2 ^ 52 := Nat.two_pow_pos 52
    have hQ : 0 < 2 ^ (52 - e) := Nat.two_pow_pos (52 - e)
    have hsplit : 2 ^ e * 2 ^ (52 - e) = 2 ^ 52 := by
      rw [← pow_add]
      congr 1
      omega
    have hm : (n - 2 ^ e) * 2 ^ (52 - e) < 2 ^ 52 := by
      rw [← hsplit]
      apply Nat.mul_lt_mul_of_pos_right _ hQ
      rw [pow_succ] at hhi
      omega
    have hdiv : natToFloat64 n / 2 ^ 52 = 1023 + e := by
      rw [hf, Nat.add_comm, Nat.add_mul_div_right _ _ hP, Nat.div_eq_of_lt hm,
        Nat.zero_add]
    have hmod : natToFloat64 n % 2 ^ 52 = (n - 2 ^ e) * 2 ^ (52 - e) := by
      rw [hf, Nat.add_comm, Nat.add_mul_mod_self_right, Nat.mod_eq_of_lt hm]
    have hne : natToFloat64 n ≠ 0 := by
      intro h0
      have hz : natToFloat64 n / 2 ^ 52 = 0 := by
        rw [h0]
        exact Nat.zero_div _
      have h1 : (1023 + e : Nat) = 0 := hdiv.symm.trans hz
      omega
    have hexp : 1023 + e - 1023 = e := by omega
    have hcond : 1023 ≤ 1023 + e ∧ 1023 + e ≤ 1075 := ⟨by omega, by omega⟩
    have hrem : (n - 2 ^ e) * 2 ^ (52 - e) % 2 ^ (52 - e) = 0 := Nat.mul_mod_left _ _
    have hquot : (n - 2 ^ e) * 2 ^ (52 - e) / 2 ^ (52 - e) = n - 2 ^ e :=
      Nat.mul_div_cancel _ hQ
    have hsum : 2 ^ e + (n - 2 ^ e) = n := by omega
    unfold float64ToNat
    rw [if_neg hne, hdiv, hmod, hexp, if_pos hcond, if_pos hrem, hquot, hsum]

/-- The `float64` of a natural number below 2^53 is a number of the model. -/
theorem plainNumber_natToFloat64 (n : Nat) (h : n < 2 ^ 53) :
    plainNumber (natToFloat64 n) = true := by
  unfold plainNumber
  rw [float64ToNat_natToFloat64 n h]
  simp only [Bool.and_eq_true, decide_eq_true_eq]
  exact ⟨h, trivial⟩

theorem scanString_plain : ∀ (cs t rest : List Char),
    scanString cs = some (t, rest) → t.all plainChar = true := by
  intro cs
  induction cs with
  | nil =>
    intro t rest h
    simp only [scanString] at h
    cases h
  | cons c cs ih =>
    intro t rest h
    unfold scanString at h
    split at h
    · injection h with h
      injection h with ht _
      rw [← ht]
      rfl
    · split at h
      · rename_i hc
        cases hs : scanString cs with
        | none =>
          rw [hs] at h
          cases h
        | some r =>
          obtain ⟨t2, rest2⟩ := r
          rw [hs] at h
          injection h with h
          injection h with ht _
          rw [← ht, List.all_cons, hc, ih t2 rest2 hs]
          rfl
      · cases h

theorem scanNumber_inModel (cs rest : List Char) (v : JSONValue)
    (h : scanNumber cs = some (v, rest)) : inModel v = true := by
  unfold scanNumber at h
  simp only at h
  split at h
  · cases h
  · split at h
    · cases h
    · split at h
      · rename_i hlt
        injection h with h
        injection h with hv _
        rw [← hv, inModel]
        exact plainNumber_natToFloat64 _ hlt
      · cases h

/-- Every value the reader returns is a value of the model. -/
theorem parse_inModel (fuel : Nat) :
    (∀ cs v rest, parseValue fuel cs = some (v, rest) → inModel v = true) ∧
    (∀ cs items rest, parseItems fuel cs = some (items, rest) → inModelItems items = true) ∧
    (∀ cs e rest, parseMember fuel cs = some (e, rest) →
      e.1.data.all plainChar = true ∧ inModel e.2 = true) ∧
    (∀ cs entries rest, parseMembers fuel cs = some (entries, rest) →
      inModelMembers entries = true) := by
  induction fuel with
  | zero =>
    refine ⟨?_, ?_, ?_, ?_⟩
    · intro cs v rest h
      simp only [parseValue] at h
      cases h
    · intro cs v rest h
      simp only [parseItems] at h
      cases h
    · intro cs v rest h
      simp only [parseMember] at h
      cases h
    · intro cs v rest h
      simp only [parseMembers] at h
      cases h
  | succ fuel ih =>
    obtain ⟨ihv, ihi, ihm, ihms⟩ := ih
    refine ⟨?_, ?_, ?_, ?_⟩
    · intro cs v rest h
      rw [parseValue] at h
      split at h
      · cases h
      · rename_i c tl _
        split at h
        · exact scanNumber_inModel _ _ _ h
        · split at h
          · split at h
            · injection h with h
              injection h with hv _
              rw [← hv]
              rfl
            · cases h
          · split at h
            · split at h
              · injection h with h
                injection h with hv _
                rw [← hv]
                rfl
              · cases h
            · split at h
              · split at h
                · injection h with h
                  injection h with hv _
                  rw [← hv]
                  rfl
                · cases h
              · split at h
                · split at h
                  · rename_i t rest2 hs
                    injection h with h
                    injection h with hv _
                    rw [← hv, inModel]
                    exact scanString_plain _ _ _ hs
                  · cases h
                · split at h
                  · split at h
                    · injection h with h
                      injection h with hv _
                      rw [← hv]
                      rfl
                    · split at h
                      · cases h
                      · rename_i x rest2 hx
                        split at h
                        · cases h
                        · rename_i items rest3 hitems
                          injection h with h
                          injection h with hv _
                          rw [← hv, inModel, inModelItems, Bool.and_eq_true]
                          exact ⟨ihv _ _ _ hx, ihi _ _ _ hitems⟩
                  · split at h
                    · split at h
                      · injection h with h
                        injection h with hv _
                        rw [← hv]
                        rfl
                      · split at h
                        · cases h
                        · rename_i e rest2 he
                          split at h
                          · cases h
                          · rename_i entries rest3 hentries
                            injection h with h
                            injection h with hv _
                            obtain ⟨k, w⟩ := e
                            have hm := ihm _ _ _ he
                            rw [← hv, inModel, inModelMembers, Bool.and_eq_true,
                              Bool.and_eq_true]
                            exact ⟨⟨hm.1, hm.2⟩, ihms _ _ _ hentries⟩
                    · cases h
    · intro cs items rest h
      rw [parseItems] at h
      split at h
      · cases h
      · split at h
        · injection h with h
          injection h with hv _
          rw [← hv]
          rfl
        · split at h
          · split at h
            · cases h
            · rename_i x rest2 hx
              split at h
              · cases h
              · rename_i more rest3 hmore
                injection h with h
                injection h with hv _
                rw [← hv, inModelItems, Bool.and_eq_true]
                exact ⟨ihv _ _ _ hx, ihi _ _ _ hmore⟩
          · cases h
    · intro cs e rest h
      rw [parseMember] at h
      split at h
      · cases h
      · split at h
        · split at h
          · cases h
          · rename_i k rest2 hk
            split at h
            · cases h
            · split at h
              · split at h
                · cases h
                · rename_i w rest3 hw
                  injection h with h
                  injection h with he _
                  rw [← he]
                  exact ⟨scanString_plain _ _ _ hk, ihv _ _ _ hw⟩
              · cases h
        · cases h
    · intro cs entries rest h
      rw [parseMembers] at h
      split at h
      · cases h
      · split at h
        · injection h with h
          injection h with hv _
          rw [← hv]
          rfl
        · split at h
          · split at h
            · cases h
            · rename_i e rest2 he
              split at h
              · cases h
              · rename_i more rest3 hmore
                injection h with h
                injection h with hv _
                obtain ⟨k, w⟩ := e
                have hm := ihm _ _ _ he
                rw [← hv, inModelMembers, Bool.and_eq_true, Bool.and_eq_true]
                exact ⟨⟨hm.1, hm.2⟩, ihms _ _ _ hmore⟩
          · cases h

/-! ### The fuel of the reader -/

theorem skipWs_length (cs : List Char) : (skipWs cs).length ≤ cs.length := by
  induction cs with
  | nil => exact Nat.le_refl _
  | cons c cs ih =>
    unfold skipWs
    split
    · exact Nat.le_succ_of_le ih
    · exact Nat.le_refl _

theorem skipWs_cons_length (cs tl : List Char) (c : Char) (h : skipWs cs = c :: tl) :
    tl.length < cs.length := by
  have hlen := skipWs_length cs
  rw [h, List.length_cons] at hlen
  omega

theorem scanString_length : ∀ (cs t rest : List Char),
    scanString cs = some (t, rest) → rest.length < cs.length := by
  intro cs
  induction cs with
  | nil =>
    intro t rest h
    simp only [scanString] at h
    cases h
  | cons c cs ih =>
    intro t rest h
    unfold scanString at h
    split at h
    · injection h with h
      injection h with _ hr
      rw [← hr, List.length_cons]
      omega
    · split at h
      · cases hs : scanString cs with
        | none =>
          rw [hs] at h
          cases h
        | some r =>
          obtain ⟨t2, rest2⟩ := r
          rw [hs] at h
          injection h with h
          injection h with _ hr
          have hlt := ih t2 rest2 hs
          rw [← hr, List.length_cons]
          omega
      · cases h

theorem scanNumber_length (cs rest : List Char) (v : JSONValue)
    (h : scanNumber cs = some (v, rest)) : rest.length < cs.length := by
  unfold scanNumber at h
  simp only at h
  split at h
  · cases h
  · rename_i hds
    split at h
    · cases h
    · split at h
      · injection h with h
        injection h with _ hr
        have hsplit := congrArg List.length (List.takeWhile_append_dropWhile Char.isDigit cs)
        rw [List.length_append] at hsplit
        have hpos : 0 < (List.takeWhile Char.isDigit cs).length :=
          List.length_pos.2 hds
        rw [← hr]
        omega
      · cases h

theorem expectWord_length (word cs rest : List Char) (h : expectWord word cs = some rest) :
    rest.length ≤ cs.length := by
  unfold expectWord at h
  split at h
  · injection h with h
    rw [← h, List.length_drop]
    omega
  · cases h

/-- What the reader leaves is shorter than what it was given. -/
theorem parse_length (fuel : Nat) :
    (∀ cs v rest, parseValue fuel cs = some (v, rest) → rest.length < cs.length) ∧
    (∀ cs items rest, parseItems fuel cs = some (items, rest) → rest.length < cs.length) ∧
    (∀ cs e rest, parseMember fuel cs = some (e, rest) → rest.length < cs.length) ∧
    (∀ cs entries rest, parseMembers fuel cs = some (entries, rest) →
      rest.length < cs.length) := by
  induction fuel with
  | zero =>
    refine ⟨?_, ?_, ?_, ?_⟩
    · intro cs v rest h
      simp only [parseValue] at h
      cases h
    · intro cs v rest h
      simp only [parseItems] at h
      cases h
    · intro cs v rest h
      simp only [parseMember] at h
      cases h
    · intro cs v rest h
      simp only [parseMembers] at h
      cases h
  | succ fuel ih =>
    obtain ⟨ihv, ihi, ihm, ihms⟩ := ih
    refine ⟨?_, ?_, ?_, ?_⟩
    · intro cs v rest h
      rw [parseValue] at h
      split at h
      · cases h
      · rename_i c tl hws
        have htl := skipWs_cons_length cs tl c hws
        have hall := skipWs_length cs
        rw [hws, List.length_cons] at hall
        split at h
        · have hn := scanNumber_length _ _ _ h
          rw [List.length_cons] at hn
          omega
        · split at h
          · split at h
            · rename_i rest2 hw
              injection h with h
              injection h with _ hr
              have hl := expectWord_length _ _ _ hw
              rw [← hr]
              omega
            · cases h
          · split at h
            · split at h
              · rename_i rest2 hw
                injection h with h
                injection h with _ hr
                have hl := expectWord_length _ _ _ hw
                rw [← hr]
                omega
              · cases h
            · split at h
              · split at h
                · rename_i rest2 hw
                  injection h with h
                  injection h with _ hr
                  have hl := expectWord_length _ _ _ hw
                  rw [← hr]
                  omega
                · cases h
              · split at h
                · split at h
                  · rename_i t rest2 hs
                    injection h with h
                    injection h with _ hr
                    have hl := scanString_length _ _ _ hs
                    rw [← hr]
                    omega
                  · cases h
                · split at h
                  · split at h
                    · injection h with h
                      injection h with _ hr
                      have hl := skipWs_length tl
                      rw [← hr, List.length_tail]
                      omega
                    · split at h
                      · cases h
                      · rename_i x rest2 hx
                        split at h
                        · cases h
                        · rename_i items rest3 hitems
                          injection h with h
                          injection h with _ hr
                          have h1 := ihv _ _ _ hx
                          have h2 := ihi _ _ _ hitems
                          rw [← hr]
                          omega
                  · split at h
                    · split at h
                      · injection h with h
                        injection h with _ hr
                        have hl := skipWs_length tl
                        rw [← hr, List.length_tail]
                        omega
                      · split at h
                        · cases h
                        · rename_i e rest2 he
                          split at h
                          · cases h
                          · rename_i entries rest3 hentries
                            injection h with h
                            injection h with _ hr
                            have h1 := ihm _ _ _ he
                            have h2 := ihms _ _ _ hentries
                            rw [← hr]
                            omega
                    · cases h
    · intro cs items rest h
      rw [parseItems] at h
      split at h
      · cases h
      · rename_i c tl hws
        have htl := skipWs_cons_length cs tl c hws
        split at h
        · injection h with h
          injection h with _ hr
          rw [← hr]
          exact htl
        · split at h
          · split at h
            · cases h
            · rename_i x rest2 hx
              split at h
              · cases h
              · rename_i more rest3 hmore
                injection h with h
                injection h with _ hr
                have h1 := ihv _ _ _ hx
                have h2 := ihi _ _ _ hmore
                rw [← hr]
                omega
          · cases h
    · intro cs e rest h
      rw [parseMember] at h
      split at h
      · cases h
      · rename_i c tl hws
        have htl := skipWs_cons_length cs tl c hws
        split at h
        · split at h
          · cases h
          · rename_i k rest2 hk
            have hl := scanString_length _ _ _ hk
            split at h
            · cases h
            · rename_i c2 tl2 hws2
              have htl2 := skipWs_cons_length rest2 tl2 c2 hws2
              split at h
              · split at h
                · cases h
                · rename_i w rest3 hw
                  injection h with h
                  injection h with _ hr
                  have h1 := ihv _ _ _ hw
                  rw [← hr]
                  omega
              · cases h
        · cases h
    · intro cs entries rest h
      rw [parseMembers] at h
      split at h
      · cases h
      · rename_i c tl hws
        have htl := skipWs_cons_length cs tl c hws
        split at h
        · injection h with h
          injection h with _ hr
          rw [← hr]
          exact htl
        · split at h
          · split at h
            · cases h
            · rename_i e rest2 he
              split at h
              · cases h
              · rename_i more rest3 hmore
                injection h with h
                injection h with _ hr
                have h1 := ihm _ _ _ he
                have h2 := ihms _ _ _ hmore
                rw [← hr]
                omega
          · cases h

/-- Fuel above the length of the text is enough: what the reader returns with any fuel,
it returns with that fuel. -/
theorem parse_fuel (fuel : Nat) :
    (∀ cs F r, cs.length < fuel → parseValue F cs = some r → parseValue fuel cs = some r) ∧
    (∀ cs F r, cs.length < fuel → parseItems F cs = some r → parseItems fuel cs = some r) ∧
    (∀ cs F r, cs.length < fuel → parseMember F cs = some r →
      parseMember fuel cs = some r) ∧
    (∀ cs F r, cs.length < fuel → parseMembers F cs = some r →
      parseMembers fuel cs = some r) := by
  induction fuel with
  | zero =>
    exact ⟨fun _ _ _ h => absurd h (Nat.not_lt_zero _),
      fun _ _ _ h => absurd h (Nat.not_lt_zero _),
      fun _ _ _ h => absurd h (Nat.not_lt_zero _),
      fun _ _ _ h => absurd h (Nat.not_lt_zero _)⟩
  | succ fuel ih =>
    obtain ⟨ihv, ihi, ihm, ihms⟩ := ih
    refine ⟨?_, ?_, ?_, ?_⟩
    · intro cs F r hlen h
      cases F with
      | zero =>
        simp only [parseValue] at h
        cases h
      | succ F =>
        rw [parseValue] at h ⊢
        cases hws : skipWs cs with
        | nil =>
          rw [hws] at h
          cases h
        | cons c tl =>
          have htl := skipWs_cons_length cs tl c hws
          rw [hws] at h
          simp only at h ⊢
          by_cases hd : c.isDigit = true
          · rw [if_pos hd] at h ⊢
            exact h
          rw [if_neg hd] at h ⊢
          by_cases hn : c = 'n'
          · rw [if_pos hn] at h ⊢
            exact h
          rw [if_neg hn] at h ⊢
          by_cases ht : c = 't'
          · rw [if_pos ht] at h ⊢
            exact h
          rw [if_neg ht] at h ⊢
          by_cases hf : c = 'f'
          · rw [if_pos hf] at h ⊢
            exact h
          rw [if_neg hf] at h ⊢
          by_cases hq : c = '"'
          · rw [if_pos hq] at h ⊢
            exact h
          rw [if_neg hq] at h ⊢
          by_cases hb : c = '['
          · rw [if_pos hb] at h ⊢
            by_cases he : (skipWs tl).head? = some ']'
            · rw [if_pos he] at h ⊢
              exact h
            rw [if_neg he] at h ⊢
            cases hx : parseValue F tl with
            | none =>
              rw [hx] at h
              cases h
            | some p =>
              obtain ⟨x, rest2⟩ := p
              have hl := (parse_length F).1 _ _ _ hx
              rw [hx] at h
              rw [ihv tl F _ (by omega) hx]
              simp only at h ⊢
              cases hi : parseItems F rest2 with
              | none =>
                rw [hi] at h
                cases h
              | some q =>
                rw [hi] at h
                rw [ihi rest2 F _ (by omega) hi]
                exact h
          rw [if_neg hb] at h ⊢
          by_cases ho : c = '{'
          · rw [if_pos ho] at h ⊢
            by_cases he : (skipWs tl).head? = some '}'
            · rw [if_pos he] at h ⊢
              exact h
            rw [if_neg he] at h ⊢
            cases hx : parseMember F tl with
            | none =>
              rw [hx] at h
              cases h
            | some p =>
              obtain ⟨x, rest2⟩ := p
              have hl := (parse_length F).2.2.1 _ _ _ hx
              rw [hx] at h
              rw [ihm tl F _ (by omega) hx]
              simp only at h ⊢
              cases hi : parseMembers F rest2 with
              | none =>
                rw [hi] at h
                cases h
              | some q =>
                rw [hi] at h
                rw [ihms rest2 F _ (by omega) hi]
                exact h
          rw [if_neg ho] at h ⊢
          exact h
    · intro cs F r hlen h
      cases F with
      | zero =>
        simp only [parseItems] at h
        cases h
      | succ F =>
        rw [parseItems] at h ⊢
        cases hws : skipWs cs with
        | nil =>
          rw [hws] at h
          cases h
        | cons c tl =>
          have htl := skipWs_cons_length cs tl c hws
          rw [hws] at h
          simp only at h ⊢
          by_cases he : c = ']'
          · rw [if_pos he] at h ⊢
            exact h
          rw [if_neg he] at h ⊢
          by_cases hc : c = ','
          · rw [if_pos hc] at h ⊢
            cases hx : parseValue F tl with
            | none =>
              rw [hx] at h
              cases h
            | some p =>
              obtain ⟨x, rest2⟩ := p
              have hl := (parse_length F).1 _ _ _ hx
              rw [hx] at h
              rw [ihv tl F _ (by omega) hx]
              simp only at h ⊢
              cases hi : parseItems F rest2 with
              | none =>
                rw [hi] at h
                cases h
              | some q =>
                rw [hi] at h
                rw [ihi rest2 F _ (by omega) hi]
                exact h
          rw [if_neg hc] at h ⊢
          exact h
    · intro cs F r hlen h
      cases F with
      | zero =>
        simp only [parseMember] at h
        cases h
      | succ F =>
        rw [parseMember] at h ⊢
        cases hws : skipWs cs with
        | nil =>
          rw [hws] at h
          cases h
        | cons c tl =>
          have htl := skipWs_cons_length cs tl c hws
          rw [hws] at h
          simp only at h ⊢
          by_cases hq : c = '"'
          · rw [if_pos hq] at h ⊢
            cases hk : scanString tl with
            | none =>
              rw [hk] at h
              cases h
            | some p =>
              obtain ⟨k, rest2⟩ := p
              have hl := scanString_length _ _ _ hk
              rw [hk] at h
              simp only at h ⊢
              cases hws2 : skipWs rest2 with
              | nil =>
                rw [hws2] at h
                cases h
              | cons c2 tl2 =>
                have htl2 := skipWs_cons_length rest2 tl2 c2 hws2
                rw [hws2] at h
                simp only at h ⊢
                by_cases hcol : c2 = ':'
                · rw [if_pos hcol] at h ⊢
                  cases hx : parseValue F tl2 with
                  | none =>
                    rw [hx] at h
                    cases h
                  | some q =>
                    rw [hx] at h
                    rw [ihv tl2 F _ (by omega) hx]
                    exact h
                rw [if_neg hcol] at h ⊢
                exact h
          rw [if_neg hq] at h ⊢
          exact h
    · intro cs F r hlen h
      cases F with
      | zero =>
        simp only [parseMembers] at h
        cases h
      | succ F =>
        rw [parseMembers] at h ⊢
        cases hws : skipWs cs with
        | nil =>
          rw [hws] at h
          cases h
        | cons c tl =>
          have htl := skipWs_cons_length cs tl c hws
          rw [hws] at h
          simp only at h ⊢
          by_cases he : c = '}'
          · rw [if_pos he] at h ⊢
            exact h
          rw [if_neg he] at h ⊢
          by_cases hc : c = ','
          · rw [if_pos hc] at h ⊢
            cases hx : parseMember F tl with
            | none =>
              rw [hx] at h
              cases h
            | some p =>
              obtain ⟨x, rest2⟩ := p
              have hl := (parse_length F).2.2.1 _ _ _ hx
              rw [hx] at h
              rw [ihm tl F _ (by omega) hx]
              simp only at h ⊢
              cases hi : parseMembers F rest2 with
              | none =>
                rw [hi] at h
                cases h
              | some q =>
                rw [hi] at h
                rw [ihms rest2 F _ (by omega) hi]
                exact h
          rw [if_neg hc] at h ⊢
          exact h

/-- A text denotes the value `d` exactly when the reader, with some fuel, reads `d` from
the whole text: the fuel `parseDocument` gives is enough, and no value read is refused. -/
theorem parseDocument_iff (text : String) (d : JSONValue) :
    parseDocument text = Except.ok d ↔
      ∃ F rest, parseValue F text.data = some (d, rest) ∧ skipWs rest = [] := by
  constructor
  · intro h
    unfold parseDocument at h
    split at h
    · rename_i d2 rest hp
      split at h
      · rename_i hrest
        injection h with h
        rw [← h]
        exact ⟨_, rest, hp, hrest⟩
      · cases h
    · cases h
  · rintro ⟨F, rest, hp, hrest⟩
    have hp2 := (parse_fuel (text.length + 1)).1 text.data F _ (Nat.lt_succ_self _) hp
    unfold parseDocument
    rw [hp2]
    simp only
    exact if_pos hrest

/-! ### Writing a value and reading it back -/

/-- The text written for a value of the model denotes that value. -/
theorem parseDocument_render (v : JSONValue) (h : inModel v = true) :
    parseDocument (String.mk (renderValue v)) = Except.ok v := by
  have hp := parseValue_render v ((renderValue v).length + 1) [] h (Nat.lt_succ_self _)
    (fun c tl hnil => by cases hnil)
  rw [List.append_nil] at hp
  have hp2 : parseValue ((String.mk (renderValue v)).length + 1) (String.mk (renderValue v)).data
      = some (v, []) := hp
  unfold parseDocument
  rw [hp2]
  simp only
  exact if_pos rfl

/-- A text that denotes a value denotes a value of the model. -/
theorem inModel_of_parseDocument (text : String) (d : JSONValue)
    (h : parseDocument text = Except.ok d) : inModel d = true := by
  unfold parseDocument at h
  split at h
  · rename_i d2 rest hp
    split at h
    · injection h with h
      rw [← h]
      exact (parse_inModel _).1 _ _ _ hp
    · cases h
  · cases h

/-- The function `json.Unmarshal` reads from a text that denotes `d` the Go value of `d`. -/
theorem jsonUnmarshal_of_parseDocument (text : String) (d : JSONValue)
    (h : parseDocument text = Except.ok d) : jsonUnmarshal text = Except.ok (sortKeys d) := by
  unfold jsonUnmarshal
  rw [h]

/-- The function `json.Marshal` writes the Go value of a value of the model: the text of
that Go value, which denotes it. -/
theorem jsonMarshal_sortKeys (d : JSONValue) (h : inModel d = true) :
    jsonMarshal (sortKeys d) = Except.ok (String.mk (renderValue (sortKeys d))) ∧
    parseDocument (String.mk (renderValue (sortKeys d))) = Except.ok (sortKeys d) := by
  have hm := inModel_sortKeys d h
  refine ⟨?_, parseDocument_render _ hm⟩
  unfold jsonMarshal
  rw [if_pos hm, sortKeys_idem]

/-- The values the table of the example texts gives are those `jsonUnmarshal` reads. -/
theorem exampleValues_jsonUnmarshal (text : String) (v : JSONValue)
    (h : decodeTable exampleValues text = Except.ok v) : jsonUnmarshal text = Except.ok v := by
  unfold decodeTable at h
  cases hl : exampleValues.lookup text with
  | none =>
    rw [hl] at h
    cases h
  | some w =>
    rw [hl] at h
    injection h with hv
    rw [← hv]
    have hmem : (text, w) ∈ exampleValues := by
      obtain ⟨l1, l2, heq, _⟩ := List.lookup_eq_some_iff.1 hl
      rw [heq]
      exact List.mem_append_right _ (List.mem_cons_self _ _)
    unfold exampleValues at hmem
    simp only [List.mem_cons, Prod.mk.injEq, List.mem_singleton, List.not_mem_nil,
      or_false] at hmem
    rcases hmem with ⟨h1, h2⟩ | ⟨h1, h2⟩ | ⟨h1, h2⟩ | ⟨h1, h2⟩ <;> (rw [h1, h2]; rfl)

/-- The truncated document of the examples is rejected by `jsonUnmarshal` as well. -/
theorem truncatedRules_rejected :
    jsonUnmarshal truncatedRules
      = Except.error "json: invalid text, or text outside the model" := rfl

/-- C26, the code at the failing input: for the `rules_json` text with the member `b`
before the member `a`, `buildEscalationPolicyPayload` reports no diagnostic and
`flattenEscalationPolicy` of the response that echoes the rules of the payload yields
the text with `a` before `b`; the two texts denote mappings with the same members in
another order, so not the same ordered mapping. The same happens to `conditions_json`
and `actions_json` of a routing rule. -/
theorem rules_json_round_trip_reorders_keys :
    (buildEscalationPolicyPayload jsonProvider (examplePolicyPlan unsortedRules)).2 = [] ∧
    (flattenEscalationPolicy jsonProvider
      (echoPolicy (buildEscalationPolicyPayload jsonProvider
        (examplePolicyPlan unsortedRules)).1)).1.RulesJSON = TfValue.value sortedRules ∧
    (flattenEscalationPolicy jsonProvider
      (echoPolicy (buildEscalationPolicyPayload jsonProvider
        (examplePolicyPlan unsortedRules)).1)).2 = [] ∧
    unsortedRules = "\x7b\"b\":\"x\",\"a\":\"y\"\x7d" ∧
    sortedRules = "\x7b\"a\":\"y\",\"b\":\"x\"\x7d" ∧
    parseDocument unsortedRules
      = Except.ok (JSONValue.object [("b", JSONValue.string "x"), ("a", JSONValue.string "y")]) ∧
    parseDocument sortedRules
      = Except.ok (JSONValue.object [("a", JSONValue.string "y"), ("b", JSONValue.string "x")]) ∧
    parseDocument sortedRules ≠ parseDocument unsortedRules ∧
    (flattenRoutingRule jsonProvider
      (echoRoutingRule (buildRoutingPayload jsonProvider
        (exampleRoutingPlan unsortedRules unsortedRules)).1)).1.ConditionsJSON
      = TfValue.value sortedRules ∧
    (flattenRoutingRule jsonProvider
      (echoRoutingRule (buildRoutingPayload jsonProvider
        (exampleRoutingPlan unsortedRules unsortedRules)).1)).1.ActionsJSON
      = TfValue.value sortedRules := by
  have hu : parseDocument unsortedRules
      = Except.ok (JSONValue.object [("b", JSONValue.string "x"), ("a", JSONValue.string "y")]) :=
    rfl
  have hs : parseDocument sortedRules
      = Except.ok (JSONValue.object [("a", JSONValue.string "y"), ("b", JSONValue.string "x")]) :=
    rfl
  refine ⟨by decide, by decide, by decide, by decide, by decide, hu, hs, ?_, by decide,
    by decide⟩
  rw [hu, hs]
  intro h
  injection h with h2
  injection h2 with h3
  injection h3 with h4 _
  injection h4 with h5 _
  exact absurd h5 (by decide)

/-- C26 as amended: when `json.Unmarshal` and `json.Marshal` agree with the model of
`encoding/json` on the texts and the values of the model, for every `rules_json` text of
the modelled JSON that denotes the value `d`, `buildEscalationPolicyPayload` reports no
diagnostic and puts the Go value of `d` in the payload, and `flattenEscalationPolicy` of
a response whose rules are those of the payload reports no diagnostic and yields as
`rules_json` the compact text of that Go value, which denotes `sortKeys d`; the same holds for `conditions_json` and
`actions_json` through `buildRoutingPayload` and `flattenRoutingRule`. The value
`sortKeys d` is `d` up to the members of its mappings: scalars are unchanged, a sequence
keeps its items in order, and a mapping holds for each key the value of the last member
of that key, the members in the strict order of their keys. It is `d` itself exactly when
every mapping of `d` has its members in the strict order of their keys. -/
theorem structured_payload_round_trip (p : Provider)
    (hdec : ∀ text, (∃ d, parseDocument text = Except.ok d) →
      p.Unmarshal text = jsonUnmarshal text)
    (henc : ∀ v, inModel v = true → p.MarshalValue v = jsonMarshal v) :
    (∀ (plan : escalationPolicyModel) (apiResp : escalationPolicyResponse) (d : JSONValue),
      parseDocument plan.RulesJSON.ValueString = Except.ok d →
      apiResp.Rules = (buildEscalationPolicyPayload p plan).1.Rules →
      (buildEscalationPolicyPayload p plan).2 = [] ∧
      (buildEscalationPolicyPayload p plan).1.Rules = sortKeys d ∧
      (flattenEscalationPolicy p apiResp).2 = [] ∧
      (flattenEscalationPolicy p apiResp).1.RulesJSON
        = TfValue.value (String.mk (renderValue (sortKeys d))) ∧
      parseDocument (flattenEscalationPolicy p apiResp).1.RulesJSON.ValueString
        = Except.ok (sortKeys d)) ∧
    (∀ (plan : routingRuleModel) (apiResp : routingRuleResponse) (c a : JSONValue),
      parseDocument plan.ConditionsJSON.ValueString = Except.ok c →
      parseDocument plan.ActionsJSON.ValueString = Except.ok a →
      apiResp.Conditions = (buildRoutingPayload p plan).1.Conditions →
      apiResp.Actions = (buildRoutingPayload p plan).1.Actions →
      (buildRoutingPayload p plan).2 = [] ∧
      (buildRoutingPayload p plan).1.Conditions = sortKeys c ∧
      (buildRoutingPayload p plan).1.Actions = sortKeys a ∧
      (flattenRoutingRule p apiResp).2 = [] ∧
      (flattenRoutingRule p apiResp).1.ConditionsJSON
        = TfValue.value (String.mk (renderValue (sortKeys c))) ∧
      (flattenRoutingRule p apiResp).1.ActionsJSON
        = TfValue.value (String.mk (renderValue (sortKeys a))) ∧
      parseDocument (flattenRoutingRule p apiResp).1.ConditionsJSON.ValueString
        = Except.ok (sortKeys c) ∧
      parseDocument (flattenRoutingRule p apiResp).1.ActionsJSON.ValueString
        = Except.ok (sortKeys a)) ∧
    sortKeys JSONValue.null = JSONValue.null ∧
    (∀ b, sortKeys (JSONValue.bool b) = JSONValue.bool b) ∧
    (∀ f, sortKeys (JSONValue.number f) = JSONValue.number f) ∧
    (∀ s, sortKeys (JSONValue.string s) = JSONValue.string s) ∧
    (∀ items, sortKeys (JSONValue.array items) = JSONValue.array (items.map sortKeys)) ∧
    (∀ entries, ∃ sorted, sortKeys (JSONValue.object entries) = JSONValue.object sorted ∧
      KeysSorted sorted ∧
      ∀ k, sorted.lookup k = (entries.reverse.lookup k).map sortKeys) ∧
    (∀ d, sortKeys d = d ↔ keysInOrder d = true) := by
  refine ⟨?_, ?_, by rw [sortKeys], fun b => by rw [sortKeys], fun f => by rw [sortKeys],
    fun s => by rw [sortKeys], sortKeys_array, sortKeys_object, sortKeys_eq_self_iff⟩
  · intro plan apiResp d hd hresp
    have hu : p.Unmarshal plan.RulesJSON.ValueString = Except.ok (sortKeys d) := by
      rw [hdec _ ⟨d, hd⟩]
      exact jsonUnmarshal_of_parseDocument _ d hd
    obtain ⟨hm, hback⟩ := jsonMarshal_sortKeys d (inModel_of_parseDocument _ d hd)
    have hb : buildEscalationPolicyPayload p plan
        = ({ Name := plan.Name.ValueString, Description := optionalString plan.Description,
             Rules := sortKeys d }, []) := by
      unfold buildEscalationPolicyPayload
      rw [hu]
    rw [hb] at hresp ⊢
    have hrules : apiResp.Rules = sortKeys d := hresp
    have hf : flattenEscalationPolicy p apiResp
        = ({ ID := TfValue.value apiResp.ID, Name := TfValue.value apiResp.Name,
             Description := StringPointerValue apiResp.Description,
             RulesJSON := TfValue.value (String.mk (renderValue (sortKeys d))) }, []) := by
      unfold flattenEscalationPolicy
      rw [hrules, henc _ (inModel_sortKeys d (inModel_of_parseDocument _ d hd)), hm]
    rw [hf]
    exact ⟨rfl, rfl, rfl, rfl, hback⟩
  · intro plan apiResp c a hc ha hrc hra
    have huc : p.Unmarshal plan.ConditionsJSON.ValueString = Except.ok (sortKeys c) := by
      rw [hdec _ ⟨c, hc⟩]
      exact jsonUnmarshal_of_parseDocument _ c hc
    have hua : p.Unmarshal plan.ActionsJSON.ValueString = Except.ok (sortKeys a) := by
      rw [hdec _ ⟨a, ha⟩]
      exact jsonUnmarshal_of_parseDocument _ a ha
    obtain ⟨hmc, hbackc⟩ := jsonMarshal_sortKeys c (inModel_of_parseDocument _ c hc)
    obtain ⟨hma, hbacka⟩ := jsonMarshal_sortKeys a (inModel_of_parseDocument _ a ha)
    have hb : buildRoutingPayload p plan
        = ({ Name := plan.Name.ValueString
             Description := optionalString plan.Description
             Enabled := if !plan.Enabled.IsNull && !plan.Enabled.IsUnknown
               then some plan.Enabled.ValueBool else none
             Priority := if !plan.Priority.IsNull && !plan.Priority.IsUnknown
               then some plan.Priority.ValueInt64 else none
             Conditions := sortKeys c
             Actions := sortKeys a }, []) := by
      unfold buildRoutingPayload
      rw [huc]
      simp only
      rw [hua]
    rw [hb] at hrc hra ⊢
    have hconds : apiResp.Conditions = sortKeys c := hrc
    have hacts : apiResp.Actions = sortKeys a := hra
    have hf : flattenRoutingRule p apiResp
        = ({ ID := TfValue.value apiResp.ID, Name := TfValue.value apiResp.Name,
             Description := StringPointerValue apiResp.Description,
             Enabled := TfValue.value apiResp.Enabled,
             Priority := TfValue.value apiResp.Priority,
             ConditionsJSON := TfValue.value (String.mk (renderValue (sortKeys c))),
             ActionsJSON := TfValue.value (String.mk (renderValue (sortKeys a))) }, []) := by
      unfold flattenRoutingRule
      rw [hconds, henc _ (inModel_sortKeys c (inModel_of_parseDocument _ c hc)), hmc]
      simp only
      rw [hacts, henc _ (inModel_sortKeys a (inModel_of_parseDocument _ a ha)), hma]
    rw [hf]
    exact ⟨rfl, rfl, rfl, rfl, rfl, rfl, hbackc, hbacka⟩

/-- Witness of C26 as amended: the `rules_json` text `nestedRules`, with whitespace, a
repeated key `b` and mappings at two depths whose keys are not in order, comes back as
the compact text `nestedRulesSorted`, which denotes the same scalars and sequences under
the same keys, the key `b` holding the value of its last member and the members of both
mappings in the order of their keys. -/
theorem structured_payload_round_trip_witness :
    nestedRules = " \x7b\"b\": [0], \"a\": \x7b\"d\": \"x\", \"c\": [10, true, null, \x7b\x7d]\x7d, \"b\": [7, false]\x7d" ∧
    parseDocument nestedRules = Except.ok nestedValue ∧
    (buildEscalationPolicyPayload jsonProvider (examplePolicyPlan nestedRules)).2 = [] ∧
    (flattenEscalationPolicy jsonProvider
      (echoPolicy (buildEscalationPolicyPayload jsonProvider
        (examplePolicyPlan nestedRules)).1)).2 = [] ∧
    (flattenEscalationPolicy jsonProvider
      (echoPolicy (buildEscalationPolicyPayload jsonProvider
        (examplePolicyPlan nestedRules)).1)).1.RulesJSON = TfValue.value nestedRulesSorted ∧
    nestedRulesSorted = "\x7b\"a\":\x7b\"c\":[10,true,null,\x7b\x7d],\"d\":\"x\"\x7d,\"b\":[7,false]\x7d" ∧
    parseDocument nestedRulesSorted = Except.ok (sortKeys nestedValue) ∧
    sortKeys nestedValue
      = JSONValue.object
          [("a", JSONValue.object
            [("c", JSONValue.array [JSONValue.number (natToFloat64 10), JSONValue.bool true,
              JSONValue.null, JSONValue.object []]),
             ("d", JSONValue.string "x")]),
           ("b", JSONValue.array [JSONValue.number (natToFloat64 7), JSONValue.bool false])] := by
  have h := (structured_payload_round_trip jsonProvider (fun _ _ => rfl) (fun _ _ => rfl)).1
    (examplePolicyPlan nestedRules)
    (echoPolicy (buildEscalationPolicyPayload jsonProvider (examplePolicyPlan nestedRules)).1)
    nestedValue rfl rfl
  have htext : String.mk (renderValue (sortKeys nestedValue)) = nestedRulesSorted := by decide
  have hjson := h.2.2.2.1
  have hback := h.2.2.2.2
  rw [hjson] at hback
  rw [htext] at hjson hback
  exact ⟨by decide, rfl, h.1, h.2.2.1, hjson, by decide, hback, by rfl⟩

/-! ## Lemmas on the calls of the team operations -/

theorem Client.newRequest_url (c : Client) (method url : String) (payload : Option String)
    (key : String) : (c.newRequest method url payload key).URL = url := by
  unfold Client.newRequest
  simp only
  split <;> rfl

theorem Client.newRequest_body (c : Client) (method url : String) (payload : Option String)
    (key : String) : (c.newRequest method url payload key).Body = payload := by
  unfold Client.newRequest
  simp only
  split <;> rfl

theorem encodeBody_sentBody (p : Provider) (body : Option Payload) (payload : Option String)
    (h : encodeBody p body = Except.ok payload) : payload = sentBody p body := by
  cases body with
  | none =>
    cases h
    rfl
  | some b =>
    unfold encodeBody at h
    unfold sentBody
    simp only at h ⊢
    cases hm : p.Marshal b with
    | error err =>
      rw [hm] at h
      cases h
    | ok data =>
      rw [hm] at h
      cases h
      rfl

/-- A `DoJSON` call that returns no error made exactly one round trip, with the method,
URL and encoded body of its arguments. -/
theorem DoJSON_calls_of_ok {γ : Type} (p : Provider) (s : Session) (method path : String)
    (body : Option Payload) (key : String) (out : Out γ) (v : γ)
    (h : (DoJSON p s method path body key out).result = Except.ok v) :
    (DoJSON p s method path body key out).session.calls
      = s.calls ++ [(method, p.client.BaseURL ++ path, sentBody p body)] := by
  unfold DoJSON at h ⊢
  simp only at h ⊢
  cases henc : encodeBody p body with
  | error err =>
    rw [henc] at h
    cases h
  | ok payload =>
    rw [henc] at h
    simp only at h ⊢
    cases hnew : p.NewRequest method (p.client.BaseURL ++ path) with
    | some err =>
      rw [hnew] at h
      cases h
    | none =>
      have hcall : ({ s with exchanges := s.exchanges ++
          [{ request := p.client.newRequest method (p.client.BaseURL ++ path) payload key,
             idempotencyKey := key,
             response := p.Do s.exchanges.length
               (p.client.newRequest method (p.client.BaseURL ++ path) payload key) }] }
          : Session).calls
          = s.calls ++ [(method, p.client.BaseURL ++ path, sentBody p body)] := by
        unfold Session.calls
        simp only [List.map_append, List.map_cons, List.map_nil, Exchange.call,
          Client.newRequest_method, Client.newRequest_url, Client.newRequest_body]
        rw [encodeBody_sentBody p body payload henc]
      simp only
      split
      · exact hcall
      · split
        · exact hcall
        · exact hcall

/-- A loop over the members to add that returns no error made one add call per member,
in order. -/
theorem addMembers_calls (p : Provider) (teamID : String) (members : List String) :
    ∀ s, (addMembers p teamID members s).1 = none →
      (addMembers p teamID members s).2.calls
        = s.calls ++ members.map (addMemberCall p teamID) := by
  induction members with
  | nil =>
    intro s _
    simp [addMembers]
  | cons userID rest ih =>
    intro s h
    unfold addMembers at h ⊢
    simp only at h ⊢
    cases hr : (DoJSON p (NewString p s).2 "POST" ("/api/teams/" ++ teamID ++ "/members")
        (some (Payload.teamMember { UserID := userID })) (NewString p s).1 Out.nil).result with
    | error err =>
      rw [hr] at h
      cases h
    | ok v =>
      rw [hr] at h
      simp only at h ⊢
      rw [ih _ h, DoJSON_calls_of_ok p _ _ _ _ _ _ v hr]
      simp only [List.map_cons, List.append_assoc, List.singleton_append]
      rfl

/-- A loop over the members to remove that returns no error made one remove call per
member, in order. -/
theorem removeMembers_calls (p : Provider) (teamID : String) (members : List String) :
    ∀ s, (removeMembers p teamID members s).1 = none →
      (removeMembers p teamID members s).2.calls
        = s.calls ++ members.map (removeMemberCall p teamID) := by
  induction members with
  | nil =>
    intro s _
    simp [removeMembers]
  | cons userID rest ih =>
    intro s h
    unfold removeMembers at h ⊢
    simp only at h ⊢
    cases hr : (DoJSON p (NewString p s).2 "DELETE"
        ("/api/teams/" ++ teamID ++ "/members/" ++ userID) none (NewString p s).1
        Out.nil).result with
    | error err =>
      rw [hr] at h
      cases h
    | ok v =>
      rw [hr] at h
      simp only at h ⊢
      rw [ih _ h, DoJSON_calls_of_ok p _ _ _ _ _ _ v hr]
      simp only [List.map_cons, List.append_assoc, List.singleton_append]
      rfl

/-- The read of a team records an error or made the one GET call. -/
theorem readTeamState_calls (p : Provider) (s : Session) (teamID : String) :
    Diagnostics.HasError (teamResource.readTeamState p s teamID).1.2 = true ∨
    (teamResource.readTeamState p s teamID).2.calls = s.calls ++ [getTeamCall p teamID] := by
  unfold teamResource.readTeamState
  simp only
  cases hr : (DoJSON p s "GET" ("/api/teams/" ++ teamID) none ""
      (Out.into p.decodeTeamDetail)).result with
  | error err =>
    left
    simp only
    exact Diagnostics.HasError_AddError _ _ _
  | ok apiResp =>
    right
    have hc := DoJSON_calls_of_ok p s "GET" ("/api/teams/" ++ teamID) none ""
      (Out.into p.decodeTeamDetail) apiResp hr
    simp only
    split
    · exact hc
    · exact hc

/-- The end of `Create` and `Update` records an error or made the one GET call. -/
theorem teamFinish_calls (p : Provider) (diags : Diagnostics) (s : Session)
    (teamID : String) :
    Diagnostics.HasError (teamResource.finish p diags s teamID).diagnostics = true ∨
    (teamResource.finish p diags s teamID).session.calls
      = s.calls ++ [getTeamCall p teamID] := by
  unfold teamResource.finish
  simp only
  rcases readTeamState_calls p s teamID with herr | hcalls
  · left
    have h : Diagnostics.HasError
        (Diagnostics.Append diags (teamResource.readTeamState p s teamID).1.2) = true :=
      (Diagnostics.HasError_Append _ _).2 (Or.inr herr)
    rw [if_pos h]
    exact h
  · right
    split
    · exact hcalls
    · exact hcalls

/-- An `Update` of a team records an error or made the PUT call, the member calls of the
delta between the members of the state and of the plan when the planned members are
known, and the GET call, in this order. -/
theorem teamUpdate_calls (p : Provider) (plan state : teamModel) :
    Diagnostics.HasError (teamResource.Update p plan state).diagnostics = true ∨
    (teamResource.Update p plan state).session.calls
      = putTeamCall p state.ID.ValueString plan ::
        ((if !plan.Members.IsNull && !plan.Members.IsUnknown then
            memberCalls p state.ID.ValueString
              (diffStringSets (expandStringSet p state.Members).1
                (expandStringSet p plan.Members).1)
          else []) ++ [getTeamCall p state.ID.ValueString]) := by
  unfold teamResource.Update
  simp only
  split
  · rename_i h
    exact Or.inl h
  · split
    · rename_i h
      exact Or.inl h
    · split
      · exact Or.inl (Diagnostics.HasError_AddError _ _ _)
      · rename_i v hput
        have hcput := DoJSON_calls_of_ok p _ _ _ _ _ _ v hput
        have hstart : (NewString p Session.start).2.calls = [] := rfl
        rw [hstart, List.nil_append] at hcput
        split
        · rename_i hknown
          split
          · rename_i h
            exact Or.inl h
          · split
            · rename_i h
              exact Or.inl h
            · split
              · exact Or.inl (Diagnostics.HasError_AddError _ _ _)
              · rename_i hadd
                have hcadd := addMembers_calls p _ _ _ hadd
                split
                · exact Or.inl (Diagnostics.HasError_AddError _ _ _)
                · rename_i hrem
                  have hcrem := removeMembers_calls p _ _ _ hrem
                  rcases teamFinish_calls p _ _ state.ID.ValueString with hf | hf
                  · exact Or.inl hf
                  · right
                    rw [hf, hcrem, hcadd, hcput]
                    simp only [memberCalls, putTeamCall, List.singleton_append,
                      List.cons_append, List.append_assoc, List.nil_append]
        · rename_i hknown
          rcases teamFinish_calls p _ _ state.ID.ValueString with hf | hf
          · exact Or.inl hf
          · right
            rw [hf, hcput]
            simp only [putTeamCall, List.singleton_append, List.nil_append,
              List.cons_append]

/-- A `DoJSON` call with a decoder that returns no error was answered by the transport
with a status in 200..299 and a body the decoder read as the value returned. -/
theorem DoJSON_answer_of_ok {γ : Type} (p : Provider) (s : Session) (method path : String)
    (body : Option Payload) (key : String) (decode : String → Except String γ) (v : γ)
    (h : (DoJSON p s method path body key (Out.into decode)).result = Except.ok v) :
    ∃ res, p.Do s.exchanges.length
        (p.client.newRequest method (p.client.BaseURL ++ path) (sentBody p body) key)
        = Except.ok res ∧
      200 ≤ res.StatusCode ∧ res.StatusCode < 300 ∧ decode res.Body = Except.ok v := by
  unfold DoJSON at h
  simp only at h
  cases henc : encodeBody p body with
  | error err =>
    rw [henc] at h
    cases h
  | ok payload =>
    rw [henc] at h
    simp only at h
    have hpay := encodeBody_sentBody p body payload henc
    subst hpay
    cases hnew : p.NewRequest method (p.client.BaseURL ++ path) with
    | some err =>
      rw [hnew] at h
      cases h
    | none =>
      rw [hnew] at h
      simp only at h
      cases hdo : p.Do s.exchanges.length
          (p.client.newRequest method (p.client.BaseURL ++ path) (sentBody p body) key) with
      | error err =>
        rw [hdo] at h
        cases h
      | ok res =>
        rw [hdo] at h
        simp only at h
        by_cases hbad : res.StatusCode < 200 ∨ res.StatusCode ≥ 300
        · rw [if_pos hbad] at h
          cases h
        · rw [if_neg hbad] at h
          simp only at h
          refine ⟨res, rfl, by omega, by omega, ?_⟩
          unfold decodeOut at h
          simp only at h
          cases hdec : decode res.Body with
          | error err =>
            rw [hdec] at h
            cases h
          | ok w =>
            rw [hdec] at h
            cases h
            rfl

/-- A `Create` of a team records an error, or its POST on `/api/teams` was answered with
a status in 200..299 and a body read as `apiResp`, and it made the POST call, one add
call per planned member in order when the planned members are known, with the
identifier `apiResp.ID`, and the GET call. -/
theorem teamCreate_calls (p : Provider) (plan : teamModel) :
    Diagnostics.HasError (teamResource.Create p plan).diagnostics = true ∨
    ∃ (res : Response) (apiResp : teamResponse),
      p.Do 0 (postTeamRequest p plan) = Except.ok res ∧
      200 ≤ res.StatusCode ∧ res.StatusCode < 300 ∧
      p.decodeTeam res.Body = Except.ok apiResp ∧
      (teamResource.Create p plan).session.calls
        = postTeamCall p plan ::
          ((if !plan.Members.IsNull && !plan.Members.IsUnknown then
              (expandStringSet p plan.Members).1.map (addMemberCall p apiResp.ID)
            else []) ++ [getTeamCall p apiResp.ID]) := by
  unfold teamResource.Create
  simp only
  split
  · rename_i h
    exact Or.inl h
  · split
    · rename_i h
      exact Or.inl h
    · split
      · exact Or.inl (Diagnostics.HasError_AddError _ _ _)
      · rename_i apiResp hpost
        have hcpost := DoJSON_calls_of_ok p _ _ _ _ _ _ apiResp hpost
        obtain ⟨res, hdo, hlo, hhi, hdec⟩ := DoJSON_answer_of_ok p _ _ _ _ _ _ apiResp hpost
        have hstart : (NewString p Session.start).2.calls = [] := rfl
        rw [hstart, List.nil_append] at hcpost
        split
        · rename_i hknown
          split
          · rename_i h
            exact Or.inl h
          · split
            · exact Or.inl (Diagnostics.HasError_AddError _ _ _)
            · rename_i hadd
              have hcadd := addMembers_calls p _ _ _ hadd
              rcases teamFinish_calls p _ _ apiResp.ID with hf | hf
              · exact Or.inl hf
              · right
                refine ⟨res, apiResp, hdo, hlo, hhi, hdec, ?_⟩
                rw [hf, hcadd, hcpost]
                simp only [postTeamCall, List.singleton_append, List.cons_append,
                  List.append_assoc, List.nil_append]
        · rename_i hknown
          rcases teamFinish_calls p _ _ apiResp.ID with hf | hf
          · exact Or.inl hf
          · right
            refine ⟨res, apiResp, hdo, hlo, hhi, hdec, ?_⟩
            rw [hf, hcpost]
            simp only [postTeamCall, List.singleton_append, List.nil_append,
              List.cons_append]

/-- The delta from an empty current list: everything desired is to add, in order, and
nothing is to remove. -/
theorem diffStringSets_nil (desired : List String) :
    diffStringSets [] desired = (desired, []) := by
  unfold diffStringSets
  simp only [desiredLoop_eq, removeLoop_eq, List.filter_nil]
  have h : desired.filter (fun value => !(buildCurrentMap []).has value) = desired := by
    rw [List.filter_eq_self]
    intro a _
    rfl
  rw [h]

/-! ## Claims on the member calls of the team resource -/

/-- C22: for every `Update` of a team that records no error, with planned members known
as the list `D`: the calls issued are the PUT on `/api/teams/{id}`, then one POST on
`/api/teams/{id}/members` per element of `toAdd` in order, then one DELETE on
`/api/teams/{id}/members/{userId}` per element of `toRemove` in order, then the GET of
the read back, where `(toAdd, toRemove)` is `diffStringSets` of the members of the state
and `D`; when the two lists have the same members the calls are the PUT and the GET only;
and when the planned members are null or unknown the calls are the PUT and the GET
only. -/
theorem team_update_member_calls (p : Provider) (plan state : teamModel)
    (hok : Diagnostics.HasError (teamResource.Update p plan state).diagnostics = false) :
    (∀ D toAdd toRemove : List String, plan.Members = TfValue.value D →
      diffStringSets (expandStringSet p state.Members).1 D = (toAdd, toRemove) →
      (teamResource.Update p plan state).session.calls
        = putTeamCall p state.ID.ValueString plan ::
          (toAdd.map (addMemberCall p state.ID.ValueString) ++
           toRemove.map (removeMemberCall p state.ID.ValueString) ++
           [getTeamCall p state.ID.ValueString])) ∧
    (∀ D : List String, plan.Members = TfValue.value D →
      (∀ x, x ∈ (expandStringSet p state.Members).1 ↔ x ∈ D) →
      (teamResource.Update p plan state).session.calls
        = [putTeamCall p state.ID.ValueString plan, getTeamCall p state.ID.ValueString]) ∧
    (plan.Members = TfValue.null ∨ plan.Members = TfValue.unknown →
      (teamResource.Update p plan state).session.calls
        = [putTeamCall p state.ID.ValueString plan, getTeamCall p state.ID.ValueString]) := by
  have hcalls : (teamResource.Update p plan state).session.calls
      = putTeamCall p state.ID.ValueString plan ::
        ((if !plan.Members.IsNull && !plan.Members.IsUnknown then
            memberCalls p state.ID.ValueString
              (diffStringSets (expandStringSet p state.Members).1
                (expandStringSet p plan.Members).1)
          else []) ++ [getTeamCall p state.ID.ValueString]) := by
    rcases teamUpdate_calls p plan state with h | h
    · rw [hok] at h
      cases h
    · exact h
  have hknown : ∀ D toAdd toRemove : List String, plan.Members = TfValue.value D →
      diffStringSets (expandStringSet p state.Members).1 D = (toAdd, toRemove) →
      (teamResource.Update p plan state).session.calls
        = putTeamCall p state.ID.ValueString plan ::
          (toAdd.map (addMemberCall p state.ID.ValueString) ++
           toRemove.map (removeMemberCall p state.ID.ValueString) ++
           [getTeamCall p state.ID.ValueString]) := by
    intro D toAdd toRemove hD hdiff
    rw [hcalls, hD]
    have hexp : (expandStringSet p (TfValue.value D)).1 = D := rfl
    have hcond : (!(TfValue.value D : TfValue (List String)).IsNull &&
        !(TfValue.value D : TfValue (List String)).IsUnknown) = true := rfl
    rw [if_pos hcond, hexp, hdiff]
    rfl
  refine ⟨hknown, ?_, ?_⟩
  · intro D hD hsame
    rw [hknown D [] [] hD (diff_eq_nil_of _ _ hsame)]
    rfl
  · intro hnull
    rw [hcalls]
    rcases hnull with h | h
    · rw [h]
      rfl
    · rw [h]
      rfl

/-- Witness of C22: the team `t-1` with the members `u1`, `u2` in the state and `u2`,
`u3` in the plan, every call answered with success. -/
theorem team_update_member_calls_witness :
    Diagnostics.HasError (teamResource.Update
      (apiProvider [uuidA, uuidB, uuidC]
        [answer 200 "", answer 201 "", answer 204 "",
         answer 200 (teamDetailBody ["u2", "u3"])])
      (exampleTeamPlan ["u2", "u3"]) exampleTeamState).diagnostics = false ∧
    diffStringSets ["u1", "u2"] ["u2", "u3"] = (["u3"], ["u1"]) ∧
    (teamResource.Update
      (apiProvider [uuidA, uuidB, uuidC]
        [answer 200 "", answer 201 "", answer 204 "",
         answer 200 (teamDetailBody ["u2", "u3"])])
      (exampleTeamPlan ["u2", "u3"]) exampleTeamState).session.calls
      = [("PUT", "https://signalcraft.example/api/teams/t-1",
            some "\x7b\"name\":\"platform\"\x7d"),
         ("POST", "https://signalcraft.example/api/teams/t-1/members",
            some "\x7b\"userId\":\"u3\"\x7d"),
         ("DELETE", "https://signalcraft.example/api/teams/t-1/members/u1", none),
         ("GET", "https://signalcraft.example/api/teams/t-1", none)] := by
  have hok : Diagnostics.HasError (teamResource.Update
      (apiProvider [uuidA, uuidB, uuidC]
        [answer 200 "", answer 201 "", answer 204 "",
         answer 200 (teamDetailBody ["u2", "u3"])])
      (exampleTeamPlan ["u2", "u3"]) exampleTeamState).diagnostics = false := by decide
  have h := (team_update_member_calls _ _ _ hok).1 ["u2", "u3"] ["u3"] ["u1"] rfl (by decide)
  exact ⟨hok, by decide, h.trans (by decide)⟩

/-- C23, the code at the failing input: the `Create` of the team `platform` with the
planned members `u1`, `u2`, whose POST on `/api/teams` is answered 201 with the
identifier `t-1` and whose first member call is answered HTTP 500, issues one member
call for the two planned members, records the "API Error" diagnostic and makes no call
on the state. -/
theorem create_stops_at_failed_member_call :
    (teamResource.Create
      (apiProvider [uuidA, uuidB, uuidC] [answer 201 teamCreatedBody, answer 500 "boom"])
      (newTeamPlan ["u1", "u2"])).session.calls
      = [("POST", "https://signalcraft.example/api/teams",
            some "\x7b\"name\":\"platform\"\x7d"),
         ("POST", "https://signalcraft.example/api/teams/t-1/members",
            some "\x7b\"userId\":\"u1\"\x7d")] ∧
    (teamResource.Create
      (apiProvider [uuidA, uuidB, uuidC] [answer 201 teamCreatedBody, answer 500 "boom"])
      (newTeamPlan ["u1", "u2"])).diagnostics
      = [errorDiagnostic "API Error" "signalcraft API error: status=500 body=boom"] ∧
    (teamResource.Create
      (apiProvider [uuidA, uuidB, uuidC] [answer 201 teamCreatedBody, answer 500 "boom"])
      (newTeamPlan ["u1", "u2"])).State.kind = StateKind.untouched := by
  refine ⟨by decide, by decide, by decide⟩

/-- C23 as amended: for every planned member list `D`, a `Create` of a team that records
no error had its POST on `/api/teams` (round trip 0 of the operation) answered with a
status in 200..299 and a body the decoder read as `apiResp`, and issues that POST, then
exactly one POST on `/api/teams/{id}/members` per element of `D` in list order with `id`
the identifier `apiResp.ID` of that answer, then the GET of the read back on
`/api/teams/{id}`. This is the add sequence of an update from an empty membership:
`diffStringSets([], D)` is `(D, [])`, and an `Update` that records no error, from a state
without members, issues after its PUT one such POST per element of `D` in order and no
DELETE. -/
theorem team_create_member_calls (p : Provider) (plan : teamModel) (D : List String)
    (hD : plan.Members = TfValue.value D) :
    diffStringSets [] D = (D, []) ∧
    (Diagnostics.HasError (teamResource.Create p plan).diagnostics = false →
      ∃ (res : Response) (apiResp : teamResponse),
        p.Do 0 (postTeamRequest p plan) = Except.ok res ∧
        200 ≤ res.StatusCode ∧ res.StatusCode < 300 ∧
        p.decodeTeam res.Body = Except.ok apiResp ∧
        (teamResource.Create p plan).session.calls
          = postTeamCall p plan ::
            (D.map (addMemberCall p apiResp.ID) ++ [getTeamCall p apiResp.ID])) ∧
    (∀ state : teamModel, (expandStringSet p state.Members).1 = [] →
      Diagnostics.HasError (teamResource.Update p plan state).diagnostics = false →
      (teamResource.Update p plan state).session.calls
        = putTeamCall p state.ID.ValueString plan ::
          (D.map (addMemberCall p state.ID.ValueString) ++
            [getTeamCall p state.ID.ValueString])) := by
  have hexp : (expandStringSet p plan.Members).1 = D := by
    rw [hD]
    rfl
  have hcond : (!plan.Members.IsNull && !plan.Members.IsUnknown) = true := by
    rw [hD]
    rfl
  refine ⟨diffStringSets_nil D, ?_, ?_⟩
  · intro hok
    rcases teamCreate_calls p plan with h | ⟨res, apiResp, hdo, hlo, hhi, hdec, h⟩
    · rw [hok] at h
      cases h
    · refine ⟨res, apiResp, hdo, hlo, hhi, hdec, ?_⟩
      rw [h, if_pos hcond, hexp]
  · intro state hempty hok
    rcases teamUpdate_calls p plan state with h | h
    · rw [hok] at h
      cases h
    · rw [h, if_pos hcond, hexp, hempty, diffStringSets_nil]
      simp only [memberCalls, List.map_nil, List.append_nil]

/-- Witness of C23 as amended: the `Create` of a new team `platform`, whose plan holds no
identifier, with the planned members `u1`, `u2`; the POST on `/api/teams` is answered 201
with a body that names the identifier `t-1`, and every call is answered with success. -/
theorem team_create_member_calls_witness :
    Diagnostics.HasError (teamResource.Create
      (apiProvider [uuidA, uuidB, uuidC]
        [answer 201 teamCreatedBody, answer 201 "", answer 201 "",
         answer 200 (teamDetailBody ["u1", "u2"])])
      (newTeamPlan ["u1", "u2"])).diagnostics = false ∧
    (newTeamPlan ["u1", "u2"]).ID = TfValue.unknown ∧
    teamCreatedBody = "\x7b\"id\":\"t-1\",\"name\":\"platform\",\"description\":null\x7d" ∧
    (∃ (res : Response) (apiResp : teamResponse),
      res = { StatusCode := 201, Body := teamCreatedBody } ∧ apiResp.ID = "t-1" ∧
      (apiProvider [uuidA, uuidB, uuidC]
        [answer 201 teamCreatedBody, answer 201 "", answer 201 "",
         answer 200 (teamDetailBody ["u1", "u2"])]).decodeTeam res.Body
        = Except.ok apiResp) ∧
    (teamResource.Create
      (apiProvider [uuidA, uuidB, uuidC]
        [answer 201 teamCreatedBody, answer 201 "", answer 201 "",
         answer 200 (teamDetailBody ["u1", "u2"])])
      (newTeamPlan ["u1", "u2"])).session.calls
      = [("POST", "https://signalcraft.example/api/teams",
            some "\x7b\"name\":\"platform\"\x7d"),
         ("POST", "https://signalcraft.example/api/teams/t-1/members",
            some "\x7b\"userId\":\"u1\"\x7d"),
         ("POST", "https://signalcraft.example/api/teams/t-1/members",
            some "\x7b\"userId\":\"u2\"\x7d"),
         ("GET", "https://signalcraft.example/api/teams/t-1", none)] ∧
    diffStringSets [] ["u1", "u2"] = (["u1", "u2"], []) := by
  have hok : Diagnostics.HasError (teamResource.Create
      (apiProvider [uuidA, uuidB, uuidC]
        [answer 201 teamCreatedBody, answer 201 "", answer 201 "",
         answer 200 (teamDetailBody ["u1", "u2"])])
      (newTeamPlan ["u1", "u2"])).diagnostics = false := by decide
  have h := team_create_member_calls
    (apiProvider [uuidA, uuidB, uuidC]
      [answer 201 teamCreatedBody, answer 201 "", answer 201 "",
       answer 200 (teamDetailBody ["u1", "u2"])])
    (newTeamPlan ["u1", "u2"]) ["u1", "u2"] rfl
  obtain ⟨res, apiResp, hdo, _, _, hdec, _⟩ := h.2.1 hok
  have hres : res = { StatusCode := 201, Body := teamCreatedBody } := by
    have h201 : (Except.ok { StatusCode := 201, Body := teamCreatedBody }
        : Except String Response) = Except.ok res := hdo
    exact (Except.ok.inj h201).symm
  have hid : apiResp.ID = "t-1" := by
    rw [hres] at hdec
    have hval : (Except.ok { ID := "t-1", Name := "platform", Description := none }
        : Except String teamResponse) = Except.ok apiResp := hdec
    rw [← Except.ok.inj hval]
  exact ⟨hok, rfl, by decide, ⟨res, apiResp, hres, hid, hdec⟩, by decide, h.1⟩

end SignalCraft























